import Mathlib

/-!
# Collision tracing core (`src/common/cm/cm_trace.cpp`)

A shallow embedding of the trace kernel of the collision library and the
properties stated about it.

Conventions of the embedding.

* `float` is modelled by exact rational arithmetic (`ℚ`): rounding, infinities
  and NaN are outside the model.  `sqrtf` is a field of `Env`.  A float literal
  stands for the single-precision value it denotes, which differs from the
  decimal numeral for `0.999999f`, `1.000001f` and `0.001f`.
* Pointers into the world tables are list indexes; an index out of range, a
  null dereference and an exhausted recursion budget make the function return
  `none`.
* Mutable globals (`cm.checkcount`, the per-brush and per-surface stamps) are
  passed explicitly: a function that mutates them returns the new `clipMap_t`.
* Functions and constants that the file uses but does not define (math
  helpers, model table, configuration variables) are either fields of `Env`
  or carry a doc comment saying that they are modelled from the specification.
-/

namespace Cm

/-! ## Vectors -/

/-- The type `vec3_t`: three floats. -/
structure Vec3 where
  x : ℚ
  y : ℚ
  z : ℚ
deriving DecidableEq, Repr

/-- Component `v[i]`; only `i < 3` is ever read. -/
def Vec3.get (v : Vec3) (i : Nat) : ℚ :=
  match i with
  | 0 => v.x
  | 1 => v.y
  | _ => v.z

/-- The constant `vec3_origin`. -/
def vec3_origin : Vec3 := ⟨0, 0, 0⟩

/-- Modelled from the spec: the math primitive `DotProduct` (not in this file). -/
def DotProduct (a b : Vec3) : ℚ := a.x * b.x + a.y * b.y + a.z * b.z

/-- Modelled from the spec: the math primitive `VectorAdd`. -/
def VectorAdd (a b : Vec3) : Vec3 := ⟨a.x + b.x, a.y + b.y, a.z + b.z⟩

/-- Modelled from the spec: the math primitive `VectorSubtract`. -/
def VectorSubtract (a b : Vec3) : Vec3 := ⟨a.x - b.x, a.y - b.y, a.z - b.z⟩

/-- Modelled from the spec: the math primitive `VectorScale`. -/
def VectorScale (v : Vec3) (s : ℚ) : Vec3 := ⟨v.x * s, v.y * s, v.z * s⟩

/-- Modelled from the spec: the math primitive `VectorMA(v, s, b) = v + s*b`. -/
def VectorMA (v : Vec3) (s : ℚ) (b : Vec3) : Vec3 :=
  ⟨v.x + b.x * s, v.y + b.y * s, v.z + b.z * s⟩

/-- Modelled from the spec: the math primitive `VectorNegate`. -/
def VectorNegate (v : Vec3) : Vec3 := ⟨-v.x, -v.y, -v.z⟩

/-- Modelled from the spec: the math primitive `VectorLengthSquared`. -/
def VectorLengthSquared (v : Vec3) : ℚ := v.x * v.x + v.y * v.y + v.z * v.z

/-- Modelled from the spec: the math primitive `DistanceSquared`. -/
def DistanceSquared (a b : Vec3) : ℚ := VectorLengthSquared (VectorSubtract b a)

/-- Modelled from the spec: `VectorLerp(from, to, frac)`, the interpolation
`lerp(start, end, fraction) = start + fraction * (end - start)`. -/
def VectorLerp (a b : Vec3) (frac : ℚ) : Vec3 :=
  ⟨a.x + (b.x - a.x) * frac, a.y + (b.y - a.y) * frac, a.z + (b.z - a.z) * frac⟩

/-- Modelled from the spec: the helper `Square`. -/
def Square (x : ℚ) : ℚ := x * x

/-- Modelled from the spec: `SURFACE_CLIP_EPSILON = 0.125`. -/
def SURFACE_CLIP_EPSILON : ℚ := 1 / 8

/-- The constant `RADIUS_EPSILON = 1.0f`. -/
def RADIUS_EPSILON : ℚ := 1

/-! ## Data model -/

/-- The type `plane_t`: a bare plane. -/
structure plane_t where
  normal : Vec3
  dist : ℚ
deriving DecidableEq, Repr

/-- The type `cplane_t`: a plane with its axial type and sign bits.  The sign
bits index the eight-entry table `tw.offsets`. -/
structure cplane_t where
  normal : Vec3
  dist : ℚ
  type : Nat
  signbits : Fin 8
deriving DecidableEq, Repr

/-- The type `cPlane_t`: a patch plane. -/
structure cPlane_t where
  plane : plane_t
  signbits : Fin 8
deriving DecidableEq, Repr

/-- The type `cbrushside_t`. -/
structure cbrushside_t where
  plane : cplane_t
  surfaceFlags : Nat
deriving DecidableEq, Repr

/-- The type `cbrush_t`; `numsides` is the length of `sides`. -/
structure cbrush_t where
  contents : Nat
  bounds0 : Vec3
  bounds1 : Vec3
  sides : List cbrushside_t
  checkcount : Nat
deriving DecidableEq, Repr

/-- The type `cFacet_t`; `numBorders` is the length of `borders`, whose entry
`j` is the pair `(borderPlanes[j], borderInward[j])`. -/
structure cFacet_t where
  surfacePlane : Nat
  borders : List (Nat × Bool)
deriving DecidableEq, Repr

/-- The type `cSurfaceCollide_t`; `numPlanes` and `numFacets` are the lengths. -/
structure cSurfaceCollide_t where
  bounds0 : Vec3
  bounds1 : Vec3
  planes : List cPlane_t
  facets : List cFacet_t
deriving DecidableEq, Repr

/-- The enumeration `mapSurfaceType_t`, as far as the file distinguishes it. -/
inductive mapSurfaceType_t where
  | MST_PATCH
  | MST_TRIANGLE_SOUP
  | MST_OTHER
deriving DecidableEq, Repr

/-- The type `cSurface_t`; `sc` may be null. -/
structure cSurface_t where
  type : mapSurfaceType_t
  checkcount : Nat
  surfaceFlags : Nat
  contents : Nat
  sc : Option cSurfaceCollide_t
deriving DecidableEq, Repr

/-- The type `cLeaf_t`: the brush and surface numbers of the leaf. -/
structure cLeaf_t where
  leafBrushes : List Nat
  leafSurfaces : List Nat
deriving DecidableEq, Repr

/-- The type `cNode_t`. -/
structure cNode_t where
  plane : cplane_t
  child0 : Int
  child1 : Int
deriving DecidableEq, Repr

/-- The global `cm` (`clipMap_t`), as far as the file reads or writes it. -/
structure clipMap_t where
  numNodes : Nat
  nodes : List cNode_t
  leafs : List cLeaf_t
  brushes : List cbrush_t
  surfaces : List (Option cSurface_t)
  checkcount : Nat
  perPolyCollision : Bool
deriving DecidableEq, Repr

/-- The enumeration `traceType_t`. -/
inductive traceType_t where
  | TT_AABB
  | TT_CAPSULE
deriving DecidableEq, Repr

/-- The type `sphere_t`. -/
structure sphere_t where
  radius : ℚ
  halfheight : ℚ
  offset : Vec3
deriving DecidableEq, Repr

/-- The type `trace_t`: the result of a trace. -/
structure trace_t where
  allsolid : Bool
  startsolid : Bool
  fraction : ℚ
  endpos : Vec3
  plane : plane_t
  surfaceFlags : Nat
  contents : Nat
deriving DecidableEq, Repr

/-- The type `traceWork_t`. -/
structure traceWork_t where
  type : traceType_t
  start : Vec3
  end_ : Vec3
  size0 : Vec3
  size1 : Vec3
  offsets : Fin 8 → Vec3
  maxOffset : ℚ
  extents : Vec3
  bounds0 : Vec3
  bounds1 : Vec3
  modelOrigin : Vec3
  contents : Nat
  skipContents : Nat
  isPoint : Bool
  trace : trace_t
  sphere : sphere_t

/-- The type `cmodel_t`, as far as the file reads it. -/
structure cmodel_t where
  mins : Vec3
  maxs : Vec3
  leaf : cLeaf_t
deriving DecidableEq, Repr

/-- What the file uses and does not define: the square root, the Euler-angle
basis, the model table, the temporary box model, the leaf enumeration of a
box, the bounds-overlap test, the configuration variables and three constants. -/
structure Env where
  sqrtf : ℚ → ℚ
  AngleVectors : Vec3 → Vec3 × Vec3 × Vec3
  CM_ClipHandleToModel : clipMap_t → Nat → Option cmodel_t
  CM_ModelBounds : clipMap_t → Nat → Option (Vec3 × Vec3)
  CM_TempBoxModel : clipMap_t → Vec3 → Vec3 → Bool → clipMap_t × Nat
  CM_BoxLeafnums : clipMap_t → Vec3 → Vec3 → List Nat
  CM_BoundsIntersect : Vec3 → Vec3 → Vec3 → Vec3 → Bool
  cm_noCurves : Bool
  cm_forceTriangles : Bool
  CONTENTS_BODY : Nat
  BOX_MODEL_HANDLE : Nat
  CAPSULE_MODEL_HANDLE : Nat

/-- Modelled from the spec: `VectorLength`, the square root of the squared
length. -/
def VectorLength (env : Env) (v : Vec3) : ℚ := env.sqrtf (VectorLengthSquared v)

/-- Modelled from the spec: `VectorNormalize`, which returns the length and
divides the vector by it; the zero vector is left alone with length 0. -/
def VectorNormalize (env : Env) (v : Vec3) : Vec3 × ℚ :=
  if VectorLengthSquared v = 0 then (v, 0)
  else (VectorScale v (1 / env.sqrtf (VectorLengthSquared v)), env.sqrtf (VectorLengthSquared v))

/-! ## Basic math -/

/-- The function `RotatePoint`. -/
def RotatePoint (point : Vec3) (m0 m1 m2 : Vec3) : Vec3 :=
  ⟨DotProduct m0 point, DotProduct m1 point, DotProduct m2 point⟩

/-- The function `TransposeMatrix`. -/
def TransposeMatrix (m0 m1 m2 : Vec3) : Vec3 × Vec3 × Vec3 :=
  (⟨m0.x, m1.x, m2.x⟩, ⟨m0.y, m1.y, m2.y⟩, ⟨m0.z, m1.z, m2.z⟩)

/-- The function `CreateRotationMatrix`: the basis of `AngleVectors` with its
second row negated. -/
def CreateRotationMatrix (env : Env) (angles : Vec3) : Vec3 × Vec3 × Vec3 :=
  let m := env.AngleVectors angles
  (m.1, VectorNegate m.2.1, m.2.2)

/-- The function `CM_ProjectPointOntoVector`. -/
def CM_ProjectPointOntoVector (point vStart vDir : Vec3) : Vec3 :=
  let pVec := VectorSubtract point vStart
  VectorMA vStart (DotProduct pVec vDir) vDir

/-- The search loop of `CM_DistanceFromLineSquared`: the first axis `j`, from
`j` on, on which the projection lies outside the segment (3 when none). -/
def CM_DistanceFromLineSquared_axis (proj lp1 lp2 : Vec3) (j : Nat) (n : Nat) : Nat :=
  match n with
  | 0 => j
  | n + 1 =>
    if (proj.get j > lp1.get j ∧ proj.get j > lp2.get j)
        ∨ (proj.get j < lp1.get j ∧ proj.get j < lp2.get j) then j
    else CM_DistanceFromLineSquared_axis proj lp1 lp2 (j + 1) n

/-- The function `CM_DistanceFromLineSquared`. -/
def CM_DistanceFromLineSquared (p lp1 lp2 dir : Vec3) : ℚ :=
  let proj := CM_ProjectPointOntoVector p lp1 dir
  let j := CM_DistanceFromLineSquared_axis proj lp1 lp2 0 3
  if j < 3 then
    if |proj.get j - lp1.get j| < |proj.get j - lp2.get j| then
      VectorLengthSquared (VectorSubtract p lp1)
    else
      VectorLengthSquared (VectorSubtract p lp2)
  else
    VectorLengthSquared (VectorSubtract p proj)

/-! ## Position testing -/

/-- The start and end distances `d1`, `d2` of the mover to a brush side plane,
as both loops of `CM_TestBoxInBrush` and `CM_TraceThroughBrush` compute them:
for a capsule the plane is moved out by the radius and the sphere centre
nearest to the plane is used, for a box the plane is moved out by the corner
offset selected by the sign bits. -/
def CM_sideDistances (tw : traceWork_t) (plane : cplane_t) : ℚ × ℚ :=
  match tw.type with
  | traceType_t.TT_CAPSULE =>
    let dist := plane.dist + tw.sphere.radius
    let t := DotProduct plane.normal tw.sphere.offset
    let startp := if t > 0 then VectorSubtract tw.start tw.sphere.offset
                  else VectorAdd tw.start tw.sphere.offset
    let endp := if t > 0 then VectorSubtract tw.end_ tw.sphere.offset
                else VectorAdd tw.end_ tw.sphere.offset
    (DotProduct startp plane.normal - dist, DotProduct endp plane.normal - dist)
  | traceType_t.TT_AABB =>
    let dist := plane.dist - DotProduct (tw.offsets plane.signbits) plane.normal
    (DotProduct tw.start plane.normal - dist, DotProduct tw.end_ plane.normal - dist)

/-- The assignment `startsolid = allsolid = true; fraction = 0`. -/
def setAllsolid (tw : traceWork_t) : traceWork_t :=
  { tw with trace := { tw.trace with startsolid := true, allsolid := true, fraction := 0 } }

/-- The assignment `startsolid = allsolid = true; fraction = 0; contents = c`. -/
def setAllsolidContents (tw : traceWork_t) (c : Nat) : traceWork_t :=
  { tw with trace := { tw.trace with startsolid := true, allsolid := true, fraction := 0,
                                     contents := c } }

/-- The side loop of `CM_TestBoxInBrush`: `true` when some side has the start
position completely in front of it (the function then returns). -/
def CM_TestBoxInBrush_sides (tw : traceWork_t) : List cbrushside_t → Bool
  | [] => false
  | side :: rest =>
    if (CM_sideDistances tw side.plane).1 > 0 then true
    else CM_TestBoxInBrush_sides tw rest

/-- The function `CM_TestBoxInBrush`. -/
def CM_TestBoxInBrush (tw : traceWork_t) (brush : cbrush_t) : traceWork_t :=
  if brush.sides.length = 0 then tw
  else if tw.bounds0.x > brush.bounds1.x
      ∨ tw.bounds0.y > brush.bounds1.y
      ∨ tw.bounds0.z > brush.bounds1.z
      ∨ tw.bounds1.x < brush.bounds0.x
      ∨ tw.bounds1.y < brush.bounds0.y ∨ tw.bounds1.z < brush.bounds0.z then tw
  else if CM_TestBoxInBrush_sides tw (brush.sides.drop 6) then tw
  else setAllsolidContents tw brush.contents

/-- The expansion of a facet surface plane for the mover: the expanded plane
and the start and end points to test against it. -/
def CM_expandSurfacePlane (tw : traceWork_t) (planes : cPlane_t) : plane_t × Vec3 × Vec3 :=
  match tw.type with
  | traceType_t.TT_CAPSULE =>
    let t := DotProduct planes.plane.normal tw.sphere.offset
    ({ normal := planes.plane.normal, dist := planes.plane.dist + tw.sphere.radius },
     (if t > 0 then VectorSubtract tw.start tw.sphere.offset
      else VectorAdd tw.start tw.sphere.offset),
     (if t > 0 then VectorSubtract tw.end_ tw.sphere.offset
      else VectorAdd tw.end_ tw.sphere.offset))
  | traceType_t.TT_AABB =>
    let offset := DotProduct (tw.offsets planes.signbits) planes.plane.normal
    ({ normal := planes.plane.normal, dist := planes.plane.dist - offset }, tw.start, tw.end_)

/-- The expansion of a facet border plane for the mover: the plane is flipped
when the border is inward, then moved out by the radius (capsule) or by the
absolute value of the corner offset (box). -/
def CM_expandBorderPlane (tw : traceWork_t) (planes : cPlane_t) (inward : Bool) :
    plane_t × Vec3 × Vec3 :=
  let normal := if inward then VectorNegate planes.plane.normal else planes.plane.normal
  let dist := if inward then -planes.plane.dist else planes.plane.dist
  match tw.type with
  | traceType_t.TT_CAPSULE =>
    let t := DotProduct normal tw.sphere.offset
    ({ normal := normal, dist := dist + tw.sphere.radius },
     (if t > 0 then VectorSubtract tw.start tw.sphere.offset
      else VectorAdd tw.start tw.sphere.offset),
     (if t > 0 then VectorSubtract tw.end_ tw.sphere.offset
      else VectorAdd tw.end_ tw.sphere.offset))
  | traceType_t.TT_AABB =>
    let offset := DotProduct (tw.offsets planes.signbits) normal
    ({ normal := normal, dist := dist + |offset| }, tw.start, tw.end_)

/-- The border loop of `CM_PositionTestInSurfaceCollide`: `some true` when the
loop ran to its end (`j == numBorders`), `some false` when it broke. -/
def CM_PositionTestInSurfaceCollide_borders (tw : traceWork_t) (sc : cSurfaceCollide_t) :
    List (Nat × Bool) → Option Bool
  | [] => some true
  | (k, inward) :: rest =>
    match sc.planes[k]? with
    | none => none
    | some planes =>
      let e := CM_expandBorderPlane tw planes inward
      if DotProduct e.1.normal e.2.1 - e.1.dist > 0 then some false
      else CM_PositionTestInSurfaceCollide_borders tw sc rest

/-- The facet loop of `CM_PositionTestInSurfaceCollide`. -/
def CM_PositionTestInSurfaceCollide_facets (tw : traceWork_t) (sc : cSurfaceCollide_t) :
    List cFacet_t → Option Bool
  | [] => some false
  | facet :: rest =>
    match sc.planes[facet.surfacePlane]? with
    | none => none
    | some planes =>
      let e := CM_expandSurfacePlane tw planes
      if DotProduct e.1.normal e.2.1 - e.1.dist > 0 then
        CM_PositionTestInSurfaceCollide_facets tw sc rest
      else
        match CM_PositionTestInSurfaceCollide_borders tw sc facet.borders with
        | none => none
        | some true => some true
        | some false => CM_PositionTestInSurfaceCollide_facets tw sc rest

/-- The function `CM_PositionTestInSurfaceCollide`. -/
def CM_PositionTestInSurfaceCollide (tw : traceWork_t) (sc : cSurfaceCollide_t) : Option Bool :=
  if tw.isPoint then some false
  else CM_PositionTestInSurfaceCollide_facets tw sc sc.facets

/-- The statement `b->checkcount = cm.checkcount` on brush `i`. -/
def stampBrush (cm : clipMap_t) (i : Nat) (b : cbrush_t) : clipMap_t :=
  { cm with brushes := cm.brushes.set i { b with checkcount := cm.checkcount } }

/-- The statement `surface->checkcount = cm.checkcount` on surface `i`. -/
def stampSurface (cm : clipMap_t) (i : Nat) (s : cSurface_t) : clipMap_t :=
  { cm with surfaces := cm.surfaces.set i (some { s with checkcount := cm.checkcount }) }

/-- The brush loop of `CM_TestInLeaf`; the flag is `true` when the function
returned from inside the loop. -/
def CM_TestInLeaf_brushes (cm : clipMap_t) (tw : traceWork_t) :
    List Nat → Option (clipMap_t × traceWork_t × Bool)
  | [] => some (cm, tw, false)
  | brushNum :: rest =>
    match cm.brushes[brushNum]? with
    | none => none
    | some b =>
      if b.checkcount = cm.checkcount then CM_TestInLeaf_brushes cm tw rest
      else
        let cm1 := stampBrush cm brushNum b
        if b.contents &&& tw.contents = 0 then CM_TestInLeaf_brushes cm1 tw rest
        else if b.contents &&& tw.skipContents ≠ 0 then CM_TestInLeaf_brushes cm1 tw rest
        else
          let tw1 := CM_TestBoxInBrush tw b
          if tw1.trace.allsolid then some (cm1, tw1, true)
          else CM_TestInLeaf_brushes cm1 tw1 rest

/-- The condition `surface->type == t && surface->sc &&
CM_PositionTestInSurfaceCollide( tw, surface->sc )`, with its short-circuit
evaluation. -/
def CM_TestInLeaf_surfaceHit (tw : traceWork_t) (surface : cSurface_t) (t : mapSurfaceType_t) :
    Option Bool :=
  if surface.type = t then
    match surface.sc with
    | none => some false
    | some sc => CM_PositionTestInSurfaceCollide tw sc
  else some false

/-- The surface loop of `CM_TestInLeaf`. -/
def CM_TestInLeaf_surfaces (env : Env) (cm : clipMap_t) (tw : traceWork_t) :
    List Nat → Option (clipMap_t × traceWork_t)
  | [] => some (cm, tw)
  | surfaceNum :: rest =>
    match cm.surfaces[surfaceNum]? with
    | none => none
    | some none => CM_TestInLeaf_surfaces env cm tw rest
    | some (some surface) =>
      if surface.checkcount = cm.checkcount then CM_TestInLeaf_surfaces env cm tw rest
      else
        let cm1 := stampSurface cm surfaceNum surface
        if surface.contents &&& tw.contents = 0 then CM_TestInLeaf_surfaces env cm1 tw rest
        else if surface.contents &&& tw.skipContents ≠ 0 then
          CM_TestInLeaf_surfaces env cm1 tw rest
        else
          match (if !env.cm_noCurves then
                   CM_TestInLeaf_surfaceHit tw surface mapSurfaceType_t.MST_PATCH
                 else some false) with
          | none => none
          | some true => some (cm1, setAllsolidContents tw surface.contents)
          | some false =>
            match (if cm1.perPolyCollision || env.cm_forceTriangles then
                     CM_TestInLeaf_surfaceHit tw surface mapSurfaceType_t.MST_TRIANGLE_SOUP
                   else some false) with
            | none => none
            | some true => some (cm1, setAllsolidContents tw surface.contents)
            | some false => CM_TestInLeaf_surfaces env cm1 tw rest

/-- The function `CM_TestInLeaf`. -/
def CM_TestInLeaf (env : Env) (cm : clipMap_t) (tw : traceWork_t) (leaf : cLeaf_t) :
    Option (clipMap_t × traceWork_t) :=
  match CM_TestInLeaf_brushes cm tw leaf.leafBrushes with
  | none => none
  | some (cm1, tw1, true) => some (cm1, tw1)
  | some (cm1, tw1, false) => CM_TestInLeaf_surfaces env cm1 tw1 leaf.leafSurfaces

/-- The expression `( halfwidth > halfheight ) ? halfheight : halfwidth`, by
which every capsule radius is derived from a symmetric size. -/
def capsuleRadius (halfwidth halfheight : ℚ) : ℚ :=
  if halfwidth > halfheight then halfheight else halfwidth

/-- The centre and the symmetric upper size of a box `mins`, `maxs`: the block
`offset = (mins + maxs) * 0.5; size[1] = maxs - offset` that several functions
repeat. -/
def boxCentre (mins maxs : Vec3) : Vec3 :=
  ⟨(mins.x + maxs.x) * (1 / 2), (mins.y + maxs.y) * (1 / 2), (mins.z + maxs.z) * (1 / 2)⟩

/-- The function `CM_TestCapsuleInCapsule`. -/
def CM_TestCapsuleInCapsule (env : Env) (cm : clipMap_t) (tw : traceWork_t) (model : Nat) :
    Option traceWork_t :=
  match env.CM_ModelBounds cm model with
  | none => none
  | some (mins, maxs) =>
    let top := VectorAdd tw.start tw.sphere.offset
    let bottom := VectorSubtract tw.start tw.sphere.offset
    let offset := boxCentre mins maxs
    let symetricSize1 := VectorSubtract maxs offset
    let halfwidth := symetricSize1.x
    let halfheight := symetricSize1.z
    let radius := capsuleRadius halfwidth halfheight
    let offs := halfheight - radius
    let r := Square (tw.sphere.radius + radius)
    let p1 : Vec3 := ⟨offset.x, offset.y, offset.z + offs⟩
    let tw1 := if VectorLengthSquared (VectorSubtract p1 top) < r then setAllsolid tw else tw
    let tw2 := if VectorLengthSquared (VectorSubtract p1 bottom) < r then setAllsolid tw1 else tw1
    let p2 : Vec3 := ⟨offset.x, offset.y, offset.z - offs⟩
    let tw3 := if VectorLengthSquared (VectorSubtract p2 top) < r then setAllsolid tw2 else tw2
    let tw4 := if VectorLengthSquared (VectorSubtract p2 bottom) < r then setAllsolid tw3 else tw3
    if (top.z ≥ p1.z ∧ top.z ≤ p2.z) ∨ (bottom.z ≥ p1.z ∧ bottom.z ≤ p2.z) then
      let top2 : Vec3 := ⟨top.x, top.y, 0⟩
      let p12 : Vec3 := ⟨p1.x, p1.y, 0⟩
      if VectorLengthSquared (VectorSubtract top2 p12) < r then some (setAllsolid tw4)
      else some tw4
    else some tw4

/-- The common prologue of `CM_TestBoundingBoxInCapsule` and
`CM_TraceBoundingBoxThroughCapsule`: the trace is moved so that the capsule
model is at the origin and the mover becomes the capsule of the model. -/
def swapBoxForCapsule (tw : traceWork_t) (mins maxs : Vec3) : traceWork_t :=
  let offset := boxCentre mins maxs
  let size1 := VectorSubtract maxs offset
  let radius := capsuleRadius size1.x size1.z
  { tw with
    start := VectorSubtract tw.start offset
    end_ := VectorSubtract tw.end_ offset
    type := traceType_t.TT_CAPSULE
    sphere := { radius := radius, halfheight := size1.z, offset := ⟨0, 0, size1.z - radius⟩ } }

/-- The function `CM_TestBoundingBoxInCapsule`. -/
def CM_TestBoundingBoxInCapsule (env : Env) (cm : clipMap_t) (tw : traceWork_t) (model : Nat) :
    Option (clipMap_t × traceWork_t) :=
  match env.CM_ModelBounds cm model with
  | none => none
  | some (mins, maxs) =>
    let tw1 := swapBoxForCapsule tw mins maxs
    let r := env.CM_TempBoxModel cm tw1.size0 tw1.size1 false
    match env.CM_ClipHandleToModel r.1 r.2 with
    | none => none
    | some cmod => CM_TestInLeaf env r.1 tw1 cmod.leaf

/-- The leaf loop of `CM_PositionTest`. -/
def CM_PositionTest_leafs (env : Env) (cm : clipMap_t) (tw : traceWork_t) :
    List Nat → Option (clipMap_t × traceWork_t)
  | [] => some (cm, tw)
  | l :: rest =>
    match cm.leafs[l]? with
    | none => none
    | some leaf =>
      match CM_TestInLeaf env cm tw leaf with
      | none => none
      | some (cm1, tw1) =>
        if tw1.trace.allsolid then some (cm1, tw1)
        else CM_PositionTest_leafs env cm1 tw1 rest

/-- The constant `MAX_POSITION_LEAFS`. -/
def MAX_POSITION_LEAFS : Nat := 1024

/-- The function `CM_PositionTest`: the leafs touched by the start box grown
by one unit are enumerated (at most `MAX_POSITION_LEAFS` of them) and tested;
`cm.checkcount` is incremented before and after the enumeration. -/
def CM_PositionTest (env : Env) (cm : clipMap_t) (tw : traceWork_t) :
    Option (clipMap_t × traceWork_t) :=
  let b0 := VectorAdd tw.start tw.size0
  let b1 := VectorAdd tw.start tw.size1
  let lb0 : Vec3 := ⟨b0.x - 1, b0.y - 1, b0.z - 1⟩
  let lb1 : Vec3 := ⟨b1.x + 1, b1.y + 1, b1.z + 1⟩
  let cm1 := { cm with checkcount := cm.checkcount + 1 }
  let leafs := (env.CM_BoxLeafnums cm1 lb0 lb1).take MAX_POSITION_LEAFS
  let cm2 := { cm1 with checkcount := cm1.checkcount + 1 }
  CM_PositionTest_leafs env cm2 tw leafs

/-! ## Tracing: patch surfaces -/

/-- The first loop of `CM_TracePointThroughSurfaceCollide`: for one plane, the
entries `frontFacing[i]` and `intersection[i]`. -/
def CM_TracePoint_planeState (tw : traceWork_t) (planes : cPlane_t) : Bool × ℚ :=
  let offset := DotProduct (tw.offsets planes.signbits) planes.plane.normal
  let d1 := DotProduct tw.start planes.plane.normal - planes.plane.dist + offset
  let d2 := DotProduct tw.end_ planes.plane.normal - planes.plane.dist + offset
  (if d1 ≤ 0 then false else true,
   if d1 = d2 then 99999
   else if d1 / (d1 - d2) ≤ 0 then 99999 else d1 / (d1 - d2))

/-- The border loop of `CM_TracePointThroughSurfaceCollide`: `some true` when
it ran to its end (`j == numBorders`), `some false` when it broke. -/
def CM_TracePoint_borders (state : List (Bool × ℚ)) (intersect : ℚ) :
    List (Nat × Bool) → Option Bool
  | [] => some true
  | (k, inward) :: rest =>
    match state[k]? with
    | none => none
    | some (frontFacing, intersection) =>
      if frontFacing ≠ inward then
        if intersection > intersect then some false
        else CM_TracePoint_borders state intersect rest
      else
        if intersection < intersect then some false
        else CM_TracePoint_borders state intersect rest

/-- The hit recorded by `CM_TracePointThroughSurfaceCollide` on a surface
plane: the fraction with a slight push-off, clamped at 0, and the plane. -/
def CM_TracePoint_record (tw : traceWork_t) (planes : cPlane_t) : traceWork_t :=
  let offset := DotProduct (tw.offsets planes.signbits) planes.plane.normal
  let d1 := DotProduct tw.start planes.plane.normal - planes.plane.dist + offset
  let d2 := DotProduct tw.end_ planes.plane.normal - planes.plane.dist + offset
  let f := (d1 - SURFACE_CLIP_EPSILON) / (d1 - d2)
  { tw with trace := { tw.trace with
      fraction := if f < 0 then 0 else f
      plane := { normal := planes.plane.normal, dist := planes.plane.dist } } }

/-- The facet loop of `CM_TracePointThroughSurfaceCollide`. -/
def CM_TracePoint_facets (sc : cSurfaceCollide_t) (state : List (Bool × ℚ)) (tw : traceWork_t) :
    List cFacet_t → Option traceWork_t
  | [] => some tw
  | facet :: rest =>
    match state[facet.surfacePlane]? with
    | none => none
    | some (frontFacing, intersect) =>
      if !frontFacing then CM_TracePoint_facets sc state tw rest
      else if intersect < 0 then CM_TracePoint_facets sc state tw rest
      else if intersect > tw.trace.fraction then CM_TracePoint_facets sc state tw rest
      else
        match CM_TracePoint_borders state intersect facet.borders with
        | none => none
        | some false => CM_TracePoint_facets sc state tw rest
        | some true =>
          match sc.planes[facet.surfacePlane]? with
          | none => none
          | some planes => CM_TracePoint_facets sc state (CM_TracePoint_record tw planes) rest

/-- The function `CM_TracePointThroughSurfaceCollide`. -/
def CM_TracePointThroughSurfaceCollide (tw : traceWork_t) (sc : cSurfaceCollide_t) :
    Option traceWork_t :=
  if !tw.isPoint then some tw
  else CM_TracePoint_facets sc (sc.planes.map (CM_TracePoint_planeState tw)) tw sc.facets

/-- The fraction at which a trace with distances `d1 > d2` enters a plane,
pulled back by `SURFACE_CLIP_EPSILON` and clamped at 0: the statements
`f = ( d1 - SURFACE_CLIP_EPSILON ) / ( d1 - d2 ); if ( f < 0 ) f = 0;`. -/
def enterFraction (d1 d2 : ℚ) : ℚ :=
  if (d1 - SURFACE_CLIP_EPSILON) / (d1 - d2) < 0 then 0
  else (d1 - SURFACE_CLIP_EPSILON) / (d1 - d2)

/-- The fraction at which a trace leaves a plane, pushed on by
`SURFACE_CLIP_EPSILON` and clamped at 1: the statements
`f = ( d1 + SURFACE_CLIP_EPSILON ) / ( d1 - d2 ); if ( f > 1 ) f = 1;`. -/
def leaveFraction (d1 d2 : ℚ) : ℚ :=
  if (d1 + SURFACE_CLIP_EPSILON) / (d1 - d2) > 1 then 1
  else (d1 + SURFACE_CLIP_EPSILON) / (d1 - d2)

/-- The function `CM_CheckFacetPlane`: the returned value, the new
`enterFrac`, the new `leaveFrac` and `hit`. -/
def CM_CheckFacetPlane (plane : plane_t) (start end_ : Vec3) (enterFrac leaveFrac : ℚ) :
    Bool × ℚ × ℚ × Bool :=
  let d1 := DotProduct start plane.normal - plane.dist
  let d2 := DotProduct end_ plane.normal - plane.dist
  if d1 > 0 ∧ (d2 ≥ SURFACE_CLIP_EPSILON ∨ d2 ≥ d1) then (false, enterFrac, leaveFrac, false)
  else if d1 ≤ 0 ∧ d2 ≤ 0 then (true, enterFrac, leaveFrac, false)
  else if d1 > d2 then
    let f := enterFraction d1 d2
    if f > enterFrac then (true, f, leaveFrac, true)
    else (true, enterFrac, leaveFrac, false)
  else
    let f := leaveFraction d1 d2
    if f < leaveFrac then (true, enterFrac, f, false)
    else (true, enterFrac, leaveFrac, false)

/-- The loop state of one facet in `CM_TraceThroughSurfaceCollide`. -/
structure FacetLoop where
  enterFrac : ℚ
  leaveFrac : ℚ
  hitnum : Int
  bestplane : plane_t

/-- The border loop of `CM_TraceThroughSurfaceCollide`, from border `j` on:
the flag is `false` when `CM_CheckFacetPlane` rejected a border (the loop
broke, `j < numBorders`). -/
def CM_TraceThroughSurfaceCollide_borders (tw : traceWork_t) (sc : cSurfaceCollide_t) :
    Nat → FacetLoop → List (Nat × Bool) → Option (Bool × FacetLoop)
  | _, st, [] => some (true, st)
  | j, st, (k, inward) :: rest =>
    match sc.planes[k]? with
    | none => none
    | some planes =>
      let e := CM_expandBorderPlane tw planes inward
      let r := CM_CheckFacetPlane e.1 e.2.1 e.2.2 st.enterFrac st.leaveFrac
      let st1 : FacetLoop :=
        if r.2.2.2 then
          { enterFrac := r.2.1, leaveFrac := r.2.2.1, hitnum := (j : Int), bestplane := e.1 }
        else
          { enterFrac := r.2.1, leaveFrac := r.2.2.1, hitnum := st.hitnum,
            bestplane := st.bestplane }
      if !r.1 then some (false, st)
      else CM_TraceThroughSurfaceCollide_borders tw sc (j + 1) st1 rest

/-- The facet loop of `CM_TraceThroughSurfaceCollide`; `bestplane` is declared
outside the loop and so is carried from facet to facet. -/
def CM_TraceThroughSurfaceCollide_facets (sc : cSurfaceCollide_t) (tw : traceWork_t)
    (bestplane : plane_t) : List cFacet_t → Option traceWork_t
  | [] => some tw
  | facet :: rest =>
    match sc.planes[facet.surfacePlane]? with
    | none => none
    | some planes =>
      let e := CM_expandSurfacePlane tw planes
      let r := CM_CheckFacetPlane e.1 e.2.1 e.2.2 (-1) 1
      if !r.1 then CM_TraceThroughSurfaceCollide_facets sc tw bestplane rest
      else
        let st0 : FacetLoop :=
          { enterFrac := r.2.1, leaveFrac := r.2.2.1, hitnum := -1,
            bestplane := if r.2.2.2 then e.1 else bestplane }
        match CM_TraceThroughSurfaceCollide_borders tw sc 0 st0 facet.borders with
        | none => none
        | some (false, st) => CM_TraceThroughSurfaceCollide_facets sc tw st.bestplane rest
        | some (true, st) =>
          if st.hitnum = (facet.borders.length : Int) - 1 then
            CM_TraceThroughSurfaceCollide_facets sc tw st.bestplane rest
          else if st.enterFrac < st.leaveFrac ∧ st.enterFrac ≥ 0 then
            if st.enterFrac < tw.trace.fraction then
              let enterFrac := if st.enterFrac < 0 then 0 else st.enterFrac
              CM_TraceThroughSurfaceCollide_facets sc
                { tw with trace := { tw.trace with
                    fraction := enterFrac
                    plane := { normal := st.bestplane.normal, dist := st.bestplane.dist } } }
                st.bestplane rest
            else CM_TraceThroughSurfaceCollide_facets sc tw st.bestplane rest
          else CM_TraceThroughSurfaceCollide_facets sc tw st.bestplane rest

/-- The function `CM_TraceThroughSurfaceCollide`. -/
def CM_TraceThroughSurfaceCollide (env : Env) (tw : traceWork_t) (sc : cSurfaceCollide_t) :
    Option traceWork_t :=
  if !env.CM_BoundsIntersect tw.bounds0 tw.bounds1 sc.bounds0 sc.bounds1 then some tw
  else if tw.isPoint then CM_TracePointThroughSurfaceCollide tw sc
  else CM_TraceThroughSurfaceCollide_facets sc tw ⟨⟨0, 0, 0⟩, 0⟩ sc.facets

/-- One of the two guarded calls of `CM_TraceThroughSurface`: the surface
collide is traced when the guard holds, the surface has type `t` and `sc` is
not null. -/
def CM_TraceThroughSurface_call (env : Env) (tw : traceWork_t) (surface : cSurface_t)
    (guard : Bool) (t : mapSurfaceType_t) : Option traceWork_t :=
  if guard ∧ surface.type = t then
    match surface.sc with
    | none => some tw
    | some sc => CM_TraceThroughSurfaceCollide env tw sc
  else some tw

/-- The function `CM_TraceThroughSurface`. -/
def CM_TraceThroughSurface (env : Env) (cm : clipMap_t) (tw : traceWork_t)
    (surface : cSurface_t) : Option traceWork_t :=
  let oldFrac := tw.trace.fraction
  match CM_TraceThroughSurface_call env tw surface (!env.cm_noCurves)
      mapSurfaceType_t.MST_PATCH with
  | none => none
  | some tw1 =>
    match CM_TraceThroughSurface_call env tw1 surface
        (cm.perPolyCollision || env.cm_forceTriangles) mapSurfaceType_t.MST_TRIANGLE_SOUP with
    | none => none
    | some tw2 =>
      if tw2.trace.fraction < oldFrac then
        some { tw2 with trace := { tw2.trace with
                 surfaceFlags := surface.surfaceFlags, contents := surface.contents } }
      else some tw2

/-! ## Tracing: brushes and leafs -/

/-- The loop state of `CM_TraceThroughBrush`. -/
structure BrushLoop where
  enterFrac : ℚ
  leaveFrac : ℚ
  getout : Bool
  startout : Bool
  clipplane : Option cplane_t
  leadside : Option cbrushside_t

/-- The initial loop state of `CM_TraceThroughBrush`. -/
def BrushLoop.init : BrushLoop :=
  { enterFrac := -1, leaveFrac := 1, getout := false, startout := false,
    clipplane := none, leadside := none }

/-- One iteration of the side loop of `CM_TraceThroughBrush`, on the
distances `d1`, `d2` of the side; `none` when the function returns (the trace
is completely in front of the side). -/
def CM_TraceThroughBrush_side (side : cbrushside_t) (d1 d2 : ℚ) (st : BrushLoop) :
    Option BrushLoop :=
  let st1 : BrushLoop :=
    { st with getout := if d2 > 0 then true else st.getout
              startout := if d1 > 0 then true else st.startout }
  if d1 > 0 ∧ (d2 ≥ SURFACE_CLIP_EPSILON ∨ d2 ≥ d1) then none
  else if d1 ≤ 0 ∧ d2 ≤ 0 then some st1
  else if d1 > d2 then
    let f := enterFraction d1 d2
    if f > st1.enterFrac then
      some { st1 with enterFrac := f, clipplane := some side.plane, leadside := some side }
    else some st1
  else
    let f := leaveFraction d1 d2
    if f < st1.leaveFrac then some { st1 with leaveFrac := f }
    else some st1

/-- The side loop of `CM_TraceThroughBrush` (the capsule loop and the box loop
differ only in the distances, see `CM_sideDistances`). -/
def CM_TraceThroughBrush_sides (tw : traceWork_t) : List cbrushside_t → BrushLoop →
    Option BrushLoop
  | [], st => some st
  | side :: rest, st =>
    let d := CM_sideDistances tw side.plane
    match CM_TraceThroughBrush_side side d.1 d.2 st with
    | none => none
    | some st1 => CM_TraceThroughBrush_sides tw rest st1

/-- The part of `CM_TraceThroughBrush` after the side loop.  A hit is recorded
through `clipplane` and `leadside`, which the loop sets together with an
`enterFrac` above -1. -/
def CM_TraceThroughBrush_finish (tw : traceWork_t) (brush : cbrush_t) (st : BrushLoop) :
    traceWork_t :=
  if !st.startout then
    if !st.getout then
      { tw with trace := { tw.trace with
          startsolid := true, allsolid := true, fraction := 0, contents := brush.contents } }
    else { tw with trace := { tw.trace with startsolid := true } }
  else if st.enterFrac < st.leaveFrac then
    if st.enterFrac > -1 ∧ st.enterFrac < tw.trace.fraction then
      match st.clipplane, st.leadside with
      | some clipplane, some leadside =>
        { tw with trace := { tw.trace with
            fraction := if st.enterFrac < 0 then 0 else st.enterFrac
            plane := { normal := clipplane.normal, dist := clipplane.dist }
            surfaceFlags := leadside.surfaceFlags
            contents := brush.contents } }
      | _, _ => tw
    else tw
  else tw

/-- The function `CM_TraceThroughBrush`. -/
def CM_TraceThroughBrush (tw : traceWork_t) (brush : cbrush_t) : traceWork_t :=
  if brush.sides.length = 0 then tw
  else
    match CM_TraceThroughBrush_sides tw brush.sides BrushLoop.init with
    | none => tw
    | some st => CM_TraceThroughBrush_finish tw brush st

/-- The brush loop of `CM_TraceThroughLeaf`; the flag is `true` when the
function returned from inside the loop. -/
def CM_TraceThroughLeaf_brushes (env : Env) (cm : clipMap_t) (tw : traceWork_t) :
    List Nat → Option (clipMap_t × traceWork_t × Bool)
  | [] => some (cm, tw, false)
  | brushNum :: rest =>
    match cm.brushes[brushNum]? with
    | none => none
    | some b =>
      if b.checkcount = cm.checkcount then CM_TraceThroughLeaf_brushes env cm tw rest
      else
        let cm1 := stampBrush cm brushNum b
        if b.contents &&& tw.contents = 0 then CM_TraceThroughLeaf_brushes env cm1 tw rest
        else if b.contents &&& tw.skipContents ≠ 0 then
          CM_TraceThroughLeaf_brushes env cm1 tw rest
        else if !env.CM_BoundsIntersect tw.bounds0 tw.bounds1 b.bounds0 b.bounds1 then
          CM_TraceThroughLeaf_brushes env cm1 tw rest
        else
          let tw1 := CM_TraceThroughBrush tw b
          if tw1.trace.allsolid then some (cm1, tw1, true)
          else CM_TraceThroughLeaf_brushes env cm1 tw1 rest

/-- The surface loop of `CM_TraceThroughLeaf`.  The bounds test reads
`surface->sc->bounds` without a null check. -/
def CM_TraceThroughLeaf_surfaces (env : Env) (cm : clipMap_t) (tw : traceWork_t) :
    List Nat → Option (clipMap_t × traceWork_t)
  | [] => some (cm, tw)
  | surfaceNum :: rest =>
    match cm.surfaces[surfaceNum]? with
    | none => none
    | some none => CM_TraceThroughLeaf_surfaces env cm tw rest
    | some (some surface) =>
      if surface.checkcount = cm.checkcount then CM_TraceThroughLeaf_surfaces env cm tw rest
      else
        let cm1 := stampSurface cm surfaceNum surface
        if surface.contents &&& tw.contents = 0 then
          CM_TraceThroughLeaf_surfaces env cm1 tw rest
        else if surface.contents &&& tw.skipContents ≠ 0 then
          CM_TraceThroughLeaf_surfaces env cm1 tw rest
        else
          match surface.sc with
          | none => none
          | some sc =>
            if !env.CM_BoundsIntersect tw.bounds0 tw.bounds1 sc.bounds0 sc.bounds1 then
              CM_TraceThroughLeaf_surfaces env cm1 tw rest
            else
              match CM_TraceThroughSurface env cm1 tw surface with
              | none => none
              | some tw1 =>
                if tw1.trace.fraction = 0 then some (cm1, tw1)
                else CM_TraceThroughLeaf_surfaces env cm1 tw1 rest

/-- The function `CM_TraceThroughLeaf`. -/
def CM_TraceThroughLeaf (env : Env) (cm : clipMap_t) (tw : traceWork_t) (leaf : cLeaf_t) :
    Option (clipMap_t × traceWork_t) :=
  match CM_TraceThroughLeaf_brushes env cm tw leaf.leafBrushes with
  | none => none
  | some (cm1, tw1, true) => some (cm1, tw1)
  | some (cm1, tw1, false) =>
    if tw1.trace.fraction = 0 then some (cm1, tw1)
    else CM_TraceThroughLeaf_surfaces env cm1 tw1 leaf.leafSurfaces

/-! ## Tracing: capsules -/

/-- The hit recorded by `CM_TraceThroughSphere`: fraction, plane through the
intersection point and `CONTENTS_BODY`. -/
def CM_TraceThroughSphere_record (env : Env) (tw : traceWork_t) (origin : Vec3) (radius : ℚ)
    (start end_ : Vec3) (fraction : ℚ) : traceWork_t :=
  let dir := VectorSubtract end_ start
  let intersection := VectorMA start fraction dir
  let dir1 := VectorSubtract intersection origin
  let scale := 1 / (radius + RADIUS_EPSILON)
  let normal := VectorScale dir1 scale
  let intersection1 := VectorAdd tw.modelOrigin intersection
  { tw with trace := { tw.trace with
      fraction := fraction
      plane := { normal := normal, dist := DotProduct normal intersection1 }
      contents := env.CONTENTS_BODY } }

/-- The function `CM_TraceThroughSphere`. -/
def CM_TraceThroughSphere (env : Env) (tw : traceWork_t) (origin : Vec3) (radius : ℚ)
    (start end_ : Vec3) : traceWork_t :=
  if VectorLengthSquared (VectorSubtract start origin) < Square radius then
    if VectorLengthSquared (VectorSubtract end_ origin) < Square radius then
      { tw with trace := { tw.trace with fraction := 0, startsolid := true, allsolid := true } }
    else { tw with trace := { tw.trace with fraction := 0, startsolid := true } }
  else
    let n := VectorNormalize env (VectorSubtract end_ start)
    let dir := n.1
    let length := n.2
    let l1 := CM_DistanceFromLineSquared origin start end_ dir
    let l2 := VectorLengthSquared (VectorSubtract end_ origin)
    if l1 ≥ Square radius ∧ l2 > Square (radius + SURFACE_CLIP_EPSILON) then tw
    else
      let v1 := VectorSubtract start origin
      let b := 2 * (dir.x * v1.x + dir.y * v1.y + dir.z * v1.z)
      let c := v1.x * v1.x + v1.y * v1.y + v1.z * v1.z
                - (radius + RADIUS_EPSILON) * (radius + RADIUS_EPSILON)
      let d := b * b - 4 * c
      if d > 0 then
        let sqrtd := env.sqrtf d
        let fraction0 := (-b - sqrtd) * (1 / 2)
        let fraction := if fraction0 < 0 then 0 else fraction0 / length
        if fraction < tw.trace.fraction then
          CM_TraceThroughSphere_record env tw origin radius start end_ fraction
        else tw
      else tw

/-- The hit recorded by `CM_TraceThroughVerticalCylinder`. -/
def CM_TraceThroughVerticalCylinder_record (env : Env) (tw : traceWork_t) (origin : Vec3)
    (radius : ℚ) (intersection : Vec3) (fraction : ℚ) : traceWork_t :=
  let dir0 := VectorSubtract intersection origin
  let dir1 : Vec3 := ⟨dir0.x, dir0.y, 0⟩
  let scale := 1 / (radius + RADIUS_EPSILON)
  let normal := VectorScale dir1 scale
  let intersection1 := VectorAdd tw.modelOrigin intersection
  { tw with trace := { tw.trace with
      fraction := fraction
      plane := { normal := normal, dist := DotProduct normal intersection1 }
      contents := env.CONTENTS_BODY } }

/-- The second part of `CM_TraceThroughVerticalCylinder`, after the test for a
start inside the cylinder. -/
def CM_TraceThroughVerticalCylinder_sweep (env : Env) (tw : traceWork_t) (origin : Vec3)
    (radius halfheight : ℚ) (start end_ : Vec3) : traceWork_t :=
  let start2d : Vec3 := ⟨start.x, start.y, 0⟩
  let end2d : Vec3 := ⟨end_.x, end_.y, 0⟩
  let org2d : Vec3 := ⟨origin.x, origin.y, 0⟩
  let n := VectorNormalize env (VectorSubtract end2d start2d)
  let dir := n.1
  let length := n.2
  let l1 := CM_DistanceFromLineSquared org2d start2d end2d dir
  let l2 := VectorLengthSquared (VectorSubtract end2d org2d)
  if l1 ≥ Square radius ∧ l2 > Square (radius + SURFACE_CLIP_EPSILON) then tw
  else
    let v1 := VectorSubtract start origin
    let b := 2 * (v1.x * dir.x + v1.y * dir.y)
    let c := v1.x * v1.x + v1.y * v1.y - (radius + RADIUS_EPSILON) * (radius + RADIUS_EPSILON)
    let d := b * b - 4 * c
    if d > 0 then
      let sqrtd := env.sqrtf d
      let fraction0 := (-b - sqrtd) * (1 / 2)
      let fraction := if fraction0 < 0 then 0 else fraction0 / length
      if fraction < tw.trace.fraction then
        let intersection := VectorMA start fraction (VectorSubtract end_ start)
        if intersection.z ≤ origin.z + halfheight ∧ intersection.z ≥ origin.z - halfheight then
          CM_TraceThroughVerticalCylinder_record env tw origin radius intersection fraction
        else tw
      else tw
    else tw

/-- The function `CM_TraceThroughVerticalCylinder`. -/
def CM_TraceThroughVerticalCylinder (env : Env) (tw : traceWork_t) (origin : Vec3)
    (radius halfheight : ℚ) (start end_ : Vec3) : traceWork_t :=
  let start2d : Vec3 := ⟨start.x, start.y, 0⟩
  let end2d : Vec3 := ⟨end_.x, end_.y, 0⟩
  let org2d : Vec3 := ⟨origin.x, origin.y, 0⟩
  if start.z ≤ origin.z + halfheight ∧ start.z ≥ origin.z - halfheight then
    if VectorLengthSquared (VectorSubtract start2d org2d) < Square radius then
      if VectorLengthSquared (VectorSubtract end2d org2d) < Square radius then
        { tw with trace := { tw.trace with fraction := 0, startsolid := true, allsolid := true } }
      else { tw with trace := { tw.trace with fraction := 0, startsolid := true } }
    else CM_TraceThroughVerticalCylinder_sweep env tw origin radius halfheight start end_
  else CM_TraceThroughVerticalCylinder_sweep env tw origin radius halfheight start end_

/-- The function `CM_TraceCapsuleThroughCapsule`. -/
def CM_TraceCapsuleThroughCapsule (env : Env) (cm : clipMap_t) (tw : traceWork_t)
    (model : Nat) : Option traceWork_t :=
  match env.CM_ModelBounds cm model with
  | none => none
  | some (mins, maxs) =>
    if tw.bounds0.x > maxs.x + RADIUS_EPSILON
        ∨ tw.bounds0.y > maxs.y + RADIUS_EPSILON
        ∨ tw.bounds0.z > maxs.z + RADIUS_EPSILON
        ∨ tw.bounds1.x < mins.x - RADIUS_EPSILON
        ∨ tw.bounds1.y < mins.y - RADIUS_EPSILON
        ∨ tw.bounds1.z < mins.z - RADIUS_EPSILON then some tw
    else
      let starttop := VectorAdd tw.start tw.sphere.offset
      let startbottom := VectorSubtract tw.start tw.sphere.offset
      let endtop := VectorAdd tw.end_ tw.sphere.offset
      let endbottom := VectorSubtract tw.end_ tw.sphere.offset
      let offset := boxCentre mins maxs
      let symetricSize1 := VectorSubtract maxs offset
      let halfwidth := symetricSize1.x
      let halfheight := symetricSize1.z
      let radius0 := capsuleRadius halfwidth halfheight
      let offs := halfheight - radius0
      let top : Vec3 := ⟨offset.x, offset.y, offset.z + offs⟩
      let bottom : Vec3 := ⟨offset.x, offset.y, offset.z - offs⟩
      let radius := radius0 + tw.sphere.radius
      let tw1 :=
        if tw.start.x ≠ tw.end_.x ∨ tw.start.y ≠ tw.end_.y then
          let h := halfheight + tw.sphere.halfheight - radius
          if h > 0 then CM_TraceThroughVerticalCylinder env tw offset radius h tw.start tw.end_
          else tw
        else tw
      let tw2 := CM_TraceThroughSphere env tw1 top radius startbottom endbottom
      some (CM_TraceThroughSphere env tw2 bottom radius starttop endtop)

/-- The function `CM_TraceBoundingBoxThroughCapsule`. -/
def CM_TraceBoundingBoxThroughCapsule (env : Env) (cm : clipMap_t) (tw : traceWork_t)
    (model : Nat) : Option (clipMap_t × traceWork_t) :=
  match env.CM_ModelBounds cm model with
  | none => none
  | some (mins, maxs) =>
    let tw1 := swapBoxForCapsule tw mins maxs
    let r := env.CM_TempBoxModel cm tw1.size0 tw1.size1 false
    match env.CM_ClipHandleToModel r.1 r.2 with
    | none => none
    | some cmod => CM_TraceThroughLeaf env r.1 tw1 cmod.leaf

/-! ## Tracing: the tree -/

/-- Clamp of a fraction to `[0, 1]` as `CM_TraceThroughTree` does it. -/
def clamp01 (f : ℚ) : ℚ :=
  let f1 := if f < 0 then 0 else f
  if f1 > 1 then 1 else f1

/-- The distances `t1`, `t2` of `p1`, `p2` to the plane of a node and the
`offset` for the size of the mover, as `CM_TraceThroughTree` computes them: by
the axis for an axial plane, by the normal and `tw.maxOffset` otherwise. -/
def CM_TraceThroughTree_dists (tw : traceWork_t) (plane : cplane_t) (p1 p2 : Vec3) :
    ℚ × ℚ × ℚ :=
  if plane.type < 3 then
    (p1.get plane.type - plane.dist, p2.get plane.type - plane.dist, tw.extents.get plane.type)
  else
    (DotProduct plane.normal p1 - plane.dist, DotProduct plane.normal p2 - plane.dist,
     tw.maxOffset)

/-- The split of `CM_TraceThroughTree`: the near `side` and the fractions
`frac` and `frac2` before they are clamped. -/
def CM_TraceThroughTree_split (t1 t2 offset : ℚ) : Nat × ℚ × ℚ :=
  if t1 < t2 then
    (1, (t1 - offset + SURFACE_CLIP_EPSILON) * (1 / (t1 - t2)),
     (t1 + offset + SURFACE_CLIP_EPSILON) * (1 / (t1 - t2)))
  else if t1 > t2 then
    (0, (t1 + offset + SURFACE_CLIP_EPSILON) * (1 / (t1 - t2)),
     (t1 - offset - SURFACE_CLIP_EPSILON) * (1 / (t1 - t2)))
  else (0, 1, 0)

/-- The child `node->children[ side ]`. -/
def cNode_t.child (node : cNode_t) (side : Nat) : Int :=
  if side = 0 then node.child0 else node.child1

/-- The point `p1 + frac * (p2 - p1)`, componentwise as in
`CM_TraceThroughTree`. -/
def CM_TraceThroughTree_mid (p1 p2 : Vec3) (frac : ℚ) : Vec3 :=
  ⟨p1.x + frac * (p2.x - p1.x), p1.y + frac * (p2.y - p1.y), p1.z + frac * (p2.z - p1.z)⟩

/-- The function `CM_TraceThroughTree`; the first argument bounds the depth of
the recursion. -/
def CM_TraceThroughTree (env : Env) : Nat → clipMap_t → traceWork_t → Int → ℚ → ℚ → Vec3 →
    Vec3 → Option (clipMap_t × traceWork_t)
  | 0, _, _, _, _, _, _, _ => none
  | fuel + 1, cm, tw, num, p1f, p2f, p1, p2 =>
    if tw.trace.fraction < p1f then some (cm, tw)
    else if num < 0 then
      match cm.leafs[(-1 - num).toNat]? with
      | none => none
      | some leaf => CM_TraceThroughLeaf env cm tw leaf
    else
      match cm.nodes[num.toNat]? with
      | none => none
      | some node =>
        let d := CM_TraceThroughTree_dists tw node.plane p1 p2
        let t1 := d.1
        let t2 := d.2.1
        let offset := d.2.2
        if t1 ≥ offset + 1 ∧ t2 ≥ offset + 1 then
          CM_TraceThroughTree env fuel cm tw node.child0 p1f p2f p1 p2
        else if t1 < -offset - 1 ∧ t2 < -offset - 1 then
          CM_TraceThroughTree env fuel cm tw node.child1 p1f p2f p1 p2
        else
          let sp := CM_TraceThroughTree_split t1 t2 offset
          let side := sp.1
          let frac := clamp01 sp.2.1
          let midf := p1f + (p2f - p1f) * frac
          let mid := CM_TraceThroughTree_mid p1 p2 frac
          match CM_TraceThroughTree env fuel cm tw (node.child side) p1f midf p1 mid with
          | none => none
          | some (cm1, tw1) =>
            let frac2 := clamp01 sp.2.2
            let midf2 := p1f + (p2f - p1f) * frac2
            let mid2 := CM_TraceThroughTree_mid p1 p2 frac2
            CM_TraceThroughTree env fuel cm1 tw1 (node.child (side ^^^ 1)) midf2 p2f mid2 p2

/-! ## The trace driver -/

/-- The value-initialised `trace_t` with `fraction = 1`: the default trace of
`CM_Trace`. -/
def defaultTrace : trace_t :=
  { allsolid := false, startsolid := false, fraction := 1, endpos := ⟨0, 0, 0⟩,
    plane := { normal := ⟨0, 0, 0⟩, dist := 0 }, surfaceFlags := 0, contents := 0 }

/-- The table `tw.offsets` that `CM_Trace` fills in: entry `b` takes `size[1]`
on the axes whose bit is set in `b` and `size[0]` on the others. -/
def CM_Trace_offsets (size0 size1 : Vec3) : Fin 8 → Vec3
  | 0 => ⟨size0.x, size0.y, size0.z⟩
  | 1 => ⟨size1.x, size0.y, size0.z⟩
  | 2 => ⟨size0.x, size1.y, size0.z⟩
  | 3 => ⟨size1.x, size1.y, size0.z⟩
  | 4 => ⟨size0.x, size0.y, size1.z⟩
  | 5 => ⟨size1.x, size0.y, size1.z⟩
  | 6 => ⟨size0.x, size1.y, size1.z⟩
  | 7 => ⟨size1.x, size1.y, size1.z⟩

/-- One axis of the bounds of `CM_Trace`: lower and upper bound of the sweep
from `s` to `e` of a mover reaching `lo` below and `hi` above its centre. -/
def CM_Trace_boundsAxis (s e lo hi : ℚ) : ℚ × ℚ :=
  if s < e then (s + lo, e + hi) else (e + lo, s + hi)

/-- The set-up part of `CM_Trace`, from the default trace to the bounds: masks,
symmetric size, shifted start and end, sphere, `maxOffset`, corner offsets and
bounds.  `mins` and `maxs` have already been replaced by `vec3_origin` when
null. -/
def CM_Trace_setup (env : Env) (start end_ mins maxs origin : Vec3) (brushmask skipmask : Nat)
    (type : traceType_t) (sphere : Option sphere_t) : traceWork_t :=
  let offset := boxCentre mins maxs
  let size0 := VectorSubtract mins offset
  let size1 := VectorSubtract maxs offset
  let twstart := VectorAdd start offset
  let twend := VectorAdd end_ offset
  let sph : sphere_t :=
    match sphere with
    | some s => s
    | none =>
      let radius := capsuleRadius size1.x size1.z
      { radius := radius, halfheight := size1.z, offset := ⟨0, 0, size1.z - radius⟩ }
  let bx :=
    match type with
    | traceType_t.TT_CAPSULE =>
      CM_Trace_boundsAxis twstart.x twend.x (-|sph.offset.x| - sph.radius)
        (|sph.offset.x| + sph.radius)
    | traceType_t.TT_AABB => CM_Trace_boundsAxis twstart.x twend.x size0.x size1.x
  let by_ :=
    match type with
    | traceType_t.TT_CAPSULE =>
      CM_Trace_boundsAxis twstart.y twend.y (-|sph.offset.y| - sph.radius)
        (|sph.offset.y| + sph.radius)
    | traceType_t.TT_AABB => CM_Trace_boundsAxis twstart.y twend.y size0.y size1.y
  let bz :=
    match type with
    | traceType_t.TT_CAPSULE =>
      CM_Trace_boundsAxis twstart.z twend.z (-|sph.offset.z| - sph.radius)
        (|sph.offset.z| + sph.radius)
    | traceType_t.TT_AABB => CM_Trace_boundsAxis twstart.z twend.z size0.z size1.z
  { type := type
    start := twstart
    end_ := twend
    size0 := size0
    size1 := size1
    offsets := CM_Trace_offsets size0 size1
    maxOffset := VectorLength env size1
    extents := ⟨0, 0, 0⟩
    bounds0 := ⟨bx.1, by_.1, bz.1⟩
    bounds1 := ⟨bx.2, by_.2, bz.2⟩
    modelOrigin := origin
    contents := brushmask
    skipContents := skipmask
    isPoint := false
    trace := defaultTrace
    sphere := sph }

/-- The point special case of `CM_Trace`, taken on the sweep branch only. -/
def CM_Trace_point (tw : traceWork_t) : traceWork_t :=
  if tw.size0.x = 0 ∧ tw.size0.y = 0 ∧ tw.size0.z = 0 then
    { tw with isPoint := true, extents := ⟨0, 0, 0⟩ }
  else
    { tw with isPoint := false, extents := ⟨tw.size1.x, tw.size1.y, tw.size1.z⟩ }

/-- The dispatch of `CM_Trace` after the set-up: position test or sweep,
against the world, the capsule model or another model. -/
def CM_Trace_dispatch (env : Env) (fuel : Nat) (cm : clipMap_t) (tw : traceWork_t)
    (start end_ : Vec3) (model : Nat) (cmod : cmodel_t) : Option (clipMap_t × traceWork_t) :=
  if start.x = end_.x ∧ start.y = end_.y ∧ start.z = end_.z then
    if model ≠ 0 then
      if model = env.CAPSULE_MODEL_HANDLE then
        if tw.type = traceType_t.TT_CAPSULE then
          match CM_TestCapsuleInCapsule env cm tw model with
          | none => none
          | some tw1 => some (cm, tw1)
        else CM_TestBoundingBoxInCapsule env cm tw model
      else CM_TestInLeaf env cm tw cmod.leaf
    else CM_PositionTest env cm tw
  else
    let tw0 := CM_Trace_point tw
    if model ≠ 0 then
      if model = env.CAPSULE_MODEL_HANDLE then
        if tw0.type = traceType_t.TT_CAPSULE then
          match CM_TraceCapsuleThroughCapsule env cm tw0 model with
          | none => none
          | some tw1 => some (cm, tw1)
        else CM_TraceBoundingBoxThroughCapsule env cm tw0 model
      else CM_TraceThroughLeaf env cm tw0 cmod.leaf
    else CM_TraceThroughTree env fuel cm tw0 0 0 1 tw0.start tw0.end_

/-- The function `CM_Trace`.  `fuel` bounds the depth of the tree walk; the
result is the new state of `cm` and `*results`. -/
def CM_Trace (env : Env) (fuel : Nat) (cm : clipMap_t) (start end_ : Vec3)
    (mins maxs : Option Vec3) (model : Nat) (origin : Vec3) (brushmask skipmask : Nat)
    (type : traceType_t) (sphere : Option sphere_t) : Option (clipMap_t × trace_t) :=
  match env.CM_ClipHandleToModel cm model with
  | none => none
  | some cmod =>
    let cm1 := { cm with checkcount := cm.checkcount + 1 }
    if cm1.numNodes = 0 then some (cm1, defaultTrace)
    else
      let tw := CM_Trace_setup env start end_ (mins.getD vec3_origin) (maxs.getD vec3_origin)
        origin brushmask skipmask type sphere
      match CM_Trace_dispatch env fuel cm1 tw start end_ model cmod with
      | none => none
      | some (cm2, tw2) =>
        if tw2.trace.fraction = 1 then some (cm2, { tw2.trace with endpos := end_ })
        else some (cm2, { tw2.trace with endpos := VectorLerp start end_ tw2.trace.fraction })

/-- The function `CM_BoxTrace`. -/
def CM_BoxTrace (env : Env) (fuel : Nat) (cm : clipMap_t) (start end_ : Vec3)
    (mins maxs : Option Vec3) (model : Nat) (brushmask skipmask : Nat) (type : traceType_t) :
    Option (clipMap_t × trace_t) :=
  CM_Trace env fuel cm start end_ mins maxs model vec3_origin brushmask skipmask type none

/-- The function `CM_TransformedBoxTrace`. -/
def CM_TransformedBoxTrace (env : Env) (fuel : Nat) (cm : clipMap_t) (start end_ : Vec3)
    (mins maxs : Option Vec3) (model : Nat) (brushmask skipmask : Nat) (origin angles : Vec3)
    (type : traceType_t) : Option (clipMap_t × trace_t) :=
  let mins1 := mins.getD vec3_origin
  let maxs1 := maxs.getD vec3_origin
  let offset := boxCentre mins1 maxs1
  let symetricSize0 := VectorSubtract mins1 offset
  let symetricSize1 := VectorSubtract maxs1 offset
  let start_l0 := VectorSubtract (VectorAdd start offset) origin
  let end_l0 := VectorSubtract (VectorAdd end_ offset) origin
  let rotated : Bool :=
    decide (model ≠ env.BOX_MODEL_HANDLE ∧ (angles.x ≠ 0 ∨ angles.y ≠ 0 ∨ angles.z ≠ 0))
  let halfwidth := symetricSize1.x
  let halfheight := symetricSize1.z
  let radius := capsuleRadius halfwidth halfheight
  let t := halfheight - radius
  let matrix := CreateRotationMatrix env angles
  let start_l := if rotated then RotatePoint start_l0 matrix.1 matrix.2.1 matrix.2.2 else start_l0
  let end_l := if rotated then RotatePoint end_l0 matrix.1 matrix.2.1 matrix.2.2 else end_l0
  let sphere : sphere_t :=
    { radius := radius
      halfheight := halfheight
      offset := if rotated then ⟨matrix.1.z * t, -matrix.2.1.z * t, matrix.2.2.z * t⟩
                else ⟨0, 0, t⟩ }
  match CM_Trace env fuel cm start_l end_l (some symetricSize0) (some symetricSize1) model origin
      brushmask skipmask type (some sphere) with
  | none => none
  | some (cm1, trace) =>
    let transpose := TransposeMatrix matrix.1 matrix.2.1 matrix.2.2
    let normal :=
      if rotated ∧ trace.fraction ≠ 1 then
        RotatePoint trace.plane.normal transpose.1 transpose.2.1 transpose.2.2
      else trace.plane.normal
    some (cm1, { trace with
      plane := { normal := normal, dist := trace.plane.dist }
      endpos := ⟨start.x + trace.fraction * (end_.x - start.x),
                 start.y + trace.fraction * (end_.y - start.y),
                 start.z + trace.fraction * (end_.z - start.z)⟩ })

/-! ## The consistency check -/

/-- The float literal `0.999999f`: the single-precision value nearest to
0.999999, which is `1 - 17 / 2^24`, below 0.999999. -/
def FLOAT_0_999999 : ℚ := 16777199 / 16777216

/-- The float literal `1.000001f`: the single-precision value nearest to
1.000001, which is `1 + 8 / 2^23`, below 1.000001. -/
def FLOAT_1_000001 : ℚ := 1048577 / 1048576

/-- The float literal `0.001f`: the single-precision value nearest to 0.001,
which is `8589935 / 2^33`, above 0.001. -/
def FLOAT_0_001 : ℚ := 8589935 / 8589934592

/-- The function `CM_CheckTraceConsistency`.  The three thresholds are the
values of the float literals of the source. -/
def CM_CheckTraceConsistency (env : Env) (start end_ : Vec3) (contentmask skipmask : Nat)
    (tr : trace_t) : String :=
  if ¬(tr.fraction ≥ 0 ∧ tr.fraction ≤ 1) then "fraction out of range"
  else if tr.allsolid = true ∧ tr.startsolid = false then "allsolid without startsolid"
  else if tr.allsolid = true ∧ tr.fraction ≠ 0 then "with allsolid fraction should be 0"
  else if tr.fraction = 1 ∧ tr.contents ≠ 0 then
    "should not have content flags with fraction==1"
  else if tr.fraction ≠ 1 ∧ tr.contents &&& contentmask = 0 then
    "trace has collision but no matching content flags"
  else if tr.fraction ≠ 1 ∧ tr.contents &&& skipmask ≠ 0 then "skipmask not respected"
  else if tr.allsolid = true ∧ tr.endpos ≠ start then
    "endpos not exactly equal to start with allsolid=true"
  else if tr.allsolid = false ∧ tr.fraction = 1 ∧ tr.endpos ≠ end_ then
    "endpos not exactly equal to end with fraction=1"
  else if tr.allsolid = false ∧ tr.fraction ≠ 1
      ∧ DistanceSquared tr.endpos
          (VectorMA (VectorScale end_ tr.fraction) (1 - tr.fraction) start)
        > Square FLOAT_0_001 then
    "endpos significantly different from expected"
  else if tr.allsolid = false ∧ tr.fraction ≠ 1
      ∧ (VectorLength env tr.plane.normal < FLOAT_0_999999
          ∨ VectorLength env tr.plane.normal > FLOAT_1_000001) then
    "plane normal has wrong length"
  else ""

/-! ## Distance to a model -/

/-- The side loop of `CM_DistanceToBrush`: the maximum of `dist` and of the
plane distances of `loc`. -/
def CM_DistanceToBrush_sides (loc : Vec3) : List cbrushside_t → ℚ → ℚ
  | [], dist => dist
  | side :: rest, dist =>
    let d1 := DotProduct loc side.plane.normal - side.plane.dist
    CM_DistanceToBrush_sides loc rest (if d1 > dist then d1 else dist)

/-- The function `CM_DistanceToBrush`. -/
def CM_DistanceToBrush (loc : Vec3) (brush : cbrush_t) : ℚ :=
  if brush.sides.length = 0 then 999999
  else CM_DistanceToBrush_sides loc brush.sides (-999999)

/-- The brush loop of `CM_DistanceToModel`. -/
def CM_DistanceToModel_brushes (cm : clipMap_t) (loc : Vec3) : List Nat → ℚ → Option ℚ
  | [], dist => some dist
  | brushNum :: rest, dist =>
    match cm.brushes[brushNum]? with
    | none => none
    | some b =>
      let d1 := CM_DistanceToBrush loc b
      CM_DistanceToModel_brushes cm loc rest (if d1 < dist then d1 else dist)

/-- The function `CM_DistanceToModel`. -/
def CM_DistanceToModel (env : Env) (cm : clipMap_t) (loc : Vec3) (model : Nat) : Option ℚ :=
  match env.CM_ClipHandleToModel cm model with
  | none => none
  | some cmod => CM_DistanceToModel_brushes cm loc cmod.leaf.leafBrushes 999999

/-! ## Example data

A concrete environment and a small world, on which the functions above can be
evaluated. -/

/-- Newton iteration for the integer square root of `n`, from the guess `x`. -/
def natSqrtIter (n : Nat) : Nat → Nat → Nat
  | 0, x => x
  | k + 1, x =>
    if (x + n / x) / 2 < x then natSqrtIter n k ((x + n / x) / 2) else x

/-- A rational square root, exact on squares of rationals and rounded down
otherwise: `sqrt (a / b) = sqrt (a * b) / b`. -/
def exampleSqrt (q : ℚ) : ℚ :=
  (natSqrtIter (q.num.toNat * q.den) 64 (q.num.toNat * q.den) : ℚ) / (q.den : ℚ)

/-- The axial plane with normal `n`, distance `d`, type `t` and sign bits `sb`. -/
def axialSide (n : Vec3) (d : ℚ) (t : Nat) (sb : Fin 8) (flags : Nat) : cbrushside_t :=
  { plane := { normal := n, dist := d, type := t, signbits := sb }, surfaceFlags := flags }

/-- The unit cube `[0,1]³` as a brush of six axial sides with contents 1. -/
def unitCube : cbrush_t :=
  { contents := 1
    bounds0 := ⟨0, 0, 0⟩
    bounds1 := ⟨1, 1, 1⟩
    sides := [axialSide ⟨-1, 0, 0⟩ 0 0 1 10, axialSide ⟨1, 0, 0⟩ 1 0 0 11,
              axialSide ⟨0, -1, 0⟩ 0 1 2 12, axialSide ⟨0, 1, 0⟩ 1 1 0 13,
              axialSide ⟨0, 0, -1⟩ 0 2 4 14, axialSide ⟨0, 0, 1⟩ 1 2 0 15]
    checkcount := 0 }

/-- A loaded world: one node whose two children are the single leaf, which
holds the unit cube. -/
def exampleWorld : clipMap_t :=
  { numNodes := 1
    nodes := [{ plane := { normal := ⟨1, 0, 0⟩, dist := 0, type := 0, signbits := 0 },
                child0 := -1, child1 := -1 }]
    leafs := [{ leafBrushes := [0], leafSurfaces := [] }]
    brushes := [unitCube]
    surfaces := []
    checkcount := 0
    perPolyCollision := false }

/-- The world before any map is loaded. -/
def emptyWorld : clipMap_t :=
  { numNodes := 0, nodes := [], leafs := [], brushes := [], surfaces := [], checkcount := 0,
    perPolyCollision := false }

/-- The model table of the example environment: handle 0 is the world, handle
1 an inline model holding brush 0, handle 254 the capsule model with bounds
`[-10,10]³` and handle 255 the box model. -/
def exampleModel (h : Nat) : Option cmodel_t :=
  if h = 0 then some { mins := ⟨0, 0, 0⟩, maxs := ⟨1, 1, 1⟩, leaf := ⟨[], []⟩ }
  else if h = 1 then some { mins := ⟨0, 0, 0⟩, maxs := ⟨1, 1, 1⟩, leaf := ⟨[0], []⟩ }
  else if h = 254 then
    some { mins := ⟨-10, -10, -10⟩, maxs := ⟨10, 10, 10⟩, leaf := ⟨[], []⟩ }
  else if h = 255 then
    some { mins := ⟨-10, -10, -10⟩, maxs := ⟨10, 10, 10⟩, leaf := ⟨[], []⟩ }
  else none

/-- An environment for the examples. -/
def exampleEnv : Env :=
  { sqrtf := exampleSqrt
    AngleVectors := fun _ => (⟨1, 0, 0⟩, ⟨0, -1, 0⟩, ⟨0, 0, 1⟩)
    CM_ClipHandleToModel := fun _ h => exampleModel h
    CM_ModelBounds := fun _ h => (exampleModel h).map (fun m => (m.mins, m.maxs))
    CM_TempBoxModel := fun cm _ _ _ => (cm, 255)
    CM_BoxLeafnums := fun cm _ _ => List.range cm.leafs.length
    CM_BoundsIntersect := fun mins maxs mins2 maxs2 =>
      !(decide (maxs.x < mins2.x) || decide (maxs.y < mins2.y) || decide (maxs.z < mins2.z)
        || decide (mins.x > maxs2.x) || decide (mins.y > maxs2.y) || decide (mins.z > maxs2.z))
    cm_noCurves := false
    cm_forceTriangles := false
    CONTENTS_BODY := 33554432
    BOX_MODEL_HANDLE := 255
    CAPSULE_MODEL_HANDLE := 254 }

/-- The example world after a trace that visited its leaf: `cm.checkcount`
is 1 and the cube carries the stamp 1. -/
def exampleWorldVisited : clipMap_t :=
  { exampleWorld with checkcount := 1, brushes := [{ unitCube with checkcount := 1 }] }

/-- The example world after a trace that did not visit its leaf. -/
def exampleWorldCounted : clipMap_t :=
  { exampleWorld with checkcount := 1 }

/-- A trace state for the examples: a point mover from `(-1, 1/2, 1/2)` to
`(2, 1/2, 1/2)` with the default trace. -/
def exampleWork : traceWork_t :=
  CM_Trace_point
    (CM_Trace_setup exampleEnv ⟨-1, 1 / 2, 1 / 2⟩ ⟨2, 1 / 2, 1 / 2⟩ vec3_origin vec3_origin
      vec3_origin 1 0 traceType_t.TT_AABB none)

/-- The result of the point trace from `(-1, 1/2, 1/2)` to `(2, 1/2, 1/2)`
through the example world: a hit on the face `x = 0` of the cube. -/
def exampleHit : trace_t :=
  { allsolid := false, startsolid := false, fraction := 7 / 24,
    endpos := ⟨-1 / 8, 1 / 2, 1 / 2⟩, plane := ⟨⟨-1, 0, 0⟩, 0⟩, surfaceFlags := 10,
    contents := 1 }

/-- The example world after a position test that visited its leaf:
`cm.checkcount` has been incremented three times. -/
def exampleWorldTested : clipMap_t :=
  { exampleWorld with checkcount := 3, brushes := [{ unitCube with checkcount := 3 }] }

/-- The result of the position test of the box `[-1,1]³` at `(1/2, 1/2, 1/2)`
in the example world: inside the cube. -/
def exampleSolid : trace_t :=
  { allsolid := true, startsolid := true, fraction := 0, endpos := ⟨1 / 2, 1 / 2, 1 / 2⟩,
    plane := ⟨⟨0, 0, 0⟩, 0⟩, surfaceFlags := 0, contents := 1 }

/-- The empty world after a trace: only `cm.checkcount` has changed. -/
def emptyWorldCounted : clipMap_t :=
  { emptyWorld with checkcount := 1 }

/-- The result of the capsule `[-10,10]³` swept from `(5, 0, 0)` to
`(100, 0, 0)` against the capsule model: it starts inside the target sphere
and ends outside it. -/
def exampleCapsuleStartsolid : trace_t :=
  { allsolid := false, startsolid := true, fraction := 0, endpos := ⟨5, 0, 0⟩,
    plane := ⟨⟨0, 0, 0⟩, 0⟩, surfaceFlags := 0, contents := 0 }

/-- The result of the position test of the capsule `[-10,10]³` at `(5, 0, 0)`
against the capsule model. -/
def exampleCapsuleSolid : trace_t :=
  { allsolid := true, startsolid := true, fraction := 0, endpos := ⟨5, 0, 0⟩,
    plane := ⟨⟨0, 0, 0⟩, 0⟩, surfaceFlags := 0, contents := 0 }

/-- The result of the capsule `[-10,10]³` swept from `(-41/2, 0, 0)` to
`(50, 0, 0)` against the capsule model: the start is outside the target
sphere of radius 20 and inside the sphere of radius 21 that the sweep solves
for, and the near root is clamped to 0. -/
def exampleCapsuleClamped : trace_t :=
  { allsolid := false, startsolid := false, fraction := 0, endpos := ⟨-41 / 2, 0, 0⟩,
    plane := ⟨⟨-41 / 42, 0, 0⟩, 1681 / 84⟩, surfaceFlags := 0, contents := 33554432 }

/-! ## Invariants of a trace result -/

/-- Invariant 2 of the specification: `allsolid` implies `startsolid` and a
zero fraction. -/
def AllsolidInv (t : trace_t) : Prop :=
  t.allsolid = true → t.startsolid = true ∧ t.fraction = 0

/-- The contents part of invariant 3: a fraction of 1 comes with no contents
and no surface flags. -/
def NoHitInv (t : trace_t) : Prop :=
  t.fraction = 1 → t.contents = 0 ∧ t.surfaceFlags = 0

/-- Invariants 1 to 7 of the specification, of a trace result `tr` for the
arguments `start`, `end`, `contentmask` and `skipmask`.  "Within 0.001" is
stated on the squared distance. -/
def SpecInvariants (env : Env) (start end_ : Vec3) (contentmask skipmask : Nat)
    (tr : trace_t) : Prop :=
  (0 ≤ tr.fraction ∧ tr.fraction ≤ 1) ∧
  (tr.allsolid = true → tr.startsolid = true ∧ tr.fraction = 0) ∧
  (tr.fraction = 1 → tr.contents = 0 ∧ tr.surfaceFlags = 0 ∧ tr.endpos = end_) ∧
  (tr.fraction < 1 → tr.contents &&& contentmask ≠ 0 ∧ tr.contents &&& skipmask = 0) ∧
  (tr.allsolid = true → tr.endpos = start) ∧
  (tr.allsolid = false →
    DistanceSquared tr.endpos (VectorLerp start end_ tr.fraction) ≤ Square (1 / 1000)) ∧
  (tr.fraction < 1 ∧ tr.allsolid = false →
    999999 / 1000000 ≤ VectorLength env tr.plane.normal ∧
    VectorLength env tr.plane.normal ≤ 1000001 / 1000000)

/-- The sign bits of a plane are those of its normal: bit `i` is set exactly
when component `i` of the normal is negative (the `Plane` invariant of the
data model). -/
def ValidSignbits (p : cplane_t) : Prop :=
  (p.signbits.val % 2 = 1 ↔ p.normal.x < 0) ∧
  (p.signbits.val / 2 % 2 = 1 ↔ p.normal.y < 0) ∧
  (p.signbits.val / 4 % 2 = 1 ↔ p.normal.z < 0)

/-- The least value of `dot(c, n)` over the points `c` of the box `mins`,
`maxs`: on each axis the corner takes `maxs` where the normal is negative and
`mins` elsewhere. -/
def boxSupport (mins maxs n : Vec3) : ℚ :=
  n.x * (if n.x < 0 then maxs.x else mins.x)
  + n.y * (if n.y < 0 then maxs.y else mins.y)
  + n.z * (if n.z < 0 then maxs.z else mins.z)

/-- The test of `CM_TraceThroughBrush` for a trace completely in front of a
side, on the distances `d1`, `d2`. -/
def sideRejects (d1 d2 : ℚ) : Prop :=
  d1 > 0 ∧ (d2 ≥ SURFACE_CLIP_EPSILON ∨ d2 ≥ d1)

/-- The value of `enterFrac` after a side with distances `d1`, `d2` that does
not reject the trace, from the value `e` before it. -/
def sideEnter (d1 d2 e : ℚ) : ℚ :=
  if d1 ≤ 0 ∧ d2 ≤ 0 then e
  else if d1 > d2 then
    if enterFraction d1 d2 > e then enterFraction d1 d2 else e
  else e

/-- The value of `leaveFrac` after a side with distances `d1`, `d2` that does
not reject the trace, from the value `l` before it. -/
def sideLeave (d1 d2 l : ℚ) : ℚ :=
  if d1 ≤ 0 ∧ d2 ≤ 0 then l
  else if d1 > d2 then l
  else
    if leaveFraction d1 d2 < l then leaveFraction d1 d2 else l

/-- The loop state of the smaller mover is ahead of that of the larger one:
it enters no earlier, leaves no later, and starts outside whenever the larger
one does. -/
def BrushLoopLe (stL stS : BrushLoop) : Prop :=
  stL.enterFrac ≤ stS.enterFrac ∧ stS.leaveFrac ≤ stL.leaveFrac ∧
  (stL.startout = true → stS.startout = true)

/-- What the side loop of `CM_TraceThroughBrush` maintains: a start outside
some side comes with an `enterFrac` of at least 0, and an `enterFrac` above -1
comes with a clip plane and a lead side. -/
def BrushLoopInv (st : BrushLoop) : Prop :=
  (st.startout = true → 0 ≤ st.enterFrac) ∧
  (-1 < st.enterFrac → st.clipplane.isSome = true ∧ st.leadside.isSome = true)

/-- The result of the box `[-2,2]³` swept from `(-3/2, 1/2, 1/2)` to
`(10, 1/2, 1/2)` through the unit cube: the box starts inside the expanded
cube and ends outside it, so only `startsolid` is set. -/
def exampleLargeBoxSweep : trace_t :=
  { defaultTrace with startsolid := true }

/-- A surface collide is well formed when every plane index of its facets is
in range. -/
def SurfaceCollideOk (sc : cSurfaceCollide_t) : Prop :=
  ∀ f ∈ sc.facets, f.surfacePlane < sc.planes.length ∧
    ∀ b ∈ f.borders, b.1 < sc.planes.length

/-- A leaf is well formed in a world when its brush and surface numbers are
in range. -/
def LeafOk (cm : clipMap_t) (leaf : cLeaf_t) : Prop :=
  (∀ i ∈ leaf.leafBrushes, i < cm.brushes.length) ∧
  (∀ i ∈ leaf.leafSurfaces, i < cm.surfaces.length)

/-- Every surface of the world carries a well-formed surface collide. -/
def SurfacesOk (cm : clipMap_t) : Prop :=
  ∀ surface : cSurface_t, some surface ∈ cm.surfaces →
    ∃ sc, surface.sc = some sc ∧ SurfaceCollideOk sc

/-- The tree below node or leaf `num` is well formed and at most `depth`
levels deep: node and leaf numbers are in range and the leafs are well
formed. -/
def TreeOk (cm : clipMap_t) : Nat → Int → Prop
  | 0, _ => False
  | depth + 1, num =>
    if num < 0 then ∃ leaf, cm.leafs[(-1 - num).toNat]? = some leaf ∧ LeafOk cm leaf
    else ∃ node, cm.nodes[num.toNat]? = some node ∧
      TreeOk cm depth node.child0 ∧ TreeOk cm depth node.child1

/-- A world is well formed when its leafs and its surfaces are. -/
def WorldOk (cm : clipMap_t) : Prop :=
  (∀ leaf ∈ cm.leafs, LeafOk cm leaf) ∧ SurfacesOk cm

/-- The world `cm1` is the world `cm` up to the check counts: same nodes and
leafs, as many brushes and surfaces, and well-formed surfaces if `cm` has. -/
def SameWorld (cm cm1 : clipMap_t) : Prop :=
  cm1.nodes = cm.nodes ∧ cm1.leafs = cm.leafs ∧
  cm1.brushes.length = cm.brushes.length ∧ cm1.surfaces.length = cm.surfaces.length ∧
  (SurfacesOk cm → SurfacesOk cm1)

/-- What a trace against model `model` in world `cm` needs of the
environment: the model exists and its leaf is well formed, model bounds
exist, the temporary box model is a well-formed model of a well-formed world,
and the leaf enumeration returns leaf numbers in range. -/
def EnvOk (env : Env) (cm : clipMap_t) (model : Nat) : Prop :=
  (∃ cmod, env.CM_ClipHandleToModel cm model = some cmod ∧ LeafOk cm cmod.leaf) ∧
  (∀ cm1 : clipMap_t, ∃ b, env.CM_ModelBounds cm1 model = some b) ∧
  (∀ (cm1 : clipMap_t) (a b : Vec3), WorldOk cm1 →
    WorldOk (env.CM_TempBoxModel cm1 a b false).1 ∧
    ∃ cmod, env.CM_ClipHandleToModel (env.CM_TempBoxModel cm1 a b false).1
        (env.CM_TempBoxModel cm1 a b false).2 = some cmod ∧
      LeafOk (env.CM_TempBoxModel cm1 a b false).1 cmod.leaf) ∧
  (∀ (cm1 : clipMap_t) (a b : Vec3), ∀ i ∈ env.CM_BoxLeafnums cm1 a b, i < cm1.leafs.length)

/-- The distance of `loc` to the plane of a brush side. -/
def sideDistance (loc : Vec3) (side : cbrushside_t) : ℚ :=
  DotProduct loc side.plane.normal - side.plane.dist

/-- The value of one brush for `CM_DistanceToModel`, in the words of the
specification: 999999 for a brush with no sides, otherwise the maximum of
-999999 and of `dot(loc, normal) - dist` over the sides. -/
def brushDistanceSpec (loc : Vec3) (brush : cbrush_t) : ℚ :=
  if brush.sides = [] then 999999
  else (brush.sides.map (sideDistance loc)).foldr max (-999999)

/-- The value of a model in the words of the specification: the minimum of
999999 and of the values of its brushes. -/
def modelDistanceSpec (loc : Vec3) (brushes : List cbrush_t) : ℚ :=
  (brushes.map (brushDistanceSpec loc)).foldr min 999999

/-- The brushes of a leaf: those that its brush numbers select in the world. -/
def leafBrushList (cm : clipMap_t) (leaf : cLeaf_t) : List cbrush_t :=
  leaf.leafBrushes.filterMap (fun i => cm.brushes[i]?)

/-- The six axial planes that define the bounds of a brush, each as its
normal and its distance. -/
def axialPlanes (brush : cbrush_t) : List (Vec3 × ℚ) :=
  [(⟨-1, 0, 0⟩, -brush.bounds0.x), (⟨1, 0, 0⟩, brush.bounds1.x),
   (⟨0, -1, 0⟩, -brush.bounds0.y), (⟨0, 1, 0⟩, brush.bounds1.y),
   (⟨0, 0, -1⟩, -brush.bounds0.z), (⟨0, 0, 1⟩, brush.bounds1.z)]

/-- The brush invariant of the data model: the brush has at least six sides
and its first six sides are, in some order, the six axial planes that define
its bounds, each with the sign bits of its normal. -/
def AxialFirstSix (brush : cbrush_t) : Prop :=
  6 ≤ brush.sides.length ∧
  (∀ s ∈ brush.sides.take 6,
    ValidSignbits s.plane ∧ (s.plane.normal, s.plane.dist) ∈ axialPlanes brush) ∧
  (∀ a ∈ axialPlanes brush, ∃ s ∈ brush.sides.take 6, (s.plane.normal, s.plane.dist) = a)

/-- The trace state of a position test: what `CM_Trace` sets up for
`end = start`, holding the trace `t`. -/
def positionWork (env : Env) (start mins maxs origin : Vec3) (brushmask skipmask : Nat)
    (type : traceType_t) (sphere : Option sphere_t) (t : trace_t) : traceWork_t :=
  { CM_Trace_setup env start start mins maxs origin brushmask skipmask type sphere with
    trace := t }

/-- The bounds test of `CM_TestBoxInBrush`: the bounds of the trace miss the
bounds of the brush. -/
def boundsMiss (tw : traceWork_t) (brush : cbrush_t) : Prop :=
  tw.bounds0.x > brush.bounds1.x ∨ tw.bounds0.y > brush.bounds1.y
    ∨ tw.bounds0.z > brush.bounds1.z ∨ tw.bounds1.x < brush.bounds0.x
    ∨ tw.bounds1.y < brush.bounds0.y ∨ tw.bounds1.z < brush.bounds0.z

/-- The example environment with the bounds `mins`, `maxs` for every model:
a capsule target of that size and place. -/
def exampleEnvWithBounds (mins maxs : Vec3) : Env :=
  { exampleEnv with CM_ModelBounds := fun _ _ => some (mins, maxs) }

/-- The trace state that `CM_Trace` sets up for a position test of the capsule
`[-10,10]² × [-50,50]` at `(15, 0, 30)`. -/
def exampleTallCapsuleWork : traceWork_t :=
  CM_Trace_setup exampleEnv ⟨15, 0, 30⟩ ⟨15, 0, 30⟩ ⟨-10, -10, -50⟩ ⟨10, 10, 50⟩ vec3_origin 1 0
    traceType_t.TT_CAPSULE none

/-- The trace reports a solid position: `startsolid = allsolid = true` and
`fraction = 0`. -/
def ReportsSolid (tw : traceWork_t) : Prop :=
  tw.trace.startsolid = true ∧ tw.trace.allsolid = true ∧ tw.trace.fraction = 0

/-- The side is treated in the enter branch of the side loop of
`CM_TraceThroughBrush`: the trace crosses its plane (the two distances are not
both at most 0) going in (`d1 > d2`). -/
def sideEnters (tw : traceWork_t) (side : cbrushside_t) : Prop :=
  (CM_sideDistances tw side.plane).1 > (CM_sideDistances tw side.plane).2 ∧
  ¬((CM_sideDistances tw side.plane).1 ≤ 0 ∧ (CM_sideDistances tw side.plane).2 ≤ 0)

instance sideEnters_decidable (tw : traceWork_t) (side : cbrushside_t) :
    Decidable (sideEnters tw side) := by
  unfold sideEnters
  infer_instance

/-- The entering sides of a list of sides, in their order. -/
def enteringSides (tw : traceWork_t) (sides : List cbrushside_t) : List cbrushside_t :=
  sides.filter (fun s => decide (sideEnters tw s))

/-- The entering value of a side in the words of the specification:
`max(0, (d1 - SURFACE_CLIP_EPSILON) / (d1 - d2))`. -/
def enterValue (tw : traceWork_t) (side : cbrushside_t) : ℚ :=
  max 0 (((CM_sideDistances tw side.plane).1 - SURFACE_CLIP_EPSILON)
    / ((CM_sideDistances tw side.plane).1 - (CM_sideDistances tw side.plane).2))

/-- The function `CM_TraceThroughBrush` records a hit: the brush has sides, the
side loop runs to its end, and the tests `startout`, `enterFrac < leaveFrac`,
`enterFrac > -1` and `enterFrac < tw->trace.fraction` that guard the
assignment of the plane all pass. -/
def CM_TraceThroughBrush_hit (tw : traceWork_t) (brush : cbrush_t) : Prop :=
  brush.sides.length ≠ 0 ∧
  match CM_TraceThroughBrush_sides tw brush.sides BrushLoop.init with
  | none => False
  | some st => st.startout = true ∧ st.enterFrac < st.leaveFrac ∧ st.enterFrac > -1
      ∧ st.enterFrac < tw.trace.fraction

instance CM_TraceThroughBrush_hit_decidable (tw : traceWork_t) (brush : cbrush_t) :
    Decidable (CM_TraceThroughBrush_hit tw brush) := by
  unfold CM_TraceThroughBrush_hit
  cases CM_TraceThroughBrush_sides tw brush.sides BrushLoop.init <;> infer_instance

/-- What the side loop of `CM_TraceThroughBrush` has found after the sides
`pre`: nothing (`enterFrac = -1`, no entering side), or the first entering
side of the greatest entering value, which is `enterFrac`. -/
def EnterInv (tw : traceWork_t) (pre : List cbrushside_t) (st : BrushLoop) : Prop :=
  (st.enterFrac = -1 ∧ enteringSides tw pre = []) ∨
  (∃ side, (enteringSides tw pre).find? (fun s => decide (enterValue tw s = st.enterFrac))
      = some side ∧
    st.leadside = some side ∧ st.clipplane = some side.plane ∧
    ∀ s ∈ enteringSides tw pre, enterValue tw s ≤ st.enterFrac)

/-- The direction and the length of the move in the XY plane, as
`CM_TraceThroughVerticalCylinder` gets them from `VectorNormalize`. -/
def cylinderDir (env : Env) (start end_ : Vec3) : Vec3 × ℚ :=
  VectorNormalize env (VectorSubtract ⟨end_.x, end_.y, 0⟩ ⟨start.x, start.y, 0⟩)

/-- The coefficient `b` of the quadratic of `CM_TraceThroughVerticalCylinder`. -/
def cylinderB (env : Env) (origin start end_ : Vec3) : ℚ :=
  2 * ((VectorSubtract start origin).x * (cylinderDir env start end_).1.x
    + (VectorSubtract start origin).y * (cylinderDir env start end_).1.y)

/-- The coefficient `c` of the quadratic of `CM_TraceThroughVerticalCylinder`. -/
def cylinderC (origin : Vec3) (radius : ℚ) (start : Vec3) : ℚ :=
  (VectorSubtract start origin).x * (VectorSubtract start origin).x
    + (VectorSubtract start origin).y * (VectorSubtract start origin).y
    - (radius + RADIUS_EPSILON) * (radius + RADIUS_EPSILON)

/-- The discriminant `d = b * b - 4 * c` of `CM_TraceThroughVerticalCylinder`. -/
def cylinderDisc (env : Env) (origin : Vec3) (radius : ℚ) (start end_ : Vec3) : ℚ :=
  cylinderB env origin start end_ * cylinderB env origin start end_
    - 4 * cylinderC origin radius start

/-- The near root `( -b - sqrtd ) * 0.5` of `CM_TraceThroughVerticalCylinder`,
before it is clamped and divided by the length. -/
def cylinderRoot (env : Env) (origin : Vec3) (radius : ℚ) (start end_ : Vec3) : ℚ :=
  (-cylinderB env origin start end_ - env.sqrtf (cylinderDisc env origin radius start end_))
    * (1 / 2)

/-- The fraction of `CM_TraceThroughVerticalCylinder`: the near root clamped
at 0, or divided by the length. -/
def cylinderFraction (env : Env) (origin : Vec3) (radius : ℚ) (start end_ : Vec3) : ℚ :=
  if cylinderRoot env origin radius start end_ < 0 then 0
  else cylinderRoot env origin radius start end_ / (cylinderDir env start end_).2

/-- The function `CM_TraceThroughVerticalCylinder` records a hit: the start is
not inside the cylinder, the early-out for a trace that misses is not taken,
the discriminant is positive, the fraction is below that of the trace and the
intersection is between the lower and the upper bound of the cylinder. -/
def CM_TraceThroughVerticalCylinder_hit (env : Env) (tw : traceWork_t) (origin : Vec3)
    (radius halfheight : ℚ) (start end_ : Vec3) : Prop :=
  ¬((start.z ≤ origin.z + halfheight ∧ start.z ≥ origin.z - halfheight) ∧
    VectorLengthSquared (VectorSubtract ⟨start.x, start.y, 0⟩ ⟨origin.x, origin.y, 0⟩)
      < Square radius) ∧
  ¬(CM_DistanceFromLineSquared ⟨origin.x, origin.y, 0⟩ ⟨start.x, start.y, 0⟩
        ⟨end_.x, end_.y, 0⟩ (cylinderDir env start end_).1 ≥ Square radius ∧
    VectorLengthSquared (VectorSubtract ⟨end_.x, end_.y, 0⟩ ⟨origin.x, origin.y, 0⟩)
      > Square (radius + SURFACE_CLIP_EPSILON)) ∧
  cylinderDisc env origin radius start end_ > 0 ∧
  cylinderFraction env origin radius start end_ < tw.trace.fraction ∧
  (VectorMA start (cylinderFraction env origin radius start end_)
      (VectorSubtract end_ start)).z ≤ origin.z + halfheight ∧
  (VectorMA start (cylinderFraction env origin radius start end_)
      (VectorSubtract end_ start)).z ≥ origin.z - halfheight

instance CM_TraceThroughVerticalCylinder_hit_decidable (env : Env) (tw : traceWork_t)
    (origin : Vec3) (radius halfheight : ℚ) (start end_ : Vec3) :
    Decidable (CM_TraceThroughVerticalCylinder_hit env tw origin radius halfheight start end_) := by
  unfold CM_TraceThroughVerticalCylinder_hit
  infer_instance

/-- The trace state that `CM_Trace` sets up for the sweep of the capsule
`[-10,10]³` (a sphere of radius 10) from `(0, 0, 0)` to `(100, 0, 0)`. -/
def exampleSphereSweepWork : traceWork_t :=
  CM_Trace_point
    (CM_Trace_setup exampleEnv ⟨0, 0, 0⟩ ⟨100, 0, 0⟩ ⟨-10, -10, -10⟩ ⟨10, 10, 10⟩ vec3_origin
      33554432 0 traceType_t.TT_CAPSULE none)

/-- The contents `c` of a brush or surface pass the two masks of the trace:
`(c & tw.contents) != 0` and `(c & tw.skipContents) == 0`. -/
def passesMasks (tw : traceWork_t) (c : Nat) : Prop :=
  c &&& tw.contents ≠ 0 ∧ c &&& tw.skipContents = 0

instance passesMasks_decidable (tw : traceWork_t) (c : Nat) : Decidable (passesMasks tw c) := by
  unfold passesMasks
  infer_instance

/-- The trace state `tw1` has the masks of `tw` and the trace contents of `tw`
or the contents `c`. -/
def ContentsStep (tw tw1 : traceWork_t) (c : Nat) : Prop :=
  tw1.contents = tw.contents ∧ tw1.skipContents = tw.skipContents ∧
  (tw1.trace.contents = tw.trace.contents ∨ tw1.trace.contents = c)

/-- The trace state `tw1` has the masks and the trace contents of `tw`. -/
def ContentsKept (tw tw1 : traceWork_t) : Prop :=
  tw1.contents = tw.contents ∧ tw1.skipContents = tw.skipContents ∧
  tw1.trace.contents = tw.trace.contents

/-- The brushes and surfaces of `cm1` have the contents that they have in
`cm`. -/
def SameContents (cm cm1 : clipMap_t) : Prop :=
  (∀ (i : Nat) (b1 : cbrush_t), cm1.brushes[i]? = some b1 →
    ∃ b, cm.brushes[i]? = some b ∧ b.contents = b1.contents) ∧
  (∀ (i : Nat) (s1 : cSurface_t), cm1.surfaces[i]? = some (some s1) →
    ∃ s, cm.surfaces[i]? = some (some s) ∧ s.contents = s1.contents)

/-- The trace state `tw1` has the masks of `tw`, and its trace contents are
those of `tw` or those of a brush among `brushes` or a surface among
`surfaces` of the world `cm` that passes the masks. -/
def ContentsFrom (cm : clipMap_t) (brushes surfaces : List Nat) (tw tw1 : traceWork_t) : Prop :=
  tw1.contents = tw.contents ∧ tw1.skipContents = tw.skipContents ∧
  (tw1.trace.contents = tw.trace.contents ∨
    (∃ i ∈ brushes, ∃ b, cm.brushes[i]? = some b ∧ passesMasks tw b.contents ∧
      tw1.trace.contents = b.contents) ∨
    (∃ i ∈ surfaces, ∃ s, cm.surfaces[i]? = some (some s) ∧ passesMasks tw s.contents ∧
      tw1.trace.contents = s.contents))

/-- No brush among `brushes` and no surface among `surfaces` of the world
`cm` passes the masks of the trace. -/
def NonePasses (cm : clipMap_t) (brushes surfaces : List Nat) (tw : traceWork_t) : Prop :=
  (∀ i ∈ brushes, ∀ b, cm.brushes[i]? = some b → ¬passesMasks tw b.contents) ∧
  (∀ i ∈ surfaces, ∀ s, cm.surfaces[i]? = some (some s) → ¬passesMasks tw s.contents)

/-- A trace state for the examples: the point mover of `exampleWork` with the
brush mask 2, which the unit cube (contents 1) does not pass. -/
def exampleMaskedWork : traceWork_t :=
  { exampleWork with contents := 2 }

/-- The trace state `tw` with another model origin and another distance of
the trace plane: the two fields in which the trace states of
`CM_TransformedBoxTrace` and of `CM_BoxTrace` on the translated input may
differ. -/
def tweak (tw : traceWork_t) (o : Vec3) (d : ℚ) : traceWork_t :=
  { tw with
    modelOrigin := o
    trace := { tw.trace with plane := { normal := tw.trace.plane.normal, dist := d } } }

/-- The trace state that `CM_Trace` sets up for the sweep of the capsule
`[-10,10]³` (a sphere of radius 10) from `(-41/2, 0, 0)` to `(50, 0, 0)`. -/
def exampleClampedSphereWork : traceWork_t :=
  CM_Trace_point
    (CM_Trace_setup exampleEnv ⟨-41 / 2, 0, 0⟩ ⟨50, 0, 0⟩ ⟨-10, -10, -10⟩ ⟨10, 10, 10⟩ vec3_origin
      33554432 0 traceType_t.TT_CAPSULE none)

/-- A patch of one facet: the unit square `[0,1]²` in the plane `z = 0`, facing
up.  Plane 0 is the surface plane, planes 1 to 4 are the borders around the
square, and the last border is the back side, the surface plane turned
inward. -/
def examplePatch : cSurfaceCollide_t :=
  { bounds0 := ⟨0, 0, 0⟩
    bounds1 := ⟨1, 1, 0⟩
    planes := [{ plane := ⟨⟨0, 0, 1⟩, 0⟩, signbits := 0 },
               { plane := ⟨⟨-1, 0, 0⟩, 0⟩, signbits := 1 },
               { plane := ⟨⟨1, 0, 0⟩, 1⟩, signbits := 0 },
               { plane := ⟨⟨0, -1, 0⟩, 0⟩, signbits := 2 },
               { plane := ⟨⟨0, 1, 0⟩, 1⟩, signbits := 0 }]
    facets := [{ surfacePlane := 0,
                 borders := [(1, false), (2, false), (3, false), (4, false), (0, true)] }] }

/-- A loaded world whose single leaf holds one patch surface, the example
patch, with contents 1 and surface flags 7. -/
def examplePatchWorld : clipMap_t :=
  { numNodes := 1
    nodes := [{ plane := { normal := ⟨1, 0, 0⟩, dist := 0, type := 0, signbits := 0 },
                child0 := -1, child1 := -1 }]
    leafs := [{ leafBrushes := [], leafSurfaces := [0] }]
    brushes := []
    surfaces := [some { type := mapSurfaceType_t.MST_PATCH, checkcount := 0, surfaceFlags := 7,
                        contents := 1, sc := some examplePatch }]
    checkcount := 0
    perPolyCollision := false }

instance sideRejects_decidable (d1 d2 : ℚ) : Decidable (sideRejects d1 d2) := by
  unfold sideRejects
  infer_instance

/-- The enter branch of the side loop of `CM_TraceThroughBrush` and of
`CM_CheckFacetPlane`, where the enter quotient is evaluated: the trace is not
completely in front of the plane, the two distances are not both at most 0,
and `d1 > d2`. -/
def enterBranch (d1 d2 : ℚ) : Prop :=
  ¬sideRejects d1 d2 ∧ ¬(d1 ≤ 0 ∧ d2 ≤ 0) ∧ d1 > d2

/-- The leave branch of the side loop of `CM_TraceThroughBrush` and of
`CM_CheckFacetPlane`, where the leave quotient is evaluated: the trace is not
completely in front of the plane, the two distances are not both at most 0,
and not `d1 > d2`. -/
def leaveBranch (d1 d2 : ℚ) : Prop :=
  ¬sideRejects d1 d2 ∧ ¬(d1 ≤ 0 ∧ d2 ≤ 0) ∧ ¬(d1 > d2)

instance enterBranch_decidable (d1 d2 : ℚ) : Decidable (enterBranch d1 d2) := by
  unfold enterBranch
  infer_instance

instance leaveBranch_decidable (d1 d2 : ℚ) : Decidable (leaveBranch d1 d2) := by
  unfold leaveBranch
  infer_instance

/-- The trace state that `CM_Trace` sets up for the sweep of the box `[-2,2]³`
from `(-3/2, 1/2, 1/2)` to `(10, 1/2, 1/2)`. -/
def exampleLargeBoxWork : traceWork_t :=
  CM_Trace_point
    (CM_Trace_setup exampleEnv ⟨-3 / 2, 1 / 2, 1 / 2⟩ ⟨10, 1 / 2, 1 / 2⟩ ⟨-2, -2, -2⟩ ⟨2, 2, 2⟩
      vec3_origin 1 0 traceType_t.TT_AABB none)

/-- The trace state of a sweep: what `CM_Trace` sets up on its sweep branch,
holding the trace `t`. -/
def sweepWork (env : Env) (start end_ mins maxs origin : Vec3) (brushmask skipmask : Nat)
    (type : traceType_t) (sphere : Option sphere_t) (t : trace_t) : traceWork_t :=
  { CM_Trace_point (CM_Trace_setup env start end_ mins maxs origin brushmask skipmask type
      sphere) with trace := t }

/-- The trace state with the mover held at the fraction `f` of its move: start
and end are both the point `start + f * (end - start)`. -/
def moverAt (tw : traceWork_t) (f : ℚ) : traceWork_t :=
  { tw with
    start := VectorMA tw.start f (VectorSubtract tw.end_ tw.start)
    end_ := VectorMA tw.start f (VectorSubtract tw.end_ tw.start) }

/-- The trace state of the sweep of the box `[-1,1]³` from `(-3, 1/2, 1/2)` to
`(3, 1/2, 1/2)` with the default trace. -/
def exampleBoxSweepWork : traceWork_t :=
  sweepWork exampleEnv ⟨-3, 1 / 2, 1 / 2⟩ ⟨3, 1 / 2, 1 / 2⟩ ⟨-1, -1, -1⟩ ⟨1, 1, 1⟩ vec3_origin
    1 0 traceType_t.TT_AABB none defaultTrace

/-- Brush `i` of the world carries the check count of the world: it has been
stamped in the current trace. -/
def brushStamped (cm : clipMap_t) (i : Nat) : Prop :=
  ∃ b, cm.brushes[i]? = some b ∧ b.checkcount = cm.checkcount

/-- Brush `i` of the world carries a check count other than that of the
world. -/
def brushUnstamped (cm : clipMap_t) (i : Nat) : Prop :=
  ∃ b, cm.brushes[i]? = some b ∧ b.checkcount ≠ cm.checkcount

/-- Surface `i` of the world carries the check count of the world. -/
def surfaceStamped (cm : clipMap_t) (i : Nat) : Prop :=
  ∃ s, cm.surfaces[i]? = some (some s) ∧ s.checkcount = cm.checkcount

/-- Surface `i` of the world carries a check count other than that of the
world. -/
def surfaceUnstamped (cm : clipMap_t) (i : Nat) : Prop :=
  ∃ s, cm.surfaces[i]? = some (some s) ∧ s.checkcount ≠ cm.checkcount

/-- The brush loop of `CM_TraceThroughLeaf` with a log: next to the result of
the loop, the list of the calls of `CM_TraceThroughBrush` in their order, each
as the brush number and the world at the time of the call. -/
def CM_TraceThroughLeaf_brushes_log (env : Env) (cm : clipMap_t) (tw : traceWork_t) :
    List Nat → Option (clipMap_t × traceWork_t × Bool) × List (Nat × clipMap_t)
  | [] => (some (cm, tw, false), [])
  | brushNum :: rest =>
    match cm.brushes[brushNum]? with
    | none => (none, [])
    | some b =>
      if b.checkcount = cm.checkcount then CM_TraceThroughLeaf_brushes_log env cm tw rest
      else
        let cm1 := stampBrush cm brushNum b
        if b.contents &&& tw.contents = 0 then CM_TraceThroughLeaf_brushes_log env cm1 tw rest
        else if b.contents &&& tw.skipContents ≠ 0 then
          CM_TraceThroughLeaf_brushes_log env cm1 tw rest
        else if !env.CM_BoundsIntersect tw.bounds0 tw.bounds1 b.bounds0 b.bounds1 then
          CM_TraceThroughLeaf_brushes_log env cm1 tw rest
        else
          let tw1 := CM_TraceThroughBrush tw b
          if tw1.trace.allsolid then (some (cm1, tw1, true), [(brushNum, cm1)])
          else
            ((CM_TraceThroughLeaf_brushes_log env cm1 tw1 rest).1,
             (brushNum, cm1) :: (CM_TraceThroughLeaf_brushes_log env cm1 tw1 rest).2)

/-- The surface loop of `CM_TraceThroughLeaf` with a log: next to the result
of the loop, the list of the calls of `CM_TraceThroughSurface` in their order,
each as the surface number and the world at the time of the call. -/
def CM_TraceThroughLeaf_surfaces_log (env : Env) (cm : clipMap_t) (tw : traceWork_t) :
    List Nat → Option (clipMap_t × traceWork_t) × List (Nat × clipMap_t)
  | [] => (some (cm, tw), [])
  | surfaceNum :: rest =>
    match cm.surfaces[surfaceNum]? with
    | none => (none, [])
    | some none => CM_TraceThroughLeaf_surfaces_log env cm tw rest
    | some (some surface) =>
      if surface.checkcount = cm.checkcount then
        CM_TraceThroughLeaf_surfaces_log env cm tw rest
      else
        let cm1 := stampSurface cm surfaceNum surface
        if surface.contents &&& tw.contents = 0 then
          CM_TraceThroughLeaf_surfaces_log env cm1 tw rest
        else if surface.contents &&& tw.skipContents ≠ 0 then
          CM_TraceThroughLeaf_surfaces_log env cm1 tw rest
        else
          match surface.sc with
          | none => (none, [])
          | some sc =>
            if !env.CM_BoundsIntersect tw.bounds0 tw.bounds1 sc.bounds0 sc.bounds1 then
              CM_TraceThroughLeaf_surfaces_log env cm1 tw rest
            else
              match CM_TraceThroughSurface env cm1 tw surface with
              | none => (none, [(surfaceNum, cm1)])
              | some tw1 =>
                if tw1.trace.fraction = 0 then (some (cm1, tw1), [(surfaceNum, cm1)])
                else
                  ((CM_TraceThroughLeaf_surfaces_log env cm1 tw1 rest).1,
                   (surfaceNum, cm1) :: (CM_TraceThroughLeaf_surfaces_log env cm1 tw1 rest).2)

/-- The function `CM_TraceThroughLeaf` with a log: next to its result, the log
of the brush tests and the log of the surface tests. -/
def CM_TraceThroughLeaf_log (env : Env) (cm : clipMap_t) (tw : traceWork_t) (leaf : cLeaf_t) :
    Option (clipMap_t × traceWork_t) × List (Nat × clipMap_t) × List (Nat × clipMap_t) :=
  match CM_TraceThroughLeaf_brushes_log env cm tw leaf.leafBrushes with
  | (none, bl) => (none, bl, [])
  | (some (cm1, tw1, true), bl) => (some (cm1, tw1), bl, [])
  | (some (cm1, tw1, false), bl) =>
    if tw1.trace.fraction = 0 then (some (cm1, tw1), bl, [])
    else
      ((CM_TraceThroughLeaf_surfaces_log env cm1 tw1 leaf.leafSurfaces).1, bl,
       (CM_TraceThroughLeaf_surfaces_log env cm1 tw1 leaf.leafSurfaces).2)

/-- The brush loop of `CM_TestInLeaf` with a log: next to the result of the
loop, the list of the calls of `CM_TestBoxInBrush` in their order, each as the
brush number and the world at the time of the call. -/
def CM_TestInLeaf_brushes_log (cm : clipMap_t) (tw : traceWork_t) :
    List Nat → Option (clipMap_t × traceWork_t × Bool) × List (Nat × clipMap_t)
  | [] => (some (cm, tw, false), [])
  | brushNum :: rest =>
    match cm.brushes[brushNum]? with
    | none => (none, [])
    | some b =>
      if b.checkcount = cm.checkcount then CM_TestInLeaf_brushes_log cm tw rest
      else
        let cm1 := stampBrush cm brushNum b
        if b.contents &&& tw.contents = 0 then CM_TestInLeaf_brushes_log cm1 tw rest
        else if b.contents &&& tw.skipContents ≠ 0 then CM_TestInLeaf_brushes_log cm1 tw rest
        else
          let tw1 := CM_TestBoxInBrush tw b
          if tw1.trace.allsolid then (some (cm1, tw1, true), [(brushNum, cm1)])
          else
            ((CM_TestInLeaf_brushes_log cm1 tw1 rest).1,
             (brushNum, cm1) :: (CM_TestInLeaf_brushes_log cm1 tw1 rest).2)

/-- The surface loop of `CM_TestInLeaf` with a log: next to the result of the
loop, the list of the surfaces that reached the two guarded calls of
`CM_PositionTestInSurfaceCollide`, in their order, each as the surface number
and the world at that time. -/
def CM_TestInLeaf_surfaces_log (env : Env) (cm : clipMap_t) (tw : traceWork_t) :
    List Nat → Option (clipMap_t × traceWork_t) × List (Nat × clipMap_t)
  | [] => (some (cm, tw), [])
  | surfaceNum :: rest =>
    match cm.surfaces[surfaceNum]? with
    | none => (none, [])
    | some none => CM_TestInLeaf_surfaces_log env cm tw rest
    | some (some surface) =>
      if surface.checkcount = cm.checkcount then CM_TestInLeaf_surfaces_log env cm tw rest
      else
        let cm1 := stampSurface cm surfaceNum surface
        if surface.contents &&& tw.contents = 0 then CM_TestInLeaf_surfaces_log env cm1 tw rest
        else if surface.contents &&& tw.skipContents ≠ 0 then
          CM_TestInLeaf_surfaces_log env cm1 tw rest
        else
          match (if !env.cm_noCurves then
                   CM_TestInLeaf_surfaceHit tw surface mapSurfaceType_t.MST_PATCH
                 else some false) with
          | none => (none, [(surfaceNum, cm1)])
          | some true => (some (cm1, setAllsolidContents tw surface.contents), [(surfaceNum, cm1)])
          | some false =>
            match (if cm1.perPolyCollision || env.cm_forceTriangles then
                     CM_TestInLeaf_surfaceHit tw surface mapSurfaceType_t.MST_TRIANGLE_SOUP
                   else some false) with
            | none => (none, [(surfaceNum, cm1)])
            | some true =>
              (some (cm1, setAllsolidContents tw surface.contents), [(surfaceNum, cm1)])
            | some false =>
              ((CM_TestInLeaf_surfaces_log env cm1 tw rest).1,
               (surfaceNum, cm1) :: (CM_TestInLeaf_surfaces_log env cm1 tw rest).2)

/-- The function `CM_TestInLeaf` with a log: next to its result, the log of
the brush tests and the log of the surface tests. -/
def CM_TestInLeaf_log (env : Env) (cm : clipMap_t) (tw : traceWork_t) (leaf : cLeaf_t) :
    Option (clipMap_t × traceWork_t) × List (Nat × clipMap_t) × List (Nat × clipMap_t) :=
  match CM_TestInLeaf_brushes_log cm tw leaf.leafBrushes with
  | (none, bl) => (none, bl, [])
  | (some (cm1, tw1, true), bl) => (some (cm1, tw1), bl, [])
  | (some (cm1, tw1, false), bl) =>
    ((CM_TestInLeaf_surfaces_log env cm1 tw1 leaf.leafSurfaces).1, bl,
     (CM_TestInLeaf_surfaces_log env cm1 tw1 leaf.leafSurfaces).2)

/-- One call of a leaf function within a trace: `CM_TraceThroughLeaf` when
`sweep` is set and `CM_TestInLeaf` otherwise, on the trace state `tw` and the
leaf `leaf`. -/
structure LeafCall where
  sweep : Bool
  tw : traceWork_t
  leaf : cLeaf_t

/-- A sequence of calls of the leaf functions, each on the world that the call
before it left: the last world (`none` once a call has failed), the log of the
brush tests and the log of the surface tests of all the calls. -/
def leafCalls_log (env : Env) : clipMap_t → List LeafCall →
    Option clipMap_t × List (Nat × clipMap_t) × List (Nat × clipMap_t)
  | cm, [] => (some cm, [], [])
  | cm, c :: rest =>
    match (if c.sweep then CM_TraceThroughLeaf_log env cm c.tw c.leaf
           else CM_TestInLeaf_log env cm c.tw c.leaf) with
    | (none, bl, sl) => (none, bl, sl)
    | (some (cm1, _), bl, sl) =>
      ((leafCalls_log env cm1 rest).1, bl ++ (leafCalls_log env cm1 rest).2.1,
       sl ++ (leafCalls_log env cm1 rest).2.2)

/-- The later world `cm1` keeps the stamps of the world `cm`: the check count
of the world is the same, what is stamped in `cm` is stamped in `cm1`, and
what is not stamped in `cm1` is not stamped in `cm`. -/
def StampsKept (cm cm1 : clipMap_t) : Prop :=
  cm1.checkcount = cm.checkcount ∧
  (∀ i, brushStamped cm i → brushStamped cm1 i) ∧
  (∀ i, brushUnstamped cm1 i → brushUnstamped cm i) ∧
  (∀ i, surfaceStamped cm i → surfaceStamped cm1 i) ∧
  (∀ i, surfaceUnstamped cm1 i → surfaceUnstamped cm i)

/-- A log of brush tests from the world `cm` on is in order: every brush in
it was not stamped in `cm`, was stamped with the check count of `cm` in the
world of its test, and is in the log once. -/
def BrushLogOk (cm : clipMap_t) (log : List (Nat × clipMap_t)) : Prop :=
  (∀ e ∈ log, brushUnstamped cm e.1 ∧ brushStamped e.2 e.1 ∧ e.2.checkcount = cm.checkcount) ∧
  (log.map Prod.fst).Nodup

/-- A log of surface tests from the world `cm` on is in order: every surface
in it was not stamped in `cm`, was stamped with the check count of `cm` in the
world of its test, and is in the log once. -/
def SurfaceLogOk (cm : clipMap_t) (log : List (Nat × clipMap_t)) : Prop :=
  (∀ e ∈ log,
    surfaceUnstamped cm e.1 ∧ surfaceStamped e.2 e.1 ∧ e.2.checkcount = cm.checkcount) ∧
  (log.map Prod.fst).Nodup

/-- What a brush loop with a log guarantees from the world `cm`, for the world
`r` that the loop returns (`none` when it fails) and its log: the log is in
order, and the returned world keeps the stamps of `cm` and has every logged
brush stamped. -/
def BrushLoopLogOk (cm : clipMap_t) (r : Option clipMap_t) (log : List (Nat × clipMap_t)) :
    Prop :=
  BrushLogOk cm log ∧
  ∀ cm1, r = some cm1 → StampsKept cm cm1 ∧ ∀ e ∈ log, brushStamped cm1 e.1

/-- What a surface loop with a log guarantees from the world `cm`, for the
world `r` that the loop returns (`none` when it fails) and its log: the log is
in order, and the returned world keeps the stamps of `cm` and has every logged
surface stamped. -/
def SurfaceLoopLogOk (cm : clipMap_t) (r : Option clipMap_t) (log : List (Nat × clipMap_t)) :
    Prop :=
  SurfaceLogOk cm log ∧
  ∀ cm1, r = some cm1 → StampsKept cm cm1 ∧ ∀ e ∈ log, surfaceStamped cm1 e.1

/-- What a leaf function with a log, or a sequence of them, guarantees from
the world `cm`, for the world `r` that it returns (`none` when it fails) and
its two logs: both logs are in order, and the returned world keeps the stamps
of `cm` and has every logged brush and surface stamped. -/
def LeafLogOk (cm : clipMap_t) (r : Option clipMap_t) (bl sl : List (Nat × clipMap_t)) : Prop :=
  BrushLogOk cm bl ∧ SurfaceLogOk cm sl ∧
  ∀ cm1, r = some cm1 →
    StampsKept cm cm1 ∧ (∀ e ∈ bl, brushStamped cm1 e.1) ∧ (∀ e ∈ sl, surfaceStamped cm1 e.1)

/-- The trace state `tw1` is `tw`, or `tw` with a fraction that is at least 0
and strictly lower and with another plane: what the sweep of a surface collide
does to the trace state. -/
def LoweredPlane (tw tw1 : traceWork_t) : Prop :=
  tw1 = tw ∨
  (0 ≤ tw1.trace.fraction ∧ tw1.trace.fraction < tw.trace.fraction ∧
    tw1 = { tw with trace := { tw.trace with
              fraction := tw1.trace.fraction, plane := tw1.trace.plane } })

/-- The patch surface of the example patch world: the example patch with
contents 1 and surface flags 7. -/
def examplePatchSurface : cSurface_t :=
  { type := mapSurfaceType_t.MST_PATCH, checkcount := 0, surfaceFlags := 7, contents := 1,
    sc := some examplePatch }

/-- The trace state that `CM_Trace` sets up for the sweep of a point from
`(1/2, 1/2, 1)` to `(1/2, 1/2, -1)`, through the example patch. -/
def examplePointDownWork : traceWork_t :=
  CM_Trace_point
    (CM_Trace_setup exampleEnv ⟨1 / 2, 1 / 2, 1⟩ ⟨1 / 2, 1 / 2, -1⟩ vec3_origin vec3_origin
      vec3_origin 1 0 traceType_t.TT_AABB none)

/-- The trace state that `CM_Trace` sets up for the sweep of the box `[-1,1]³`
from `(1/2, 1/2, 3)` to `(1/2, 1/2, -3)`, through the example patch. -/
def exampleBoxDownWork : traceWork_t :=
  CM_Trace_point
    (CM_Trace_setup exampleEnv ⟨1 / 2, 1 / 2, 3⟩ ⟨1 / 2, 1 / 2, -3⟩ ⟨-1, -1, -1⟩ ⟨1, 1, 1⟩
      vec3_origin 1 0 traceType_t.TT_AABB none)

/-- The signed distance of the point `v` to the plane `p`:
`dot(v, normal) - dist`. -/
def planeDistance (p : plane_t) (v : Vec3) : ℚ :=
  DotProduct v p.normal - p.dist

/-- One iteration of the facet loop of `CM_TracePointThroughSurfaceCollide`:
the trace state after the facet, and whether the facet recorded a hit. -/
def CM_TracePoint_facet (sc : cSurfaceCollide_t) (state : List (Bool × ℚ)) (tw : traceWork_t)
    (facet : cFacet_t) : Option (traceWork_t × Bool) :=
  match state[facet.surfacePlane]? with
  | none => none
  | some (frontFacing, intersect) =>
    if !frontFacing then some (tw, false)
    else if intersect < 0 then some (tw, false)
    else if intersect > tw.trace.fraction then some (tw, false)
    else
      match CM_TracePoint_borders state intersect facet.borders with
      | none => none
      | some false => some (tw, false)
      | some true =>
        match sc.planes[facet.surfacePlane]? with
        | none => none
        | some planes => some (CM_TracePoint_record tw planes, true)

/-- The start and end distances of a facet plane, as `CM_CheckFacetPlane`
computes them from the expanded plane and the two points given with it. -/
def planeDistances (c : plane_t × Vec3 × Vec3) : ℚ × ℚ :=
  (DotProduct c.2.1 c.1.normal - c.1.dist, DotProduct c.2.2 c.1.normal - c.1.dist)

/-- The planes of a facet as `CM_TraceThroughSurfaceCollide` tests them, in
their order: at index 0 the expanded surface plane, at index `j + 1` the
expanded border `j`, oriented by `borderInward[j]`; each with the start and
end points to test, and `none` where the plane number is out of range. -/
def facetPlanes (tw : traceWork_t) (sc : cSurfaceCollide_t) (facet : cFacet_t) :
    List (Option (plane_t × Vec3 × Vec3)) :=
  (sc.planes[facet.surfacePlane]?).map (CM_expandSurfacePlane tw) ::
    facet.borders.map (fun b => (sc.planes[b.1]?).map (fun p => CM_expandBorderPlane tw p b.2))

/-- One iteration of the facet loop of `CM_TraceThroughSurfaceCollide`: the
trace state and `bestplane` after the facet, and whether the facet recorded a
hit. -/
def CM_TraceThroughSurfaceCollide_facet (sc : cSurfaceCollide_t) (tw : traceWork_t)
    (bestplane : plane_t) (facet : cFacet_t) : Option (traceWork_t × plane_t × Bool) :=
  match sc.planes[facet.surfacePlane]? with
  | none => none
  | some planes =>
    let e := CM_expandSurfacePlane tw planes
    let r := CM_CheckFacetPlane e.1 e.2.1 e.2.2 (-1) 1
    if !r.1 then some (tw, bestplane, false)
    else
      let st0 : FacetLoop :=
        { enterFrac := r.2.1, leaveFrac := r.2.2.1, hitnum := -1,
          bestplane := if r.2.2.2 then e.1 else bestplane }
      match CM_TraceThroughSurfaceCollide_borders tw sc 0 st0 facet.borders with
      | none => none
      | some (false, st) => some (tw, st.bestplane, false)
      | some (true, st) =>
        if st.hitnum = (facet.borders.length : Int) - 1 then some (tw, st.bestplane, false)
        else if st.enterFrac < st.leaveFrac ∧ st.enterFrac ≥ 0 then
          if st.enterFrac < tw.trace.fraction then
            some ({ tw with trace := { tw.trace with
                      fraction := if st.enterFrac < 0 then 0 else st.enterFrac
                      plane := { normal := st.bestplane.normal, dist := st.bestplane.dist } } },
                  st.bestplane, true)
          else some (tw, st.bestplane, false)
        else some (tw, st.bestplane, false)

/-- What the loop over the planes of a facet has found after the first `n`
planes of `cands`: no entering plane (`enterFrac = -1`, `hitnum = -1`), or the
first entering plane of the greatest entering value, which is `enterFrac`;
that plane is `bestplane`, and `hitnum` is its border number (-1 for the
surface plane, at index 0). -/
def FacetInv (cands : List (Option (plane_t × Vec3 × Vec3))) (n : Nat) (st : FacetLoop) : Prop :=
  (st.enterFrac = -1 ∧ st.hitnum = -1 ∧
    ∀ (k : Nat) (c : plane_t × Vec3 × Vec3), k < n → cands[k]? = some (some c) →
      ¬enterBranch (planeDistances c).1 (planeDistances c).2) ∨
  (∃ (k : Nat) (c : plane_t × Vec3 × Vec3), k < n ∧ cands[k]? = some (some c) ∧
    enterBranch (planeDistances c).1 (planeDistances c).2 ∧
    st.enterFrac = enterFraction (planeDistances c).1 (planeDistances c).2 ∧
    st.bestplane = c.1 ∧ st.hitnum = (k : Int) - 1 ∧
    (∀ (k1 : Nat) (c1 : plane_t × Vec3 × Vec3), k1 < n → cands[k1]? = some (some c1) →
      enterBranch (planeDistances c1).1 (planeDistances c1).2 →
      enterFraction (planeDistances c1).1 (planeDistances c1).2 ≤ st.enterFrac) ∧
    (∀ (k1 : Nat) (c1 : plane_t × Vec3 × Vec3), k1 < k → cands[k1]? = some (some c1) →
      enterBranch (planeDistances c1).1 (planeDistances c1).2 →
      enterFraction (planeDistances c1).1 (planeDistances c1).2 < st.enterFrac))

/-- The coefficient `b` of the quadratic of `CM_TraceThroughSphere`. -/
def sphereB (env : Env) (origin start end_ : Vec3) : ℚ :=
  2 * ((VectorNormalize env (VectorSubtract end_ start)).1.x * (VectorSubtract start origin).x
    + (VectorNormalize env (VectorSubtract end_ start)).1.y * (VectorSubtract start origin).y
    + (VectorNormalize env (VectorSubtract end_ start)).1.z * (VectorSubtract start origin).z)

/-- The coefficient `c` of the quadratic of `CM_TraceThroughSphere`. -/
def sphereC (origin : Vec3) (radius : ℚ) (start : Vec3) : ℚ :=
  (VectorSubtract start origin).x * (VectorSubtract start origin).x
    + (VectorSubtract start origin).y * (VectorSubtract start origin).y
    + (VectorSubtract start origin).z * (VectorSubtract start origin).z
    - (radius + RADIUS_EPSILON) * (radius + RADIUS_EPSILON)

/-- The discriminant `d = b * b - 4 * c` of `CM_TraceThroughSphere`. -/
def sphereDisc (env : Env) (origin : Vec3) (radius : ℚ) (start end_ : Vec3) : ℚ :=
  sphereB env origin start end_ * sphereB env origin start end_ - 4 * sphereC origin radius start

/-- The near root `( -b - sqrtd ) * 0.5` of `CM_TraceThroughSphere`, before it
is clamped and divided by the length. -/
def sphereRoot (env : Env) (origin : Vec3) (radius : ℚ) (start end_ : Vec3) : ℚ :=
  (-sphereB env origin start end_ - env.sqrtf (sphereDisc env origin radius start end_))
    * (1 / 2)

/-- The fraction of `CM_TraceThroughSphere`: the near root clamped at 0, or
divided by the length. -/
def sphereFraction (env : Env) (origin : Vec3) (radius : ℚ) (start end_ : Vec3) : ℚ :=
  if sphereRoot env origin radius start end_ < 0 then 0
  else sphereRoot env origin radius start end_
    / (VectorNormalize env (VectorSubtract end_ start)).2

/-- The function `CM_TraceThroughSphere` records a hit: the start is not
inside the sphere, the early-out for a trace that misses is not taken, the
discriminant is positive and the fraction is below that of the trace. -/
def CM_TraceThroughSphere_hit (env : Env) (tw : traceWork_t) (origin : Vec3) (radius : ℚ)
    (start end_ : Vec3) : Prop :=
  ¬(VectorLengthSquared (VectorSubtract start origin) < Square radius) ∧
  ¬(CM_DistanceFromLineSquared origin start end_
        (VectorNormalize env (VectorSubtract end_ start)).1 ≥ Square radius ∧
    VectorLengthSquared (VectorSubtract end_ origin) > Square (radius + SURFACE_CLIP_EPSILON)) ∧
  sphereDisc env origin radius start end_ > 0 ∧
  sphereFraction env origin radius start end_ < tw.trace.fraction

instance CM_TraceThroughSphere_hit_decidable (env : Env) (tw : traceWork_t) (origin : Vec3)
    (radius : ℚ) (start end_ : Vec3) :
    Decidable (CM_TraceThroughSphere_hit env tw origin radius start end_) := by
  unfold CM_TraceThroughSphere_hit
  infer_instance

/-- The bounds of the trace and the bounds of the brush overlap on all three
axes, touching included: the negation of the six strict comparisons of
`CM_TestBoxInBrush`. -/
def boundsOverlap (tw : traceWork_t) (brush : cbrush_t) : Prop :=
  (tw.bounds0.x ≤ brush.bounds1.x ∧ brush.bounds0.x ≤ tw.bounds1.x)
    ∧ (tw.bounds0.y ≤ brush.bounds1.y ∧ brush.bounds0.y ≤ tw.bounds1.y)
    ∧ (tw.bounds0.z ≤ brush.bounds1.z ∧ brush.bounds0.z ≤ tw.bounds1.z)

instance boundsOverlap_decidable (tw : traceWork_t) (brush : cbrush_t) :
    Decidable (boundsOverlap tw brush) := by
  unfold boundsOverlap; infer_instance

/-- The rows `m0`, `m1`, `m2` of a matrix are orthonormal: each of unit
length, each two perpendicular. -/
def OrthonormalRows (m0 m1 m2 : Vec3) : Prop :=
  DotProduct m0 m0 = 1 ∧ DotProduct m1 m1 = 1 ∧ DotProduct m2 m2 = 1
    ∧ DotProduct m0 m1 = 0 ∧ DotProduct m0 m2 = 0 ∧ DotProduct m1 m2 = 0

instance OrthonormalRows_decidable (m0 m1 m2 : Vec3) : Decidable (OrthonormalRows m0 m1 m2) := by
  unfold OrthonormalRows; infer_instance

/-- The point `x` lies in the axis-aligned box from `lo` to `hi`. -/
def withinBounds (lo hi x : Vec3) : Prop :=
  (lo.x ≤ x.x ∧ x.x ≤ hi.x) ∧ (lo.y ≤ x.y ∧ x.y ≤ hi.y) ∧ (lo.z ≤ x.z ∧ x.z ≤ hi.z)

instance withinBounds_decidable (lo hi x : Vec3) : Decidable (withinBounds lo hi x) := by
  unfold withinBounds; infer_instance

/-- A loaded world whose single leaf holds one surface of type `t` with
contents 1 and no surface collide (`sc` null). -/
def exampleBareSurfaceWorld (t : mapSurfaceType_t) : clipMap_t :=
  { numNodes := 1
    nodes := [{ plane := { normal := ⟨1, 0, 0⟩, dist := 0, type := 0, signbits := 0 },
                child0 := -1, child1 := -1 }]
    leafs := [{ leafBrushes := [], leafSurfaces := [0] }]
    brushes := []
    surfaces := [some { type := t, checkcount := 0, surfaceFlags := 7, contents := 1,
                        sc := none }]
    checkcount := 1
    perPolyCollision := false }

/-- The trace `u` is the trace `t`, or `t` reported solid: `startsolid` and
`allsolid` set, fraction 0 and some contents, every other field as in `t`. -/
def SolidOrKept (t u : trace_t) : Prop :=
  u = t ∨ ∃ c : Nat, u = { t with startsolid := true, allsolid := true, fraction := 0,
                                  contents := c }

/-- The bounds test of `CM_TraceCapsuleThroughCapsule`: the bounds of the trace
miss the bounds `mins`, `maxs` of the capsule model grown by `RADIUS_EPSILON`. -/
def capsuleBoundsMiss (tw : traceWork_t) (mins maxs : Vec3) : Prop :=
  tw.bounds0.x > maxs.x + RADIUS_EPSILON
    ∨ tw.bounds0.y > maxs.y + RADIUS_EPSILON
    ∨ tw.bounds0.z > maxs.z + RADIUS_EPSILON
    ∨ tw.bounds1.x < mins.x - RADIUS_EPSILON
    ∨ tw.bounds1.y < mins.y - RADIUS_EPSILON
    ∨ tw.bounds1.z < mins.z - RADIUS_EPSILON

instance capsuleBoundsMiss_decidable (tw : traceWork_t) (mins maxs : Vec3) :
    Decidable (capsuleBoundsMiss tw mins maxs) := by
  unfold capsuleBoundsMiss; infer_instance

/-- The radius of the capsule with bounds `mins`, `maxs`, as
`CM_TraceCapsuleThroughCapsule` derives it. -/
def capsuleTargetRadius (mins maxs : Vec3) : ℚ :=
  capsuleRadius (VectorSubtract maxs (boxCentre mins maxs)).x
    (VectorSubtract maxs (boxCentre mins maxs)).z

/-- The centre `top` of the upper sphere of the capsule with bounds `mins`,
`maxs`. -/
def capsuleTop (mins maxs : Vec3) : Vec3 :=
  ⟨(boxCentre mins maxs).x, (boxCentre mins maxs).y,
   (boxCentre mins maxs).z
     + ((VectorSubtract maxs (boxCentre mins maxs)).z - capsuleTargetRadius mins maxs)⟩

/-- The centre `bottom` of the lower sphere of the capsule with bounds `mins`,
`maxs`. -/
def capsuleBottom (mins maxs : Vec3) : Vec3 :=
  ⟨(boxCentre mins maxs).x, (boxCentre mins maxs).y,
   (boxCentre mins maxs).z
     - ((VectorSubtract maxs (boxCentre mins maxs)).z - capsuleTargetRadius mins maxs)⟩

/-- The cylinder part of `CM_TraceCapsuleThroughCapsule`: when there is
horizontal motion and the height `h` is positive, the sweep of the centre path
of the mover through the vertical cylinder of the summed radius. -/
def capsuleCylinderSweep (env : Env) (tw : traceWork_t) (mins maxs : Vec3) : traceWork_t :=
  if tw.start.x ≠ tw.end_.x ∨ tw.start.y ≠ tw.end_.y then
    if (VectorSubtract maxs (boxCentre mins maxs)).z + tw.sphere.halfheight
        - (capsuleTargetRadius mins maxs + tw.sphere.radius) > 0 then
      CM_TraceThroughVerticalCylinder env tw (boxCentre mins maxs)
        (capsuleTargetRadius mins maxs + tw.sphere.radius)
        ((VectorSubtract maxs (boxCentre mins maxs)).z + tw.sphere.halfheight
          - (capsuleTargetRadius mins maxs + tw.sphere.radius)) tw.start tw.end_
    else tw
  else tw

/-- Modelled from the spec: a list of sphere sweeps, each a triple of the
centre of a sphere of the target and the start and end of a sphere centre of
the mover, done one after the other with `CM_TraceThroughSphere`. -/
def sweepSpheres (env : Env) (radius : ℚ) (tw : traceWork_t)
    (l : List (Vec3 × Vec3 × Vec3)) : traceWork_t :=
  l.foldl (fun t p => CM_TraceThroughSphere env t p.1 radius p.2.1 p.2.2) tw

/-- Modelled from the spec: the four pairings of the top and bottom sphere
centres of the mover with the top and bottom spheres of the target. -/
def capsulePairings (tw : traceWork_t) (mins maxs : Vec3) : List (Vec3 × Vec3 × Vec3) :=
  [(capsuleTop mins maxs, VectorAdd tw.start tw.sphere.offset,
      VectorAdd tw.end_ tw.sphere.offset),
   (capsuleTop mins maxs, VectorSubtract tw.start tw.sphere.offset,
      VectorSubtract tw.end_ tw.sphere.offset),
   (capsuleBottom mins maxs, VectorAdd tw.start tw.sphere.offset,
      VectorAdd tw.end_ tw.sphere.offset),
   (capsuleBottom mins maxs, VectorSubtract tw.start tw.sphere.offset,
      VectorSubtract tw.end_ tw.sphere.offset)]

/-- The trace state that `CM_Trace` sets up for the sweep of the capsule
`[-10,10]² × [-40,40]` (radius 10) straight up from `(15, 0, 0)` to
`(15, 0, 1)`. -/
def exampleSideCapsuleWork : traceWork_t :=
  CM_Trace_point
    (CM_Trace_setup exampleEnv ⟨15, 0, 0⟩ ⟨15, 0, 1⟩ ⟨-10, -10, -40⟩ ⟨10, 10, 40⟩ vec3_origin
      33554432 0 traceType_t.TT_CAPSULE none)

/-- What every operation on the trace guarantees between the trace `t` before
and the trace `u` after it.  The first two parts are stated under a guard
`nn`, under which the square root of the environment is assumed nonnegative. -/
structure Good (nn : Prop) (t u : trace_t) : Prop where
  allsolid : nn → AllsolidInv t → AllsolidInv u
  range : nn → 0 ≤ t.fraction → t.fraction ≤ 1 → 0 ≤ u.fraction ∧ u.fraction ≤ t.fraction
  nohit : t.fraction ≤ 1 → NoHitInv t → u.fraction ≤ 1 ∧ NoHitInv u

variable {nn : Prop}

theorem Good.refl (t : trace_t) : Good nn t t :=
  ⟨fun _ h => h, fun _ h _ => ⟨h, le_refl _⟩, fun h1 h2 => ⟨h1, h2⟩⟩

theorem Good.trans {t u v : trace_t} (h1 : Good nn t u) (h2 : Good nn u v) : Good nn t v := by
  refine ⟨fun hn h => h2.allsolid hn (h1.allsolid hn h), fun hn ha hb => ?_, fun ha hb => ?_⟩
  · have a := h1.range hn ha hb
    have b := h2.range hn a.1 (le_trans a.2 hb)
    exact ⟨b.1, le_trans b.2 a.2⟩
  · have a := h1.nohit ha hb
    exact h2.nohit a.1 a.2

/-- A write of a fraction that is at least 0 and, when the old fraction is at
most 1, either 0 or below the old fraction, leaving the solid flags alone, is
good whatever it does to plane, flags and contents. -/
theorem good_of_lower (t u : trace_t) (hall : u.allsolid = t.allsolid)
    (hstart : u.startsolid = t.startsolid) (h0 : nn → 0 ≤ u.fraction)
    (hlt : t.fraction ≤ 1 → u.fraction < t.fraction ∨ u.fraction = 0) : Good nn t u := by
  refine ⟨fun hn h ha => ?_, fun hn ha hb => ⟨h0 hn, ?_⟩, fun ha _ => ⟨?_, fun h => ?_⟩⟩
  · rw [hall] at ha
    have := h ha
    rw [hstart]
    refine ⟨this.1, ?_⟩
    rcases hlt (by rw [this.2]; norm_num) with hlt | hlt
    · rw [this.2] at hlt
      exact absurd (h0 hn) (not_le.mpr hlt)
    · exact hlt
  · rcases hlt hb with hlt | hlt
    · exact le_of_lt hlt
    · rw [hlt]; exact ha
  · rcases hlt ha with hlt | hlt
    · exact le_of_lt (lt_of_lt_of_le hlt ha)
    · rw [hlt]; norm_num
  · rcases hlt ha with hlt | hlt
    · rw [h] at hlt
      exact absurd ha (not_le.mpr hlt)
    · rw [hlt] at h
      norm_num at h

/-- A write of fraction 0 with `startsolid`, with or without `allsolid`, is
good. -/
theorem good_of_startsolid (t u : trace_t) (hstart : u.startsolid = true)
    (hf : u.fraction = 0) : Good nn t u := by
  refine ⟨fun _ _ _ => ⟨hstart, hf⟩, fun _ ha _ => ?_, fun _ _ => ⟨?_, fun h => ?_⟩⟩
  · rw [hf]; exact ⟨le_refl _, ha⟩
  · rw [hf]; norm_num
  · rw [hf] at h
    norm_num at h

theorem good_setAllsolid (tw : traceWork_t) : Good nn tw.trace (setAllsolid tw).trace :=
  good_of_startsolid _ _ (by rfl) (by rfl)

theorem good_setAllsolidContents (tw : traceWork_t) (c : Nat) :
    Good nn tw.trace (setAllsolidContents tw c).trace :=
  good_of_startsolid _ _ (by rfl) (by rfl)

theorem good_CM_TestBoxInBrush (tw : traceWork_t) (brush : cbrush_t) :
    Good nn tw.trace (CM_TestBoxInBrush tw brush).trace := by
  unfold CM_TestBoxInBrush
  split_ifs
  · exact Good.refl _
  · exact Good.refl _
  · exact Good.refl _
  · exact good_setAllsolidContents tw brush.contents

theorem good_CM_TraceThroughBrush_finish (tw : traceWork_t) (brush : cbrush_t) (st : BrushLoop) :
    Good nn tw.trace (CM_TraceThroughBrush_finish tw brush st).trace := by
  unfold CM_TraceThroughBrush_finish
  by_cases h1 : (!st.startout) = true
  · rw [if_pos h1]
    by_cases h2 : (!st.getout) = true
    · rw [if_pos h2]
      exact good_of_startsolid _ _ (by rfl) (by rfl)
    · rw [if_neg h2]
      exact ⟨fun _ h ha => ⟨rfl, (h ha).2⟩, fun _ ha _ => ⟨ha, le_refl _⟩, fun ha hb => ⟨ha, hb⟩⟩
  · rw [if_neg h1]
    by_cases h3 : st.enterFrac < st.leaveFrac
    · rw [if_pos h3]
      by_cases h4 : st.enterFrac > -1 ∧ st.enterFrac < tw.trace.fraction
      · rw [if_pos h4]
        split
        · refine good_of_lower _ _ ?_ ?_ ?_ ?_
          · rfl
          · rfl
          · intro _
            show (0 : ℚ) ≤ (if st.enterFrac < 0 then 0 else st.enterFrac)
            split_ifs with h5
            · exact le_refl _
            · exact not_lt.mp h5
          · intro _
            show (if st.enterFrac < 0 then (0 : ℚ) else st.enterFrac) < tw.trace.fraction ∨
              (if st.enterFrac < 0 then (0 : ℚ) else st.enterFrac) = 0
            split_ifs with h5
            · exact Or.inr rfl
            · exact Or.inl h4.2
        · exact Good.refl _
      · rw [if_neg h4]
        exact Good.refl _
    · rw [if_neg h3]
      exact Good.refl _

theorem good_CM_TraceThroughBrush (tw : traceWork_t) (brush : cbrush_t) :
    Good nn tw.trace (CM_TraceThroughBrush tw brush).trace := by
  unfold CM_TraceThroughBrush
  split_ifs
  · exact Good.refl _
  · split
    · exact Good.refl _
    · exact good_CM_TraceThroughBrush_finish tw brush _

/-! ### Patch surfaces -/

theorem planeState_front (tw : traceWork_t) (p : cPlane_t)
    (h : (CM_TracePoint_planeState tw p).1 = true) :
    0 < DotProduct tw.start p.plane.normal - p.plane.dist
          + DotProduct (tw.offsets p.signbits) p.plane.normal := by
  unfold CM_TracePoint_planeState at h
  simp only at h
  split_ifs at h with h1
  exact not_le.mp h1

theorem planeState_pos (tw : traceWork_t) (p : cPlane_t) :
    0 < (CM_TracePoint_planeState tw p).2 := by
  unfold CM_TracePoint_planeState
  simp only
  split_ifs with h1 h2
  · norm_num
  · norm_num
  · exact not_le.mp h2

theorem good_CM_TracePoint_record (tw : traceWork_t) (p : cPlane_t)
    (hff : (CM_TracePoint_planeState tw p).1 = true)
    (hle : ¬ (CM_TracePoint_planeState tw p).2 > tw.trace.fraction) :
    Good nn tw.trace (CM_TracePoint_record tw p).trace := by
  have hd1 := planeState_front tw p hff
  refine good_of_lower _ _ rfl rfl ?_ ?_
  · intro _
    show (0 : ℚ) ≤ (if _ < 0 then 0 else _)
    split_ifs with h5
    · exact le_refl _
    · exact not_lt.mp h5
  · intro hf1
    show (if _ < 0 then (0 : ℚ) else _) < tw.trace.fraction ∨ (if _ < 0 then (0 : ℚ) else _) = 0
    split_ifs with h5
    · exact Or.inr rfl
    · left
      unfold CM_TracePoint_planeState at hle
      simp only at hle
      set d1 := DotProduct tw.start p.plane.normal - p.plane.dist
          + DotProduct (tw.offsets p.signbits) p.plane.normal with hd1def
      set d2 := DotProduct tw.end_ p.plane.normal - p.plane.dist
          + DotProduct (tw.offsets p.signbits) p.plane.normal with hd2def
      have hle1 := not_lt.mp hle
      split_ifs at hle1 with h1 h2
      · exact absurd (le_trans hle1 hf1) (by norm_num)
      · exact absurd (le_trans hle1 hf1) (by norm_num)
      · have hq : 0 < d1 / (d1 - d2) := not_le.mp h2
        have hden : 0 < d1 - d2 := by
          rcases lt_trichotomy (d1 - d2) 0 with hn | hz | hp
          · exact absurd hq (not_lt.mpr (le_of_lt (div_neg_of_pos_of_neg hd1 hn)))
          · exact absurd (sub_eq_zero.mp hz) h1
          · exact hp
        refine lt_of_lt_of_le ?_ hle1
        apply div_lt_div_of_pos_right _ hden
        unfold SURFACE_CLIP_EPSILON
        linarith

theorem good_CM_TracePoint_facets (sc : cSurfaceCollide_t) (state : List (Bool × ℚ)) :
    ∀ (l : List cFacet_t) (tw tw1 : traceWork_t),
      (∀ (k : Nat) (p : cPlane_t) (v : Bool × ℚ), sc.planes[k]? = some p →
        state[k]? = some v → v = CM_TracePoint_planeState tw p) →
      CM_TracePoint_facets sc state tw l = some tw1 → Good nn tw.trace tw1.trace := by
  intro l
  induction l with
  | nil =>
    intro tw tw1 _ h
    simp only [CM_TracePoint_facets, Option.some.injEq] at h
    rw [← h]
    exact Good.refl _
  | cons facet rest ih =>
    intro tw tw1 hst h
    rw [CM_TracePoint_facets] at h
    split at h
    · exact absurd h (by simp)
    · rename_i frontFacing intersect hlook
      split_ifs at h with h1 h2 h3
      · exact ih tw tw1 hst h
      · exact ih tw tw1 hst h
      · exact ih tw tw1 hst h
      · split at h
        · exact absurd h (by simp)
        · exact ih tw tw1 hst h
        · split at h
          · exact absurd h (by simp)
          · rename_i planes hpl
            have hv := hst _ _ _ hpl hlook
            have hff : (CM_TracePoint_planeState tw planes).1 = true := by
              rw [← hv]
              simpa using h1
            have hle : ¬ (CM_TracePoint_planeState tw planes).2 > tw.trace.fraction := by
              rw [← hv]
              exact h3
            refine Good.trans (good_CM_TracePoint_record tw planes hff hle) ?_
            exact ih _ tw1 (fun k p v hp hs => hst k p v hp hs) h

theorem good_CM_TracePointThroughSurfaceCollide (tw tw1 : traceWork_t) (sc : cSurfaceCollide_t)
    (h : CM_TracePointThroughSurfaceCollide tw sc = some tw1) : Good nn tw.trace tw1.trace := by
  unfold CM_TracePointThroughSurfaceCollide at h
  split_ifs at h with h1
  · simp only [Option.some.injEq] at h
    rw [← h]
    exact Good.refl _
  · refine good_CM_TracePoint_facets sc _ sc.facets tw tw1 ?_ h
    intro k p v hp hs
    rw [List.getElem?_map, hp] at hs
    simpa using hs.symm

theorem good_CM_TraceThroughSurfaceCollide_facets (sc : cSurfaceCollide_t) :
    ∀ (l : List cFacet_t) (tw tw1 : traceWork_t) (bestplane : plane_t),
      CM_TraceThroughSurfaceCollide_facets sc tw bestplane l = some tw1 →
      Good nn tw.trace tw1.trace := by
  intro l
  induction l with
  | nil =>
    intro tw tw1 _ h
    simp only [CM_TraceThroughSurfaceCollide_facets, Option.some.injEq] at h
    rw [← h]
    exact Good.refl _
  | cons facet rest ih =>
    intro tw tw1 bestplane h
    rw [CM_TraceThroughSurfaceCollide_facets] at h
    split at h
    · exact absurd h (by simp)
    · simp only at h
      split at h
      · exact ih _ _ _ h
      · split at h
        · exact absurd h (by simp)
        · exact ih _ _ _ h
        · rename_i st hb
          split at h
          · exact ih _ _ _ h
          · split at h
            · rename_i h3
              split at h
              · rename_i h4
                refine Good.trans ?_ (ih _ _ _ h)
                refine good_of_lower _ _ rfl rfl ?_ (fun _ => Or.inl ?_)
                · intro _
                  show (0 : ℚ) ≤ (if st.enterFrac < 0 then 0 else st.enterFrac)
                  rw [if_neg (not_lt.mpr h3.2)]
                  exact h3.2
                · show (if st.enterFrac < 0 then 0 else st.enterFrac) < tw.trace.fraction
                  rw [if_neg (not_lt.mpr h3.2)]
                  exact h4
              · exact ih _ _ _ h
            · exact ih _ _ _ h

theorem good_CM_TraceThroughSurfaceCollide (env : Env) (tw tw1 : traceWork_t)
    (sc : cSurfaceCollide_t) (h : CM_TraceThroughSurfaceCollide env tw sc = some tw1) :
    Good nn tw.trace tw1.trace := by
  unfold CM_TraceThroughSurfaceCollide at h
  split_ifs at h with h1 h2
  · simp only [Option.some.injEq] at h
    rw [← h]
    exact Good.refl _
  · exact good_CM_TracePointThroughSurfaceCollide tw tw1 sc h
  · exact good_CM_TraceThroughSurfaceCollide_facets sc _ _ _ _ h

theorem good_CM_TraceThroughSurface_call (env : Env) (tw tw1 : traceWork_t)
    (surface : cSurface_t) (guard : Bool) (t : mapSurfaceType_t)
    (h : CM_TraceThroughSurface_call env tw surface guard t = some tw1) :
    Good nn tw.trace tw1.trace := by
  unfold CM_TraceThroughSurface_call at h
  split at h
  · split at h
    · simp only [Option.some.injEq] at h
      rw [← h]
      exact Good.refl _
    · exact good_CM_TraceThroughSurfaceCollide env _ _ _ h
  · simp only [Option.some.injEq] at h
    rw [← h]
    exact Good.refl _

/-- Writing surface flags and contents next to a fraction that went down keeps
the step good. -/
theorem good_set_flags (t u : trace_t) (sf c : Nat) (h : Good nn t u)
    (hlt : u.fraction < t.fraction) :
    Good nn t { u with surfaceFlags := sf, contents := c } := by
  refine ⟨fun hn ha => h.allsolid hn ha, fun hn ha hb => h.range hn ha hb,
    fun ha hb => ⟨(h.nohit ha hb).1, ?_⟩⟩
  intro h1
  have h2 : u.fraction = 1 := h1
  rw [h2] at hlt
  exact absurd ha (not_le.mpr hlt)

theorem good_CM_TraceThroughSurface (env : Env) (cm : clipMap_t) (tw tw1 : traceWork_t)
    (surface : cSurface_t) (h : CM_TraceThroughSurface env cm tw surface = some tw1) :
    Good nn tw.trace tw1.trace := by
  unfold CM_TraceThroughSurface at h
  simp only at h
  split at h
  · exact absurd h (by simp)
  · rename_i twa ha
    split at h
    · exact absurd h (by simp)
    · rename_i twb hb
      have hg : Good nn tw.trace twb.trace :=
        Good.trans (good_CM_TraceThroughSurface_call _ _ _ _ _ _ ha)
          (good_CM_TraceThroughSurface_call _ _ _ _ _ _ hb)
      split at h
      · rename_i hlt
        simp only [Option.some.injEq] at h
        rw [← h]
        exact good_set_flags _ _ _ _ hg hlt
      · simp only [Option.some.injEq] at h
        rw [← h]
        exact hg

/-! ### Capsules -/

theorem VectorNormalize_length_nonneg (env : Env) (hs : ∀ x, 0 ≤ env.sqrtf x) (v : Vec3) :
    0 ≤ (VectorNormalize env v).2 := by
  unfold VectorNormalize
  split_ifs
  · exact le_refl _
  · exact hs _

/-- The fraction that the sphere and cylinder sweeps compute from the near
root is never negative. -/
theorem sweep_fraction_nonneg (f0 length : ℚ) (hl : 0 ≤ length) :
    0 ≤ (if f0 < 0 then 0 else f0 / length) := by
  split_ifs with h
  · exact le_refl _
  · exact div_nonneg (not_lt.mp h) hl

theorem good_CM_TraceThroughSphere_record (env : Env) (tw : traceWork_t) (origin : Vec3)
    (radius : ℚ) (start end_ : Vec3) (f : ℚ) (h0 : nn → 0 ≤ f) (hlt : f < tw.trace.fraction) :
    Good nn tw.trace (CM_TraceThroughSphere_record env tw origin radius start end_ f).trace :=
  good_of_lower _ _ rfl rfl h0 (fun _ => Or.inl hlt)

theorem good_CM_TraceThroughVerticalCylinder_record (env : Env) (tw : traceWork_t)
    (origin : Vec3) (radius : ℚ) (intersection : Vec3) (f : ℚ) (h0 : nn → 0 ≤ f)
    (hlt : f < tw.trace.fraction) :
    Good nn tw.trace
      (CM_TraceThroughVerticalCylinder_record env tw origin radius intersection f).trace :=
  good_of_lower _ _ rfl rfl h0 (fun _ => Or.inl hlt)

theorem good_CM_TraceThroughSphere (env : Env) (hs : nn → ∀ x, 0 ≤ env.sqrtf x) (tw : traceWork_t)
    (origin : Vec3) (radius : ℚ) (start end_ : Vec3) :
    Good nn tw.trace (CM_TraceThroughSphere env tw origin radius start end_).trace := by
  have hl := fun hn => VectorNormalize_length_nonneg env (hs hn) (VectorSubtract end_ start)
  unfold CM_TraceThroughSphere
  simp only
  split_ifs <;>
    first
    | exact Good.refl _
    | exact good_of_startsolid _ _ (by rfl) (by rfl)
    | exact good_CM_TraceThroughSphere_record _ _ _ _ _ _ _ (fun _ => le_refl _) ‹_›
    | exact good_CM_TraceThroughSphere_record _ _ _ _ _ _ _ (fun hn => div_nonneg (not_lt.mp ‹_›) (hl hn)) ‹_›

theorem good_CM_TraceThroughVerticalCylinder_sweep (env : Env) (hs : nn → ∀ x, 0 ≤ env.sqrtf x)
    (tw : traceWork_t) (origin : Vec3) (radius halfheight : ℚ) (start end_ : Vec3) :
    Good nn tw.trace
      (CM_TraceThroughVerticalCylinder_sweep env tw origin radius halfheight start end_).trace := by
  have hl := fun hn => VectorNormalize_length_nonneg env (hs hn)
    (VectorSubtract ⟨end_.x, end_.y, 0⟩ ⟨start.x, start.y, 0⟩)
  unfold CM_TraceThroughVerticalCylinder_sweep
  simp only
  split_ifs <;>
    first
    | exact Good.refl _
    | exact good_CM_TraceThroughVerticalCylinder_record _ _ _ _ _ _ (fun _ => le_refl _) ‹_›
    | exact good_CM_TraceThroughVerticalCylinder_record _ _ _ _ _ _
        (fun hn => div_nonneg (not_lt.mp ‹_›) (hl hn)) ‹_›

theorem good_CM_TraceThroughVerticalCylinder (env : Env) (hs : nn → ∀ x, 0 ≤ env.sqrtf x)
    (tw : traceWork_t) (origin : Vec3) (radius halfheight : ℚ) (start end_ : Vec3) :
    Good nn tw.trace
      (CM_TraceThroughVerticalCylinder env tw origin radius halfheight start end_).trace := by
  unfold CM_TraceThroughVerticalCylinder
  simp only
  split_ifs <;>
    first
    | exact good_of_startsolid _ _ (by rfl) (by rfl)
    | exact good_CM_TraceThroughVerticalCylinder_sweep env hs _ _ _ _ _ _

theorem good_ite {t : trace_t} (c : Prop) [Decidable c] (a b : traceWork_t)
    (ha : Good nn t a.trace) (hb : Good nn t b.trace) : Good nn t (if c then a else b).trace := by
  split_ifs
  · exact ha
  · exact hb

theorem good_CM_TestCapsuleInCapsule (env : Env) (cm : clipMap_t) (tw tw1 : traceWork_t)
    (model : Nat) (h : CM_TestCapsuleInCapsule env cm tw model = some tw1) :
    Good nn tw.trace tw1.trace := by
  unfold CM_TestCapsuleInCapsule at h
  split at h
  · exact absurd h (by simp)
  · simp only at h
    split at h
    · split at h
      · simp only [Option.some.injEq] at h
        rw [← h]
        repeat' first
          | exact Good.refl _
          | apply good_ite
          | refine Good.trans ?_ (good_setAllsolid _)
      · simp only [Option.some.injEq] at h
        rw [← h]
        repeat' first
          | exact Good.refl _
          | apply good_ite
          | refine Good.trans ?_ (good_setAllsolid _)
    · simp only [Option.some.injEq] at h
      rw [← h]
      repeat' first
        | exact Good.refl _
        | apply good_ite
        | refine Good.trans ?_ (good_setAllsolid _)

theorem good_CM_TraceCapsuleThroughCapsule (env : Env) (hs : nn → ∀ x, 0 ≤ env.sqrtf x)
    (cm : clipMap_t) (tw tw1 : traceWork_t) (model : Nat)
    (h : CM_TraceCapsuleThroughCapsule env cm tw model = some tw1) :
    Good nn tw.trace tw1.trace := by
  unfold CM_TraceCapsuleThroughCapsule at h
  split at h
  · exact absurd h (by simp)
  · simp only at h
    split at h
    · simp only [Option.some.injEq] at h
      rw [← h]
      exact Good.refl _
    · simp only [Option.some.injEq] at h
      rw [← h]
      refine Good.trans (Good.trans ?_ (good_CM_TraceThroughSphere env hs _ _ _ _ _))
        (good_CM_TraceThroughSphere env hs _ _ _ _ _)
      exact good_ite _ _ _
        (good_ite _ _ _ (good_CM_TraceThroughVerticalCylinder env hs _ _ _ _ _ _) (Good.refl _))
        (Good.refl _)

/-! ### Leafs -/

theorem good_CM_TestInLeaf_brushes :
    ∀ (l : List Nat) (cm cm1 : clipMap_t) (tw tw1 : traceWork_t) (b : Bool),
      CM_TestInLeaf_brushes cm tw l = some (cm1, tw1, b) → Good nn tw.trace tw1.trace := by
  intro l
  induction l with
  | nil =>
    intro cm cm1 tw tw1 b h
    simp only [CM_TestInLeaf_brushes, Option.some.injEq, Prod.mk.injEq] at h
    rw [← h.2.1]
    exact Good.refl _
  | cons brushNum rest ih =>
    intro cm cm1 tw tw1 b h
    rw [CM_TestInLeaf_brushes] at h
    split at h
    · exact absurd h (by simp)
    · rename_i br _
      split at h
      · exact ih _ _ _ _ _ h
      · simp only at h
        split at h
        · exact ih _ _ _ _ _ h
        · split at h
          · exact ih _ _ _ _ _ h
          · split at h
            · simp only [Option.some.injEq, Prod.mk.injEq] at h
              rw [← h.2.1]
              exact good_CM_TestBoxInBrush tw br
            · exact Good.trans (good_CM_TestBoxInBrush tw br) (ih _ _ _ _ _ h)

theorem good_CM_TestInLeaf_surfaces (env : Env) :
    ∀ (l : List Nat) (cm cm1 : clipMap_t) (tw tw1 : traceWork_t),
      CM_TestInLeaf_surfaces env cm tw l = some (cm1, tw1) → Good nn tw.trace tw1.trace := by
  intro l
  induction l with
  | nil =>
    intro cm cm1 tw tw1 h
    simp only [CM_TestInLeaf_surfaces, Option.some.injEq, Prod.mk.injEq] at h
    rw [← h.2]
    exact Good.refl _
  | cons surfaceNum rest ih =>
    intro cm cm1 tw tw1 h
    rw [CM_TestInLeaf_surfaces] at h
    split at h
    · exact absurd h (by simp)
    · exact ih _ _ _ _ h
    · rename_i surface _
      split at h
      · exact ih _ _ _ _ h
      · simp only at h
        split at h
        · exact ih _ _ _ _ h
        · split at h
          · exact ih _ _ _ _ h
          · split at h
            · exact absurd h (by simp)
            · simp only [Option.some.injEq, Prod.mk.injEq] at h
              rw [← h.2]
              exact good_setAllsolidContents _ _
            · split at h
              · exact absurd h (by simp)
              · simp only [Option.some.injEq, Prod.mk.injEq] at h
                rw [← h.2]
                exact good_setAllsolidContents _ _
              · exact ih _ _ _ _ h

theorem good_CM_TestInLeaf (env : Env) (cm cm1 : clipMap_t) (tw tw1 : traceWork_t)
    (leaf : cLeaf_t) (h : CM_TestInLeaf env cm tw leaf = some (cm1, tw1)) :
    Good nn tw.trace tw1.trace := by
  unfold CM_TestInLeaf at h
  split at h
  · exact absurd h (by simp)
  · rename_i hb
    simp only [Option.some.injEq, Prod.mk.injEq] at h
    rw [← h.2]
    exact good_CM_TestInLeaf_brushes _ _ _ _ _ _ hb
  · rename_i hb
    exact Good.trans (good_CM_TestInLeaf_brushes _ _ _ _ _ _ hb)
      (good_CM_TestInLeaf_surfaces env _ _ _ _ _ h)

theorem good_CM_TraceThroughLeaf_brushes (env : Env) :
    ∀ (l : List Nat) (cm cm1 : clipMap_t) (tw tw1 : traceWork_t) (b : Bool),
      CM_TraceThroughLeaf_brushes env cm tw l = some (cm1, tw1, b) →
      Good nn tw.trace tw1.trace := by
  intro l
  induction l with
  | nil =>
    intro cm cm1 tw tw1 b h
    simp only [CM_TraceThroughLeaf_brushes, Option.some.injEq, Prod.mk.injEq] at h
    rw [← h.2.1]
    exact Good.refl _
  | cons brushNum rest ih =>
    intro cm cm1 tw tw1 b h
    rw [CM_TraceThroughLeaf_brushes] at h
    split at h
    · exact absurd h (by simp)
    · rename_i br _
      split at h
      · exact ih _ _ _ _ _ h
      · simp only at h
        split at h
        · exact ih _ _ _ _ _ h
        · split at h
          · exact ih _ _ _ _ _ h
          · split at h
            · exact ih _ _ _ _ _ h
            · split at h
              · simp only [Option.some.injEq, Prod.mk.injEq] at h
                rw [← h.2.1]
                exact good_CM_TraceThroughBrush tw br
              · exact Good.trans (good_CM_TraceThroughBrush tw br) (ih _ _ _ _ _ h)

theorem good_CM_TraceThroughLeaf_surfaces (env : Env) :
    ∀ (l : List Nat) (cm cm1 : clipMap_t) (tw tw1 : traceWork_t),
      CM_TraceThroughLeaf_surfaces env cm tw l = some (cm1, tw1) →
      Good nn tw.trace tw1.trace := by
  intro l
  induction l with
  | nil =>
    intro cm cm1 tw tw1 h
    simp only [CM_TraceThroughLeaf_surfaces, Option.some.injEq, Prod.mk.injEq] at h
    rw [← h.2]
    exact Good.refl _
  | cons surfaceNum rest ih =>
    intro cm cm1 tw tw1 h
    rw [CM_TraceThroughLeaf_surfaces] at h
    split at h
    · exact absurd h (by simp)
    · exact ih _ _ _ _ h
    · rename_i surface _
      split at h
      · exact ih _ _ _ _ h
      · simp only at h
        split at h
        · exact ih _ _ _ _ h
        · split at h
          · exact ih _ _ _ _ h
          · split at h
            · exact absurd h (by simp)
            · split at h
              · exact ih _ _ _ _ h
              · split at h
                · exact absurd h (by simp)
                · rename_i twa hsurf
                  have hg : Good nn _ _ := good_CM_TraceThroughSurface _ _ _ _ _ hsurf
                  split at h
                  · simp only [Option.some.injEq, Prod.mk.injEq] at h
                    rw [← h.2]
                    exact hg
                  · exact Good.trans hg (ih _ _ _ _ h)

theorem good_CM_TraceThroughLeaf (env : Env) (cm cm1 : clipMap_t) (tw tw1 : traceWork_t)
    (leaf : cLeaf_t) (h : CM_TraceThroughLeaf env cm tw leaf = some (cm1, tw1)) :
    Good nn tw.trace tw1.trace := by
  unfold CM_TraceThroughLeaf at h
  split at h
  · exact absurd h (by simp)
  · rename_i hb
    simp only [Option.some.injEq, Prod.mk.injEq] at h
    rw [← h.2]
    exact good_CM_TraceThroughLeaf_brushes env _ _ _ _ _ _ hb
  · rename_i hb
    have hg : Good nn _ _ := good_CM_TraceThroughLeaf_brushes env _ _ _ _ _ _ hb
    split at h
    · simp only [Option.some.injEq, Prod.mk.injEq] at h
      rw [← h.2]
      exact hg
    · exact Good.trans hg (good_CM_TraceThroughLeaf_surfaces env _ _ _ _ _ h)

/-! ### The driver -/

theorem good_CM_TestBoundingBoxInCapsule (env : Env) (cm cm1 : clipMap_t)
    (tw tw1 : traceWork_t) (model : Nat)
    (h : CM_TestBoundingBoxInCapsule env cm tw model = some (cm1, tw1)) :
    Good nn tw.trace tw1.trace := by
  unfold CM_TestBoundingBoxInCapsule at h
  split at h
  · exact absurd h (by simp)
  · simp only at h
    split at h
    · exact absurd h (by simp)
    · exact good_CM_TestInLeaf env _ _ (swapBoxForCapsule tw _ _) _ _ h

theorem good_CM_TraceBoundingBoxThroughCapsule (env : Env) (cm cm1 : clipMap_t)
    (tw tw1 : traceWork_t) (model : Nat)
    (h : CM_TraceBoundingBoxThroughCapsule env cm tw model = some (cm1, tw1)) :
    Good nn tw.trace tw1.trace := by
  unfold CM_TraceBoundingBoxThroughCapsule at h
  split at h
  · exact absurd h (by simp)
  · simp only at h
    split at h
    · exact absurd h (by simp)
    · exact good_CM_TraceThroughLeaf env _ _ (swapBoxForCapsule tw _ _) _ _ h

theorem good_CM_PositionTest_leafs (env : Env) :
    ∀ (l : List Nat) (cm cm1 : clipMap_t) (tw tw1 : traceWork_t),
      CM_PositionTest_leafs env cm tw l = some (cm1, tw1) → Good nn tw.trace tw1.trace := by
  intro l
  induction l with
  | nil =>
    intro cm cm1 tw tw1 h
    simp only [CM_PositionTest_leafs, Option.some.injEq, Prod.mk.injEq] at h
    rw [← h.2]
    exact Good.refl _
  | cons leafNum rest ih =>
    intro cm cm1 tw tw1 h
    rw [CM_PositionTest_leafs] at h
    split at h
    · exact absurd h (by simp)
    · split at h
      · exact absurd h (by simp)
      · rename_i hleaf
        have hg : Good nn _ _ := good_CM_TestInLeaf env _ _ _ _ _ hleaf
        split at h
        · simp only [Option.some.injEq, Prod.mk.injEq] at h
          rw [← h.2]
          exact hg
        · exact Good.trans hg (ih _ _ _ _ h)

theorem good_CM_PositionTest (env : Env) (cm cm1 : clipMap_t) (tw tw1 : traceWork_t)
    (h : CM_PositionTest env cm tw = some (cm1, tw1)) : Good nn tw.trace tw1.trace :=
  good_CM_PositionTest_leafs env _ _ _ _ _ h

theorem good_CM_TraceThroughTree (env : Env) :
    ∀ (fuel : Nat) (cm cm1 : clipMap_t) (tw tw1 : traceWork_t) (num : Int) (p1f p2f : ℚ)
      (p1 p2 : Vec3),
      CM_TraceThroughTree env fuel cm tw num p1f p2f p1 p2 = some (cm1, tw1) →
      Good nn tw.trace tw1.trace := by
  intro fuel
  induction fuel with
  | zero =>
    intro cm cm1 tw tw1 num p1f p2f p1 p2 h
    simp [CM_TraceThroughTree] at h
  | succ fuel ih =>
    intro cm cm1 tw tw1 num p1f p2f p1 p2 h
    rw [CM_TraceThroughTree] at h
    split at h
    · simp only [Option.some.injEq, Prod.mk.injEq] at h
      rw [← h.2]
      exact Good.refl _
    · split at h
      · split at h
        · exact absurd h (by simp)
        · exact good_CM_TraceThroughLeaf env _ _ _ _ _ h
      · split at h
        · exact absurd h (by simp)
        · simp only at h
          split at h
          · exact ih _ _ _ _ _ _ _ _ _ h
          · split at h
            · exact ih _ _ _ _ _ _ _ _ _ h
            · split at h
              · exact absurd h (by simp)
              · rename_i hnear
                exact Good.trans (ih _ _ _ _ _ _ _ _ _ hnear) (ih _ _ _ _ _ _ _ _ _ h)

theorem CM_Trace_setup_trace (env : Env) (start end_ mins maxs origin : Vec3)
    (brushmask skipmask : Nat) (type : traceType_t) (sphere : Option sphere_t) :
    (CM_Trace_setup env start end_ mins maxs origin brushmask skipmask type sphere).trace
      = defaultTrace := rfl

theorem CM_Trace_point_trace (tw : traceWork_t) : (CM_Trace_point tw).trace = tw.trace := by
  unfold CM_Trace_point
  split_ifs <;> rfl

theorem good_CM_Trace_dispatch (env : Env) (hs : nn → ∀ x, 0 ≤ env.sqrtf x) (fuel : Nat)
    (cm cm1 : clipMap_t) (tw tw1 : traceWork_t) (start end_ : Vec3) (model : Nat)
    (cmod : cmodel_t)
    (h : CM_Trace_dispatch env fuel cm tw start end_ model cmod = some (cm1, tw1)) :
    Good nn tw.trace tw1.trace := by
  unfold CM_Trace_dispatch at h
  split at h
  · split at h
    · split at h
      · split at h
        · split at h
          · exact absurd h (by simp)
          · rename_i twa ha
            simp only [Option.some.injEq, Prod.mk.injEq] at h
            rw [← h.2]
            exact good_CM_TestCapsuleInCapsule _ _ _ _ _ ha
        · exact good_CM_TestBoundingBoxInCapsule _ _ _ _ _ _ h
      · exact good_CM_TestInLeaf _ _ _ _ _ _ h
    · exact good_CM_PositionTest _ _ _ _ _ h
  · simp only at h
    rw [← CM_Trace_point_trace tw]
    split at h
    · split at h
      · split at h
        · split at h
          · exact absurd h (by simp)
          · rename_i twa ha
            simp only [Option.some.injEq, Prod.mk.injEq] at h
            rw [← h.2]
            exact good_CM_TraceCapsuleThroughCapsule _ hs _ _ _ _ ha
        · exact good_CM_TraceBoundingBoxThroughCapsule _ _ _ _ _ _ h
      · exact good_CM_TraceThroughLeaf _ _ _ _ _ _ h
    · exact good_CM_TraceThroughTree _ _ _ _ _ _ _ _ _ _ _ h

/-- Every result of `CM_Trace` is the default trace, or the trace that the
dispatch left, with `endpos` set from the caller's `start` and `end`. -/
theorem CM_Trace_result (env : Env) (fuel : Nat) (cm cm1 : clipMap_t) (start end_ : Vec3)
    (mins maxs : Option Vec3) (model : Nat) (origin : Vec3) (brushmask skipmask : Nat)
    (type : traceType_t) (sphere : Option sphere_t) (tr : trace_t)
    (h : CM_Trace env fuel cm start end_ mins maxs model origin brushmask skipmask type sphere
      = some (cm1, tr)) :
    (cm.numNodes = 0 ∧ tr = defaultTrace) ∨
    (cm.numNodes ≠ 0 ∧ ∃ cmod tw1,
      CM_Trace_dispatch env fuel { cm with checkcount := cm.checkcount + 1 }
        (CM_Trace_setup env start end_ (mins.getD vec3_origin) (maxs.getD vec3_origin) origin
          brushmask skipmask type sphere) start end_ model cmod = some (cm1, tw1) ∧
      tr = { tw1.trace with
        endpos := if tw1.trace.fraction = 1 then end_
                  else VectorLerp start end_ tw1.trace.fraction }) := by
  unfold CM_Trace at h
  split at h
  · exact absurd h (by simp)
  · rename_i cmod _
    simp only at h
    split at h
    · rename_i hn
      simp only [Option.some.injEq, Prod.mk.injEq] at h
      exact Or.inl ⟨hn, h.2.symm⟩
    · rename_i hn
      right
      refine ⟨hn, ?_⟩
      split at h
      · exact absurd h (by simp)
      · rename_i cm2 tw2 hd
        refine ⟨cmod, tw2, ?_, ?_⟩
        · split at h
          · simp only [Option.some.injEq, Prod.mk.injEq] at h
            rw [← h.1]
            exact hd
          · simp only [Option.some.injEq, Prod.mk.injEq] at h
            rw [← h.1]
            exact hd
        · split at h
          · rename_i hf
            simp only [Option.some.injEq, Prod.mk.injEq] at h
            rw [← h.2, if_pos hf]
          · rename_i hf
            simp only [Option.some.injEq, Prod.mk.injEq] at h
            rw [← h.2, if_neg hf]

/-- The trace that `CM_Trace` returns is a good successor of the default
trace as far as everything but `endpos` goes. -/
theorem good_CM_Trace (env : Env) (hs : nn → ∀ x, 0 ≤ env.sqrtf x) (fuel : Nat)
    (cm cm1 : clipMap_t) (start end_ : Vec3)
    (mins maxs : Option Vec3) (model : Nat) (origin : Vec3) (brushmask skipmask : Nat)
    (type : traceType_t) (sphere : Option sphere_t) (tr : trace_t)
    (h : CM_Trace env fuel cm start end_ mins maxs model origin brushmask skipmask type sphere
      = some (cm1, tr)) :
    Good nn defaultTrace tr := by
  rcases CM_Trace_result _ _ _ _ _ _ _ _ _ _ _ _ _ _ _ h with ⟨_, h1⟩ | ⟨_, cmod, tw1, hd, h1⟩
  · rw [h1]
    exact Good.refl _
  · have hg : Good nn _ _ := good_CM_Trace_dispatch env hs _ _ _ _ _ _ _ _ _ hd
    rw [CM_Trace_setup_trace] at hg
    rw [h1]
    exact ⟨fun hn ha => hg.allsolid hn ha, fun hn ha hb => hg.range hn ha hb,
      fun ha hb => hg.nohit ha hb⟩

/-! ### Definedness

On a well-formed world every function returns a result: no index is out of
range, no null surface collide is read, and the tree walk ends within its
budget. -/

theorem SameWorld_refl (cm : clipMap_t) : SameWorld cm cm :=
  ⟨rfl, rfl, rfl, rfl, fun h => h⟩

theorem SameWorld_trans {a b c : clipMap_t} (h1 : SameWorld a b) (h2 : SameWorld b c) :
    SameWorld a c :=
  ⟨h2.1.trans h1.1, h2.2.1.trans h1.2.1, h2.2.2.1.trans h1.2.2.1,
    h2.2.2.2.1.trans h1.2.2.2.1, fun h => h2.2.2.2.2 (h1.2.2.2.2 h)⟩

theorem SameWorld_stampBrush (cm : clipMap_t) (i : Nat) (b : cbrush_t) :
    SameWorld cm (stampBrush cm i b) := by
  refine ⟨rfl, rfl, ?_, rfl, fun h => h⟩
  show (cm.brushes.set i _).length = cm.brushes.length
  exact List.length_set _ _ _

theorem SameWorld_stampSurface (cm : clipMap_t) (i : Nat) (s : cSurface_t)
    (hs : cm.surfaces[i]? = some (some s)) : SameWorld cm (stampSurface cm i s) := by
  refine ⟨rfl, rfl, rfl, ?_, fun h => ?_⟩
  · show (cm.surfaces.set i _).length = cm.surfaces.length
    exact List.length_set _ _ _
  · intro surface hmem
    have hmem1 : some surface ∈ cm.surfaces.set i (some { s with checkcount := cm.checkcount }) :=
      hmem
    rcases List.mem_or_eq_of_mem_set hmem1 with h1 | h1
    · exact h surface h1
    · have hsurf : surface = { s with checkcount := cm.checkcount } := Option.some.inj h1
      have hin : some s ∈ cm.surfaces := List.getElem?_mem hs
      obtain ⟨sc, hsc, hok⟩ := h s hin
      exact ⟨sc, by rw [hsurf]; exact hsc, hok⟩

theorem LeafOk_of_SameWorld {cm cm1 : clipMap_t} (h : SameWorld cm cm1) (leaf : cLeaf_t)
    (hl : LeafOk cm leaf) : LeafOk cm1 leaf :=
  ⟨fun i hi => by rw [h.2.2.1]; exact hl.1 i hi, fun i hi => by rw [h.2.2.2.1]; exact hl.2 i hi⟩

theorem WorldOk_of_SameWorld {cm cm1 : clipMap_t} (h : SameWorld cm cm1) (hw : WorldOk cm) :
    WorldOk cm1 := by
  refine ⟨fun leaf hl => ?_, h.2.2.2.2 hw.2⟩
  rw [h.2.1] at hl
  exact LeafOk_of_SameWorld h leaf (hw.1 leaf hl)

theorem TreeOk_of_SameWorld {cm cm1 : clipMap_t} (h : SameWorld cm cm1) :
    ∀ (depth : Nat) (num : Int), TreeOk cm depth num → TreeOk cm1 depth num := by
  intro depth
  induction depth with
  | zero => intro num ht; exact ht
  | succ d ih =>
    intro num ht
    unfold TreeOk at ht ⊢
    split_ifs at ht ⊢ with hn
    · obtain ⟨leaf, h1, h2⟩ := ht
      exact ⟨leaf, by rw [h.2.1]; exact h1, LeafOk_of_SameWorld h leaf h2⟩
    · obtain ⟨node, h1, h2, h3⟩ := ht
      exact ⟨node, by rw [h.1]; exact h1, ih _ h2, ih _ h3⟩

theorem TreeOk_mono (cm : clipMap_t) :
    ∀ (depth : Nat) (num : Int), TreeOk cm depth num → TreeOk cm (depth + 1) num := by
  intro depth
  induction depth with
  | zero => intro num ht; exact absurd ht (by simp [TreeOk])
  | succ d ih =>
    intro num ht
    unfold TreeOk at ht ⊢
    split_ifs at ht ⊢ with hn
    · exact ht
    · obtain ⟨node, h1, h2, h3⟩ := ht
      exact ⟨node, h1, ih _ h2, ih _ h3⟩

theorem total_PositionTest_borders (tw : traceWork_t) (sc : cSurfaceCollide_t) :
    ∀ l : List (Nat × Bool), (∀ b ∈ l, b.1 < sc.planes.length) →
      ∃ r, CM_PositionTestInSurfaceCollide_borders tw sc l = some r := by
  intro l
  induction l with
  | nil => intro _; exact ⟨true, rfl⟩
  | cons b rest ih =>
    intro h
    obtain ⟨k, inward⟩ := b
    have hk : k < sc.planes.length := h (k, inward) (List.mem_cons_self _ _)
    rw [CM_PositionTestInSurfaceCollide_borders, List.getElem?_eq_getElem hk]
    simp only
    split
    · exact ⟨false, rfl⟩
    · exact ih (fun b hb => h b (List.mem_cons_of_mem _ hb))

theorem total_PositionTest_facets (tw : traceWork_t) (sc : cSurfaceCollide_t) :
    ∀ l : List cFacet_t,
      (∀ f ∈ l, f.surfacePlane < sc.planes.length ∧ ∀ b ∈ f.borders, b.1 < sc.planes.length) →
      ∃ r, CM_PositionTestInSurfaceCollide_facets tw sc l = some r := by
  intro l
  induction l with
  | nil => intro _; exact ⟨false, rfl⟩
  | cons f rest ih =>
    intro h
    have hf := h f (List.mem_cons_self _ _)
    have hrest := ih (fun g hg => h g (List.mem_cons_of_mem _ hg))
    rw [CM_PositionTestInSurfaceCollide_facets, List.getElem?_eq_getElem hf.1]
    simp only
    split
    · exact hrest
    · obtain ⟨r, hr⟩ := total_PositionTest_borders tw sc f.borders hf.2
      rw [hr]
      cases r with
      | true => exact ⟨true, rfl⟩
      | false => exact hrest

theorem total_CM_PositionTestInSurfaceCollide (tw : traceWork_t) (sc : cSurfaceCollide_t)
    (h : SurfaceCollideOk sc) : ∃ r, CM_PositionTestInSurfaceCollide tw sc = some r := by
  unfold CM_PositionTestInSurfaceCollide
  split
  · exact ⟨false, rfl⟩
  · exact total_PositionTest_facets tw sc sc.facets h

theorem total_CM_TracePoint_borders (state : List (Bool × ℚ)) (intersect : ℚ) (n : Nat)
    (hn : state.length = n) :
    ∀ l : List (Nat × Bool), (∀ b ∈ l, b.1 < n) →
      ∃ r, CM_TracePoint_borders state intersect l = some r := by
  intro l
  induction l with
  | nil => intro _; exact ⟨true, rfl⟩
  | cons b rest ih =>
    intro h
    obtain ⟨k, inward⟩ := b
    have hk : k < state.length := by
      rw [hn]
      exact h (k, inward) (List.mem_cons_self _ _)
    have hrest := ih (fun b hb => h b (List.mem_cons_of_mem _ hb))
    rw [CM_TracePoint_borders, List.getElem?_eq_getElem hk]
    simp only
    split
    · split
      · exact ⟨false, rfl⟩
      · exact hrest
    · split
      · exact ⟨false, rfl⟩
      · exact hrest

theorem total_CM_TracePoint_facets (sc : cSurfaceCollide_t) (state : List (Bool × ℚ))
    (hn : state.length = sc.planes.length) :
    ∀ (l : List cFacet_t) (tw : traceWork_t),
      (∀ f ∈ l, f.surfacePlane < sc.planes.length ∧ ∀ b ∈ f.borders, b.1 < sc.planes.length) →
      ∃ r, CM_TracePoint_facets sc state tw l = some r := by
  intro l
  induction l with
  | nil => intro tw _; exact ⟨tw, rfl⟩
  | cons f rest ih =>
    intro tw h
    have hf := h f (List.mem_cons_self _ _)
    have hrest := fun tw1 => ih tw1 (fun g hg => h g (List.mem_cons_of_mem _ hg))
    have hk : f.surfacePlane < state.length := by rw [hn]; exact hf.1
    rw [CM_TracePoint_facets, List.getElem?_eq_getElem hk]
    simp only
    split
    · exact hrest _
    · split
      · exact hrest _
      · split
        · exact hrest _
        · obtain ⟨r, hr⟩ := total_CM_TracePoint_borders state
            (state.get ⟨f.surfacePlane, hk⟩).2 sc.planes.length hn f.borders hf.2
          rw [hr]
          cases r with
          | false => exact hrest _
          | true =>
            simp only
            rw [List.getElem?_eq_getElem hf.1]
            exact hrest _

theorem total_CM_TracePointThroughSurfaceCollide (tw : traceWork_t) (sc : cSurfaceCollide_t)
    (h : SurfaceCollideOk sc) : ∃ r, CM_TracePointThroughSurfaceCollide tw sc = some r := by
  unfold CM_TracePointThroughSurfaceCollide
  split
  · exact ⟨tw, rfl⟩
  · exact total_CM_TracePoint_facets sc _ (List.length_map _ _) sc.facets tw h

theorem total_CM_TraceThroughSurfaceCollide_borders (tw : traceWork_t)
    (sc : cSurfaceCollide_t) :
    ∀ (l : List (Nat × Bool)) (j : Nat) (st : FacetLoop), (∀ b ∈ l, b.1 < sc.planes.length) →
      ∃ r, CM_TraceThroughSurfaceCollide_borders tw sc j st l = some r := by
  intro l
  induction l with
  | nil => intro j st _; exact ⟨(true, st), rfl⟩
  | cons b rest ih =>
    intro j st h
    obtain ⟨k, inward⟩ := b
    have hk : k < sc.planes.length := h (k, inward) (List.mem_cons_self _ _)
    rw [CM_TraceThroughSurfaceCollide_borders, List.getElem?_eq_getElem hk]
    simp only
    split
    · exact ⟨_, rfl⟩
    · exact ih _ _ (fun b hb => h b (List.mem_cons_of_mem _ hb))

theorem total_CM_TraceThroughSurfaceCollide_facets (sc : cSurfaceCollide_t) :
    ∀ (l : List cFacet_t) (tw : traceWork_t) (bestplane : plane_t),
      (∀ f ∈ l, f.surfacePlane < sc.planes.length ∧ ∀ b ∈ f.borders, b.1 < sc.planes.length) →
      ∃ r, CM_TraceThroughSurfaceCollide_facets sc tw bestplane l = some r := by
  intro l
  induction l with
  | nil => intro tw _ _; exact ⟨tw, rfl⟩
  | cons f rest ih =>
    intro tw bestplane h
    have hf := h f (List.mem_cons_self _ _)
    have hrest := fun tw1 bp => ih tw1 bp (fun g hg => h g (List.mem_cons_of_mem _ hg))
    rw [CM_TraceThroughSurfaceCollide_facets, List.getElem?_eq_getElem hf.1]
    simp only
    split
    · exact hrest _ _
    · obtain ⟨r, hr⟩ := total_CM_TraceThroughSurfaceCollide_borders tw sc f.borders 0
        { enterFrac := (CM_CheckFacetPlane (CM_expandSurfacePlane tw sc.planes[f.surfacePlane]).1
            (CM_expandSurfacePlane tw sc.planes[f.surfacePlane]).2.1
            (CM_expandSurfacePlane tw sc.planes[f.surfacePlane]).2.2 (-1) 1).2.1,
          leaveFrac := (CM_CheckFacetPlane (CM_expandSurfacePlane tw sc.planes[f.surfacePlane]).1
            (CM_expandSurfacePlane tw sc.planes[f.surfacePlane]).2.1
            (CM_expandSurfacePlane tw sc.planes[f.surfacePlane]).2.2 (-1) 1).2.2.1,
          hitnum := -1,
          bestplane :=
            if (CM_CheckFacetPlane (CM_expandSurfacePlane tw sc.planes[f.surfacePlane]).1
              (CM_expandSurfacePlane tw sc.planes[f.surfacePlane]).2.1
              (CM_expandSurfacePlane tw sc.planes[f.surfacePlane]).2.2 (-1) 1).2.2.2 then
              (CM_expandSurfacePlane tw sc.planes[f.surfacePlane]).1
            else bestplane } hf.2
      rw [hr]
      obtain ⟨b, st⟩ := r
      cases b with
      | false => exact hrest _ _
      | true =>
        simp only
        split
        · exact hrest _ _
        · split
          · split
            · exact hrest _ _
            · exact hrest _ _
          · exact hrest _ _

theorem total_CM_TraceThroughSurfaceCollide (env : Env) (tw : traceWork_t)
    (sc : cSurfaceCollide_t) (h : SurfaceCollideOk sc) :
    ∃ r, CM_TraceThroughSurfaceCollide env tw sc = some r := by
  unfold CM_TraceThroughSurfaceCollide
  split
  · exact ⟨tw, rfl⟩
  · split
    · exact total_CM_TracePointThroughSurfaceCollide tw sc h
    · exact total_CM_TraceThroughSurfaceCollide_facets sc sc.facets tw _ h

theorem total_CM_TraceThroughSurface_call (env : Env) (tw : traceWork_t) (surface : cSurface_t)
    (guard : Bool) (t : mapSurfaceType_t)
    (h : ∀ sc, surface.sc = some sc → SurfaceCollideOk sc) :
    ∃ r, CM_TraceThroughSurface_call env tw surface guard t = some r := by
  unfold CM_TraceThroughSurface_call
  split
  · split
    · exact ⟨tw, rfl⟩
    · rename_i sc hsc
      exact total_CM_TraceThroughSurfaceCollide env tw sc (h sc hsc)
  · exact ⟨tw, rfl⟩

theorem total_CM_TraceThroughSurface (env : Env) (cm : clipMap_t) (tw : traceWork_t)
    (surface : cSurface_t) (h : ∀ sc, surface.sc = some sc → SurfaceCollideOk sc) :
    ∃ r, CM_TraceThroughSurface env cm tw surface = some r := by
  unfold CM_TraceThroughSurface
  simp only
  obtain ⟨r1, h1⟩ := total_CM_TraceThroughSurface_call env tw surface (!env.cm_noCurves)
    mapSurfaceType_t.MST_PATCH h
  rw [h1]
  simp only
  obtain ⟨r2, h2⟩ := total_CM_TraceThroughSurface_call env r1 surface
    (cm.perPolyCollision || env.cm_forceTriangles) mapSurfaceType_t.MST_TRIANGLE_SOUP h
  rw [h2]
  simp only
  split
  · exact ⟨_, rfl⟩
  · exact ⟨_, rfl⟩

theorem total_CM_TestInLeaf_surfaceHit (tw : traceWork_t) (surface : cSurface_t)
    (t : mapSurfaceType_t) (h : ∀ sc, surface.sc = some sc → SurfaceCollideOk sc) :
    ∃ r, CM_TestInLeaf_surfaceHit tw surface t = some r := by
  unfold CM_TestInLeaf_surfaceHit
  split
  · split
    · exact ⟨false, rfl⟩
    · rename_i sc hsc
      exact total_CM_PositionTestInSurfaceCollide tw sc (h sc hsc)
  · exact ⟨false, rfl⟩

theorem SurfacesOk_sc {cm : clipMap_t} (hw : SurfacesOk cm) {i : Nat} {surface : cSurface_t}
    (hs : cm.surfaces[i]? = some (some surface)) :
    ∀ sc, surface.sc = some sc → SurfaceCollideOk sc := by
  intro sc hsc
  obtain ⟨sc1, h1, h2⟩ := hw surface (List.getElem?_mem hs)
  rw [hsc] at h1
  rw [Option.some.inj h1]
  exact h2

theorem total_CM_TestInLeaf_brushes :
    ∀ (l : List Nat) (cm : clipMap_t) (tw : traceWork_t), (∀ i ∈ l, i < cm.brushes.length) →
      ∃ r, CM_TestInLeaf_brushes cm tw l = some r ∧ SameWorld cm r.1 := by
  intro l
  induction l with
  | nil => intro cm tw _; exact ⟨_, rfl, SameWorld_refl _⟩
  | cons i rest ih =>
    intro cm tw h
    have hi : i < cm.brushes.length := h i (List.mem_cons_self _ _)
    have hrest : ∀ i ∈ rest, i < cm.brushes.length :=
      fun j hj => h j (List.mem_cons_of_mem _ hj)
    have hst := SameWorld_stampBrush cm i cm.brushes[i]
    have hrest1 : ∀ j ∈ rest, j < (stampBrush cm i cm.brushes[i]).brushes.length :=
      fun j hj => by rw [hst.2.2.1]; exact hrest j hj
    rw [CM_TestInLeaf_brushes, List.getElem?_eq_getElem hi]
    simp only
    split
    · exact ih cm tw hrest
    · split
      · obtain ⟨r, hr, hs⟩ := ih _ tw hrest1
        exact ⟨r, hr, SameWorld_trans hst hs⟩
      · split
        · obtain ⟨r, hr, hs⟩ := ih _ tw hrest1
          exact ⟨r, hr, SameWorld_trans hst hs⟩
        · split
          · exact ⟨_, rfl, hst⟩
          · obtain ⟨r, hr, hs⟩ := ih _ (CM_TestBoxInBrush tw cm.brushes[i]) hrest1
            exact ⟨r, hr, SameWorld_trans hst hs⟩

theorem total_CM_TestInLeaf_surfaces (env : Env) :
    ∀ (l : List Nat) (cm : clipMap_t) (tw : traceWork_t), (∀ i ∈ l, i < cm.surfaces.length) →
      SurfacesOk cm →
      ∃ r, CM_TestInLeaf_surfaces env cm tw l = some r ∧ SameWorld cm r.1 := by
  intro l
  induction l with
  | nil => intro cm tw _ _; exact ⟨_, rfl, SameWorld_refl _⟩
  | cons i rest ih =>
    intro cm tw h hw
    have hi : i < cm.surfaces.length := h i (List.mem_cons_self _ _)
    have hrest : ∀ i ∈ rest, i < cm.surfaces.length :=
      fun j hj => h j (List.mem_cons_of_mem _ hj)
    rw [CM_TestInLeaf_surfaces]
    split
    · rename_i hnone
      rw [List.getElem?_eq_getElem hi] at hnone
      exact absurd hnone (by simp)
    · exact ih cm tw hrest hw
    · rename_i surface hsurf
      have hst := SameWorld_stampSurface cm i surface hsurf
      have hrest1 : ∀ j ∈ rest, j < (stampSurface cm i surface).surfaces.length :=
        fun j hj => by rw [hst.2.2.2.1]; exact hrest j hj
      have hw1 := hst.2.2.2.2 hw
      have hsc := SurfacesOk_sc hw hsurf
      have hnext : ∃ r, CM_TestInLeaf_surfaces env (stampSurface cm i surface) tw rest = some r ∧
          SameWorld cm r.1 := by
        obtain ⟨r, hr, hs⟩ := ih _ tw hrest1 hw1
        exact ⟨r, hr, SameWorld_trans hst hs⟩
      split
      · exact ih cm tw hrest hw
      · simp only
        split
        · exact hnext
        · split
          · exact hnext
          · have h1 : ∃ b, (if (!env.cm_noCurves) = true then
                CM_TestInLeaf_surfaceHit tw surface mapSurfaceType_t.MST_PATCH
                else some false) = some b := by
              split
              · exact total_CM_TestInLeaf_surfaceHit tw surface _ hsc
              · exact ⟨false, rfl⟩
            obtain ⟨b1, hb1⟩ := h1
            rw [hb1]
            cases b1 with
            | true => exact ⟨_, rfl, hst⟩
            | false =>
              simp only
              have h2 : ∃ b, (if ((stampSurface cm i surface).perPolyCollision
                    || env.cm_forceTriangles) = true then
                  CM_TestInLeaf_surfaceHit tw surface mapSurfaceType_t.MST_TRIANGLE_SOUP
                  else some false) = some b := by
                split
                · exact total_CM_TestInLeaf_surfaceHit tw surface _ hsc
                · exact ⟨false, rfl⟩
              obtain ⟨b2, hb2⟩ := h2
              rw [hb2]
              cases b2 with
              | true => exact ⟨_, rfl, hst⟩
              | false => exact hnext

theorem total_CM_TestInLeaf (env : Env) (cm : clipMap_t) (tw : traceWork_t) (leaf : cLeaf_t)
    (hl : LeafOk cm leaf) (hw : SurfacesOk cm) :
    ∃ r, CM_TestInLeaf env cm tw leaf = some r ∧ SameWorld cm r.1 := by
  unfold CM_TestInLeaf
  obtain ⟨⟨cm1, tw1, b⟩, hr, hs⟩ := total_CM_TestInLeaf_brushes leaf.leafBrushes cm tw hl.1
  rw [hr]
  cases b with
  | true => exact ⟨_, rfl, hs⟩
  | false =>
    simp only
    have hs1 : SameWorld cm cm1 := hs
    obtain ⟨r2, hr2, hs2⟩ := total_CM_TestInLeaf_surfaces env leaf.leafSurfaces cm1 tw1
      (fun i hi => by rw [hs1.2.2.2.1]; exact hl.2 i hi) (hs1.2.2.2.2 hw)
    exact ⟨r2, hr2, SameWorld_trans hs1 hs2⟩

theorem total_CM_TraceThroughLeaf_brushes (env : Env) :
    ∀ (l : List Nat) (cm : clipMap_t) (tw : traceWork_t), (∀ i ∈ l, i < cm.brushes.length) →
      ∃ r, CM_TraceThroughLeaf_brushes env cm tw l = some r ∧ SameWorld cm r.1 := by
  intro l
  induction l with
  | nil => intro cm tw _; exact ⟨_, rfl, SameWorld_refl _⟩
  | cons i rest ih =>
    intro cm tw h
    have hi : i < cm.brushes.length := h i (List.mem_cons_self _ _)
    have hrest : ∀ i ∈ rest, i < cm.brushes.length :=
      fun j hj => h j (List.mem_cons_of_mem _ hj)
    have hst := SameWorld_stampBrush cm i cm.brushes[i]
    have hrest1 : ∀ j ∈ rest, j < (stampBrush cm i cm.brushes[i]).brushes.length :=
      fun j hj => by rw [hst.2.2.1]; exact hrest j hj
    have hnext : ∀ tw1, ∃ r, CM_TraceThroughLeaf_brushes env (stampBrush cm i cm.brushes[i]) tw1
        rest = some r ∧ SameWorld cm r.1 := by
      intro tw1
      obtain ⟨r, hr, hs⟩ := ih _ tw1 hrest1
      exact ⟨r, hr, SameWorld_trans hst hs⟩
    rw [CM_TraceThroughLeaf_brushes, List.getElem?_eq_getElem hi]
    simp only
    split
    · exact ih cm tw hrest
    · split
      · exact hnext _
      · split
        · exact hnext _
        · split
          · exact hnext _
          · split
            · exact ⟨_, rfl, hst⟩
            · exact hnext _

theorem total_CM_TraceThroughLeaf_surfaces (env : Env) :
    ∀ (l : List Nat) (cm : clipMap_t) (tw : traceWork_t), (∀ i ∈ l, i < cm.surfaces.length) →
      SurfacesOk cm →
      ∃ r, CM_TraceThroughLeaf_surfaces env cm tw l = some r ∧ SameWorld cm r.1 := by
  intro l
  induction l with
  | nil => intro cm tw _ _; exact ⟨_, rfl, SameWorld_refl _⟩
  | cons i rest ih =>
    intro cm tw h hw
    have hi : i < cm.surfaces.length := h i (List.mem_cons_self _ _)
    have hrest : ∀ i ∈ rest, i < cm.surfaces.length :=
      fun j hj => h j (List.mem_cons_of_mem _ hj)
    rw [CM_TraceThroughLeaf_surfaces]
    split
    · rename_i hnone
      rw [List.getElem?_eq_getElem hi] at hnone
      exact absurd hnone (by simp)
    · exact ih cm tw hrest hw
    · rename_i surface hsurf
      have hst := SameWorld_stampSurface cm i surface hsurf
      have hrest1 : ∀ j ∈ rest, j < (stampSurface cm i surface).surfaces.length :=
        fun j hj => by rw [hst.2.2.2.1]; exact hrest j hj
      have hw1 := hst.2.2.2.2 hw
      have hsc := SurfacesOk_sc hw hsurf
      have hnext : ∀ tw1, ∃ r, CM_TraceThroughLeaf_surfaces env (stampSurface cm i surface) tw1
          rest = some r ∧ SameWorld cm r.1 := by
        intro tw1
        obtain ⟨r, hr, hs⟩ := ih _ tw1 hrest1 hw1
        exact ⟨r, hr, SameWorld_trans hst hs⟩
      split
      · exact ih cm tw hrest hw
      · simp only
        split
        · exact hnext _
        · split
          · exact hnext _
          · split
            · rename_i hnosc
              obtain ⟨sc, h1, _⟩ := hw surface (List.getElem?_mem hsurf)
              rw [hnosc] at h1
              exact absurd h1 (by simp)
            · split
              · exact hnext _
              · obtain ⟨r1, hr1⟩ := total_CM_TraceThroughSurface env
                  (stampSurface cm i surface) tw surface hsc
                rw [hr1]
                simp only
                split
                · exact ⟨_, rfl, hst⟩
                · exact hnext _

theorem total_CM_TraceThroughLeaf (env : Env) (cm : clipMap_t) (tw : traceWork_t)
    (leaf : cLeaf_t) (hl : LeafOk cm leaf) (hw : SurfacesOk cm) :
    ∃ r, CM_TraceThroughLeaf env cm tw leaf = some r ∧ SameWorld cm r.1 := by
  unfold CM_TraceThroughLeaf
  obtain ⟨⟨cm1, tw1, b⟩, hr, hs⟩ :=
    total_CM_TraceThroughLeaf_brushes env leaf.leafBrushes cm tw hl.1
  rw [hr]
  cases b with
  | true => exact ⟨_, rfl, hs⟩
  | false =>
    simp only
    have hs1 : SameWorld cm cm1 := hs
    split
    · exact ⟨_, rfl, hs1⟩
    · obtain ⟨r2, hr2, hs2⟩ := total_CM_TraceThroughLeaf_surfaces env leaf.leafSurfaces cm1 tw1
        (fun i hi => by rw [hs1.2.2.2.1]; exact hl.2 i hi) (hs1.2.2.2.2 hw)
      exact ⟨r2, hr2, SameWorld_trans hs1 hs2⟩

theorem SameWorld_checkcount (cm : clipMap_t) (n : Nat) :
    SameWorld cm { cm with checkcount := n } :=
  ⟨rfl, rfl, rfl, rfl, fun h => h⟩

theorem total_CM_PositionTest_leafs (env : Env) :
    ∀ (l : List Nat) (cm : clipMap_t) (tw : traceWork_t), (∀ i ∈ l, i < cm.leafs.length) →
      WorldOk cm →
      ∃ r, CM_PositionTest_leafs env cm tw l = some r ∧ SameWorld cm r.1 := by
  intro l
  induction l with
  | nil => intro cm tw _ _; exact ⟨_, rfl, SameWorld_refl _⟩
  | cons i rest ih =>
    intro cm tw h hw
    have hi : i < cm.leafs.length := h i (List.mem_cons_self _ _)
    have hrest : ∀ i ∈ rest, i < cm.leafs.length :=
      fun j hj => h j (List.mem_cons_of_mem _ hj)
    rw [CM_PositionTest_leafs, List.getElem?_eq_getElem hi]
    simp only
    have hleaf : LeafOk cm cm.leafs[i] := hw.1 _ (List.getElem_mem _)
    obtain ⟨⟨cm1, tw1⟩, hr, hs⟩ := total_CM_TestInLeaf env cm tw cm.leafs[i] hleaf hw.2
    rw [hr]
    simp only
    have hs1 : SameWorld cm cm1 := hs
    split
    · exact ⟨_, rfl, hs1⟩
    · obtain ⟨r2, hr2, hs2⟩ := ih cm1 tw1 (fun j hj => by rw [hs1.2.1]; exact hrest j hj)
        (WorldOk_of_SameWorld hs1 hw)
      exact ⟨r2, hr2, SameWorld_trans hs1 hs2⟩

theorem total_CM_PositionTest (env : Env) (cm : clipMap_t) (tw : traceWork_t)
    (hw : WorldOk cm)
    (hleafs : ∀ (cm1 : clipMap_t) (a b : Vec3), ∀ i ∈ env.CM_BoxLeafnums cm1 a b,
      i < cm1.leafs.length) :
    ∃ r, CM_PositionTest env cm tw = some r ∧ SameWorld cm r.1 := by
  unfold CM_PositionTest
  simp only
  have hs := SameWorld_checkcount cm (cm.checkcount + 1 + 1)
  obtain ⟨r, hr, hs2⟩ := total_CM_PositionTest_leafs env
    ((env.CM_BoxLeafnums { cm with checkcount := cm.checkcount + 1 }
      ⟨(VectorAdd tw.start tw.size0).x - 1, (VectorAdd tw.start tw.size0).y - 1,
        (VectorAdd tw.start tw.size0).z - 1⟩
      ⟨(VectorAdd tw.start tw.size1).x + 1, (VectorAdd tw.start tw.size1).y + 1,
        (VectorAdd tw.start tw.size1).z + 1⟩).take MAX_POSITION_LEAFS)
    { cm with checkcount := cm.checkcount + 1 + 1 } tw
    (fun i hi => hleafs { cm with checkcount := cm.checkcount + 1 } _ _ i
      (List.mem_of_mem_take hi))
    (WorldOk_of_SameWorld hs hw)
  exact ⟨r, hr, SameWorld_trans hs hs2⟩

theorem total_CM_TraceThroughTree (env : Env) :
    ∀ (fuel : Nat) (cm : clipMap_t) (tw : traceWork_t) (num : Int) (p1f p2f : ℚ)
      (p1 p2 : Vec3), TreeOk cm fuel num → SurfacesOk cm →
      ∃ r, CM_TraceThroughTree env fuel cm tw num p1f p2f p1 p2 = some r ∧
        SameWorld cm r.1 := by
  intro fuel
  induction fuel with
  | zero => intro cm tw num p1f p2f p1 p2 ht _; exact absurd ht (by simp [TreeOk])
  | succ d ih =>
    intro cm tw num p1f p2f p1 p2 ht hw
    rw [CM_TraceThroughTree]
    unfold TreeOk at ht
    split
    · exact ⟨_, rfl, SameWorld_refl _⟩
    · by_cases hn : num < 0
      · rw [if_pos hn] at ht ⊢
        obtain ⟨leaf, h1, h2⟩ := ht
        rw [h1]
        exact total_CM_TraceThroughLeaf env cm tw leaf h2 hw
      · rw [if_neg hn] at ht ⊢
        obtain ⟨node, h1, h2, h3⟩ := ht
        rw [h1]
        simp only
        have hchild : ∀ side : Nat, TreeOk cm d (node.child side) := by
          intro side
          unfold cNode_t.child
          split
          · exact h2
          · exact h3
        split
        · exact ih _ _ _ _ _ _ _ h2 hw
        · split
          · exact ih _ _ _ _ _ _ _ h3 hw
          · obtain ⟨⟨cm1, tw1⟩, hr, hs⟩ := ih cm tw
              (node.child (CM_TraceThroughTree_split
                (CM_TraceThroughTree_dists tw node.plane p1 p2).1
                (CM_TraceThroughTree_dists tw node.plane p1 p2).2.1
                (CM_TraceThroughTree_dists tw node.plane p1 p2).2.2).1)
              p1f
              (p1f + (p2f - p1f) * clamp01 (CM_TraceThroughTree_split
                (CM_TraceThroughTree_dists tw node.plane p1 p2).1
                (CM_TraceThroughTree_dists tw node.plane p1 p2).2.1
                (CM_TraceThroughTree_dists tw node.plane p1 p2).2.2).2.1)
              p1
              (CM_TraceThroughTree_mid p1 p2 (clamp01 (CM_TraceThroughTree_split
                (CM_TraceThroughTree_dists tw node.plane p1 p2).1
                (CM_TraceThroughTree_dists tw node.plane p1 p2).2.1
                (CM_TraceThroughTree_dists tw node.plane p1 p2).2.2).2.1))
              (hchild _) hw
            rw [hr]
            simp only
            have hs1 : SameWorld cm cm1 := hs
            obtain ⟨r2, hr2, hs2⟩ := ih cm1 tw1
              (node.child ((CM_TraceThroughTree_split
                (CM_TraceThroughTree_dists tw node.plane p1 p2).1
                (CM_TraceThroughTree_dists tw node.plane p1 p2).2.1
                (CM_TraceThroughTree_dists tw node.plane p1 p2).2.2).1 ^^^ 1))
              (p1f + (p2f - p1f) * clamp01 (CM_TraceThroughTree_split
                (CM_TraceThroughTree_dists tw node.plane p1 p2).1
                (CM_TraceThroughTree_dists tw node.plane p1 p2).2.1
                (CM_TraceThroughTree_dists tw node.plane p1 p2).2.2).2.2)
              p2f
              (CM_TraceThroughTree_mid p1 p2 (clamp01 (CM_TraceThroughTree_split
                (CM_TraceThroughTree_dists tw node.plane p1 p2).1
                (CM_TraceThroughTree_dists tw node.plane p1 p2).2.1
                (CM_TraceThroughTree_dists tw node.plane p1 p2).2.2).2.2))
              p2
              (TreeOk_of_SameWorld hs1 _ _ (hchild _)) (hs1.2.2.2.2 hw)
            exact ⟨r2, hr2, SameWorld_trans hs1 hs2⟩

theorem total_CM_TestCapsuleInCapsule (env : Env) (cm : clipMap_t) (tw : traceWork_t)
    (model : Nat) (hb : ∃ b, env.CM_ModelBounds cm model = some b) :
    ∃ r, CM_TestCapsuleInCapsule env cm tw model = some r := by
  obtain ⟨⟨mins, maxs⟩, hb⟩ := hb
  unfold CM_TestCapsuleInCapsule
  rw [hb]
  simp only
  split
  · split
    · exact ⟨_, rfl⟩
    · exact ⟨_, rfl⟩
  · exact ⟨_, rfl⟩

theorem total_CM_TraceCapsuleThroughCapsule (env : Env) (cm : clipMap_t) (tw : traceWork_t)
    (model : Nat) (hb : ∃ b, env.CM_ModelBounds cm model = some b) :
    ∃ r, CM_TraceCapsuleThroughCapsule env cm tw model = some r := by
  obtain ⟨⟨mins, maxs⟩, hb⟩ := hb
  unfold CM_TraceCapsuleThroughCapsule
  rw [hb]
  simp only
  split
  · exact ⟨_, rfl⟩
  · exact ⟨_, rfl⟩

theorem total_CM_TestBoundingBoxInCapsule (env : Env) (cm : clipMap_t) (tw : traceWork_t)
    (model : Nat) (hw : WorldOk cm)
    (htemp : ∀ (cm1 : clipMap_t) (a b : Vec3), WorldOk cm1 →
      WorldOk (env.CM_TempBoxModel cm1 a b false).1 ∧
      ∃ cmod, env.CM_ClipHandleToModel (env.CM_TempBoxModel cm1 a b false).1
          (env.CM_TempBoxModel cm1 a b false).2 = some cmod ∧
        LeafOk (env.CM_TempBoxModel cm1 a b false).1 cmod.leaf)
    (hb : ∃ b, env.CM_ModelBounds cm model = some b) :
    ∃ r, CM_TestBoundingBoxInCapsule env cm tw model = some r := by
  obtain ⟨⟨mins, maxs⟩, hb⟩ := hb
  unfold CM_TestBoundingBoxInCapsule
  rw [hb]
  simp only
  obtain ⟨hw1, cmod, hc, hl⟩ := htemp cm (swapBoxForCapsule tw mins maxs).size0
    (swapBoxForCapsule tw mins maxs).size1 hw
  rw [hc]
  simp only
  obtain ⟨r, hr, _⟩ := total_CM_TestInLeaf env _ (swapBoxForCapsule tw mins maxs) cmod.leaf
    hl hw1.2
  exact ⟨r, hr⟩

theorem total_CM_TraceBoundingBoxThroughCapsule (env : Env) (cm : clipMap_t)
    (tw : traceWork_t) (model : Nat) (hw : WorldOk cm)
    (htemp : ∀ (cm1 : clipMap_t) (a b : Vec3), WorldOk cm1 →
      WorldOk (env.CM_TempBoxModel cm1 a b false).1 ∧
      ∃ cmod, env.CM_ClipHandleToModel (env.CM_TempBoxModel cm1 a b false).1
          (env.CM_TempBoxModel cm1 a b false).2 = some cmod ∧
        LeafOk (env.CM_TempBoxModel cm1 a b false).1 cmod.leaf)
    (hb : ∃ b, env.CM_ModelBounds cm model = some b) :
    ∃ r, CM_TraceBoundingBoxThroughCapsule env cm tw model = some r := by
  obtain ⟨⟨mins, maxs⟩, hb⟩ := hb
  unfold CM_TraceBoundingBoxThroughCapsule
  rw [hb]
  simp only
  obtain ⟨hw1, cmod, hc, hl⟩ := htemp cm (swapBoxForCapsule tw mins maxs).size0
    (swapBoxForCapsule tw mins maxs).size1 hw
  rw [hc]
  simp only
  obtain ⟨r, hr, _⟩ := total_CM_TraceThroughLeaf env _ (swapBoxForCapsule tw mins maxs)
    cmod.leaf hl hw1.2
  exact ⟨r, hr⟩

/-- On a well-formed world, with an environment that knows the model, and with
a budget that covers the depth of the tree, `CM_Trace` returns a result. -/
theorem total_CM_Trace (env : Env) (fuel : Nat) (cm : clipMap_t) (start end_ : Vec3)
    (mins maxs : Option Vec3) (model : Nat) (origin : Vec3) (brushmask skipmask : Nat)
    (type : traceType_t) (sphere : Option sphere_t)
    (hw : WorldOk cm) (he : EnvOk env cm model) (ht : TreeOk cm fuel 0) :
    ∃ r, CM_Trace env fuel cm start end_ mins maxs model origin brushmask skipmask type sphere
      = some r := by
  obtain ⟨cmod, hc, hl⟩ := he.1
  unfold CM_Trace
  rw [hc]
  simp only
  split
  · exact ⟨_, rfl⟩
  · have hs := SameWorld_checkcount cm (cm.checkcount + 1)
    have hw1 := WorldOk_of_SameWorld hs hw
    have hl1 := LeafOk_of_SameWorld hs cmod.leaf hl
    have ht1 := TreeOk_of_SameWorld hs _ _ ht
    have hd : ∃ r, CM_Trace_dispatch env fuel { cm with checkcount := cm.checkcount + 1 }
        (CM_Trace_setup env start end_ (mins.getD vec3_origin) (maxs.getD vec3_origin) origin
          brushmask skipmask type sphere) start end_ model cmod = some r := by
      unfold CM_Trace_dispatch
      split
      · split
        · split
          · split
            · obtain ⟨r, hr⟩ := total_CM_TestCapsuleInCapsule env
                { cm with checkcount := cm.checkcount + 1 }
                (CM_Trace_setup env start end_ (mins.getD vec3_origin)
                  (maxs.getD vec3_origin) origin brushmask skipmask type sphere) model
                (he.2.1 _)
              rw [hr]
              exact ⟨_, rfl⟩
            · exact total_CM_TestBoundingBoxInCapsule env _ _ model hw1 he.2.2.1 (he.2.1 _)
          · obtain ⟨r, hr, _⟩ := total_CM_TestInLeaf env _
              (CM_Trace_setup env start end_ (mins.getD vec3_origin)
                (maxs.getD vec3_origin) origin brushmask skipmask type sphere) cmod.leaf
              hl1 hw1.2
            exact ⟨r, hr⟩
        · obtain ⟨r, hr, _⟩ := total_CM_PositionTest env _
            (CM_Trace_setup env start end_ (mins.getD vec3_origin)
              (maxs.getD vec3_origin) origin brushmask skipmask type sphere) hw1 he.2.2.2
          exact ⟨r, hr⟩
      · simp only
        split
        · split
          · split
            · obtain ⟨r, hr⟩ := total_CM_TraceCapsuleThroughCapsule env
                { cm with checkcount := cm.checkcount + 1 }
                (CM_Trace_point (CM_Trace_setup env start end_ (mins.getD vec3_origin)
                  (maxs.getD vec3_origin) origin brushmask skipmask type sphere)) model
                (he.2.1 _)
              rw [hr]
              exact ⟨_, rfl⟩
            · exact total_CM_TraceBoundingBoxThroughCapsule env _ _ model hw1 he.2.2.1 (he.2.1 _)
          · obtain ⟨r, hr, _⟩ := total_CM_TraceThroughLeaf env _
              (CM_Trace_point (CM_Trace_setup env start end_ (mins.getD vec3_origin)
                (maxs.getD vec3_origin) origin brushmask skipmask type sphere)) cmod.leaf
              hl1 hw1.2
            exact ⟨r, hr⟩
        · obtain ⟨r, hr, _⟩ := total_CM_TraceThroughTree env fuel _
            (CM_Trace_point (CM_Trace_setup env start end_ (mins.getD vec3_origin)
              (maxs.getD vec3_origin) origin brushmask skipmask type sphere)) 0 0 1
            (CM_Trace_point (CM_Trace_setup env start end_ (mins.getD vec3_origin)
              (maxs.getD vec3_origin) origin brushmask skipmask type sphere)).start
            (CM_Trace_point (CM_Trace_setup env start end_ (mins.getD vec3_origin)
              (maxs.getD vec3_origin) origin brushmask skipmask type sphere)).end_
            ht1 hw1.2
          exact ⟨r, hr⟩
    obtain ⟨⟨cm2, tw2⟩, hr⟩ := hd
    rw [hr]
    simp only
    split
    · exact ⟨_, rfl⟩
    · exact ⟨_, rfl⟩

/-! ## The claims -/

theorem exampleSqrt_nonneg (x : ℚ) : 0 ≤ exampleEnv.sqrtf x := by
  show 0 ≤ exampleSqrt x
  unfold exampleSqrt
  exact div_nonneg (Nat.cast_nonneg _) (Nat.cast_nonneg _)

theorem exampleWorld_ok : WorldOk exampleWorld := by
  refine ⟨fun leaf hl => ?_, fun surface hs => absurd hs (List.not_mem_nil _)⟩
  have h1 : leaf = ⟨[0], []⟩ := by
    simpa [exampleWorld] using hl
  rw [h1]
  refine ⟨fun i hi => ?_, fun i hi => absurd hi (List.not_mem_nil _)⟩
  have h2 : i = 0 := by simpa using hi
  rw [h2]
  decide

theorem exampleTree_ok : TreeOk exampleWorld 5 0 := by
  have hleaf : TreeOk exampleWorld 4 (-1) := by
    unfold TreeOk
    rw [if_pos (by decide)]
    exact ⟨⟨[0], []⟩, rfl, exampleWorld_ok.1 _ (List.mem_singleton_self _)⟩
  unfold TreeOk
  rw [if_neg (by decide)]
  exact ⟨_, rfl, hleaf, hleaf⟩

theorem exampleEnv_ok (cm : clipMap_t) (model : Nat)
    (hm : model = 0 ∨ model = 254 ∨ model = 255) : EnvOk exampleEnv cm model := by
  have hmodel : ∃ cmod, exampleModel model = some cmod ∧ cmod.leaf = ⟨[], []⟩ := by
    rcases hm with h | h | h <;> rw [h] <;> exact ⟨_, rfl, rfl⟩
  have hempty : ∀ cm1 : clipMap_t, LeafOk cm1 ⟨[], []⟩ := fun cm1 =>
    ⟨fun i hi => absurd hi (List.not_mem_nil _), fun i hi => absurd hi (List.not_mem_nil _)⟩
  refine ⟨?_, fun cm1 => ?_, fun cm1 a b hw => ⟨hw, ?_⟩, fun cm1 a b i hi => ?_⟩
  · obtain ⟨cmod, h1, h2⟩ := hmodel
    refine ⟨cmod, h1, ?_⟩
    rw [h2]
    exact hempty cm
  · obtain ⟨cmod, h1, _⟩ := hmodel
    exact ⟨(cmod.mins, cmod.maxs), by
      show (exampleModel model).map _ = _
      rw [h1]
      rfl⟩
  · exact ⟨_, rfl, hempty _⟩
  · exact List.mem_range.mp hi

/-- C1: with a nonnegative square root, every sweep kernel started on a trace
with `0 ≤ fraction ≤ 1` returns a trace whose fraction lies between 0 and the
old fraction (brush, patch surface with its point path, sphere, vertical
cylinder; the patch kernels return on every well-formed surface collide), and
every result of `CM_Trace` on a loaded world has `0 ≤ fraction ≤ 1`, a result
that exists when the world is well formed and the budget covers the tree. -/
theorem C1_fraction_range (env : Env) (hs : ∀ x, 0 ≤ env.sqrtf x) :
    (∀ (tw : traceWork_t) (brush : cbrush_t),
      0 ≤ tw.trace.fraction → tw.trace.fraction ≤ 1 →
      0 ≤ (CM_TraceThroughBrush tw brush).trace.fraction ∧
      (CM_TraceThroughBrush tw brush).trace.fraction ≤ tw.trace.fraction) ∧
    (∀ (tw : traceWork_t) (sc : cSurfaceCollide_t),
      0 ≤ tw.trace.fraction → tw.trace.fraction ≤ 1 →
      (SurfaceCollideOk sc → ∃ tw1, CM_TraceThroughSurfaceCollide env tw sc = some tw1) ∧
      ∀ tw1, CM_TraceThroughSurfaceCollide env tw sc = some tw1 →
        0 ≤ tw1.trace.fraction ∧ tw1.trace.fraction ≤ tw.trace.fraction) ∧
    (∀ (tw : traceWork_t) (sc : cSurfaceCollide_t),
      0 ≤ tw.trace.fraction → tw.trace.fraction ≤ 1 →
      (SurfaceCollideOk sc → ∃ tw1, CM_TracePointThroughSurfaceCollide tw sc = some tw1) ∧
      ∀ tw1, CM_TracePointThroughSurfaceCollide tw sc = some tw1 →
        0 ≤ tw1.trace.fraction ∧ tw1.trace.fraction ≤ tw.trace.fraction) ∧
    (∀ (tw : traceWork_t) (origin : Vec3) (radius : ℚ) (start end_ : Vec3),
      0 ≤ tw.trace.fraction → tw.trace.fraction ≤ 1 →
      0 ≤ (CM_TraceThroughSphere env tw origin radius start end_).trace.fraction ∧
      (CM_TraceThroughSphere env tw origin radius start end_).trace.fraction
        ≤ tw.trace.fraction) ∧
    (∀ (tw : traceWork_t) (origin : Vec3) (radius halfheight : ℚ) (start end_ : Vec3),
      0 ≤ tw.trace.fraction → tw.trace.fraction ≤ 1 →
      0 ≤ (CM_TraceThroughVerticalCylinder env tw origin radius halfheight start
            end_).trace.fraction ∧
      (CM_TraceThroughVerticalCylinder env tw origin radius halfheight start
            end_).trace.fraction ≤ tw.trace.fraction) ∧
    (∀ (fuel : Nat) (cm : clipMap_t) (start end_ : Vec3) (mins maxs : Option Vec3)
      (model : Nat) (origin : Vec3) (brushmask skipmask : Nat) (type : traceType_t)
      (sphere : Option sphere_t),
      cm.numNodes ≠ 0 →
      (WorldOk cm → EnvOk env cm model → TreeOk cm fuel 0 →
        ∃ r, CM_Trace env fuel cm start end_ mins maxs model origin brushmask skipmask type
          sphere = some r) ∧
      ∀ (cm1 : clipMap_t) (tr : trace_t),
        CM_Trace env fuel cm start end_ mins maxs model origin brushmask skipmask type sphere
          = some (cm1, tr) →
        0 ≤ tr.fraction ∧ tr.fraction ≤ 1) := by
  have hn : True → ∀ x, 0 ≤ env.sqrtf x := fun _ => hs
  refine ⟨fun tw brush h0 h1 => ?_, fun tw sc h0 h1 => ⟨fun hok => ?_, fun tw1 h => ?_⟩,
    fun tw sc h0 h1 => ⟨fun hok => ?_, fun tw1 h => ?_⟩,
    fun tw origin radius start end_ h0 h1 => ?_,
    fun tw origin radius halfheight start end_ h0 h1 => ?_, ?_⟩
  · exact (@good_CM_TraceThroughBrush True tw brush).range trivial h0 h1
  · exact total_CM_TraceThroughSurfaceCollide env tw sc hok
  · exact (@good_CM_TraceThroughSurfaceCollide True env tw tw1 sc h).range trivial h0 h1
  · exact total_CM_TracePointThroughSurfaceCollide tw sc hok
  · exact (@good_CM_TracePointThroughSurfaceCollide True tw tw1 sc h).range trivial h0 h1
  · exact (good_CM_TraceThroughSphere env hn tw origin radius start end_).range trivial h0 h1
  · exact (good_CM_TraceThroughVerticalCylinder env hn tw origin radius halfheight start
      end_).range trivial h0 h1
  · intro fuel cm start end_ mins maxs model origin brushmask skipmask type sphere _
    refine ⟨fun hw he ht => total_CM_Trace env fuel cm start end_ mins maxs model origin
      brushmask skipmask type sphere hw he ht, fun cm1 tr h => ?_⟩
    have hg := (good_CM_Trace env hn fuel cm cm1 start end_ mins maxs model origin brushmask
      skipmask type sphere tr h).range trivial (by decide) (by decide)
    exact ⟨hg.1, hg.2⟩

/-- C1, on the example data: the brush sweep of the point mover through the
unit cube and the trace of the same mover through the example world. -/
theorem C1_fraction_range_witness :
    (0 ≤ (CM_TraceThroughBrush exampleWork unitCube).trace.fraction ∧
      (CM_TraceThroughBrush exampleWork unitCube).trace.fraction
        ≤ exampleWork.trace.fraction) ∧
    (∃ r, CM_Trace exampleEnv 5 exampleWorld ⟨-1, 1 / 2, 1 / 2⟩ ⟨2, 1 / 2, 1 / 2⟩ none none 0
        vec3_origin 1 0 traceType_t.TT_AABB none = some r) ∧
    CM_Trace exampleEnv 5 exampleWorld ⟨-1, 1 / 2, 1 / 2⟩ ⟨2, 1 / 2, 1 / 2⟩ none none 0
        vec3_origin 1 0 traceType_t.TT_AABB none
      = some (exampleWorldVisited, exampleHit) ∧
    (0 ≤ exampleHit.fraction ∧ exampleHit.fraction ≤ 1) :=
  ⟨(C1_fraction_range exampleEnv exampleSqrt_nonneg).1 exampleWork unitCube
      (by decide!) (by decide!),
    ((C1_fraction_range exampleEnv exampleSqrt_nonneg).2.2.2.2.2 5 exampleWorld
      ⟨-1, 1 / 2, 1 / 2⟩ ⟨2, 1 / 2, 1 / 2⟩ none none 0 vec3_origin 1 0
      traceType_t.TT_AABB none (by decide!)).1 exampleWorld_ok
      (exampleEnv_ok exampleWorld 0 (Or.inl rfl)) exampleTree_ok,
    by decide!,
    ((C1_fraction_range exampleEnv exampleSqrt_nonneg).2.2.2.2.2 5 exampleWorld
      ⟨-1, 1 / 2, 1 / 2⟩ ⟨2, 1 / 2, 1 / 2⟩ none none 0 vec3_origin 1 0
      traceType_t.TT_AABB none (by decide!)).2 exampleWorldVisited exampleHit (by decide!)⟩

/-- C2: the predicate `allsolid ⇒ startsolid ∧ fraction = 0` holds of the
default trace and is preserved by `CM_TraceThroughBrush`, `CM_TestBoxInBrush`,
`CM_TestInLeaf`, `CM_TraceThroughSurface`, `CM_TraceThroughSphere`,
`CM_TraceThroughVerticalCylinder` and `CM_TestCapsuleInCapsule` (the square
root being nonnegative); so it holds of every result of `CM_Trace`, a result
that exists when the world is well formed and the budget covers the tree. -/
theorem C2_allsolid_invariant (env : Env) (hs : ∀ x, 0 ≤ env.sqrtf x) :
    AllsolidInv defaultTrace ∧
    (∀ (tw : traceWork_t) (brush : cbrush_t),
      AllsolidInv tw.trace → AllsolidInv (CM_TraceThroughBrush tw brush).trace) ∧
    (∀ (tw : traceWork_t) (brush : cbrush_t),
      AllsolidInv tw.trace → AllsolidInv (CM_TestBoxInBrush tw brush).trace) ∧
    (∀ (cm cm1 : clipMap_t) (tw tw1 : traceWork_t) (leaf : cLeaf_t),
      CM_TestInLeaf env cm tw leaf = some (cm1, tw1) →
      AllsolidInv tw.trace → AllsolidInv tw1.trace) ∧
    (∀ (cm : clipMap_t) (tw tw1 : traceWork_t) (surface : cSurface_t),
      CM_TraceThroughSurface env cm tw surface = some tw1 →
      AllsolidInv tw.trace → AllsolidInv tw1.trace) ∧
    (∀ (tw : traceWork_t) (origin : Vec3) (radius : ℚ) (start end_ : Vec3),
      AllsolidInv tw.trace →
      AllsolidInv (CM_TraceThroughSphere env tw origin radius start end_).trace) ∧
    (∀ (tw : traceWork_t) (origin : Vec3) (radius halfheight : ℚ) (start end_ : Vec3),
      AllsolidInv tw.trace →
      AllsolidInv
        (CM_TraceThroughVerticalCylinder env tw origin radius halfheight start end_).trace) ∧
    (∀ (cm : clipMap_t) (tw tw1 : traceWork_t) (model : Nat),
      CM_TestCapsuleInCapsule env cm tw model = some tw1 →
      AllsolidInv tw.trace → AllsolidInv tw1.trace) ∧
    (∀ (fuel : Nat) (cm : clipMap_t) (start end_ : Vec3) (mins maxs : Option Vec3)
      (model : Nat) (origin : Vec3) (brushmask skipmask : Nat) (type : traceType_t)
      (sphere : Option sphere_t),
      (WorldOk cm → EnvOk env cm model → TreeOk cm fuel 0 →
        ∃ r, CM_Trace env fuel cm start end_ mins maxs model origin brushmask skipmask type
          sphere = some r) ∧
      ∀ (cm1 : clipMap_t) (tr : trace_t),
        CM_Trace env fuel cm start end_ mins maxs model origin brushmask skipmask type sphere
          = some (cm1, tr) →
        AllsolidInv tr) := by
  have hn : True → ∀ x, 0 ≤ env.sqrtf x := fun _ => hs
  have hd : AllsolidInv defaultTrace := fun h => absurd h (by decide)
  refine ⟨hd, fun tw brush => ?_, fun tw brush => ?_, fun cm cm1 tw tw1 leaf h => ?_,
    fun cm tw tw1 surface h => ?_, fun tw origin radius start end_ => ?_,
    fun tw origin radius halfheight start end_ => ?_, fun cm tw tw1 model h => ?_, ?_⟩
  · exact (@good_CM_TraceThroughBrush True tw brush).allsolid trivial
  · exact (@good_CM_TestBoxInBrush True tw brush).allsolid trivial
  · exact (@good_CM_TestInLeaf True env cm cm1 tw tw1 leaf h).allsolid trivial
  · exact (@good_CM_TraceThroughSurface True env cm tw tw1 surface h).allsolid trivial
  · exact (good_CM_TraceThroughSphere env hn tw origin radius start end_).allsolid trivial
  · exact (good_CM_TraceThroughVerticalCylinder env hn tw origin radius halfheight start
      end_).allsolid trivial
  · exact (@good_CM_TestCapsuleInCapsule True env cm tw tw1 model h).allsolid trivial
  · intro fuel cm start end_ mins maxs model origin brushmask skipmask type sphere
    refine ⟨fun hw he ht => total_CM_Trace env fuel cm start end_ mins maxs model origin
      brushmask skipmask type sphere hw he ht, fun cm1 tr h => ?_⟩
    exact (good_CM_Trace env hn fuel cm cm1 start end_ mins maxs model origin brushmask
      skipmask type sphere tr h).allsolid trivial hd

/-- C2, on the example data: the position test of the box `[-1,1]³` inside
the unit cube returns `allsolid`, with `startsolid` and a zero fraction. -/
theorem C2_allsolid_invariant_witness :
    CM_Trace exampleEnv 5 exampleWorld ⟨1 / 2, 1 / 2, 1 / 2⟩ ⟨1 / 2, 1 / 2, 1 / 2⟩
        (some ⟨-1, -1, -1⟩) (some ⟨1, 1, 1⟩) 0 vec3_origin 1 0 traceType_t.TT_AABB none
      = some (exampleWorldTested, exampleSolid) ∧
    exampleSolid.allsolid = true ∧ AllsolidInv exampleSolid :=
  ⟨by decide!, rfl,
    ((C2_allsolid_invariant exampleEnv exampleSqrt_nonneg).2.2.2.2.2.2.2.2 5 exampleWorld
      ⟨1 / 2, 1 / 2, 1 / 2⟩ ⟨1 / 2, 1 / 2, 1 / 2⟩
      (some ⟨-1, -1, -1⟩) (some ⟨1, 1, 1⟩) 0 vec3_origin 1 0 traceType_t.TT_AABB none).2
      exampleWorldTested exampleSolid (by decide!)⟩

/-- C6: on a loaded world (the square root being nonnegative), `CM_Trace`
returns `endpos = end` when the final fraction is 1 and
`endpos = start + fraction * (end - start)` otherwise, from the caller's own
`start` and `end`; and `allsolid` implies `endpos = start`.  The result exists
when the world is well formed and the budget covers the tree. -/
theorem C6_endpos (env : Env) (hs : ∀ x, 0 ≤ env.sqrtf x) (fuel : Nat) (cm : clipMap_t)
    (start end_ : Vec3) (mins maxs : Option Vec3) (model : Nat) (origin : Vec3)
    (brushmask skipmask : Nat) (type : traceType_t) (sphere : Option sphere_t)
    (hloaded : cm.numNodes ≠ 0) :
    (WorldOk cm → EnvOk env cm model → TreeOk cm fuel 0 →
      ∃ r, CM_Trace env fuel cm start end_ mins maxs model origin brushmask skipmask type
        sphere = some r) ∧
    ∀ (cm1 : clipMap_t) (tr : trace_t),
      CM_Trace env fuel cm start end_ mins maxs model origin brushmask skipmask type sphere
        = some (cm1, tr) →
      (tr.fraction = 1 → tr.endpos = end_) ∧
      (tr.fraction ≠ 1 → tr.endpos =
        ⟨start.x + (end_.x - start.x) * tr.fraction,
         start.y + (end_.y - start.y) * tr.fraction,
         start.z + (end_.z - start.z) * tr.fraction⟩) ∧
      (tr.allsolid = true → tr.endpos = start) := by
  refine ⟨fun hw he ht => total_CM_Trace env fuel cm start end_ mins maxs model origin
    brushmask skipmask type sphere hw he ht, fun cm1 tr h => ?_⟩
  have hall : AllsolidInv tr :=
    (@good_CM_Trace True env (fun _ => hs) fuel cm cm1 start end_ mins maxs model origin
      brushmask skipmask type sphere tr h).allsolid trivial (fun h => absurd h (by decide))
  rcases CM_Trace_result _ _ _ _ _ _ _ _ _ _ _ _ _ _ _ h with ⟨h0, _⟩ | ⟨_, cmod, tw1, _, h1⟩
  · exact absurd h0 hloaded
  · have hfr : tr.fraction = tw1.trace.fraction := by rw [h1]
    have hend : tr.endpos = if tw1.trace.fraction = 1 then end_
        else VectorLerp start end_ tw1.trace.fraction := by rw [h1]
    refine ⟨fun hf => ?_, fun hf => ?_, fun ha => ?_⟩
    · rw [hend, if_pos (hfr ▸ hf)]
    · rw [hend, if_neg (hfr ▸ hf), hfr]
      rfl
    · have hz := (hall ha).2
      rw [hend, if_neg (by rw [← hfr, hz]; norm_num), ← hfr, hz]
      unfold VectorLerp
      simp

/-- C6, on the example data: the hit of the point trace on the cube has
`endpos = start + 7/24 * (end - start)`, and the box inside the cube has
`endpos = start`. -/
theorem C6_endpos_witness :
    (CM_Trace exampleEnv 5 exampleWorld ⟨-1, 1 / 2, 1 / 2⟩ ⟨2, 1 / 2, 1 / 2⟩ none none 0
        vec3_origin 1 0 traceType_t.TT_AABB none = some (exampleWorldVisited, exampleHit) ∧
      exampleHit.fraction ≠ 1 ∧
      exampleHit.endpos =
        ⟨-1 + (2 - -1) * exampleHit.fraction, 1 / 2 + (1 / 2 - 1 / 2) * exampleHit.fraction,
         1 / 2 + (1 / 2 - 1 / 2) * exampleHit.fraction⟩) ∧
    (exampleSolid.allsolid = true ∧ exampleSolid.endpos = ⟨1 / 2, 1 / 2, 1 / 2⟩) ∧
    (∃ r, CM_Trace exampleEnv 5 exampleWorld ⟨1 / 2, 1 / 2, 1 / 2⟩ ⟨1 / 2, 1 / 2, 1 / 2⟩
        (some ⟨-1, -1, -1⟩) (some ⟨1, 1, 1⟩) 0 vec3_origin 1 0 traceType_t.TT_AABB none
      = some r) :=
  ⟨⟨by decide!, by decide!,
     ((C6_endpos exampleEnv exampleSqrt_nonneg 5 exampleWorld
       ⟨-1, 1 / 2, 1 / 2⟩ ⟨2, 1 / 2, 1 / 2⟩ none none 0 vec3_origin 1 0 traceType_t.TT_AABB none
       (by decide!)).2 exampleWorldVisited exampleHit (by decide!)).2.1 (by decide!)⟩,
   ⟨rfl,
    ((C6_endpos exampleEnv exampleSqrt_nonneg 5 exampleWorld
      ⟨1 / 2, 1 / 2, 1 / 2⟩ ⟨1 / 2, 1 / 2, 1 / 2⟩ (some ⟨-1, -1, -1⟩) (some ⟨1, 1, 1⟩) 0
      vec3_origin 1 0 traceType_t.TT_AABB none (by decide!)).2 exampleWorldTested exampleSolid
      (by decide!)).2.2 rfl⟩,
   (C6_endpos exampleEnv exampleSqrt_nonneg 5 exampleWorld
      ⟨1 / 2, 1 / 2, 1 / 2⟩ ⟨1 / 2, 1 / 2, 1 / 2⟩ (some ⟨-1, -1, -1⟩) (some ⟨1, 1, 1⟩) 0
      vec3_origin 1 0 traceType_t.TT_AABB none (by decide!)).1 exampleWorld_ok
      (exampleEnv_ok exampleWorld 0 (Or.inl rfl)) exampleTree_ok⟩

/-- C3: the code at a failing input.  A capsule mover tested at `(5, 0, 0)`
against the capsule model with content mask 1 returns fraction 0 with contents
0, which has no bit of the mask; the consistency check of the file rejects
the result. -/
theorem C3_capsule_contents_unset :
    CM_BoxTrace exampleEnv 5 exampleWorld ⟨5, 0, 0⟩ ⟨5, 0, 0⟩ (some ⟨-10, -10, -10⟩)
        (some ⟨10, 10, 10⟩) 254 1 0 traceType_t.TT_CAPSULE
      = some (exampleWorldCounted, exampleCapsuleSolid) ∧
    exampleCapsuleSolid.fraction < 1 ∧
    exampleCapsuleSolid.contents &&& 1 = 0 ∧
    CM_CheckTraceConsistency exampleEnv ⟨5, 0, 0⟩ ⟨5, 0, 0⟩ 1 0 exampleCapsuleSolid
      = "trace has collision but no matching content flags" := by
  refine ⟨by decide!, by decide!, by decide!, by decide!⟩

/-- C5: the code at two failing inputs, capsule against capsule model.  Swept
from `(5, 0, 0)`, inside the target, the result has fraction 0 without
`allsolid` and the zero vector as normal.  Swept from `(-41/2, 0, 0)` with the
body contents in the mask, the result has fraction 0 without `allsolid` and a
normal of length `41/42`; the consistency check of the file rejects it. -/
theorem C5_capsule_normal_not_unit :
    (CM_BoxTrace exampleEnv 5 exampleWorld ⟨5, 0, 0⟩ ⟨100, 0, 0⟩ (some ⟨-10, -10, -10⟩)
        (some ⟨10, 10, 10⟩) 254 1 0 traceType_t.TT_CAPSULE
      = some (exampleWorldCounted, exampleCapsuleStartsolid) ∧
      exampleCapsuleStartsolid.fraction < 1 ∧ exampleCapsuleStartsolid.allsolid = false ∧
      exampleCapsuleStartsolid.plane.normal = ⟨0, 0, 0⟩) ∧
    (CM_BoxTrace exampleEnv 5 exampleWorld ⟨-41 / 2, 0, 0⟩ ⟨50, 0, 0⟩ (some ⟨-10, -10, -10⟩)
        (some ⟨10, 10, 10⟩) 254 33554432 0 traceType_t.TT_CAPSULE
      = some (exampleWorldCounted, exampleCapsuleClamped) ∧
      exampleCapsuleClamped.fraction < 1 ∧ exampleCapsuleClamped.allsolid = false ∧
      VectorLengthSquared exampleCapsuleClamped.plane.normal = (41 / 42) * (41 / 42) ∧
      CM_CheckTraceConsistency exampleEnv ⟨-41 / 2, 0, 0⟩ ⟨50, 0, 0⟩ 33554432 0
        exampleCapsuleClamped = "plane normal has wrong length") := by
  refine ⟨⟨by decide!, by decide!, by decide!, by decide!⟩,
    ⟨by decide!, by decide!, by decide!, by decide!, by decide!⟩⟩

/-- C7: the code at the failing input.  On the world that is not loaded,
`CM_BoxTrace` from `(0, 0, 0)` to `(100, 0, 0)` returns the default trace,
whose `endpos` is `(0, 0, 0)` and not `end`; the consistency check of the
file rejects the result. -/
theorem C7_unloaded_endpos_zero :
    CM_BoxTrace exampleEnv 5 emptyWorld ⟨0, 0, 0⟩ ⟨100, 0, 0⟩ none none 0 1 0
        traceType_t.TT_AABB = some (emptyWorldCounted, defaultTrace) ∧
    defaultTrace.fraction = 1 ∧ defaultTrace.endpos = ⟨0, 0, 0⟩ ∧
    defaultTrace.endpos ≠ ⟨100, 0, 0⟩ ∧
    CM_CheckTraceConsistency exampleEnv ⟨0, 0, 0⟩ ⟨100, 0, 0⟩ 1 0 defaultTrace
      = "endpos not exactly equal to end with fraction=1" := by
  refine ⟨by decide!, by decide!, by decide!, by decide!, by decide!⟩

/-- C8: the code at the failing input.  On the world that is not loaded, with
`origin` and `angles` zero, `CM_TransformedBoxTrace` from `(0, 0, 0)` to
`(100, 0, 0)` returns `endpos = (100, 0, 0)` and `CM_BoxTrace` returns
`endpos = (0, 0, 0)`. -/
theorem C8_transformed_differs_unloaded :
    CM_TransformedBoxTrace exampleEnv 5 emptyWorld ⟨0, 0, 0⟩ ⟨100, 0, 0⟩ none none 0 1 0
        ⟨0, 0, 0⟩ ⟨0, 0, 0⟩ traceType_t.TT_AABB
      = some (emptyWorldCounted, { defaultTrace with endpos := ⟨100, 0, 0⟩ }) ∧
    CM_BoxTrace exampleEnv 5 emptyWorld ⟨0, 0, 0⟩ ⟨100, 0, 0⟩ none none 0 1 0
        traceType_t.TT_AABB = some (emptyWorldCounted, defaultTrace) ∧
    CM_TransformedBoxTrace exampleEnv 5 emptyWorld ⟨0, 0, 0⟩ ⟨100, 0, 0⟩ none none 0 1 0
        ⟨0, 0, 0⟩ ⟨0, 0, 0⟩ traceType_t.TT_AABB
      ≠ CM_BoxTrace exampleEnv 5 emptyWorld ⟨0, 0, 0⟩ ⟨100, 0, 0⟩ none none 0 1 0
        traceType_t.TT_AABB := by
  refine ⟨by decide!, by decide!, by decide!⟩

/-- For a box mover set up by `CM_Trace` and a plane with the sign bits of its
normal, the distances of `CM_TraceThroughBrush` are those of the caller's
`start` and `end` plus the support of the caller's box along the normal. -/
theorem CM_sideDistances_setup (env : Env) (start end_ mins maxs origin : Vec3)
    (brushmask skipmask : Nat) (sphere : Option sphere_t) (p : cplane_t)
    (hv : ValidSignbits p) :
    CM_sideDistances
        (CM_Trace_setup env start end_ mins maxs origin brushmask skipmask traceType_t.TT_AABB
          sphere) p
      = (DotProduct start p.normal - p.dist + boxSupport mins maxs p.normal,
         DotProduct end_ p.normal - p.dist + boxSupport mins maxs p.normal) := by
  obtain ⟨normal, dist, type, sb⟩ := p
  obtain ⟨hx, hy, hz⟩ := hv
  simp only at hx hy hz
  unfold CM_sideDistances CM_Trace_setup boxSupport
  simp only [DotProduct, VectorAdd, VectorSubtract, boxCentre]
  fin_cases sb <;> simp at hx hy hz <;>
    simp [CM_Trace_offsets, hx, hy, hz, not_lt.mpr, not_lt.mp] <;>
    constructor <;> ring

theorem CM_TraceThroughBrush_side_none (side : cbrushside_t) (d1 d2 : ℚ) (st : BrushLoop) :
    CM_TraceThroughBrush_side side d1 d2 st = none ↔ sideRejects d1 d2 := by
  unfold CM_TraceThroughBrush_side sideRejects
  simp only
  by_cases h1 : d1 > 0 ∧ (d2 ≥ SURFACE_CLIP_EPSILON ∨ d2 ≥ d1)
  · simp [h1]
  · rw [if_neg h1]
    constructor
    · intro h
      split_ifs at h
    · intro h
      exact absurd h h1

theorem CM_TraceThroughBrush_side_some (side : cbrushside_t) (d1 d2 : ℚ) (st st1 : BrushLoop)
    (h : CM_TraceThroughBrush_side side d1 d2 st = some st1) :
    st1.enterFrac = sideEnter d1 d2 st.enterFrac ∧
    st1.leaveFrac = sideLeave d1 d2 st.leaveFrac ∧
    st1.startout = (if d1 > 0 then true else st.startout) ∧
    st1.getout = (if d2 > 0 then true else st.getout) ∧
    ((st1.enterFrac = st.enterFrac ∧ st1.clipplane = st.clipplane ∧
        st1.leadside = st.leadside) ∨
      (st1.clipplane.isSome = true ∧ st1.leadside.isSome = true)) := by
  unfold CM_TraceThroughBrush_side at h
  unfold sideEnter sideLeave
  simp only at h
  by_cases h1 : d1 > 0 ∧ (d2 ≥ SURFACE_CLIP_EPSILON ∨ d2 ≥ d1)
  · rw [if_pos h1] at h
    exact absurd h (by simp)
  · rw [if_neg h1] at h
    by_cases h2 : d1 ≤ 0 ∧ d2 ≤ 0
    · rw [if_pos h2] at h
      simp only [Option.some.injEq] at h
      rw [← h, if_pos h2, if_pos h2]
      exact ⟨rfl, rfl, rfl, rfl, Or.inl ⟨rfl, rfl, rfl⟩⟩
    · rw [if_neg h2] at h
      rw [if_neg h2, if_neg h2]
      by_cases h3 : d1 > d2
      · rw [if_pos h3] at h
        rw [if_pos h3, if_pos h3]
        by_cases h4 : enterFraction d1 d2 > st.enterFrac
        · rw [if_pos h4] at h
          simp only [Option.some.injEq] at h
          rw [← h, if_pos h4]
          exact ⟨rfl, rfl, rfl, rfl, Or.inr ⟨rfl, rfl⟩⟩
        · rw [if_neg h4] at h
          simp only [Option.some.injEq] at h
          rw [← h, if_neg h4]
          exact ⟨rfl, rfl, rfl, rfl, Or.inl ⟨rfl, rfl, rfl⟩⟩
      · rw [if_neg h3] at h
        rw [if_neg h3, if_neg h3]
        by_cases h4 : leaveFraction d1 d2 < st.leaveFrac
        · rw [if_pos h4] at h
          simp only [Option.some.injEq] at h
          rw [← h, if_pos h4]
          exact ⟨rfl, rfl, rfl, rfl, Or.inl ⟨rfl, rfl, rfl⟩⟩
        · rw [if_neg h4] at h
          simp only [Option.some.injEq] at h
          rw [← h, if_neg h4]
          exact ⟨rfl, rfl, rfl, rfl, Or.inl ⟨rfl, rfl, rfl⟩⟩

theorem sideRejects_mono (a b δ : ℚ) (hδ : 0 ≤ δ) (h : sideRejects (a - δ) (b - δ)) :
    sideRejects a b := by
  unfold sideRejects at *
  refine ⟨by linarith [h.1], ?_⟩
  rcases h.2 with h2 | h2
  · left; linarith
  · right; linarith

theorem sideEnter_ge (a b e : ℚ) : e ≤ sideEnter a b e := by
  unfold sideEnter
  split_ifs <;> first | exact le_refl _ | (apply le_of_lt; assumption)

theorem sideLeave_le (a b l : ℚ) : sideLeave a b l ≤ l := by
  unfold sideLeave
  split_ifs <;> first | exact le_refl _ | (apply le_of_lt; assumption)

theorem enterFraction_nonneg (a b : ℚ) : 0 ≤ enterFraction a b := by
  unfold enterFraction
  split_ifs with h
  · exact le_refl _
  · exact not_lt.mp h

theorem enterFraction_mono (a b δ : ℚ) (hδ : 0 ≤ δ) (hab : b < a) :
    enterFraction (a - δ) (b - δ) ≤ enterFraction a b := by
  unfold enterFraction
  have hden : a - δ - (b - δ) = a - b := by ring
  rw [hden]
  have hpos : 0 < a - b := by linarith
  have hq : (a - δ - SURFACE_CLIP_EPSILON) / (a - b) ≤ (a - SURFACE_CLIP_EPSILON) / (a - b) :=
    div_le_div_of_nonneg_right (by linarith) (le_of_lt hpos)
  split_ifs with h1 h2 h2
  · exact le_refl _
  · exact not_lt.mp h2
  · linarith
  · exact hq

theorem leaveFraction_mono (a b δ : ℚ) (hδ : 0 ≤ δ) (hab : a ≤ b) :
    leaveFraction a b ≤ leaveFraction (a - δ) (b - δ) := by
  unfold leaveFraction
  have hden : a - δ - (b - δ) = a - b := by ring
  rw [hden]
  have hq : (a + SURFACE_CLIP_EPSILON) / (a - b) ≤ (a - δ + SURFACE_CLIP_EPSILON) / (a - b) :=
    div_le_div_of_nonpos_of_le (by linarith) (by linarith)
  split_ifs with h1 h2 h2
  · exact le_refl _
  · linarith
  · exact not_lt.mp h1
  · exact hq

theorem ite_gt_eq_max (f e : ℚ) : (if f > e then f else e) = max e f := by
  split_ifs with h
  · exact (max_eq_right (le_of_lt h)).symm
  · exact (max_eq_left (not_lt.mp h)).symm

theorem ite_lt_eq_min (f l : ℚ) : (if f < l then f else l) = min l f := by
  split_ifs with h
  · exact (min_eq_right (le_of_lt h)).symm
  · exact (min_eq_left (not_lt.mp h)).symm

theorem sideEnter_mono (a b δ eL eS : ℚ) (hδ : 0 ≤ δ) (he : eL ≤ eS) :
    sideEnter (a - δ) (b - δ) eL ≤ sideEnter a b eS := by
  have hS := sideEnter_ge a b eS
  unfold sideEnter at hS ⊢
  by_cases h1 : a - δ ≤ 0 ∧ b - δ ≤ 0
  · rw [if_pos h1]
    exact le_trans he hS
  · rw [if_neg h1]
    by_cases h2 : a - δ > b - δ
    · rw [if_pos h2]
      have h3 : ¬(a ≤ 0 ∧ b ≤ 0) := fun h => h1 ⟨by linarith [h.1], by linarith [h.2]⟩
      have h4 : a > b := by linarith
      rw [if_neg h3, if_pos h4, ite_gt_eq_max, ite_gt_eq_max]
      exact max_le_max he (enterFraction_mono a b δ hδ h4)
    · rw [if_neg h2]
      exact le_trans he hS

theorem sideLeave_mono (a b δ lL lS : ℚ) (hδ : 0 ≤ δ) (hl : lS ≤ lL) :
    sideLeave a b lS ≤ sideLeave (a - δ) (b - δ) lL := by
  have hS := sideLeave_le a b lS
  unfold sideLeave at hS ⊢
  by_cases h1 : a - δ ≤ 0 ∧ b - δ ≤ 0
  · rw [if_pos h1]
    exact le_trans hS hl
  · rw [if_neg h1]
    by_cases h2 : a - δ > b - δ
    · rw [if_pos h2]
      exact le_trans hS hl
    · rw [if_neg h2]
      have hab : a ≤ b := by linarith [not_lt.mp h2]
      have h3 : ¬(a ≤ 0 ∧ b ≤ 0) := fun h => h1 ⟨by linarith [h.1], by linarith [h.2]⟩
      have h4 : ¬(a > b) := not_lt.mpr hab
      rw [if_neg h3, if_neg h4, ite_lt_eq_min, ite_lt_eq_min]
      exact min_le_min hl (leaveFraction_mono a b δ hδ hab)

theorem sideEnter_nonneg (a b e : ℚ) (ha : a > 0) (hr : ¬sideRejects a b) :
    0 ≤ sideEnter a b e := by
  unfold sideRejects at hr
  have hb : b < a := by
    by_contra hc
    exact hr ⟨ha, Or.inr (not_lt.mp hc)⟩
  unfold sideEnter
  rw [if_neg (fun h => absurd ha (not_lt.mpr h.1)), if_pos hb, ite_gt_eq_max]
  exact le_trans (enterFraction_nonneg a b) (le_max_right _ _)

theorem BrushLoopInv_step (side : cbrushside_t) (d1 d2 : ℚ) (st st1 : BrushLoop)
    (hi : BrushLoopInv st) (h : CM_TraceThroughBrush_side side d1 d2 st = some st1) :
    BrushLoopInv st1 := by
  have hr : ¬sideRejects d1 d2 := fun hr => by
    rw [(CM_TraceThroughBrush_side_none side d1 d2 st).mpr hr] at h
    exact absurd h (by simp)
  obtain ⟨he, _, hso, _, hc⟩ := CM_TraceThroughBrush_side_some side d1 d2 st st1 h
  refine ⟨fun hs => ?_, fun hlt => ?_⟩
  · rw [he]
    by_cases hd : d1 > 0
    · exact sideEnter_nonneg d1 d2 _ hd hr
    · rw [hso, if_neg hd] at hs
      exact le_trans (hi.1 hs) (sideEnter_ge _ _ _)
  · rcases hc with ⟨h1, h2, h3⟩ | h1
    · rw [h1] at hlt
      rw [h2, h3]
      exact hi.2 hlt
    · exact h1

/-- The side loops of the larger and of the smaller mover, run on the same
sides: when the larger mover is rejected so is the smaller one, and otherwise
the final loop states are ordered. -/
theorem CM_TraceThroughBrush_sides_mono (twL twS : traceWork_t) :
    ∀ (sides : List cbrushside_t) (stL stS : BrushLoop),
      (∀ side ∈ sides, ∃ δ : ℚ, 0 ≤ δ ∧
        CM_sideDistances twL side.plane
          = ((CM_sideDistances twS side.plane).1 - δ, (CM_sideDistances twS side.plane).2 - δ)) →
      BrushLoopLe stL stS → BrushLoopInv stL →
      (CM_TraceThroughBrush_sides twL sides stL = none →
        CM_TraceThroughBrush_sides twS sides stS = none) ∧
      (∀ stL1 stS1, CM_TraceThroughBrush_sides twL sides stL = some stL1 →
        CM_TraceThroughBrush_sides twS sides stS = some stS1 →
        BrushLoopLe stL1 stS1 ∧ BrushLoopInv stL1) := by
  intro sides
  induction sides with
  | nil =>
    intro stL stS _ hle hi
    refine ⟨fun h => ?_, fun stL1 stS1 hL hS => ?_⟩
    · simp [CM_TraceThroughBrush_sides] at h
    · simp only [CM_TraceThroughBrush_sides, Option.some.injEq] at hL hS
      rw [← hL, ← hS]
      exact ⟨hle, hi⟩
  | cons side rest ih =>
    intro stL stS hd hle hi
    obtain ⟨δ, hδ, hdist⟩ := hd side (List.mem_cons_self _ _)
    have hrest : ∀ s ∈ rest, ∃ δ : ℚ, 0 ≤ δ ∧
        CM_sideDistances twL s.plane
          = ((CM_sideDistances twS s.plane).1 - δ, (CM_sideDistances twS s.plane).2 - δ) :=
      fun s hs => hd s (List.mem_cons_of_mem _ hs)
    rw [CM_TraceThroughBrush_sides, CM_TraceThroughBrush_sides, hdist]
    cases hstepS : CM_TraceThroughBrush_side side (CM_sideDistances twS side.plane).1
        (CM_sideDistances twS side.plane).2 stS with
    | none =>
      refine ⟨fun _ => rfl, fun stL1 stS1 _ hS => absurd hS (by simp)⟩
    | some stSa =>
      cases hstepL : CM_TraceThroughBrush_side side ((CM_sideDistances twS side.plane).1 - δ)
          ((CM_sideDistances twS side.plane).2 - δ) stL with
      | none =>
        have hrL := (CM_TraceThroughBrush_side_none _ _ _ _).mp hstepL
        have hrS := sideRejects_mono _ _ δ hδ hrL
        rw [(CM_TraceThroughBrush_side_none side _ _ stS).mpr hrS] at hstepS
        exact absurd hstepS (by simp)
      | some stLa =>
        have hiL := BrushLoopInv_step _ _ _ _ _ hi hstepL
        obtain ⟨heL, hlL, hsoL, _, _⟩ := CM_TraceThroughBrush_side_some _ _ _ _ _ hstepL
        obtain ⟨heS, hlS, hsoS, _, _⟩ := CM_TraceThroughBrush_side_some _ _ _ _ _ hstepS
        have hle1 : BrushLoopLe stLa stSa := by
          refine ⟨?_, ?_, fun hs => ?_⟩
          · rw [heL, heS]
            exact sideEnter_mono _ _ δ _ _ hδ hle.1
          · rw [hlL, hlS]
            exact sideLeave_mono _ _ δ _ _ hδ hle.2.1
          · rw [hsoS]
            rw [hsoL] at hs
            by_cases h1 : (CM_sideDistances twS side.plane).1 - δ > 0
            · rw [if_pos (by linarith)]
            · rw [if_neg h1] at hs
              split_ifs
              · rfl
              · exact hle.2.2 hs
        exact ih stLa stSa hrest hle1 hiL

theorem CM_TraceThroughBrush_finish_fraction (tw : traceWork_t) (brush : cbrush_t)
    (st : BrushLoop) (hso : st.startout = true) :
    ((CM_TraceThroughBrush_finish tw brush st).trace.fraction = tw.trace.fraction) ∨
    ((CM_TraceThroughBrush_finish tw brush st).trace.fraction
        = (if st.enterFrac < 0 then 0 else st.enterFrac) ∧
      st.enterFrac < st.leaveFrac ∧ st.enterFrac < tw.trace.fraction) := by
  unfold CM_TraceThroughBrush_finish
  rw [if_neg (by simp [hso])]
  by_cases h3 : st.enterFrac < st.leaveFrac
  · rw [if_pos h3]
    by_cases h4 : st.enterFrac > -1 ∧ st.enterFrac < tw.trace.fraction
    · rw [if_pos h4]
      split
      · exact Or.inr ⟨rfl, h3, h4.2⟩
      · exact Or.inl rfl
    · rw [if_neg h4]
      exact Or.inl rfl
  · rw [if_neg h3]
    exact Or.inl rfl

theorem CM_TraceThroughBrush_finish_record (tw : traceWork_t) (brush : cbrush_t)
    (st : BrushLoop) (hso : st.startout = true) (hi : BrushLoopInv st)
    (h3 : st.enterFrac < st.leaveFrac) (h4 : st.enterFrac < tw.trace.fraction) :
    (CM_TraceThroughBrush_finish tw brush st).trace.fraction = st.enterFrac := by
  have h0 := hi.1 hso
  have h1 : -1 < st.enterFrac := by linarith
  obtain ⟨hc, hl⟩ := hi.2 h1
  unfold CM_TraceThroughBrush_finish
  rw [if_neg (by simp [hso]), if_pos h3, if_pos ⟨h1, h4⟩]
  cases hcp : st.clipplane with
  | none => rw [hcp] at hc; exact absurd hc (by simp)
  | some cp =>
    cases hls : st.leadside with
    | none => rw [hls] at hl; exact absurd hl (by simp)
    | some ls =>
      simp only
      rw [if_neg (not_lt.mpr h0)]

theorem boxSupport_le (minsL maxsL minsS maxsS n : Vec3)
    (hmins : minsL.x ≤ minsS.x ∧ minsL.y ≤ minsS.y ∧ minsL.z ≤ minsS.z)
    (hmaxs : maxsS.x ≤ maxsL.x ∧ maxsS.y ≤ maxsL.y ∧ maxsS.z ≤ maxsL.z) :
    boxSupport minsL maxsL n ≤ boxSupport minsS maxsS n := by
  unfold boxSupport
  have hx : n.x * (if n.x < 0 then maxsL.x else minsL.x)
      ≤ n.x * (if n.x < 0 then maxsS.x else minsS.x) := by
    split_ifs with h
    · exact mul_le_mul_of_nonpos_left hmaxs.1 (le_of_lt h)
    · exact mul_le_mul_of_nonneg_left hmins.1 (not_lt.mp h)
  have hy : n.y * (if n.y < 0 then maxsL.y else minsL.y)
      ≤ n.y * (if n.y < 0 then maxsS.y else minsS.y) := by
    split_ifs with h
    · exact mul_le_mul_of_nonpos_left hmaxs.2.1 (le_of_lt h)
    · exact mul_le_mul_of_nonneg_left hmins.2.1 (not_lt.mp h)
  have hz : n.z * (if n.z < 0 then maxsL.z else minsL.z)
      ≤ n.z * (if n.z < 0 then maxsS.z else minsS.z) := by
    split_ifs with h
    · exact mul_le_mul_of_nonpos_left hmaxs.2.2 (le_of_lt h)
    · exact mul_le_mul_of_nonneg_left hmins.2.2 (not_lt.mp h)
  linarith

/-- C10, as stated, fails: through the unit cube from `(-3/2, 1/2, 1/2)` to
`(10, 1/2, 1/2)`, the box `[-2,2]³` starts inside the expanded cube and keeps
fraction 1, while the point mover contained in it hits the cube at 11/92. -/
theorem C10_startsolid_keeps_fraction :
    ((-2 : ℚ) ≤ 0 ∧ (0 : ℚ) ≤ 2) ∧
    (CM_TraceThroughBrush
      (CM_Trace_setup exampleEnv ⟨-3 / 2, 1 / 2, 1 / 2⟩ ⟨10, 1 / 2, 1 / 2⟩ ⟨-2, -2, -2⟩
        ⟨2, 2, 2⟩ vec3_origin 1 0 traceType_t.TT_AABB none) unitCube).trace
      = exampleLargeBoxSweep ∧
    exampleLargeBoxSweep.fraction = 1 ∧
    (CM_TraceThroughBrush
      (CM_Trace_setup exampleEnv ⟨-3 / 2, 1 / 2, 1 / 2⟩ ⟨10, 1 / 2, 1 / 2⟩ ⟨0, 0, 0⟩
        ⟨0, 0, 0⟩ vec3_origin 1 0 traceType_t.TT_AABB none) unitCube).trace.fraction
      = 11 / 92 ∧
    ¬ ((CM_TraceThroughBrush
        (CM_Trace_setup exampleEnv ⟨-3 / 2, 1 / 2, 1 / 2⟩ ⟨10, 1 / 2, 1 / 2⟩ ⟨0, 0, 0⟩
          ⟨0, 0, 0⟩ vec3_origin 1 0 traceType_t.TT_AABB none) unitCube).trace.fraction
      ≥ (CM_TraceThroughBrush
        (CM_Trace_setup exampleEnv ⟨-3 / 2, 1 / 2, 1 / 2⟩ ⟨10, 1 / 2, 1 / 2⟩ ⟨-2, -2, -2⟩
          ⟨2, 2, 2⟩ vec3_origin 1 0 traceType_t.TT_AABB none) unitCube).trace.fraction) := by
  refine ⟨by decide!, by decide!, by decide!, by decide!, by decide!⟩

/-- C10, amended: for every brush whose planes carry the sign bits of their
normals, every start and end, and every pair of mover boxes with
`[mins', maxs']` contained in `[mins, maxs]`, if the sweep of the larger box
(set-up of `CM_Trace`, then `CM_TraceThroughBrush`) does not report
`startsolid` without `allsolid`, then the fraction of the smaller box is
greater than or equal to the fraction of the larger box. -/
theorem C10_smaller_box_fraction (env : Env) (brush : cbrush_t)
    (start end_ mins maxs mins1 maxs1 origin : Vec3) (brushmask skipmask : Nat)
    (sphere : Option sphere_t)
    (hvalid : ∀ side ∈ brush.sides, ValidSignbits side.plane)
    (hmins : mins.x ≤ mins1.x ∧ mins.y ≤ mins1.y ∧ mins.z ≤ mins1.z)
    (hmaxs : maxs1.x ≤ maxs.x ∧ maxs1.y ≤ maxs.y ∧ maxs1.z ≤ maxs.z)
    (hstart : ¬((CM_TraceThroughBrush
          (CM_Trace_setup env start end_ mins maxs origin brushmask skipmask
            traceType_t.TT_AABB sphere) brush).trace.startsolid = true ∧
        (CM_TraceThroughBrush
          (CM_Trace_setup env start end_ mins maxs origin brushmask skipmask
            traceType_t.TT_AABB sphere) brush).trace.allsolid = false)) :
    (CM_TraceThroughBrush
        (CM_Trace_setup env start end_ mins1 maxs1 origin brushmask skipmask
          traceType_t.TT_AABB sphere) brush).trace.fraction
      ≥ (CM_TraceThroughBrush
        (CM_Trace_setup env start end_ mins maxs origin brushmask skipmask
          traceType_t.TT_AABB sphere) brush).trace.fraction := by
  set twL := CM_Trace_setup env start end_ mins maxs origin brushmask skipmask
    traceType_t.TT_AABB sphere with htwL
  set twS := CM_Trace_setup env start end_ mins1 maxs1 origin brushmask skipmask
    traceType_t.TT_AABB sphere with htwS
  have htL : twL.trace = defaultTrace := rfl
  have htS : twS.trace = defaultTrace := rfl
  have hfL : twL.trace.fraction = 1 := rfl
  have hfS : twS.trace.fraction = 1 := rfl
  have hgL := (@good_CM_TraceThroughBrush True twL brush).range trivial
    (by rw [hfL]; norm_num) (by rw [hfL])
  have hgS := (@good_CM_TraceThroughBrush True twS brush).range trivial
    (by rw [hfS]; norm_num) (by rw [hfS])
  rw [hfL] at hgL
  rw [hfS] at hgS
  have hd : ∀ side ∈ brush.sides, ∃ δ : ℚ, 0 ≤ δ ∧
      CM_sideDistances twL side.plane
        = ((CM_sideDistances twS side.plane).1 - δ, (CM_sideDistances twS side.plane).2 - δ) := by
    intro side hs
    refine ⟨boxSupport mins1 maxs1 side.plane.normal - boxSupport mins maxs side.plane.normal,
      sub_nonneg.mpr (boxSupport_le _ _ _ _ _ hmins hmaxs), ?_⟩
    rw [htwL, htwS, CM_sideDistances_setup _ _ _ _ _ _ _ _ _ _ (hvalid side hs),
      CM_sideDistances_setup _ _ _ _ _ _ _ _ _ _ (hvalid side hs)]
    simp only [Prod.mk.injEq]
    constructor <;> ring
  have hinit : BrushLoopLe BrushLoop.init BrushLoop.init :=
    ⟨le_refl _, le_refl _, fun h => h⟩
  have hinv : BrushLoopInv BrushLoop.init := by
    refine ⟨fun h => absurd h (by decide), fun h => ?_⟩
    have : ¬((-1 : ℚ) < -1) := lt_irrefl _
    exact absurd h this
  obtain ⟨hnone, hsome⟩ :=
    CM_TraceThroughBrush_sides_mono twL twS brush.sides _ _ hd hinit hinv
  unfold CM_TraceThroughBrush at hstart hgL hgS ⊢
  by_cases hlen : brush.sides.length = 0
  · rw [if_pos hlen, if_pos hlen, hfL, hfS]
  · rw [if_neg hlen] at hstart hgL hgS ⊢
    rw [if_neg hlen]
    cases hL : CM_TraceThroughBrush_sides twL brush.sides BrushLoop.init with
    | none =>
      rw [hnone hL]
      exact le_refl _
    | some stL =>
      rw [hL] at hstart hgL
      simp only at hstart hgL ⊢
      cases hS : CM_TraceThroughBrush_sides twS brush.sides BrushLoop.init with
      | none =>
        simp only
        rw [hfS]
        exact hgL.2
      | some stS =>
        rw [hS] at hgS
        simp only at hgS ⊢
        obtain ⟨hle, hiL⟩ := hsome stL stS hL hS
        cases hso : stL.startout with
        | false =>
          cases hgo : stL.getout with
          | false =>
            have h0 : (CM_TraceThroughBrush_finish twL brush stL).trace.fraction = 0 := by
              unfold CM_TraceThroughBrush_finish
              simp [hso, hgo]
            rw [h0]
            exact hgS.1
          | true =>
            exfalso
            apply hstart
            unfold CM_TraceThroughBrush_finish
            simp [hso, hgo, htL, defaultTrace]
        | true =>
          have hsoS := hle.2.2 hso
          rcases CM_TraceThroughBrush_finish_fraction twS brush stS hsoS with hS1 | ⟨hS1, hS2, hS3⟩
          · rw [hS1, hfS]
            exact hgL.2
          · have h3 : stL.enterFrac < stL.leaveFrac :=
              lt_of_le_of_lt hle.1 (lt_of_lt_of_le hS2 hle.2.1)
            have h4 : stL.enterFrac < twL.trace.fraction := by
              rw [hfL]
              rw [hfS] at hS3
              exact lt_of_le_of_lt hle.1 hS3
            rw [CM_TraceThroughBrush_finish_record twL brush stL hso hiL h3 h4, hS1]
            have h0 := hiL.1 hso
            rw [if_neg (not_lt.mpr (le_trans h0 hle.1))]
            exact hle.1

/-- C10, amended, on the example data: through the unit cube from
`(-3, 1/2, 1/2)` to `(10, 1/2, 1/2)` the box `[-1,1]³` hits at 15/104 and the
point mover at 23/104. -/
theorem C10_smaller_box_fraction_witness :
    (CM_TraceThroughBrush
        (CM_Trace_setup exampleEnv ⟨-3, 1 / 2, 1 / 2⟩ ⟨10, 1 / 2, 1 / 2⟩ ⟨0, 0, 0⟩ ⟨0, 0, 0⟩
          vec3_origin 1 0 traceType_t.TT_AABB none) unitCube).trace.fraction
      ≥ (CM_TraceThroughBrush
        (CM_Trace_setup exampleEnv ⟨-3, 1 / 2, 1 / 2⟩ ⟨10, 1 / 2, 1 / 2⟩ ⟨-1, -1, -1⟩
          ⟨1, 1, 1⟩ vec3_origin 1 0 traceType_t.TT_AABB none) unitCube).trace.fraction ∧
    (CM_TraceThroughBrush
        (CM_Trace_setup exampleEnv ⟨-3, 1 / 2, 1 / 2⟩ ⟨10, 1 / 2, 1 / 2⟩ ⟨0, 0, 0⟩ ⟨0, 0, 0⟩
          vec3_origin 1 0 traceType_t.TT_AABB none) unitCube).trace.fraction = 23 / 104 ∧
    (CM_TraceThroughBrush
        (CM_Trace_setup exampleEnv ⟨-3, 1 / 2, 1 / 2⟩ ⟨10, 1 / 2, 1 / 2⟩ ⟨-1, -1, -1⟩
          ⟨1, 1, 1⟩ vec3_origin 1 0 traceType_t.TT_AABB none) unitCube).trace.fraction
      = 15 / 104 :=
  ⟨C10_smaller_box_fraction exampleEnv unitCube ⟨-3, 1 / 2, 1 / 2⟩ ⟨10, 1 / 2, 1 / 2⟩
      ⟨-1, -1, -1⟩ ⟨1, 1, 1⟩ ⟨0, 0, 0⟩ ⟨0, 0, 0⟩ vec3_origin 1 0 none
      (by
        intro side hs
        simp only [unitCube, axialSide, List.mem_cons, List.mem_singleton,
          List.mem_nil_iff, or_false] at hs
        rcases hs with h | h | h | h | h | h <;> subst h <;>
          exact ⟨by decide!, by decide!, by decide!⟩)
      (by decide!) (by decide!) (by decide!),
    by decide!, by decide!⟩

/-! ### Distance to a model -/

theorem foldr_max_init (l : List ℚ) (d x : ℚ) :
    l.foldr max (max d x) = max x (l.foldr max d) := by
  induction l with
  | nil => simp [max_comm]
  | cons a r ih => simp only [List.foldr_cons, ih, max_left_comm]

theorem foldr_min_init (l : List ℚ) (d x : ℚ) :
    l.foldr min (min d x) = min x (l.foldr min d) := by
  induction l with
  | nil => simp [min_comm]
  | cons a r ih => simp only [List.foldr_cons, ih, min_left_comm]

theorem CM_DistanceToBrush_sides_eq (loc : Vec3) (l : List cbrushside_t) (d : ℚ) :
    CM_DistanceToBrush_sides loc l d = (l.map (sideDistance loc)).foldr max d := by
  induction l generalizing d with
  | nil => rfl
  | cons s r ih =>
    unfold CM_DistanceToBrush_sides
    simp only [List.map_cons, List.foldr_cons]
    rw [ih, ite_gt_eq_max, foldr_max_init]
    rfl

theorem CM_DistanceToBrush_eq (loc : Vec3) (brush : cbrush_t) :
    CM_DistanceToBrush loc brush = brushDistanceSpec loc brush := by
  unfold CM_DistanceToBrush brushDistanceSpec
  rw [CM_DistanceToBrush_sides_eq]
  simp only [List.length_eq_zero]

theorem CM_DistanceToModel_brushes_eq (cm : clipMap_t) (loc : Vec3) (l : List Nat) (d : ℚ)
    (hl : ∀ i ∈ l, i < cm.brushes.length) :
    CM_DistanceToModel_brushes cm loc l d
      = some (((l.filterMap (fun i => cm.brushes[i]?)).map (brushDistanceSpec loc)).foldr
          min d) := by
  induction l generalizing d with
  | nil => rfl
  | cons i r ih =>
    have hi : i < cm.brushes.length := hl i (List.mem_cons_self _ _)
    unfold CM_DistanceToModel_brushes
    rw [List.getElem?_eq_getElem hi]
    simp only [List.filterMap_cons, List.getElem?_eq_getElem hi, List.map_cons, List.foldr_cons]
    rw [ih _ (fun j hj => hl j (List.mem_cons_of_mem _ hj)), ite_lt_eq_min, foldr_min_init,
      CM_DistanceToBrush_eq]

theorem foldr_min_le_init (l : List ℚ) (d : ℚ) : l.foldr min d ≤ d := by
  induction l with
  | nil => exact le_refl _
  | cons a r ih => exact le_trans (min_le_right _ _) ih

theorem foldr_min_le_mem (l : List ℚ) (d : ℚ) (x : ℚ) (hx : x ∈ l) : l.foldr min d ≤ x := by
  induction l with
  | nil => exact absurd hx (List.not_mem_nil _)
  | cons a r ih =>
    rcases List.mem_cons.mp hx with h | h
    · rw [h]; exact min_le_left _ _
    · exact le_trans (min_le_right _ _) (ih h)

theorem le_foldr_min (l : List ℚ) (d c : ℚ) (hd : c ≤ d) (hl : ∀ x ∈ l, c ≤ x) :
    c ≤ l.foldr min d := by
  induction l with
  | nil => exact hd
  | cons a r ih =>
    exact le_min (hl a (List.mem_cons_self _ _)) (ih (fun x hx => hl x (List.mem_cons_of_mem _ hx)))

theorem foldr_max_lt (l : List ℚ) (d c : ℚ) (hd : d < c) (hl : ∀ x ∈ l, x < c) :
    l.foldr max d < c := by
  induction l with
  | nil => exact hd
  | cons a r ih =>
    exact max_lt (hl a (List.mem_cons_self _ _)) (ih (fun x hx => hl x (List.mem_cons_of_mem _ hx)))

theorem le_foldr_max_mem (l : List ℚ) (d : ℚ) (x : ℚ) (hx : x ∈ l) : x ≤ l.foldr max d := by
  induction l with
  | nil => exact absurd hx (List.not_mem_nil _)
  | cons a r ih =>
    rcases List.mem_cons.mp hx with h | h
    · rw [h]; exact le_max_left _ _
    · exact le_trans (ih h) (le_max_right _ _)

theorem brushDistanceSpec_ge_iff (loc : Vec3) (b : cbrush_t) (c : ℚ) (hc : -999999 < c)
    (hc1 : c ≤ 999999) :
    c ≤ brushDistanceSpec loc b ↔ b.sides = [] ∨ ∃ s ∈ b.sides, c ≤ sideDistance loc s := by
  unfold brushDistanceSpec
  by_cases hs : b.sides = []
  · simp [hs, hc1]
  · rw [if_neg hs]
    constructor
    · intro h
      right
      by_contra hno
      push_neg at hno
      have := foldr_max_lt (b.sides.map (sideDistance loc)) (-999999) c hc (by
        intro x hx
        obtain ⟨s, hs1, hs2⟩ := List.mem_map.mp hx
        rw [← hs2]
        exact hno s hs1)
      exact absurd h (not_le.mpr this)
    · rintro (h | ⟨s, hs1, hs2⟩)
      · exact absurd h hs
      · exact le_trans hs2 (le_foldr_max_mem _ _ _ (List.mem_map_of_mem _ hs1))

theorem foldr_max_le (l : List ℚ) (d c : ℚ) (hd : d ≤ c) (hl : ∀ x ∈ l, x ≤ c) :
    l.foldr max d ≤ c := by
  induction l with
  | nil => exact hd
  | cons a r ih =>
    exact max_le (hl a (List.mem_cons_self _ _)) (ih (fun x hx => hl x (List.mem_cons_of_mem _ hx)))

theorem CM_DistanceToModel_eq (env : Env) (cm : clipMap_t) (loc : Vec3) (model : Nat)
    (cmod : cmodel_t) (hm : env.CM_ClipHandleToModel cm model = some cmod)
    (hl : ∀ i ∈ cmod.leaf.leafBrushes, i < cm.brushes.length) :
    CM_DistanceToModel env cm loc model
      = some (modelDistanceSpec loc (leafBrushList cm cmod.leaf)) := by
  unfold CM_DistanceToModel
  rw [hm]
  exact CM_DistanceToModel_brushes_eq cm loc _ _ hl

/-- C14: `CM_DistanceToBrush` is 999999 for a brush with no sides and otherwise
the maximum of -999999 and of `dot(loc, normal) - dist` over the sides;
`CM_DistanceToModel` returns the minimum of 999999 and of these values over
the brushes of the model; and when the result is positive, `loc` is strictly
in front of some side of every brush of the model that has sides. -/
theorem C14_distance_to_model (env : Env) (cm : clipMap_t) (loc : Vec3) (model : Nat)
    (cmod : cmodel_t) (hm : env.CM_ClipHandleToModel cm model = some cmod)
    (hl : ∀ i ∈ cmod.leaf.leafBrushes, i < cm.brushes.length) :
    (∀ b : cbrush_t, CM_DistanceToBrush loc b = brushDistanceSpec loc b) ∧
    CM_DistanceToModel env cm loc model
      = some (modelDistanceSpec loc (leafBrushList cm cmod.leaf)) ∧
    (0 < modelDistanceSpec loc (leafBrushList cm cmod.leaf) →
      ∀ b ∈ leafBrushList cm cmod.leaf, b.sides ≠ [] →
        ∃ s ∈ b.sides, 0 < DotProduct loc s.plane.normal - s.plane.dist) := by
  refine ⟨CM_DistanceToBrush_eq loc, ?_, fun hpos b hb hs => ?_⟩
  · unfold CM_DistanceToModel
    rw [hm]
    exact CM_DistanceToModel_brushes_eq cm loc _ _ hl
  · have h1 : modelDistanceSpec loc (leafBrushList cm cmod.leaf) ≤ brushDistanceSpec loc b :=
      foldr_min_le_mem _ _ _ (List.mem_map_of_mem _ hb)
    have h2 : 0 < brushDistanceSpec loc b := lt_of_lt_of_le hpos h1
    unfold brushDistanceSpec at h2
    rw [if_neg hs] at h2
    by_contra hno
    push_neg at hno
    have h3 := foldr_max_le (b.sides.map (sideDistance loc)) (-999999) 0 (by norm_num) (by
      intro x hx
      obtain ⟨s, hs1, hs2⟩ := List.mem_map.mp hx
      rw [← hs2]
      exact hno s hs1)
    exact absurd h2 (not_lt.mpr h3)

/-- C14, on the example data: the point `(3, 1/2, 1/2)` is at distance 2 of the
model that holds the unit cube. -/
theorem C14_distance_to_model_witness :
    CM_DistanceToModel exampleEnv exampleWorld ⟨3, 1 / 2, 1 / 2⟩ 1 = some 2 ∧
    (0 < modelDistanceSpec ⟨3, 1 / 2, 1 / 2⟩ (leafBrushList exampleWorld ⟨[0], []⟩) →
      ∀ b ∈ leafBrushList exampleWorld ⟨[0], []⟩, b.sides ≠ [] →
        ∃ s ∈ b.sides, 0 < DotProduct ⟨3, 1 / 2, 1 / 2⟩ s.plane.normal - s.plane.dist) :=
  ⟨by decide!,
    (C14_distance_to_model exampleEnv exampleWorld ⟨3, 1 / 2, 1 / 2⟩ 1
      { mins := ⟨0, 0, 0⟩, maxs := ⟨1, 1, 1⟩, leaf := ⟨[0], []⟩ } rfl (by decide)).2.2⟩

/-- C15: the claim at a failing input.  The point `(2000000, 1/2, 1/2)` is
1999999 in front of the face `x = 1` of the unit cube, so the value of the
cube does not lower the initial 999999: `CM_DistanceToModel` returns 999999
for a model that has a brush. -/
theorem C15_far_point_returns_sentinel :
    CM_DistanceToModel exampleEnv exampleWorld ⟨2000000, 1 / 2, 1 / 2⟩ 1 = some 999999 ∧
    (∃ cmod, exampleEnv.CM_ClipHandleToModel exampleWorld 1 = some cmod ∧
      cmod.leaf.leafBrushes ≠ []) :=
  ⟨by decide!, ⟨_, rfl, by decide⟩⟩

/-- C15, amended: `CM_DistanceToModel` returns at most 999999, and it returns
999999 exactly when every brush of the model has no sides or has a side that
`loc` is at least 999999 in front of; a model without brushes is one case. -/
theorem C15_sentinel_iff (env : Env) (cm : clipMap_t) (loc : Vec3) (model : Nat)
    (cmod : cmodel_t) (hm : env.CM_ClipHandleToModel cm model = some cmod)
    (hl : ∀ i ∈ cmod.leaf.leafBrushes, i < cm.brushes.length) :
    ∃ r, CM_DistanceToModel env cm loc model = some r ∧ r ≤ 999999 ∧
      (999999 ≤ r ↔ ∀ b ∈ leafBrushList cm cmod.leaf,
        b.sides = [] ∨ ∃ s ∈ b.sides, 999999 ≤ DotProduct loc s.plane.normal - s.plane.dist) ∧
      (cmod.leaf.leafBrushes = [] → r = 999999) := by
  refine ⟨_, (CM_DistanceToModel_eq env cm loc model cmod hm hl), foldr_min_le_init _ _, ?_, ?_⟩
  · constructor
    · intro h b hb
      have h1 : modelDistanceSpec loc (leafBrushList cm cmod.leaf) ≤ brushDistanceSpec loc b :=
        foldr_min_le_mem _ _ _ (List.mem_map_of_mem _ hb)
      exact (brushDistanceSpec_ge_iff loc b 999999 (by norm_num) (le_refl _)).mp (le_trans h h1)
    · intro h
      refine le_foldr_min _ _ _ (le_refl _) ?_
      intro x hx
      obtain ⟨b, hb1, hb2⟩ := List.mem_map.mp hx
      rw [← hb2]
      exact (brushDistanceSpec_ge_iff loc b 999999 (by norm_num) (le_refl _)).mpr (h b hb1)
  · intro h
    unfold modelDistanceSpec leafBrushList
    rw [h]
    rfl

/-- C15, amended, on the example data: the point `(3, 1/2, 1/2)` and the model
that holds the unit cube. -/
theorem C15_sentinel_iff_witness :
    ∃ r, CM_DistanceToModel exampleEnv exampleWorld ⟨3, 1 / 2, 1 / 2⟩ 1 = some r ∧ r ≤ 999999 ∧
      (999999 ≤ r ↔ ∀ b ∈ leafBrushList exampleWorld ⟨[0], []⟩,
        b.sides = [] ∨ ∃ s ∈ b.sides,
          999999 ≤ DotProduct ⟨3, 1 / 2, 1 / 2⟩ s.plane.normal - s.plane.dist) ∧
      ((⟨[0], []⟩ : cLeaf_t).leafBrushes = [] → r = 999999) :=
  C15_sentinel_iff exampleEnv exampleWorld ⟨3, 1 / 2, 1 / 2⟩ 1
    { mins := ⟨0, 0, 0⟩, maxs := ⟨1, 1, 1⟩, leaf := ⟨[0], []⟩ } rfl (by decide)

/-! ### Position test and sweep of a brush at `start = end` -/

theorem capsuleStart_axial (s off : Vec3) :
    DotProduct (if DotProduct ⟨1, 0, 0⟩ off > 0 then VectorSubtract s off else VectorAdd s off)
        ⟨1, 0, 0⟩ = s.x - |off.x| ∧
    DotProduct (if DotProduct ⟨-1, 0, 0⟩ off > 0 then VectorSubtract s off else VectorAdd s off)
        ⟨-1, 0, 0⟩ = -(s.x + |off.x|) ∧
    DotProduct (if DotProduct ⟨0, 1, 0⟩ off > 0 then VectorSubtract s off else VectorAdd s off)
        ⟨0, 1, 0⟩ = s.y - |off.y| ∧
    DotProduct (if DotProduct ⟨0, -1, 0⟩ off > 0 then VectorSubtract s off else VectorAdd s off)
        ⟨0, -1, 0⟩ = -(s.y + |off.y|) ∧
    DotProduct (if DotProduct ⟨0, 0, 1⟩ off > 0 then VectorSubtract s off else VectorAdd s off)
        ⟨0, 0, 1⟩ = s.z - |off.z| ∧
    DotProduct (if DotProduct ⟨0, 0, -1⟩ off > 0 then VectorSubtract s off else VectorAdd s off)
        ⟨0, 0, -1⟩ = -(s.z + |off.z|) := by
  simp only [DotProduct, mul_zero, zero_mul, add_zero, zero_add, one_mul, neg_mul, mul_neg,
    mul_one]
  refine ⟨?_, ?_, ?_, ?_, ?_, ?_⟩
  · by_cases h : off.x > 0
    · rw [if_pos h, abs_of_pos h]; rfl
    · rw [if_neg h, abs_of_nonpos (not_lt.mp h)]; simp [VectorAdd]
  · by_cases h : -off.x > 0
    · rw [if_pos h, abs_of_neg (by linarith)]; simp [VectorSubtract]; ring
    · rw [if_neg h, abs_of_nonneg (by linarith)]; simp [VectorAdd]
  · by_cases h : off.y > 0
    · rw [if_pos h, abs_of_pos h]; rfl
    · rw [if_neg h, abs_of_nonpos (not_lt.mp h)]; simp [VectorAdd]
  · by_cases h : -off.y > 0
    · rw [if_pos h, abs_of_neg (by linarith)]; simp [VectorSubtract]; ring
    · rw [if_neg h, abs_of_nonneg (by linarith)]; simp [VectorAdd]
  · by_cases h : off.z > 0
    · rw [if_pos h, abs_of_pos h]; rfl
    · rw [if_neg h, abs_of_nonpos (not_lt.mp h)]; simp [VectorAdd]
  · by_cases h : -off.z > 0
    · rw [if_pos h, abs_of_neg (by linarith)]; simp [VectorSubtract]; ring
    · rw [if_neg h, abs_of_nonneg (by linarith)]; simp [VectorAdd]

/-- The start distance of a position test to an axial plane is the gap between
the bounds of the trace and the plane. -/
theorem CM_sideDistances_axial (env : Env) (start mins maxs origin : Vec3)
    (brushmask skipmask : Nat) (type : traceType_t) (sphere : Option sphere_t) (t : trace_t)
    (p : cplane_t) (hv : ValidSignbits p) :
    (p.normal = ⟨1, 0, 0⟩ →
      (CM_sideDistances (positionWork env start mins maxs origin brushmask skipmask type sphere
        t) p).1
        = (positionWork env start mins maxs origin brushmask skipmask type sphere t).bounds0.x
          - p.dist) ∧
    (p.normal = ⟨-1, 0, 0⟩ →
      (CM_sideDistances (positionWork env start mins maxs origin brushmask skipmask type sphere
        t) p).1
        = -p.dist
          - (positionWork env start mins maxs origin brushmask skipmask type sphere t).bounds1.x) ∧
    (p.normal = ⟨0, 1, 0⟩ →
      (CM_sideDistances (positionWork env start mins maxs origin brushmask skipmask type sphere
        t) p).1
        = (positionWork env start mins maxs origin brushmask skipmask type sphere t).bounds0.y
          - p.dist) ∧
    (p.normal = ⟨0, -1, 0⟩ →
      (CM_sideDistances (positionWork env start mins maxs origin brushmask skipmask type sphere
        t) p).1
        = -p.dist
          - (positionWork env start mins maxs origin brushmask skipmask type sphere t).bounds1.y) ∧
    (p.normal = ⟨0, 0, 1⟩ →
      (CM_sideDistances (positionWork env start mins maxs origin brushmask skipmask type sphere
        t) p).1
        = (positionWork env start mins maxs origin brushmask skipmask type sphere t).bounds0.z
          - p.dist) ∧
    (p.normal = ⟨0, 0, -1⟩ →
      (CM_sideDistances (positionWork env start mins maxs origin brushmask skipmask type sphere
        t) p).1
        = -p.dist
          - (positionWork env start mins maxs origin brushmask skipmask type sphere t).bounds1.z) := by
  cases type with
  | TT_AABB =>
    have h := CM_sideDistances_setup env start start mins maxs origin brushmask skipmask sphere
      p hv
    have h1 : (CM_sideDistances (positionWork env start mins maxs origin brushmask skipmask
        traceType_t.TT_AABB sphere t) p).1
        = DotProduct start p.normal - p.dist + boxSupport mins maxs p.normal := by
      have : CM_sideDistances (positionWork env start mins maxs origin brushmask skipmask
          traceType_t.TT_AABB sphere t) p
          = CM_sideDistances (CM_Trace_setup env start start mins maxs origin brushmask skipmask
              traceType_t.TT_AABB sphere) p := rfl
      rw [this, h]
    rw [h1]
    unfold positionWork CM_Trace_setup CM_Trace_boundsAxis
    simp only [lt_self_iff_false, if_false, DotProduct, boxSupport, VectorAdd, VectorSubtract,
      boxCentre]
    refine ⟨?_, ?_, ?_, ?_, ?_, ?_⟩ <;> intro hn <;> rw [hn] <;> norm_num <;> ring
  | TT_CAPSULE =>
    have hc := capsuleStart_axial
      (positionWork env start mins maxs origin brushmask skipmask traceType_t.TT_CAPSULE sphere
        t).start
      (positionWork env start mins maxs origin brushmask skipmask traceType_t.TT_CAPSULE sphere
        t).sphere.offset
    have hd : ∀ q : cplane_t, (CM_sideDistances (positionWork env start mins maxs origin
        brushmask skipmask traceType_t.TT_CAPSULE sphere t) q).1
        = DotProduct (if DotProduct q.normal (positionWork env start mins maxs origin brushmask
              skipmask traceType_t.TT_CAPSULE sphere t).sphere.offset > 0 then
            VectorSubtract (positionWork env start mins maxs origin brushmask skipmask
              traceType_t.TT_CAPSULE sphere t).start (positionWork env start mins maxs origin
              brushmask skipmask traceType_t.TT_CAPSULE sphere t).sphere.offset
          else VectorAdd (positionWork env start mins maxs origin brushmask skipmask
              traceType_t.TT_CAPSULE sphere t).start (positionWork env start mins maxs origin
              brushmask skipmask traceType_t.TT_CAPSULE sphere t).sphere.offset) q.normal
          - (q.dist + (positionWork env start mins maxs origin brushmask skipmask
              traceType_t.TT_CAPSULE sphere t).sphere.radius) := fun _ => rfl
    have hb0 : (positionWork env start mins maxs origin brushmask skipmask
          traceType_t.TT_CAPSULE sphere t).bounds0
        = ⟨(positionWork env start mins maxs origin brushmask skipmask traceType_t.TT_CAPSULE
              sphere t).start.x
            + (-|(positionWork env start mins maxs origin brushmask skipmask
                traceType_t.TT_CAPSULE sphere t).sphere.offset.x|
              - (positionWork env start mins maxs origin brushmask skipmask
                traceType_t.TT_CAPSULE sphere t).sphere.radius),
           (positionWork env start mins maxs origin brushmask skipmask traceType_t.TT_CAPSULE
              sphere t).start.y
            + (-|(positionWork env start mins maxs origin brushmask skipmask
                traceType_t.TT_CAPSULE sphere t).sphere.offset.y|
              - (positionWork env start mins maxs origin brushmask skipmask
                traceType_t.TT_CAPSULE sphere t).sphere.radius),
           (positionWork env start mins maxs origin brushmask skipmask traceType_t.TT_CAPSULE
              sphere t).start.z
            + (-|(positionWork env start mins maxs origin brushmask skipmask
                traceType_t.TT_CAPSULE sphere t).sphere.offset.z|
              - (positionWork env start mins maxs origin brushmask skipmask
                traceType_t.TT_CAPSULE sphere t).sphere.radius)⟩ := by
      unfold positionWork CM_Trace_setup CM_Trace_boundsAxis
      simp only [lt_self_iff_false, if_false]
    have hb1 : (positionWork env start mins maxs origin brushmask skipmask
          traceType_t.TT_CAPSULE sphere t).bounds1
        = ⟨(positionWork env start mins maxs origin brushmask skipmask traceType_t.TT_CAPSULE
              sphere t).start.x
            + (|(positionWork env start mins maxs origin brushmask skipmask
                traceType_t.TT_CAPSULE sphere t).sphere.offset.x|
              + (positionWork env start mins maxs origin brushmask skipmask
                traceType_t.TT_CAPSULE sphere t).sphere.radius),
           (positionWork env start mins maxs origin brushmask skipmask traceType_t.TT_CAPSULE
              sphere t).start.y
            + (|(positionWork env start mins maxs origin brushmask skipmask
                traceType_t.TT_CAPSULE sphere t).sphere.offset.y|
              + (positionWork env start mins maxs origin brushmask skipmask
                traceType_t.TT_CAPSULE sphere t).sphere.radius),
           (positionWork env start mins maxs origin brushmask skipmask traceType_t.TT_CAPSULE
              sphere t).start.z
            + (|(positionWork env start mins maxs origin brushmask skipmask
                traceType_t.TT_CAPSULE sphere t).sphere.offset.z|
              + (positionWork env start mins maxs origin brushmask skipmask
                traceType_t.TT_CAPSULE sphere t).sphere.radius)⟩ := by
      unfold positionWork CM_Trace_setup CM_Trace_boundsAxis
      simp only [lt_self_iff_false, if_false]
    rw [hd, hb0, hb1]
    obtain ⟨c1, c2, c3, c4, c5, c6⟩ := hc
    refine ⟨?_, ?_, ?_, ?_, ?_, ?_⟩ <;> intro hn <;> rw [hn]
    · rw [c1]; ring
    · rw [c2]; ring
    · rw [c3]; ring
    · rw [c4]; ring
    · rw [c5]; ring
    · rw [c6]; ring

theorem CM_TestBoxInBrush_sides_iff (tw : traceWork_t) (l : List cbrushside_t) :
    CM_TestBoxInBrush_sides tw l = true ↔ ∃ s ∈ l, (CM_sideDistances tw s.plane).1 > 0 := by
  induction l with
  | nil => simp [CM_TestBoxInBrush_sides]
  | cons a r ih =>
    unfold CM_TestBoxInBrush_sides
    by_cases h : (CM_sideDistances tw a.plane).1 > 0
    · rw [if_pos h]
      simp only [List.mem_cons, true_iff]
      exact ⟨a, Or.inl rfl, h⟩
    · rw [if_neg h, ih]
      constructor
      · rintro ⟨s, hs, hd⟩
        exact ⟨s, List.mem_cons_of_mem _ hs, hd⟩
      · rintro ⟨s, hs, hd⟩
        rcases List.mem_cons.mp hs with h1 | h1
        · rw [h1] at hd
          exact absurd hd h
        · exact ⟨s, h1, hd⟩

theorem CM_Trace_offsets_x (size0 size1 : Vec3) (sb : Fin 8) :
    (CM_Trace_offsets size0 size1 sb).x = if sb.val % 2 = 1 then size1.x else size0.x := by
  fin_cases sb <;> rfl

theorem CM_Trace_offsets_y (size0 size1 : Vec3) (sb : Fin 8) :
    (CM_Trace_offsets size0 size1 sb).y = if sb.val / 2 % 2 = 1 then size1.y else size0.y := by
  fin_cases sb <;> rfl

theorem CM_Trace_offsets_z (size0 size1 : Vec3) (sb : Fin 8) :
    (CM_Trace_offsets size0 size1 sb).z = if sb.val / 4 % 2 = 1 then size1.z else size0.z := by
  fin_cases sb <;> rfl

theorem corner_axis (n s : ℚ) (c : Prop) [Decidable c] (hc : c ↔ n < 0) (hs : 0 ≤ s) :
    (if c then s else -s) * n = -(|n| * s) ∧
    ∀ d : Prop, ∀ _ : Decidable d, (if c then s else -s) * n ≤ (if d then s else -s) * n := by
  by_cases h : n < 0
  · rw [if_pos (hc.mpr h), abs_of_neg h]
    refine ⟨by ring, fun d _ => ?_⟩
    split_ifs
    · exact le_refl _
    · nlinarith
  · rw [if_neg (fun hcc => h (hc.mp hcc)), abs_of_nonneg (not_lt.mp h)]
    refine ⟨by ring, fun d _ => ?_⟩
    split_ifs
    · nlinarith [not_lt.mp h]
    · exact le_refl _

/-- C17: for a symmetric mover size with `size[1] ≥ 0` and a plane with the
sign bits of its normal, the corner `offsets[signbits]` of the table of
`CM_Trace` has `dot(offsets[signbits], normal) = -(|n.x|·size[1].x +
|n.y|·size[1].y + |n.z|·size[1].z)`, the least value of `dot(c, normal)` over
the eight corners `c` of the table; against the negated normal the absolute
value of the product is the same support distance.  The table of the trace
state is the table of its sizes. -/
theorem C17_corner_offsets (size0 size1 n : Vec3) (sb : Fin 8)
    (hsym : size0 = VectorNegate size1)
    (hpos : 0 ≤ size1.x ∧ 0 ≤ size1.y ∧ 0 ≤ size1.z)
    (hsb : (sb.val % 2 = 1 ↔ n.x < 0) ∧ (sb.val / 2 % 2 = 1 ↔ n.y < 0) ∧
      (sb.val / 4 % 2 = 1 ↔ n.z < 0)) :
    DotProduct (CM_Trace_offsets size0 size1 sb) n
      = -(|n.x| * size1.x + |n.y| * size1.y + |n.z| * size1.z) ∧
    (∀ b : Fin 8, DotProduct (CM_Trace_offsets size0 size1 sb) n
      ≤ DotProduct (CM_Trace_offsets size0 size1 b) n) ∧
    |DotProduct (CM_Trace_offsets size0 size1 sb) (VectorNegate n)|
      = |n.x| * size1.x + |n.y| * size1.y + |n.z| * size1.z ∧
    (∀ (env : Env) (start end_ mins maxs origin : Vec3) (brushmask skipmask : Nat)
      (type : traceType_t) (sphere : Option sphere_t),
      (CM_Trace_setup env start end_ mins maxs origin brushmask skipmask type sphere).offsets
        = CM_Trace_offsets
            (CM_Trace_setup env start end_ mins maxs origin brushmask skipmask type sphere).size0
            (CM_Trace_setup env start end_ mins maxs origin brushmask skipmask type
              sphere).size1) := by
  obtain ⟨hx, hy, hz⟩ := hsb
  obtain ⟨px, py, pz⟩ := hpos
  have ax := corner_axis n.x size1.x (sb.val % 2 = 1) hx px
  have ay := corner_axis n.y size1.y (sb.val / 2 % 2 = 1) hy py
  have az := corner_axis n.z size1.z (sb.val / 4 % 2 = 1) hz pz
  have hdot : ∀ b : Fin 8, DotProduct (CM_Trace_offsets size0 size1 b) n
      = (if b.val % 2 = 1 then size1.x else -size1.x) * n.x
        + (if b.val / 2 % 2 = 1 then size1.y else -size1.y) * n.y
        + (if b.val / 4 % 2 = 1 then size1.z else -size1.z) * n.z := by
    intro b
    unfold DotProduct
    rw [CM_Trace_offsets_x, CM_Trace_offsets_y, CM_Trace_offsets_z, hsym]
    rfl
  have hval : DotProduct (CM_Trace_offsets size0 size1 sb) n
      = -(|n.x| * size1.x + |n.y| * size1.y + |n.z| * size1.z) := by
    rw [hdot, ax.1, ay.1, az.1]
    ring
  refine ⟨hval, fun b => ?_, ?_, fun _ _ _ _ _ _ _ _ _ _ => rfl⟩
  · rw [hdot sb, hdot b]
    exact add_le_add (add_le_add (ax.2 _ _) (ay.2 _ _)) (az.2 _ _)
  · have hneg : DotProduct (CM_Trace_offsets size0 size1 sb) (VectorNegate n)
        = -DotProduct (CM_Trace_offsets size0 size1 sb) n := by
      unfold DotProduct VectorNegate
      ring
    rw [hneg, hval, neg_neg]
    exact abs_of_nonneg (add_nonneg (add_nonneg (mul_nonneg (abs_nonneg _) px)
      (mul_nonneg (abs_nonneg _) py)) (mul_nonneg (abs_nonneg _) pz))

/-- C17, on the example data: the box `[-1,1]³` and the normal `(-1, 2, 0)`
with sign bits 1. -/
theorem C17_corner_offsets_witness :
    DotProduct (CM_Trace_offsets ⟨-1, -1, -1⟩ ⟨1, 1, 1⟩ 1) ⟨-1, 2, 0⟩ = -3 ∧
    DotProduct (CM_Trace_offsets ⟨-1, -1, -1⟩ ⟨1, 1, 1⟩ 1) ⟨-1, 2, 0⟩
      = -(|(-1 : ℚ)| * 1 + |(2 : ℚ)| * 1 + |(0 : ℚ)| * 1) :=
  ⟨by decide!,
    (C17_corner_offsets ⟨-1, -1, -1⟩ ⟨1, 1, 1⟩ ⟨-1, 2, 0⟩ 1 (by decide!)
      ⟨by decide!, by decide!, by decide!⟩ ⟨by decide!, by decide!, by decide!⟩).1⟩

/-! ### The capsule position test -/

/-- When the target capsule is taller than wide (`offs > 0`), the cylinder
test of `CM_TestCapsuleInCapsule` is never reached: its guard asks for a
height that is at least the upper sphere centre and at most the lower one. -/
theorem CM_TestCapsuleInCapsule_guard (z c offs : ℚ) (ho : 0 < offs) :
    ¬(z ≥ c + offs ∧ z ≤ c - offs) := by
  rintro ⟨h1, h2⟩
  linarith

/-- C20: the code at a failing input.  A capsule `[-10,10]² × [-50,50]` is
tested at `(15, 0, 30)` against a capsule target of the same size at the
origin.  The sphere centres of the mover are at heights -10 and 70, those of
the target at -40 and 40, so the vertical intervals overlap, and the axes are
15 apart, less than the sum 20 of the radii; no two sphere centres are closer
than 20.  The function leaves the trace as it was: not solid, fraction 1. -/
theorem C20_capsule_cylinder_overlap_missed :
    (CM_TestCapsuleInCapsule (exampleEnvWithBounds ⟨-10, -10, -50⟩ ⟨10, 10, 50⟩) exampleWorld
        exampleTallCapsuleWork 254).map (fun tw => tw.trace) = some defaultTrace ∧
    (CM_BoxTrace (exampleEnvWithBounds ⟨-10, -10, -50⟩ ⟨10, 10, 50⟩) 5 exampleWorld
        ⟨15, 0, 30⟩ ⟨15, 0, 30⟩ (some ⟨-10, -10, -50⟩) (some ⟨10, 10, 50⟩) 254 1 0
        traceType_t.TT_CAPSULE).map (fun r => r.2)
      = some { defaultTrace with endpos := ⟨15, 0, 30⟩ } ∧
    exampleTallCapsuleWork.sphere.radius = 10 ∧
    VectorAdd exampleTallCapsuleWork.start exampleTallCapsuleWork.sphere.offset = ⟨15, 0, 70⟩ ∧
    VectorSubtract exampleTallCapsuleWork.start exampleTallCapsuleWork.sphere.offset
      = ⟨15, 0, -10⟩ ∧
    capsuleRadius 10 50 = 10 ∧
    (-10 : ℚ) ≤ 40 ∧ (-40 : ℚ) ≤ 70 ∧
    (15 : ℚ) * 15 + 0 * 0 < (10 + 10) * (10 + 10) := by
  refine ⟨by decide!, by decide!, by decide!, by decide!, by decide!, by decide!, by decide!,
    by decide!, by decide!⟩

theorem ReportsSolid_step (c : Prop) [Decidable c] (tw : traceWork_t)
    (h : c ∨ ReportsSolid tw) : ReportsSolid (if c then setAllsolid tw else tw) := by
  by_cases hc : c
  · rw [if_pos hc]
    exact ⟨rfl, rfl, rfl⟩
  · rw [if_neg hc]
    exact h.resolve_left hc

/-- The sphere part of `CM_TestCapsuleInCapsule`: the position is reported
solid when one of the two sphere centres of the mover is closer to one of the
two sphere centres of the target than the sum of the radii. -/
theorem CM_TestCapsuleInCapsule_spheres (env : Env) (cm : clipMap_t) (tw tw1 : traceWork_t)
    (model : Nat) (mins maxs : Vec3) (hb : env.CM_ModelBounds cm model = some (mins, maxs))
    (h : CM_TestCapsuleInCapsule env cm tw model = some tw1)
    (p : Vec3) (q : Vec3)
    (hp : p = ⟨(boxCentre mins maxs).x, (boxCentre mins maxs).y,
          (boxCentre mins maxs).z + ((VectorSubtract maxs (boxCentre mins maxs)).z
            - capsuleRadius (VectorSubtract maxs (boxCentre mins maxs)).x
                (VectorSubtract maxs (boxCentre mins maxs)).z)⟩ ∨
        p = ⟨(boxCentre mins maxs).x, (boxCentre mins maxs).y,
          (boxCentre mins maxs).z - ((VectorSubtract maxs (boxCentre mins maxs)).z
            - capsuleRadius (VectorSubtract maxs (boxCentre mins maxs)).x
                (VectorSubtract maxs (boxCentre mins maxs)).z)⟩)
    (hq : q = VectorAdd tw.start tw.sphere.offset ∨ q = VectorSubtract tw.start tw.sphere.offset)
    (hclose : VectorLengthSquared (VectorSubtract p q)
      < Square (tw.sphere.radius
          + capsuleRadius (VectorSubtract maxs (boxCentre mins maxs)).x
              (VectorSubtract maxs (boxCentre mins maxs)).z)) :
    ReportsSolid tw1 := by
  unfold CM_TestCapsuleInCapsule at h
  rw [hb] at h
  simp only at h
  split_ifs at h <;> simp only [Option.some.injEq] at h <;> subst h <;>
    first
    | exact ⟨rfl, rfl, rfl⟩
    | (exfalso
       rcases hp with hp | hp <;> rcases hq with hq | hq <;> rw [hp, hq] at hclose <;>
         contradiction)

/-! ### The hit of the brush sweep -/

theorem enterFraction_eq_max (d1 d2 : ℚ) :
    enterFraction d1 d2 = max 0 ((d1 - SURFACE_CLIP_EPSILON) / (d1 - d2)) := by
  unfold enterFraction
  split_ifs with h
  · exact (max_eq_left (le_of_lt h)).symm
  · exact (max_eq_right (not_lt.mp h)).symm

theorem enteringSides_append (tw : traceWork_t) (pre : List cbrushside_t) (side : cbrushside_t) :
    enteringSides tw (pre ++ [side])
      = enteringSides tw pre ++ (if sideEnters tw side then [side] else []) := by
  unfold enteringSides
  rw [List.filter_append]
  congr 1
  by_cases h : sideEnters tw side
  · simp [List.filter, h]
  · simp [List.filter, h]

theorem EnterInv_step (tw : traceWork_t) (pre : List cbrushside_t) (side : cbrushside_t)
    (st st1 : BrushLoop) (hinv : EnterInv tw pre st)
    (h : CM_TraceThroughBrush_side side (CM_sideDistances tw side.plane).1
      (CM_sideDistances tw side.plane).2 st = some st1) :
    EnterInv tw (pre ++ [side]) st1 := by
  unfold CM_TraceThroughBrush_side at h
  simp only at h
  by_cases h1 : (CM_sideDistances tw side.plane).1 > 0 ∧
      ((CM_sideDistances tw side.plane).2 ≥ SURFACE_CLIP_EPSILON
        ∨ (CM_sideDistances tw side.plane).2 ≥ (CM_sideDistances tw side.plane).1)
  · rw [if_pos h1] at h
    exact absurd h (by simp)
  rw [if_neg h1] at h
  by_cases h2 : (CM_sideDistances tw side.plane).1 ≤ 0 ∧ (CM_sideDistances tw side.plane).2 ≤ 0
  · rw [if_pos h2] at h
    simp only [Option.some.injEq] at h
    have hne : ¬sideEnters tw side := fun he => he.2 h2
    unfold EnterInv
    rw [enteringSides_append, if_neg hne, List.append_nil, ← h]
    exact hinv
  rw [if_neg h2] at h
  by_cases h3 : (CM_sideDistances tw side.plane).1 > (CM_sideDistances tw side.plane).2
  · rw [if_pos h3] at h
    have he : sideEnters tw side := ⟨h3, h2⟩
    have hval : enterFraction (CM_sideDistances tw side.plane).1
        (CM_sideDistances tw side.plane).2 = enterValue tw side := enterFraction_eq_max _ _
    rw [hval] at h
    have hpos : 0 ≤ enterValue tw side := le_max_left _ _
    unfold EnterInv
    rw [enteringSides_append, if_pos he]
    by_cases h4 : enterValue tw side > st.enterFrac
    · rw [if_pos h4] at h
      simp only [Option.some.injEq] at h
      right
      refine ⟨side, ?_, by rw [← h], by rw [← h], ?_⟩
      · rw [← h]
        simp only [List.find?_append]
        have hnone : (enteringSides tw pre).find?
            (fun s => decide (enterValue tw s = enterValue tw side)) = none := by
          rw [List.find?_eq_none]
          intro x hx
          rcases hinv with ⟨_, hnil⟩ | ⟨_, _, _, _, hle⟩
          · rw [hnil] at hx
            exact absurd hx (List.not_mem_nil _)
          · have := hle x hx
            simp only [decide_eq_true_eq]
            intro heq
            rw [heq] at this
            exact absurd h4 (not_lt.mpr this)
        rw [hnone]
        simp
      · rw [← h]
        intro s hs
        rcases List.mem_append.mp hs with hs1 | hs1
        · rcases hinv with ⟨_, hnil⟩ | ⟨_, _, _, _, hle⟩
          · rw [hnil] at hs1
            exact absurd hs1 (List.not_mem_nil _)
          · exact le_trans (hle s hs1) (le_of_lt h4)
        · rw [List.mem_singleton.mp hs1]
    · rw [if_neg h4] at h
      simp only [Option.some.injEq] at h
      rcases hinv with ⟨hm1, _⟩ | ⟨side0, hfind, hlead, hclip, hle⟩
      · rw [hm1] at h4
        exact absurd (lt_of_lt_of_le (by norm_num : (-1 : ℚ) < 0) hpos) h4
      · right
        refine ⟨side0, ?_, by rw [← h]; exact hlead, by rw [← h]; exact hclip, ?_⟩
        · rw [← h]
          simp only [List.find?_append]
          rw [hfind]
          rfl
        · rw [← h]
          intro s hs
          rcases List.mem_append.mp hs with hs1 | hs1
          · exact hle s hs1
          · rw [List.mem_singleton.mp hs1]
            exact not_lt.mp h4
  · rw [if_neg h3] at h
    have hne : ¬sideEnters tw side := fun he => h3 he.1
    unfold EnterInv
    rw [enteringSides_append, if_neg hne, List.append_nil]
    split_ifs at h <;> simp only [Option.some.injEq] at h <;> rw [← h] <;> exact hinv

theorem EnterInv_loop (tw : traceWork_t) (rest : List cbrushside_t) :
    ∀ (pre : List cbrushside_t) (st st1 : BrushLoop), EnterInv tw pre st →
      CM_TraceThroughBrush_sides tw rest st = some st1 → EnterInv tw (pre ++ rest) st1 := by
  induction rest with
  | nil =>
    intro pre st st1 hinv h
    unfold CM_TraceThroughBrush_sides at h
    simp only [Option.some.injEq] at h
    rw [List.append_nil, ← h]
    exact hinv
  | cons side rest ih =>
    intro pre st st1 hinv h
    unfold CM_TraceThroughBrush_sides at h
    simp only at h
    split at h
    · exact absurd h (by simp)
    · rename_i st2 hst2
      have := ih (pre ++ [side]) st2 st1 (EnterInv_step tw pre side st st2 hinv hst2) h
      rw [List.append_assoc] at this
      exact this

/-- C12: when `CM_TraceThroughBrush` records a hit, the recorded fraction is
the greatest entering value `max(0, (d1 - SURFACE_CLIP_EPSILON) / (d1 - d2))`
over the entering sides of the brush (the sides with `d1 > d2` that the trace
crosses; no side with `d1 > d2` at all has a greater value), the recorded
plane (normal and unexpanded distance) and surface flags are those of the
first entering side with that value, and the recorded contents are those of
the brush; when it records no hit, plane and surface flags stay as they were. -/
theorem C12_brush_hit (tw : traceWork_t) (brush : cbrush_t) :
    (CM_TraceThroughBrush_hit tw brush →
      ∃ side ∈ brush.sides,
        (enteringSides tw brush.sides).find?
          (fun s => decide (enterValue tw s = (CM_TraceThroughBrush tw brush).trace.fraction))
          = some side ∧
        enterValue tw side = (CM_TraceThroughBrush tw brush).trace.fraction ∧
        (∀ s ∈ enteringSides tw brush.sides,
          enterValue tw s ≤ (CM_TraceThroughBrush tw brush).trace.fraction) ∧
        (∀ s ∈ brush.sides,
          (CM_sideDistances tw s.plane).1 > (CM_sideDistances tw s.plane).2 →
          enterValue tw s ≤ (CM_TraceThroughBrush tw brush).trace.fraction) ∧
        (CM_TraceThroughBrush tw brush).trace.plane = ⟨side.plane.normal, side.plane.dist⟩ ∧
        (CM_TraceThroughBrush tw brush).trace.surfaceFlags = side.surfaceFlags ∧
        (CM_TraceThroughBrush tw brush).trace.contents = brush.contents) ∧
    (¬CM_TraceThroughBrush_hit tw brush →
      (CM_TraceThroughBrush tw brush).trace.plane = tw.trace.plane ∧
      (CM_TraceThroughBrush tw brush).trace.surfaceFlags = tw.trace.surfaceFlags) := by
  constructor
  · rintro ⟨hn, hhit⟩
    split at hhit
    · exact absurd hhit not_false
    · rename_i st hst
      obtain ⟨hso, hlt, hgt, hfr⟩ := hhit
      have hinv := EnterInv_loop tw brush.sides [] BrushLoop.init st
        (Or.inl ⟨rfl, rfl⟩) hst
      rw [List.nil_append] at hinv
      rcases hinv with ⟨hm1, _⟩ | ⟨side, hfind, hlead, hclip, hle⟩
      · rw [hm1] at hgt
        exact absurd hgt (lt_irrefl _)
      · have hmem : side ∈ enteringSides tw brush.sides := List.mem_of_find?_eq_some hfind
        have hval : enterValue tw side = st.enterFrac := by
          have := List.find?_some hfind
          simpa using this
        have hpos : ¬st.enterFrac < 0 := by
          rw [← hval]
          exact not_lt.mpr (le_max_left _ _)
        have hres : CM_TraceThroughBrush_finish tw brush st
            = { tw with trace := { tw.trace with
                  fraction := st.enterFrac
                  plane := { normal := side.plane.normal, dist := side.plane.dist }
                  surfaceFlags := side.surfaceFlags
                  contents := brush.contents } } := by
          unfold CM_TraceThroughBrush_finish
          simp only [hso, Bool.not_true, Bool.false_eq_true, if_false, hlt, if_true, hgt, hfr,
            and_self, hlead, hclip, hpos]
        have hall : CM_TraceThroughBrush tw brush
            = { tw with trace := { tw.trace with
                  fraction := st.enterFrac
                  plane := { normal := side.plane.normal, dist := side.plane.dist }
                  surfaceFlags := side.surfaceFlags
                  contents := brush.contents } } := by
          unfold CM_TraceThroughBrush
          rw [if_neg hn, hst]
          exact hres
        have hwide : ∀ s ∈ brush.sides,
            (CM_sideDistances tw s.plane).1 > (CM_sideDistances tw s.plane).2 →
            enterValue tw s ≤ st.enterFrac := by
          intro s hs hgt2
          by_cases he : sideEnters tw s
          · exact hle s (List.mem_filter.mpr ⟨hs, decide_eq_true he⟩)
          · have hboth : (CM_sideDistances tw s.plane).1 ≤ 0
                ∧ (CM_sideDistances tw s.plane).2 ≤ 0 := by
              by_contra hb
              exact he ⟨hgt2, hb⟩
            have hq : ((CM_sideDistances tw s.plane).1 - SURFACE_CLIP_EPSILON)
                / ((CM_sideDistances tw s.plane).1 - (CM_sideDistances tw s.plane).2) ≤ 0 := by
              apply div_nonpos_of_nonpos_of_nonneg
              · unfold SURFACE_CLIP_EPSILON
                linarith [hboth.1]
              · linarith
            unfold enterValue
            rw [max_eq_left hq]
            exact not_lt.mp hpos
        rw [hall]
        exact ⟨side, (List.mem_filter.mp hmem).1, hfind, hval, hle, hwide, rfl, rfl, rfl⟩
  · intro hno
    unfold CM_TraceThroughBrush
    by_cases hn : brush.sides.length = 0
    · rw [if_pos hn]
      exact ⟨rfl, rfl⟩
    · rw [if_neg hn]
      unfold CM_TraceThroughBrush_hit at hno
      split
      · exact ⟨rfl, rfl⟩
      · rename_i st hst
        rw [hst] at hno
        simp only [not_and] at hno
        have hno1 := hno hn
        unfold CM_TraceThroughBrush_finish
        split_ifs <;> first
          | exact ⟨rfl, rfl⟩
          | (split <;> first
              | exact ⟨rfl, rfl⟩
              | (exfalso; simp_all))

/-- C12, on the example data: the point trace from `(-1, 1/2, 1/2)` to
`(2, 1/2, 1/2)` through the unit cube records the fraction 7/24, the normal
`(-1, 0, 0)` and the distance 0 of the face `x = 0`. -/
theorem C12_brush_hit_witness :
    CM_TraceThroughBrush_hit exampleWork unitCube ∧
    (CM_TraceThroughBrush exampleWork unitCube).trace.fraction = 7 / 24 ∧
    (CM_TraceThroughBrush exampleWork unitCube).trace.plane = ⟨⟨-1, 0, 0⟩, 0⟩ ∧
    (CM_TraceThroughBrush exampleWork unitCube).trace.contents = 1 ∧
    ∃ side ∈ unitCube.sides,
        (enteringSides exampleWork unitCube.sides).find?
          (fun s => decide (enterValue exampleWork s
            = (CM_TraceThroughBrush exampleWork unitCube).trace.fraction))
          = some side ∧
        enterValue exampleWork side = (CM_TraceThroughBrush exampleWork unitCube).trace.fraction ∧
        (∀ s ∈ enteringSides exampleWork unitCube.sides,
          enterValue exampleWork s ≤ (CM_TraceThroughBrush exampleWork unitCube).trace.fraction) ∧
        (∀ s ∈ unitCube.sides,
          (CM_sideDistances exampleWork s.plane).1 > (CM_sideDistances exampleWork s.plane).2 →
          enterValue exampleWork s ≤ (CM_TraceThroughBrush exampleWork unitCube).trace.fraction) ∧
        (CM_TraceThroughBrush exampleWork unitCube).trace.plane
          = ⟨side.plane.normal, side.plane.dist⟩ ∧
        (CM_TraceThroughBrush exampleWork unitCube).trace.surfaceFlags = side.surfaceFlags ∧
        (CM_TraceThroughBrush exampleWork unitCube).trace.contents = unitCube.contents :=
  ⟨by decide!, by decide!, by decide!, by decide!,
    (C12_brush_hit exampleWork unitCube).1 (by decide!)⟩

/-! ### The hit of the cylinder sweep -/

theorem ContentsKept_refl (tw : traceWork_t) : ContentsKept tw tw := ⟨rfl, rfl, rfl⟩

theorem ContentsKept_trans {a b c : traceWork_t} (h1 : ContentsKept a b)
    (h2 : ContentsKept b c) : ContentsKept a c :=
  ⟨h2.1.trans h1.1, h2.2.1.trans h1.2.1, h2.2.2.trans h1.2.2⟩

theorem SameContents_refl (cm : clipMap_t) : SameContents cm cm :=
  ⟨fun _ b h => ⟨b, h, rfl⟩, fun _ s h => ⟨s, h, rfl⟩⟩

theorem SameContents_trans {a b c : clipMap_t} (h1 : SameContents a b) (h2 : SameContents b c) :
    SameContents a c := by
  refine ⟨fun i b2 h => ?_, fun i s2 h => ?_⟩
  · obtain ⟨b1, hb1, e1⟩ := h2.1 i b2 h
    obtain ⟨b0, hb0, e0⟩ := h1.1 i b1 hb1
    exact ⟨b0, hb0, e0.trans e1⟩
  · obtain ⟨s1, hs1, e1⟩ := h2.2 i s2 h
    obtain ⟨s0, hs0, e0⟩ := h1.2 i s1 hs1
    exact ⟨s0, hs0, e0.trans e1⟩

theorem SameContents_stampBrush (cm : clipMap_t) (i : Nat) (b : cbrush_t)
    (hb : cm.brushes[i]? = some b) : SameContents cm (stampBrush cm i b) := by
  refine ⟨fun j b1 h => ?_, fun j s h => ⟨s, h, rfl⟩⟩
  unfold stampBrush at h
  simp only at h
  rw [List.getElem?_set] at h
  split at h
  · rename_i hij
    split at h
    · simp only [Option.some.injEq] at h
      rw [← hij, ← h]
      exact ⟨b, hb, rfl⟩
    · exact absurd h (by simp)
  · exact ⟨b1, h, rfl⟩

theorem SameContents_stampSurface (cm : clipMap_t) (i : Nat) (s : cSurface_t)
    (hs : cm.surfaces[i]? = some (some s)) : SameContents cm (stampSurface cm i s) := by
  refine ⟨fun j b h => ⟨b, h, rfl⟩, fun j s1 h => ?_⟩
  unfold stampSurface at h
  simp only at h
  rw [List.getElem?_set] at h
  split at h
  · rename_i hij
    split at h
    · simp only [Option.some.injEq] at h
      rw [← hij, ← h]
      exact ⟨s, hs, rfl⟩
    · exact absurd h (by simp)
  · exact ⟨s1, h, rfl⟩

theorem ContentsStep_CM_TraceThroughBrush (tw : traceWork_t) (brush : cbrush_t) :
    ContentsStep tw (CM_TraceThroughBrush tw brush) brush.contents := by
  unfold CM_TraceThroughBrush
  split
  · exact ⟨rfl, rfl, Or.inl rfl⟩
  · split
    · exact ⟨rfl, rfl, Or.inl rfl⟩
    · unfold CM_TraceThroughBrush_finish
      split_ifs <;> first
        | exact ⟨rfl, rfl, Or.inl rfl⟩
        | exact ⟨rfl, rfl, Or.inr rfl⟩
        | (split <;> first
            | exact ⟨rfl, rfl, Or.inl rfl⟩
            | exact ⟨rfl, rfl, Or.inr rfl⟩)

theorem ContentsStep_CM_TestBoxInBrush (tw : traceWork_t) (brush : cbrush_t) :
    ContentsStep tw (CM_TestBoxInBrush tw brush) brush.contents := by
  unfold CM_TestBoxInBrush
  split_ifs <;> first
    | exact ⟨rfl, rfl, Or.inl rfl⟩
    | exact ⟨rfl, rfl, Or.inr rfl⟩

theorem ContentsKept_CM_TracePoint_facets (sc : cSurfaceCollide_t) (state : List (Bool × ℚ)) :
    ∀ (l : List cFacet_t) (tw tw1 : traceWork_t),
      CM_TracePoint_facets sc state tw l = some tw1 → ContentsKept tw tw1 := by
  intro l
  induction l with
  | nil =>
    intro tw tw1 h
    simp only [CM_TracePoint_facets, Option.some.injEq] at h
    rw [← h]
    exact ContentsKept_refl _
  | cons facet rest ih =>
    intro tw tw1 h
    rw [CM_TracePoint_facets] at h
    split at h
    · exact absurd h (by simp)
    · split at h
      · exact ih _ _ h
      · split at h
        · exact ih _ _ h
        · split at h
          · exact ih _ _ h
          · split at h
            · exact absurd h (by simp)
            · exact ih _ _ h
            · split at h
              · exact absurd h (by simp)
              · have hi := ih _ _ h
                exact ContentsKept_trans ⟨rfl, rfl, rfl⟩ hi

theorem ContentsKept_CM_TracePointThroughSurfaceCollide (tw tw1 : traceWork_t)
    (sc : cSurfaceCollide_t) (h : CM_TracePointThroughSurfaceCollide tw sc = some tw1) :
    ContentsKept tw tw1 := by
  unfold CM_TracePointThroughSurfaceCollide at h
  split at h
  · simp only [Option.some.injEq] at h
    rw [← h]
    exact ContentsKept_refl _
  · exact ContentsKept_CM_TracePoint_facets _ _ _ _ _ h

theorem ContentsKept_CM_TraceThroughSurfaceCollide_facets (sc : cSurfaceCollide_t) :
    ∀ (l : List cFacet_t) (tw tw1 : traceWork_t) (bestplane : plane_t),
      CM_TraceThroughSurfaceCollide_facets sc tw bestplane l = some tw1 →
      ContentsKept tw tw1 := by
  intro l
  induction l with
  | nil =>
    intro tw tw1 bestplane h
    simp only [CM_TraceThroughSurfaceCollide_facets, Option.some.injEq] at h
    rw [← h]
    exact ContentsKept_refl _
  | cons facet rest ih =>
    intro tw tw1 bestplane h
    rw [CM_TraceThroughSurfaceCollide_facets] at h
    split at h
    · exact absurd h (by simp)
    · simp only at h
      split at h
      · exact ih _ _ _ h
      · split at h
        · exact absurd h (by simp)
        · exact ih _ _ _ h
        · split at h
          · exact ih _ _ _ h
          · split at h
            · split at h
              · have hi := ih _ _ _ h
                exact ContentsKept_trans ⟨rfl, rfl, rfl⟩ hi
              · exact ih _ _ _ h
            · exact ih _ _ _ h

theorem ContentsKept_CM_TraceThroughSurfaceCollide (env : Env) (tw tw1 : traceWork_t)
    (sc : cSurfaceCollide_t) (h : CM_TraceThroughSurfaceCollide env tw sc = some tw1) :
    ContentsKept tw tw1 := by
  unfold CM_TraceThroughSurfaceCollide at h
  split at h
  · simp only [Option.some.injEq] at h
    rw [← h]
    exact ContentsKept_refl _
  · split at h
    · exact ContentsKept_CM_TracePointThroughSurfaceCollide _ _ _ h
    · exact ContentsKept_CM_TraceThroughSurfaceCollide_facets _ _ _ _ _ h

theorem ContentsKept_CM_TraceThroughSurface_call (env : Env) (tw tw1 : traceWork_t)
    (surface : cSurface_t) (guard : Bool) (t : mapSurfaceType_t)
    (h : CM_TraceThroughSurface_call env tw surface guard t = some tw1) :
    ContentsKept tw tw1 := by
  unfold CM_TraceThroughSurface_call at h
  split at h
  · split at h
    · simp only [Option.some.injEq] at h
      rw [← h]
      exact ContentsKept_refl _
    · exact ContentsKept_CM_TraceThroughSurfaceCollide _ _ _ _ h
  · simp only [Option.some.injEq] at h
    rw [← h]
    exact ContentsKept_refl _

theorem ContentsStep_CM_TraceThroughSurface (env : Env) (cm : clipMap_t) (tw tw1 : traceWork_t)
    (surface : cSurface_t) (h : CM_TraceThroughSurface env cm tw surface = some tw1) :
    ContentsStep tw tw1 surface.contents := by
  unfold CM_TraceThroughSurface at h
  simp only at h
  split at h
  · exact absurd h (by simp)
  · rename_i twa ha
    split at h
    · exact absurd h (by simp)
    · rename_i twb hb
      have hk := ContentsKept_trans (ContentsKept_CM_TraceThroughSurface_call _ _ _ _ _ _ ha)
        (ContentsKept_CM_TraceThroughSurface_call _ _ _ _ _ _ hb)
      split at h
      · simp only [Option.some.injEq] at h
        rw [← h]
        exact ⟨hk.1, hk.2.1, Or.inr rfl⟩
      · simp only [Option.some.injEq] at h
        rw [← h]
        exact ⟨hk.1, hk.2.1, Or.inl hk.2.2⟩

theorem passesMasks_congr {tw tw1 : traceWork_t} (h1 : tw1.contents = tw.contents)
    (h2 : tw1.skipContents = tw.skipContents) (c : Nat) :
    passesMasks tw1 c ↔ passesMasks tw c := by
  unfold passesMasks
  rw [h1, h2]

theorem ContentsFrom_refl (cm : clipMap_t) (bs ss : List Nat) (tw : traceWork_t) :
    ContentsFrom cm bs ss tw tw := ⟨rfl, rfl, Or.inl rfl⟩

/-- A step on the brush `i` or the surface `j` of the list, followed by the
rest of the loop in a world of the same contents. -/
theorem ContentsFrom_trans {cm cm1 : clipMap_t} {bs ss bs1 ss1 : List Nat}
    {a b c : traceWork_t} (hc : SameContents cm cm1)
    (hbs : ∀ i ∈ bs1, i ∈ bs) (hss : ∀ i ∈ ss1, i ∈ ss)
    (h1 : ContentsFrom cm bs ss a b) (h2 : ContentsFrom cm1 bs1 ss1 b c) :
    ContentsFrom cm bs ss a c := by
  obtain ⟨m1, k1, c1⟩ := h1
  obtain ⟨m2, k2, c2⟩ := h2
  refine ⟨m2.trans m1, k2.trans k1, ?_⟩
  rcases c2 with c2 | ⟨i, hi, b1, hb1, hp, e⟩ | ⟨i, hi, s1, hs1, hp, e⟩
  · rw [c2]
    exact c1
  · obtain ⟨b0, hb0, e0⟩ := hc.1 i b1 hb1
    refine Or.inr (Or.inl ⟨i, hbs i hi, b0, hb0, ?_, by rw [e, e0]⟩)
    rw [e0]
    exact (passesMasks_congr m1 k1 _).mp hp
  · obtain ⟨s0, hs0, e0⟩ := hc.2 i s1 hs1
    refine Or.inr (Or.inr ⟨i, hss i hi, s0, hs0, ?_, by rw [e, e0]⟩)
    rw [e0]
    exact (passesMasks_congr m1 k1 _).mp hp

theorem ContentsFrom_brush {cm : clipMap_t} {i : Nat} {b : cbrush_t} {tw tw1 : traceWork_t}
    (bs ss : List Nat) (hi : i ∈ bs) (hb : cm.brushes[i]? = some b)
    (hp : passesMasks tw b.contents) (h : ContentsStep tw tw1 b.contents) :
    ContentsFrom cm bs ss tw tw1 := by
  obtain ⟨m, k, c⟩ := h
  refine ⟨m, k, ?_⟩
  rcases c with c | c
  · exact Or.inl c
  · exact Or.inr (Or.inl ⟨i, hi, b, hb, hp, c⟩)

theorem ContentsFrom_surface {cm : clipMap_t} {i : Nat} {s : cSurface_t} {tw tw1 : traceWork_t}
    (bs ss : List Nat) (hi : i ∈ ss) (hs : cm.surfaces[i]? = some (some s))
    (hp : passesMasks tw s.contents) (h : ContentsStep tw tw1 s.contents) :
    ContentsFrom cm bs ss tw tw1 := by
  obtain ⟨m, k, c⟩ := h
  refine ⟨m, k, ?_⟩
  rcases c with c | c
  · exact Or.inl c
  · exact Or.inr (Or.inr ⟨i, hi, s, hs, hp, c⟩)

theorem ContentsFrom_CM_TraceThroughLeaf_brushes (env : Env) :
    ∀ (l : List Nat) (cm cm1 : clipMap_t) (tw tw1 : traceWork_t) (b : Bool),
      CM_TraceThroughLeaf_brushes env cm tw l = some (cm1, tw1, b) →
      SameContents cm cm1 ∧ ContentsFrom cm l [] tw tw1 := by
  intro l
  induction l with
  | nil =>
    intro cm cm1 tw tw1 b h
    simp only [CM_TraceThroughLeaf_brushes, Option.some.injEq, Prod.mk.injEq] at h
    rw [← h.1, ← h.2.1]
    exact ⟨SameContents_refl _, ContentsFrom_refl _ _ _ _⟩
  | cons brushNum rest ih =>
    intro cm cm1 tw tw1 b h
    have hsub : ∀ i ∈ rest, i ∈ brushNum :: rest := fun i hi => List.mem_cons_of_mem _ hi
    have hnil : ∀ i ∈ ([] : List Nat), i ∈ ([] : List Nat) := fun i hi => hi
    rw [CM_TraceThroughLeaf_brushes] at h
    split at h
    · exact absurd h (by simp)
    · rename_i br hbr
      have hst := SameContents_stampBrush cm brushNum br hbr
      have skip : ∀ cm0 : clipMap_t, SameContents cm cm0 →
          CM_TraceThroughLeaf_brushes env cm0 tw rest = some (cm1, tw1, b) →
          SameContents cm cm1 ∧ ContentsFrom cm (brushNum :: rest) [] tw tw1 := by
        intro cm0 h0 hh
        have := ih _ _ _ _ _ hh
        exact ⟨SameContents_trans h0 this.1,
          ContentsFrom_trans h0 hsub hnil (ContentsFrom_refl _ _ _ _) this.2⟩
      split at h
      · exact skip _ (SameContents_refl _) h
      · simp only at h
        split at h
        · exact skip _ hst h
        · rename_i hc1
          split at h
          · exact skip _ hst h
          · rename_i hc2
            have hp : passesMasks tw br.contents := ⟨hc1, not_not.mp hc2⟩
            split at h
            · exact skip _ hst h
            · have hstep : ContentsFrom cm (brushNum :: rest) [] tw (CM_TraceThroughBrush tw br) :=
                ContentsFrom_brush _ _ (List.mem_cons_self _ _) hbr hp
                  (ContentsStep_CM_TraceThroughBrush tw br)
              split at h
              · simp only [Option.some.injEq, Prod.mk.injEq] at h
                rw [← h.1, ← h.2.1]
                exact ⟨hst, hstep⟩
              · have := ih _ _ _ _ _ h
                exact ⟨SameContents_trans hst this.1,
                  ContentsFrom_trans hst hsub hnil hstep this.2⟩

theorem ContentsFrom_CM_TraceThroughLeaf_surfaces (env : Env) :
    ∀ (l : List Nat) (cm cm1 : clipMap_t) (tw tw1 : traceWork_t),
      CM_TraceThroughLeaf_surfaces env cm tw l = some (cm1, tw1) →
      SameContents cm cm1 ∧ ContentsFrom cm [] l tw tw1 := by
  intro l
  induction l with
  | nil =>
    intro cm cm1 tw tw1 h
    simp only [CM_TraceThroughLeaf_surfaces, Option.some.injEq, Prod.mk.injEq] at h
    rw [← h.1, ← h.2]
    exact ⟨SameContents_refl _, ContentsFrom_refl _ _ _ _⟩
  | cons surfaceNum rest ih =>
    intro cm cm1 tw tw1 h
    have hsub : ∀ i ∈ rest, i ∈ surfaceNum :: rest := fun i hi => List.mem_cons_of_mem _ hi
    have hnil : ∀ i ∈ ([] : List Nat), i ∈ ([] : List Nat) := fun i hi => hi
    have skip : ∀ cm0 : clipMap_t, SameContents cm cm0 →
        CM_TraceThroughLeaf_surfaces env cm0 tw rest = some (cm1, tw1) →
        SameContents cm cm1 ∧ ContentsFrom cm [] (surfaceNum :: rest) tw tw1 := by
      intro cm0 h0 hh
      have := ih _ _ _ _ hh
      exact ⟨SameContents_trans h0 this.1,
        ContentsFrom_trans h0 hnil hsub (ContentsFrom_refl _ _ _ _) this.2⟩
    rw [CM_TraceThroughLeaf_surfaces] at h
    split at h
    · exact absurd h (by simp)
    · exact skip _ (SameContents_refl _) h
    · rename_i surface hsf
      have hst := SameContents_stampSurface cm surfaceNum surface hsf
      split at h
      · exact skip _ (SameContents_refl _) h
      · simp only at h
        split at h
        · exact skip _ hst h
        · rename_i hc1
          split at h
          · exact skip _ hst h
          · rename_i hc2
            have hp : passesMasks tw surface.contents := ⟨hc1, not_not.mp hc2⟩
            split at h
            · exact absurd h (by simp)
            · split at h
              · exact skip _ hst h
              · split at h
                · exact absurd h (by simp)
                · rename_i twa hsurf
                  have hstep : ContentsFrom cm [] (surfaceNum :: rest) tw twa :=
                    ContentsFrom_surface _ _ (List.mem_cons_self _ _) hsf hp
                      (ContentsStep_CM_TraceThroughSurface _ _ _ _ _ hsurf)
                  split at h
                  · simp only [Option.some.injEq, Prod.mk.injEq] at h
                    rw [← h.1, ← h.2]
                    exact ⟨hst, hstep⟩
                  · have := ih _ _ _ _ h
                    exact ⟨SameContents_trans hst this.1,
                      ContentsFrom_trans hst hnil hsub hstep this.2⟩

theorem ContentsFrom_CM_TestInLeaf_brushes :
    ∀ (l : List Nat) (cm cm1 : clipMap_t) (tw tw1 : traceWork_t) (b : Bool),
      CM_TestInLeaf_brushes cm tw l = some (cm1, tw1, b) →
      SameContents cm cm1 ∧ ContentsFrom cm l [] tw tw1 := by
  intro l
  induction l with
  | nil =>
    intro cm cm1 tw tw1 b h
    simp only [CM_TestInLeaf_brushes, Option.some.injEq, Prod.mk.injEq] at h
    rw [← h.1, ← h.2.1]
    exact ⟨SameContents_refl _, ContentsFrom_refl _ _ _ _⟩
  | cons brushNum rest ih =>
    intro cm cm1 tw tw1 b h
    have hsub : ∀ i ∈ rest, i ∈ brushNum :: rest := fun i hi => List.mem_cons_of_mem _ hi
    have hnil : ∀ i ∈ ([] : List Nat), i ∈ ([] : List Nat) := fun i hi => hi
    rw [CM_TestInLeaf_brushes] at h
    split at h
    · exact absurd h (by simp)
    · rename_i br hbr
      have hst := SameContents_stampBrush cm brushNum br hbr
      have skip : ∀ cm0 : clipMap_t, SameContents cm cm0 →
          CM_TestInLeaf_brushes cm0 tw rest = some (cm1, tw1, b) →
          SameContents cm cm1 ∧ ContentsFrom cm (brushNum :: rest) [] tw tw1 := by
        intro cm0 h0 hh
        have := ih _ _ _ _ _ hh
        exact ⟨SameContents_trans h0 this.1,
          ContentsFrom_trans h0 hsub hnil (ContentsFrom_refl _ _ _ _) this.2⟩
      split at h
      · exact skip _ (SameContents_refl _) h
      · simp only at h
        split at h
        · exact skip _ hst h
        · rename_i hc1
          split at h
          · exact skip _ hst h
          · rename_i hc2
            have hp : passesMasks tw br.contents := ⟨hc1, not_not.mp hc2⟩
            have hstep : ContentsFrom cm (brushNum :: rest) [] tw (CM_TestBoxInBrush tw br) :=
              ContentsFrom_brush _ _ (List.mem_cons_self _ _) hbr hp
                (ContentsStep_CM_TestBoxInBrush tw br)
            split at h
            · simp only [Option.some.injEq, Prod.mk.injEq] at h
              rw [← h.1, ← h.2.1]
              exact ⟨hst, hstep⟩
            · have := ih _ _ _ _ _ h
              exact ⟨SameContents_trans hst this.1,
                ContentsFrom_trans hst hsub hnil hstep this.2⟩

theorem ContentsFrom_CM_TestInLeaf_surfaces (env : Env) :
    ∀ (l : List Nat) (cm cm1 : clipMap_t) (tw tw1 : traceWork_t),
      CM_TestInLeaf_surfaces env cm tw l = some (cm1, tw1) →
      SameContents cm cm1 ∧ ContentsFrom cm [] l tw tw1 := by
  intro l
  induction l with
  | nil =>
    intro cm cm1 tw tw1 h
    simp only [CM_TestInLeaf_surfaces, Option.some.injEq, Prod.mk.injEq] at h
    rw [← h.1, ← h.2]
    exact ⟨SameContents_refl _, ContentsFrom_refl _ _ _ _⟩
  | cons surfaceNum rest ih =>
    intro cm cm1 tw tw1 h
    have hsub : ∀ i ∈ rest, i ∈ surfaceNum :: rest := fun i hi => List.mem_cons_of_mem _ hi
    have hnil : ∀ i ∈ ([] : List Nat), i ∈ ([] : List Nat) := fun i hi => hi
    have skip : ∀ cm0 : clipMap_t, SameContents cm cm0 →
        CM_TestInLeaf_surfaces env cm0 tw rest = some (cm1, tw1) →
        SameContents cm cm1 ∧ ContentsFrom cm [] (surfaceNum :: rest) tw tw1 := by
      intro cm0 h0 hh
      have := ih _ _ _ _ hh
      exact ⟨SameContents_trans h0 this.1,
        ContentsFrom_trans h0 hnil hsub (ContentsFrom_refl _ _ _ _) this.2⟩
    rw [CM_TestInLeaf_surfaces] at h
    split at h
    · exact absurd h (by simp)
    · exact skip _ (SameContents_refl _) h
    · rename_i surface hsf
      have hst := SameContents_stampSurface cm surfaceNum surface hsf
      split at h
      · exact skip _ (SameContents_refl _) h
      · simp only at h
        split at h
        · exact skip _ hst h
        · rename_i hc1
          split at h
          · exact skip _ hst h
          · rename_i hc2
            have hp : passesMasks tw surface.contents := ⟨hc1, not_not.mp hc2⟩
            have hstep : ContentsFrom cm [] (surfaceNum :: rest) tw
                (setAllsolidContents tw surface.contents) :=
              ContentsFrom_surface _ _ (List.mem_cons_self _ _) hsf hp ⟨rfl, rfl, Or.inr rfl⟩
            split at h
            · exact absurd h (by simp)
            · simp only [Option.some.injEq, Prod.mk.injEq] at h
              rw [← h.1, ← h.2]
              exact ⟨hst, hstep⟩
            · split at h
              · exact absurd h (by simp)
              · simp only [Option.some.injEq, Prod.mk.injEq] at h
                rw [← h.1, ← h.2]
                exact ⟨hst, hstep⟩
              · exact skip _ hst h

theorem ContentsFrom_mono {cm : clipMap_t} {bs ss bs1 ss1 : List Nat} {a b : traceWork_t}
    (hbs : ∀ i ∈ bs1, i ∈ bs) (hss : ∀ i ∈ ss1, i ∈ ss) (h : ContentsFrom cm bs1 ss1 a b) :
    ContentsFrom cm bs ss a b :=
  ContentsFrom_trans (SameContents_refl cm) hbs hss (ContentsFrom_refl _ _ _ _) h

theorem ContentsFrom_CM_TraceThroughLeaf (env : Env) (cm cm1 : clipMap_t) (tw tw1 : traceWork_t)
    (leaf : cLeaf_t) (h : CM_TraceThroughLeaf env cm tw leaf = some (cm1, tw1)) :
    ContentsFrom cm leaf.leafBrushes leaf.leafSurfaces tw tw1 := by
  have hnil : ∀ (l : List Nat), ∀ i ∈ ([] : List Nat), i ∈ l :=
    fun _ i hi => absurd hi (List.not_mem_nil _)
  unfold CM_TraceThroughLeaf at h
  split at h
  · exact absurd h (by simp)
  · rename_i cma twa hb
    simp only [Option.some.injEq, Prod.mk.injEq] at h
    rw [← h.2]
    exact ContentsFrom_mono (fun i hi => hi) (hnil _)
      (ContentsFrom_CM_TraceThroughLeaf_brushes env _ _ _ _ _ _ hb).2
  · rename_i cma twa hb
    have hbr := ContentsFrom_CM_TraceThroughLeaf_brushes env _ _ _ _ _ _ hb
    have h1 : ContentsFrom cm leaf.leafBrushes leaf.leafSurfaces tw twa :=
      ContentsFrom_mono (fun i hi => hi) (hnil _) hbr.2
    split at h
    · simp only [Option.some.injEq, Prod.mk.injEq] at h
      rw [← h.2]
      exact h1
    · have hsf := ContentsFrom_CM_TraceThroughLeaf_surfaces env _ _ _ _ _ h
      exact ContentsFrom_trans hbr.1 (hnil _) (fun i hi => hi) h1 hsf.2

theorem ContentsFrom_CM_TestInLeaf (env : Env) (cm cm1 : clipMap_t) (tw tw1 : traceWork_t)
    (leaf : cLeaf_t) (h : CM_TestInLeaf env cm tw leaf = some (cm1, tw1)) :
    ContentsFrom cm leaf.leafBrushes leaf.leafSurfaces tw tw1 := by
  have hnil : ∀ (l : List Nat), ∀ i ∈ ([] : List Nat), i ∈ l :=
    fun _ i hi => absurd hi (List.not_mem_nil _)
  unfold CM_TestInLeaf at h
  split at h
  · exact absurd h (by simp)
  · rename_i cma twa hb
    simp only [Option.some.injEq, Prod.mk.injEq] at h
    rw [← h.2]
    exact ContentsFrom_mono (fun i hi => hi) (hnil _)
      (ContentsFrom_CM_TestInLeaf_brushes _ _ _ _ _ _ hb).2
  · rename_i cma twa hb
    have hbr := ContentsFrom_CM_TestInLeaf_brushes _ _ _ _ _ _ hb
    have h1 : ContentsFrom cm leaf.leafBrushes leaf.leafSurfaces tw twa :=
      ContentsFrom_mono (fun i hi => hi) (hnil _) hbr.2
    have hsf := ContentsFrom_CM_TestInLeaf_surfaces env _ _ _ _ _ h
    exact ContentsFrom_trans hbr.1 (hnil _) (fun i hi => hi) h1 hsf.2

/-- The world after the check-count test and stamp of brush `i`: unchanged
when the brush already carries the stamp of this trace. -/
theorem CM_TraceThroughLeaf_brushes_skip (env : Env) (cm : clipMap_t) (tw : traceWork_t)
    (i : Nat) (rest : List Nat) (b : cbrush_t) (hb : cm.brushes[i]? = some b)
    (hp : ¬passesMasks tw b.contents) :
    CM_TraceThroughLeaf_brushes env cm tw (i :: rest)
      = CM_TraceThroughLeaf_brushes env
          (if b.checkcount = cm.checkcount then cm else stampBrush cm i b) tw rest := by
  rw [CM_TraceThroughLeaf_brushes, hb]
  simp only
  by_cases hc : b.checkcount = cm.checkcount
  · rw [if_pos hc, if_pos hc]
  · rw [if_neg hc, if_neg hc]
    by_cases h1 : b.contents &&& tw.contents = 0
    · rw [if_pos h1]
    · rw [if_neg h1]
      have h2 : b.contents &&& tw.skipContents ≠ 0 := fun h2 => hp ⟨h1, h2⟩
      rw [if_pos h2]

theorem CM_TestInLeaf_brushes_skip (cm : clipMap_t) (tw : traceWork_t)
    (i : Nat) (rest : List Nat) (b : cbrush_t) (hb : cm.brushes[i]? = some b)
    (hp : ¬passesMasks tw b.contents) :
    CM_TestInLeaf_brushes cm tw (i :: rest)
      = CM_TestInLeaf_brushes
          (if b.checkcount = cm.checkcount then cm else stampBrush cm i b) tw rest := by
  rw [CM_TestInLeaf_brushes, hb]
  simp only
  by_cases hc : b.checkcount = cm.checkcount
  · rw [if_pos hc, if_pos hc]
  · rw [if_neg hc, if_neg hc]
    by_cases h1 : b.contents &&& tw.contents = 0
    · rw [if_pos h1]
    · rw [if_neg h1]
      have h2 : b.contents &&& tw.skipContents ≠ 0 := fun h2 => hp ⟨h1, h2⟩
      rw [if_pos h2]

theorem CM_TraceThroughLeaf_surfaces_skip (env : Env) (cm : clipMap_t) (tw : traceWork_t)
    (i : Nat) (rest : List Nat) (s : cSurface_t) (hs : cm.surfaces[i]? = some (some s))
    (hp : ¬passesMasks tw s.contents) :
    CM_TraceThroughLeaf_surfaces env cm tw (i :: rest)
      = CM_TraceThroughLeaf_surfaces env
          (if s.checkcount = cm.checkcount then cm else stampSurface cm i s) tw rest := by
  rw [CM_TraceThroughLeaf_surfaces, hs]
  simp only
  by_cases hc : s.checkcount = cm.checkcount
  · rw [if_pos hc, if_pos hc]
  · rw [if_neg hc, if_neg hc]
    by_cases h1 : s.contents &&& tw.contents = 0
    · rw [if_pos h1]
    · rw [if_neg h1]
      have h2 : s.contents &&& tw.skipContents ≠ 0 := fun h2 => hp ⟨h1, h2⟩
      rw [if_pos h2]

theorem CM_TestInLeaf_surfaces_skip (env : Env) (cm : clipMap_t) (tw : traceWork_t)
    (i : Nat) (rest : List Nat) (s : cSurface_t) (hs : cm.surfaces[i]? = some (some s))
    (hp : ¬passesMasks tw s.contents) :
    CM_TestInLeaf_surfaces env cm tw (i :: rest)
      = CM_TestInLeaf_surfaces env
          (if s.checkcount = cm.checkcount then cm else stampSurface cm i s) tw rest := by
  rw [CM_TestInLeaf_surfaces, hs]
  simp only
  by_cases hc : s.checkcount = cm.checkcount
  · rw [if_pos hc, if_pos hc]
  · rw [if_neg hc, if_neg hc]
    by_cases h1 : s.contents &&& tw.contents = 0
    · rw [if_pos h1]
    · rw [if_neg h1]
      have h2 : s.contents &&& tw.skipContents ≠ 0 := fun h2 => hp ⟨h1, h2⟩
      rw [if_pos h2]

theorem NonePasses_of_SameContents {cm cm1 : clipMap_t} (h : SameContents cm cm1)
    {bs ss bs1 ss1 : List Nat} (hbs : ∀ i ∈ bs1, i ∈ bs) (hss : ∀ i ∈ ss1, i ∈ ss)
    {tw : traceWork_t} (hn : NonePasses cm bs ss tw) : NonePasses cm1 bs1 ss1 tw := by
  refine ⟨fun i hi b1 hb1 => ?_, fun i hi s1 hs1 => ?_⟩
  · obtain ⟨b0, hb0, e⟩ := h.1 i b1 hb1
    rw [← e]
    exact hn.1 i (hbs i hi) b0 hb0
  · obtain ⟨s0, hs0, e⟩ := h.2 i s1 hs1
    rw [← e]
    exact hn.2 i (hss i hi) s0 hs0

theorem SameContents_ite_stampBrush (cm : clipMap_t) (i : Nat) (b : cbrush_t)
    (hb : cm.brushes[i]? = some b) (c : Prop) [Decidable c] :
    SameContents cm (if c then cm else stampBrush cm i b) := by
  split_ifs
  · exact SameContents_refl _
  · exact SameContents_stampBrush cm i b hb

theorem SameContents_ite_stampSurface (cm : clipMap_t) (i : Nat) (s : cSurface_t)
    (hs : cm.surfaces[i]? = some (some s)) (c : Prop) [Decidable c] :
    SameContents cm (if c then cm else stampSurface cm i s) := by
  split_ifs
  · exact SameContents_refl _
  · exact SameContents_stampSurface cm i s hs

theorem CM_TraceThroughLeaf_brushes_none_passes (env : Env) :
    ∀ (l : List Nat) (cm cm1 : clipMap_t) (tw tw1 : traceWork_t) (flag : Bool),
      NonePasses cm l [] tw →
      CM_TraceThroughLeaf_brushes env cm tw l = some (cm1, tw1, flag) →
      tw1 = tw ∧ flag = false ∧ SameContents cm cm1 := by
  intro l
  induction l with
  | nil =>
    intro cm cm1 tw tw1 flag _ h
    simp only [CM_TraceThroughLeaf_brushes, Option.some.injEq, Prod.mk.injEq] at h
    exact ⟨h.2.1.symm, h.2.2.symm, h.1 ▸ SameContents_refl _⟩
  | cons i rest ih =>
    intro cm cm1 tw tw1 flag hn h
    cases hb : cm.brushes[i]? with
    | none =>
      rw [CM_TraceThroughLeaf_brushes, hb] at h
      exact absurd h (by simp)
    | some b =>
      rw [CM_TraceThroughLeaf_brushes_skip env cm tw i rest b hb
        (hn.1 i (List.mem_cons_self _ _) b hb)] at h
      have hsc := SameContents_ite_stampBrush cm i b hb (b.checkcount = cm.checkcount)
      have := ih _ _ _ _ _ (NonePasses_of_SameContents hsc
        (fun j hj => List.mem_cons_of_mem _ hj) (fun j hj => hj) hn) h
      exact ⟨this.1, this.2.1, SameContents_trans hsc this.2.2⟩

theorem CM_TestInLeaf_brushes_none_passes :
    ∀ (l : List Nat) (cm cm1 : clipMap_t) (tw tw1 : traceWork_t) (flag : Bool),
      NonePasses cm l [] tw →
      CM_TestInLeaf_brushes cm tw l = some (cm1, tw1, flag) →
      tw1 = tw ∧ flag = false ∧ SameContents cm cm1 := by
  intro l
  induction l with
  | nil =>
    intro cm cm1 tw tw1 flag _ h
    simp only [CM_TestInLeaf_brushes, Option.some.injEq, Prod.mk.injEq] at h
    exact ⟨h.2.1.symm, h.2.2.symm, h.1 ▸ SameContents_refl _⟩
  | cons i rest ih =>
    intro cm cm1 tw tw1 flag hn h
    cases hb : cm.brushes[i]? with
    | none =>
      rw [CM_TestInLeaf_brushes, hb] at h
      exact absurd h (by simp)
    | some b =>
      rw [CM_TestInLeaf_brushes_skip cm tw i rest b hb
        (hn.1 i (List.mem_cons_self _ _) b hb)] at h
      have hsc := SameContents_ite_stampBrush cm i b hb (b.checkcount = cm.checkcount)
      have := ih _ _ _ _ _ (NonePasses_of_SameContents hsc
        (fun j hj => List.mem_cons_of_mem _ hj) (fun j hj => hj) hn) h
      exact ⟨this.1, this.2.1, SameContents_trans hsc this.2.2⟩

theorem CM_TraceThroughLeaf_surfaces_none_passes (env : Env) :
    ∀ (l : List Nat) (cm cm1 : clipMap_t) (tw tw1 : traceWork_t),
      NonePasses cm [] l tw →
      CM_TraceThroughLeaf_surfaces env cm tw l = some (cm1, tw1) → tw1 = tw := by
  intro l
  induction l with
  | nil =>
    intro cm cm1 tw tw1 _ h
    simp only [CM_TraceThroughLeaf_surfaces, Option.some.injEq, Prod.mk.injEq] at h
    exact h.2.symm
  | cons i rest ih =>
    intro cm cm1 tw tw1 hn h
    have hrest : ∀ cm0 : clipMap_t, SameContents cm cm0 → NonePasses cm0 [] rest tw :=
      fun cm0 h0 => NonePasses_of_SameContents h0 (fun j hj => hj)
        (fun j hj => List.mem_cons_of_mem _ hj) hn
    cases hs : cm.surfaces[i]? with
    | none =>
      rw [CM_TraceThroughLeaf_surfaces, hs] at h
      exact absurd h (by simp)
    | some os =>
      cases os with
      | none =>
        rw [CM_TraceThroughLeaf_surfaces, hs] at h
        exact ih _ _ _ _ (hrest _ (SameContents_refl _)) h
      | some s =>
        rw [CM_TraceThroughLeaf_surfaces_skip env cm tw i rest s hs
          (hn.2 i (List.mem_cons_self _ _) s hs)] at h
        exact ih _ _ _ _ (hrest _ (SameContents_ite_stampSurface cm i s hs _)) h

theorem CM_TestInLeaf_surfaces_none_passes (env : Env) :
    ∀ (l : List Nat) (cm cm1 : clipMap_t) (tw tw1 : traceWork_t),
      NonePasses cm [] l tw →
      CM_TestInLeaf_surfaces env cm tw l = some (cm1, tw1) → tw1 = tw := by
  intro l
  induction l with
  | nil =>
    intro cm cm1 tw tw1 _ h
    simp only [CM_TestInLeaf_surfaces, Option.some.injEq, Prod.mk.injEq] at h
    exact h.2.symm
  | cons i rest ih =>
    intro cm cm1 tw tw1 hn h
    have hrest : ∀ cm0 : clipMap_t, SameContents cm cm0 → NonePasses cm0 [] rest tw :=
      fun cm0 h0 => NonePasses_of_SameContents h0 (fun j hj => hj)
        (fun j hj => List.mem_cons_of_mem _ hj) hn
    cases hs : cm.surfaces[i]? with
    | none =>
      rw [CM_TestInLeaf_surfaces, hs] at h
      exact absurd h (by simp)
    | some os =>
      cases os with
      | none =>
        rw [CM_TestInLeaf_surfaces, hs] at h
        exact ih _ _ _ _ (hrest _ (SameContents_refl _)) h
      | some s =>
        rw [CM_TestInLeaf_surfaces_skip env cm tw i rest s hs
          (hn.2 i (List.mem_cons_self _ _) s hs)] at h
        exact ih _ _ _ _ (hrest _ (SameContents_ite_stampSurface cm i s hs _)) h

theorem CM_TraceThroughLeaf_none_passes (env : Env) (cm cm1 : clipMap_t) (tw tw1 : traceWork_t)
    (leaf : cLeaf_t) (hn : NonePasses cm leaf.leafBrushes leaf.leafSurfaces tw)
    (h : CM_TraceThroughLeaf env cm tw leaf = some (cm1, tw1)) : tw1 = tw := by
  have hnil : ∀ (l : List Nat), ∀ i ∈ ([] : List Nat), i ∈ l :=
    fun _ i hi => absurd hi (List.not_mem_nil _)
  have hnb : NonePasses cm leaf.leafBrushes [] tw :=
    NonePasses_of_SameContents (SameContents_refl _) (fun i hi => hi) (hnil _) hn
  unfold CM_TraceThroughLeaf at h
  split at h
  · exact absurd h (by simp)
  · rename_i cma twa hb
    have := CM_TraceThroughLeaf_brushes_none_passes env _ _ _ _ _ _ hnb hb
    exact absurd this.2.1 (by simp)
  · rename_i cma twa hb
    have hbr := CM_TraceThroughLeaf_brushes_none_passes env _ _ _ _ _ _ hnb hb
    split at h
    · simp only [Option.some.injEq, Prod.mk.injEq] at h
      rw [← h.2]
      exact hbr.1
    · rw [hbr.1] at h
      exact CM_TraceThroughLeaf_surfaces_none_passes env _ _ _ _ _
        (NonePasses_of_SameContents hbr.2.2 (hnil _) (fun i hi => hi) hn) h

theorem CM_TestInLeaf_none_passes (env : Env) (cm cm1 : clipMap_t) (tw tw1 : traceWork_t)
    (leaf : cLeaf_t) (hn : NonePasses cm leaf.leafBrushes leaf.leafSurfaces tw)
    (h : CM_TestInLeaf env cm tw leaf = some (cm1, tw1)) : tw1 = tw := by
  have hnil : ∀ (l : List Nat), ∀ i ∈ ([] : List Nat), i ∈ l :=
    fun _ i hi => absurd hi (List.not_mem_nil _)
  have hnb : NonePasses cm leaf.leafBrushes [] tw :=
    NonePasses_of_SameContents (SameContents_refl _) (fun i hi => hi) (hnil _) hn
  unfold CM_TestInLeaf at h
  split at h
  · exact absurd h (by simp)
  · rename_i cma twa hb
    have := CM_TestInLeaf_brushes_none_passes _ _ _ _ _ _ hnb hb
    exact absurd this.2.1 (by simp)
  · rename_i cma twa hb
    have hbr := CM_TestInLeaf_brushes_none_passes _ _ _ _ _ _ hnb hb
    rw [hbr.1] at h
    exact CM_TestInLeaf_surfaces_none_passes env _ _ _ _ _
      (NonePasses_of_SameContents hbr.2.2 (hnil _) (fun i hi => hi) hn) h

/-- C18: in the loops of `CM_TraceThroughLeaf` and `CM_TestInLeaf`, a brush or
a surface whose contents do not pass the two masks hands the trace state on
to the rest of the loop as it got it (only its check count may be stamped);
a leaf none of whose brushes and surfaces passes the masks returns the trace
state it was given; and after either function the masks are those of before
and the trace contents are those of before or those of a brush or surface of
the leaf that passes the masks. -/
theorem C18_masked_items_skipped (env : Env) :
    (∀ (cm : clipMap_t) (tw : traceWork_t) (i : Nat) (rest : List Nat) (b : cbrush_t),
      cm.brushes[i]? = some b → ¬passesMasks tw b.contents →
      CM_TraceThroughLeaf_brushes env cm tw (i :: rest)
        = CM_TraceThroughLeaf_brushes env
            (if b.checkcount = cm.checkcount then cm else stampBrush cm i b) tw rest ∧
      CM_TestInLeaf_brushes cm tw (i :: rest)
        = CM_TestInLeaf_brushes
            (if b.checkcount = cm.checkcount then cm else stampBrush cm i b) tw rest) ∧
    (∀ (cm : clipMap_t) (tw : traceWork_t) (i : Nat) (rest : List Nat) (s : cSurface_t),
      cm.surfaces[i]? = some (some s) → ¬passesMasks tw s.contents →
      CM_TraceThroughLeaf_surfaces env cm tw (i :: rest)
        = CM_TraceThroughLeaf_surfaces env
            (if s.checkcount = cm.checkcount then cm else stampSurface cm i s) tw rest ∧
      CM_TestInLeaf_surfaces env cm tw (i :: rest)
        = CM_TestInLeaf_surfaces env
            (if s.checkcount = cm.checkcount then cm else stampSurface cm i s) tw rest) ∧
    (∀ (cm cm1 : clipMap_t) (tw tw1 : traceWork_t) (leaf : cLeaf_t),
      NonePasses cm leaf.leafBrushes leaf.leafSurfaces tw →
      (CM_TraceThroughLeaf env cm tw leaf = some (cm1, tw1) → tw1 = tw) ∧
      (CM_TestInLeaf env cm tw leaf = some (cm1, tw1) → tw1 = tw)) ∧
    (∀ (cm cm1 : clipMap_t) (tw tw1 : traceWork_t) (leaf : cLeaf_t),
      (CM_TraceThroughLeaf env cm tw leaf = some (cm1, tw1) →
        ContentsFrom cm leaf.leafBrushes leaf.leafSurfaces tw tw1) ∧
      (CM_TestInLeaf env cm tw leaf = some (cm1, tw1) →
        ContentsFrom cm leaf.leafBrushes leaf.leafSurfaces tw tw1)) :=
  ⟨fun cm tw i rest b hb hp =>
      ⟨CM_TraceThroughLeaf_brushes_skip env cm tw i rest b hb hp,
        CM_TestInLeaf_brushes_skip cm tw i rest b hb hp⟩,
    fun cm tw i rest s hs hp =>
      ⟨CM_TraceThroughLeaf_surfaces_skip env cm tw i rest s hs hp,
        CM_TestInLeaf_surfaces_skip env cm tw i rest s hs hp⟩,
    fun cm cm1 tw tw1 leaf hn =>
      ⟨CM_TraceThroughLeaf_none_passes env cm cm1 tw tw1 leaf hn,
        CM_TestInLeaf_none_passes env cm cm1 tw tw1 leaf hn⟩,
    fun cm cm1 tw tw1 leaf =>
      ⟨ContentsFrom_CM_TraceThroughLeaf env cm cm1 tw tw1 leaf,
        ContentsFrom_CM_TestInLeaf env cm cm1 tw tw1 leaf⟩⟩

/-- C18, on the example data: the unit cube (contents 1) does not pass the
brush mask 2, and the sweep of the leaf that holds it leaves the default
trace; with the brush mask 1 the sweep of the leaf returns a result, whose
contents come from the cube. -/
theorem C18_masked_items_skipped_witness :
    ¬passesMasks exampleMaskedWork unitCube.contents ∧
    CM_TraceThroughLeaf_brushes exampleEnv exampleWorld exampleMaskedWork [0]
      = CM_TraceThroughLeaf_brushes exampleEnv
          (if unitCube.checkcount = exampleWorld.checkcount then exampleWorld
           else stampBrush exampleWorld 0 unitCube) exampleMaskedWork [] ∧
    (CM_TraceThroughLeaf exampleEnv exampleWorldCounted exampleMaskedWork ⟨[0], []⟩).map
        (fun r => r.2.trace) = some defaultTrace ∧
    (CM_TraceThroughLeaf exampleEnv exampleWorldCounted exampleWork ⟨[0], []⟩).map
        (fun r => r.2.trace.contents) = some 1 ∧
    ∃ r, CM_TraceThroughLeaf exampleEnv exampleWorldCounted exampleWork ⟨[0], []⟩ = some r ∧
      ContentsFrom exampleWorldCounted [0] [] exampleWork r.2 :=
  ⟨by decide!,
    ((C18_masked_items_skipped exampleEnv).1 exampleWorld exampleMaskedWork 0 [] unitCube rfl
      (by decide!)).1,
    by decide!, by decide!,
    (total_CM_TraceThroughLeaf exampleEnv exampleWorldCounted exampleWork ⟨[0], []⟩
      ⟨fun i hi => by
          have h0 : i = 0 := by simpa using hi
          rw [h0]
          decide,
        fun i hi => absurd hi (List.not_mem_nil _)⟩
      (fun s hs => absurd hs (List.not_mem_nil _))).elim
      (fun r hr => ⟨r, hr.1,
        ((C18_masked_items_skipped exampleEnv).2.2.2 exampleWorldCounted r.1 exampleWork r.2
          ⟨[0], []⟩).1 hr.1⟩)⟩

/-! ### Independence of the model origin -/

@[simp]
theorem tweak_offsets (tw : traceWork_t) (o : Vec3) (d : ℚ) :
    (tweak tw o d).offsets = tw.offsets := rfl

@[simp]
theorem tweak_maxOffset (tw : traceWork_t) (o : Vec3) (d : ℚ) :
    (tweak tw o d).maxOffset = tw.maxOffset := rfl

@[simp]
theorem tweak_extents (tw : traceWork_t) (o : Vec3) (d : ℚ) :
    (tweak tw o d).extents = tw.extents := rfl

@[simp]
theorem tweak_modelOrigin (tw : traceWork_t) (o : Vec3) (d : ℚ) :
    (tweak tw o d).modelOrigin = o := rfl

@[simp]
theorem tweak_startsolid (tw : traceWork_t) (o : Vec3) (d : ℚ) :
    (tweak tw o d).trace.startsolid = tw.trace.startsolid := rfl

@[simp]
theorem tweak_endpos (tw : traceWork_t) (o : Vec3) (d : ℚ) :
    (tweak tw o d).trace.endpos = tw.trace.endpos := rfl

@[simp]
theorem tweak_normal (tw : traceWork_t) (o : Vec3) (d : ℚ) :
    (tweak tw o d).trace.plane.normal = tw.trace.plane.normal := rfl

@[simp]
theorem tweak_surfaceFlags (tw : traceWork_t) (o : Vec3) (d : ℚ) :
    (tweak tw o d).trace.surfaceFlags = tw.trace.surfaceFlags := rfl

@[simp]
theorem tweak_trace_contents (tw : traceWork_t) (o : Vec3) (d : ℚ) :
    (tweak tw o d).trace.contents = tw.trace.contents := rfl

theorem tweak_tweak (tw : traceWork_t) (o o1 : Vec3) (d d1 : ℚ) :
    tweak (tweak tw o d) o1 d1 = tweak tw o1 d1 := rfl

theorem tweak_CM_TracePoint_planeState (tw : traceWork_t) (o : Vec3) (d : ℚ) (p : cPlane_t) :
    CM_TracePoint_planeState (tweak tw o d) p = CM_TracePoint_planeState tw p := rfl

/-- C21. When the start `S` is inside the sphere (`|S - O|² < r²`),
`CM_TraceThroughSphere` sets `fraction = 0` and `startsolid = true`, sets
`allsolid = true` exactly when the end is inside too (and leaves `allsolid` as
it was otherwise), and changes nothing else: plane, contents, surface flags,
end position and every other field of the trace state stay as they are. -/
theorem C21_sphere_start_inside (env : Env) (tw : traceWork_t) (origin : Vec3) (radius : ℚ)
    (start end_ : Vec3)
    (hstart : VectorLengthSquared (VectorSubtract start origin) < Square radius) :
    CM_TraceThroughSphere env tw origin radius start end_ =
      { tw with trace := { tw.trace with
          fraction := 0
          startsolid := true
          allsolid := if VectorLengthSquared (VectorSubtract end_ origin) < Square radius
                      then true else tw.trace.allsolid } } := by
  unfold CM_TraceThroughSphere
  rw [if_pos hstart]
  by_cases hend : VectorLengthSquared (VectorSubtract end_ origin) < Square radius
  · rw [if_pos hend, if_pos hend]
  · rw [if_neg hend, if_neg hend]

theorem C21_sphere_start_inside_witness :
    VectorLengthSquared (VectorSubtract (⟨5, 0, 0⟩ : Vec3) ⟨0, 0, 0⟩) < Square 20 ∧
    CM_TraceThroughSphere exampleEnv exampleSphereSweepWork ⟨0, 0, 0⟩ 20 ⟨5, 0, 0⟩ ⟨100, 0, 0⟩ =
      { exampleSphereSweepWork with trace := { exampleSphereSweepWork.trace with
          fraction := 0
          startsolid := true
          allsolid := if VectorLengthSquared (VectorSubtract (⟨100, 0, 0⟩ : Vec3) ⟨0, 0, 0⟩)
                        < Square 20
                      then true else exampleSphereSweepWork.trace.allsolid } } :=
  ⟨by decide!, C21_sphere_start_inside exampleEnv exampleSphereSweepWork ⟨0, 0, 0⟩ 20 ⟨5, 0, 0⟩
    ⟨100, 0, 0⟩ (by decide!)⟩

/-- C30: the code at a failing input.  A sphere of radius 20 at the origin and
the segment from `(-41/2, 0, 0)` to `(50, 0, 0)`: the start is outside the
sphere and inside the sphere of radius `20 + RADIUS_EPSILON` that the sweep
solves for, so the near root is negative and is clamped to 0.
`CM_TraceThroughSphere` records a hit (the fraction goes from 1 to 0, the
contents are `CONTENTS_BODY`) whose contact point is the start, at distance
`41/2` and not `21` from the centre, and whose normal `(-41/42, 0, 0)` is not
a unit vector.  `CM_BoxTrace` returns this result for a capsule mover of
radius 10 against the capsule model, and the consistency check of the file
rejects it. -/
theorem C30_sphere_clamped_contact :
    ¬(VectorLengthSquared (VectorSubtract (⟨-41 / 2, 0, 0⟩ : Vec3) ⟨0, 0, 0⟩) < Square 20) ∧
    exampleClampedSphereWork.trace.fraction = 1 ∧
    (CM_TraceThroughSphere exampleEnv exampleClampedSphereWork ⟨0, 0, 0⟩ 20 ⟨-41 / 2, 0, 0⟩
        ⟨50, 0, 0⟩).trace.fraction = 0 ∧
    (CM_TraceThroughSphere exampleEnv exampleClampedSphereWork ⟨0, 0, 0⟩ 20 ⟨-41 / 2, 0, 0⟩
        ⟨50, 0, 0⟩).trace.contents = exampleEnv.CONTENTS_BODY ∧
    (CM_TraceThroughSphere exampleEnv exampleClampedSphereWork ⟨0, 0, 0⟩ 20 ⟨-41 / 2, 0, 0⟩
        ⟨50, 0, 0⟩).trace.plane.normal = ⟨-41 / 42, 0, 0⟩ ∧
    VectorLengthSquared (CM_TraceThroughSphere exampleEnv exampleClampedSphereWork ⟨0, 0, 0⟩ 20
        ⟨-41 / 2, 0, 0⟩ ⟨50, 0, 0⟩).trace.plane.normal ≠ 1 ∧
    VectorMA (⟨-41 / 2, 0, 0⟩ : Vec3) (CM_TraceThroughSphere exampleEnv exampleClampedSphereWork
        ⟨0, 0, 0⟩ 20 ⟨-41 / 2, 0, 0⟩ ⟨50, 0, 0⟩).trace.fraction
        (VectorSubtract ⟨50, 0, 0⟩ ⟨-41 / 2, 0, 0⟩) = ⟨-41 / 2, 0, 0⟩ ∧
    VectorLengthSquared (VectorSubtract (⟨-41 / 2, 0, 0⟩ : Vec3) ⟨0, 0, 0⟩)
      ≠ Square (20 + RADIUS_EPSILON) ∧
    CM_BoxTrace exampleEnv 5 exampleWorld ⟨-41 / 2, 0, 0⟩ ⟨50, 0, 0⟩ (some ⟨-10, -10, -10⟩)
        (some ⟨10, 10, 10⟩) 254 33554432 0 traceType_t.TT_CAPSULE
      = some (exampleWorldCounted, exampleCapsuleClamped) ∧
    exampleCapsuleClamped.plane.normal = ⟨-41 / 42, 0, 0⟩ ∧
    CM_CheckTraceConsistency exampleEnv ⟨-41 / 2, 0, 0⟩ ⟨50, 0, 0⟩ 33554432 0
      exampleCapsuleClamped = "plane normal has wrong length" := by
  refine ⟨by decide!, by decide!, by decide!, by decide!, by decide!, by decide!, by decide!,
    by decide!, by decide!, by decide!, by decide!⟩

/-- C29: the code at a failing input.  `CM_Trace` sets `isPoint` on the sweep
branch only: the set-up leaves `isPoint = false`, and the position-test branch
reads that state.  For the mover of zero volume (`mins` and `maxs`
null) at `(1/2, 1/2, 0)`, a point of the example patch, the symmetric size is
zero, the trace state of the position test has `isPoint = false`,
`CM_PositionTestInSurfaceCollide` reports the point inside the patch, and
`CM_BoxTrace` returns `startsolid = allsolid = true` with fraction 0 and the
contents of the patch.  With `isPoint = true` the same test would report
nothing, and on a sweep the special case does set `isPoint = true` and zero
extents. -/
theorem C29_point_position_test_in_patch :
    (positionWork exampleEnv ⟨1 / 2, 1 / 2, 0⟩ vec3_origin vec3_origin vec3_origin 1 0
        traceType_t.TT_AABB none defaultTrace).size1 = ⟨0, 0, 0⟩ ∧
    (positionWork exampleEnv ⟨1 / 2, 1 / 2, 0⟩ vec3_origin vec3_origin vec3_origin 1 0
        traceType_t.TT_AABB none defaultTrace).isPoint = false ∧
    CM_PositionTestInSurfaceCollide
        (positionWork exampleEnv ⟨1 / 2, 1 / 2, 0⟩ vec3_origin vec3_origin vec3_origin 1 0
          traceType_t.TT_AABB none defaultTrace) examplePatch = some true ∧
    CM_PositionTestInSurfaceCollide
        { positionWork exampleEnv ⟨1 / 2, 1 / 2, 0⟩ vec3_origin vec3_origin vec3_origin 1 0
            traceType_t.TT_AABB none defaultTrace with isPoint := true } examplePatch
      = some false ∧
    (CM_BoxTrace exampleEnv 5 examplePatchWorld ⟨1 / 2, 1 / 2, 0⟩ ⟨1 / 2, 1 / 2, 0⟩ none none 0
        1 0 traceType_t.TT_AABB).map (fun r => r.2)
      = some { allsolid := true, startsolid := true, fraction := 0, endpos := ⟨1 / 2, 1 / 2, 0⟩,
               plane := ⟨⟨0, 0, 0⟩, 0⟩, surfaceFlags := 0, contents := 1 } ∧
    (CM_Trace_point (CM_Trace_setup exampleEnv ⟨1 / 2, 1 / 2, 1⟩ ⟨1 / 2, 1 / 2, -1⟩ vec3_origin
        vec3_origin vec3_origin 1 0 traceType_t.TT_AABB none)).isPoint = true ∧
    (CM_Trace_point (CM_Trace_setup exampleEnv ⟨1 / 2, 1 / 2, 1⟩ ⟨1 / 2, 1 / 2, -1⟩ vec3_origin
        vec3_origin vec3_origin 1 0 traceType_t.TT_AABB none)).extents = ⟨0, 0, 0⟩ := by
  refine ⟨by decide!, by decide!, by decide!, by decide!, by decide!, by decide!,
    by decide!⟩

theorem enterBranch_facts (d1 d2 : ℚ) (h : enterBranch d1 d2) :
    d1 - d2 ≠ 0 ∧ d1 > 0 ∧ d2 < SURFACE_CLIP_EPSILON ∧ 0 ≤ enterFraction d1 d2 ∧
    enterFraction d1 d2 < 1 := by
  obtain ⟨hr, hb, hgt⟩ := h
  have hd : 0 < d1 - d2 := by linarith
  have h1 : d1 > 0 := by
    by_contra hc
    exact hb ⟨not_lt.mp hc, by linarith [not_lt.mp hc]⟩
  have h2 : d2 < SURFACE_CLIP_EPSILON := by
    by_contra hc
    exact hr ⟨h1, Or.inl (not_lt.mp hc)⟩
  refine ⟨ne_of_gt hd, h1, h2, enterFraction_nonneg d1 d2, ?_⟩
  unfold enterFraction
  split_ifs
  · norm_num
  · rw [div_lt_one hd]
    linarith

theorem leaveBranch_facts (d1 d2 : ℚ) (h : leaveBranch d1 d2) :
    d1 - d2 ≠ 0 ∧ d1 ≤ 0 ∧ 0 < d2 := by
  obtain ⟨hr, hb, hgt⟩ := h
  have hle : d1 ≤ d2 := not_lt.mp hgt
  have h1 : d1 ≤ 0 := by
    by_contra hc
    exact hr ⟨not_le.mp hc, Or.inr hle⟩
  have h2 : 0 < d2 := by
    by_contra hc
    exact hb ⟨h1, not_lt.mp hc⟩
  exact ⟨by intro h0; linarith, h1, h2⟩

theorem CM_TraceThroughBrush_side_branches (side : cbrushside_t) (d1 d2 : ℚ) (st : BrushLoop) :
    CM_TraceThroughBrush_side side d1 d2 st =
      if sideRejects d1 d2 then none
      else if enterBranch d1 d2 then
        if enterFraction d1 d2 > st.enterFrac then
          some { st with getout := if d2 > 0 then true else st.getout
                         startout := if d1 > 0 then true else st.startout
                         enterFrac := enterFraction d1 d2
                         clipplane := some side.plane
                         leadside := some side }
        else some { st with getout := if d2 > 0 then true else st.getout
                            startout := if d1 > 0 then true else st.startout }
      else if leaveBranch d1 d2 then
        if leaveFraction d1 d2 < st.leaveFrac then
          some { st with getout := if d2 > 0 then true else st.getout
                         startout := if d1 > 0 then true else st.startout
                         leaveFrac := leaveFraction d1 d2 }
        else some { st with getout := if d2 > 0 then true else st.getout
                            startout := if d1 > 0 then true else st.startout }
      else some { st with getout := if d2 > 0 then true else st.getout
                          startout := if d1 > 0 then true else st.startout } := by
  unfold CM_TraceThroughBrush_side enterBranch leaveBranch
  by_cases h1 : sideRejects d1 d2
  · have h1a := h1
    unfold sideRejects at h1a
    simp only [h1, h1a, and_self, if_true]
  · have h1a := h1
    unfold sideRejects at h1a
    simp only [h1, h1a, if_false, not_false_eq_true, true_and]
    by_cases h2 : d1 ≤ 0 ∧ d2 ≤ 0
    · simp only [h2, and_self, if_true, not_true_eq_false, false_and, if_false]
    · simp only [h2, if_false, not_false_eq_true, true_and]
      by_cases h3 : d1 > d2
      · simp only [h3, if_true]
      · simp only [h3, if_false, not_false_eq_true, if_true]

theorem CM_CheckFacetPlane_branches (plane : plane_t) (start end_ : Vec3) (e l : ℚ) :
    CM_CheckFacetPlane plane start end_ e l =
      if sideRejects (DotProduct start plane.normal - plane.dist)
          (DotProduct end_ plane.normal - plane.dist) then (false, e, l, false)
      else if enterBranch (DotProduct start plane.normal - plane.dist)
          (DotProduct end_ plane.normal - plane.dist) then
        if enterFraction (DotProduct start plane.normal - plane.dist)
            (DotProduct end_ plane.normal - plane.dist) > e then
          (true, enterFraction (DotProduct start plane.normal - plane.dist)
            (DotProduct end_ plane.normal - plane.dist), l, true)
        else (true, e, l, false)
      else if leaveBranch (DotProduct start plane.normal - plane.dist)
          (DotProduct end_ plane.normal - plane.dist) then
        if leaveFraction (DotProduct start plane.normal - plane.dist)
            (DotProduct end_ plane.normal - plane.dist) < l then
          (true, e, leaveFraction (DotProduct start plane.normal - plane.dist)
            (DotProduct end_ plane.normal - plane.dist), false)
        else (true, e, l, false)
      else (true, e, l, false) := by
  unfold CM_CheckFacetPlane enterBranch leaveBranch
  generalize DotProduct start plane.normal - plane.dist = d1
  generalize DotProduct end_ plane.normal - plane.dist = d2
  by_cases h1 : sideRejects d1 d2
  · have h1a := h1
    unfold sideRejects at h1a
    simp only [h1, h1a, and_self, if_true]
  · have h1a := h1
    unfold sideRejects at h1a
    simp only [h1, h1a, if_false, not_false_eq_true, true_and]
    by_cases h2 : d1 ≤ 0 ∧ d2 ≤ 0
    · simp only [h2, and_self, if_true, not_true_eq_false, false_and, if_false]
    · simp only [h2, if_false, not_false_eq_true, true_and]
      by_cases h3 : d1 > d2
      · simp only [h3, if_true]
      · simp only [h3, if_false, not_false_eq_true, if_true]

/-- C25: the side loop of `CM_TraceThroughBrush` and `CM_CheckFacetPlane`
evaluate the enter quotient only in the enter branch and the leave quotient
only in the leave branch (each function is written out by its branches, for
all distances `d1`, `d2` and all loop states).  In the enter branch the
divisor `d1 - d2` is not zero, `d1 > 0`, and the clamped value
`max(0, (d1 - SURFACE_CLIP_EPSILON) / (d1 - d2))` is at least 0 and below 1;
in the leave branch the divisor is not zero and `d1 ≤ 0 < d2`. -/
theorem C25_quotients_defined (d1 d2 : ℚ) :
    (∀ (side : cbrushside_t) (st : BrushLoop),
      CM_TraceThroughBrush_side side d1 d2 st =
        if sideRejects d1 d2 then none
        else if enterBranch d1 d2 then
          if enterFraction d1 d2 > st.enterFrac then
            some { st with getout := if d2 > 0 then true else st.getout
                           startout := if d1 > 0 then true else st.startout
                           enterFrac := enterFraction d1 d2
                           clipplane := some side.plane
                           leadside := some side }
          else some { st with getout := if d2 > 0 then true else st.getout
                              startout := if d1 > 0 then true else st.startout }
        else if leaveBranch d1 d2 then
          if leaveFraction d1 d2 < st.leaveFrac then
            some { st with getout := if d2 > 0 then true else st.getout
                           startout := if d1 > 0 then true else st.startout
                           leaveFrac := leaveFraction d1 d2 }
          else some { st with getout := if d2 > 0 then true else st.getout
                              startout := if d1 > 0 then true else st.startout }
        else some { st with getout := if d2 > 0 then true else st.getout
                            startout := if d1 > 0 then true else st.startout }) ∧
    (∀ (plane : plane_t) (start end_ : Vec3) (e l : ℚ),
      DotProduct start plane.normal - plane.dist = d1 →
      DotProduct end_ plane.normal - plane.dist = d2 →
      CM_CheckFacetPlane plane start end_ e l =
        if sideRejects d1 d2 then (false, e, l, false)
        else if enterBranch d1 d2 then
          if enterFraction d1 d2 > e then (true, enterFraction d1 d2, l, true)
          else (true, e, l, false)
        else if leaveBranch d1 d2 then
          if leaveFraction d1 d2 < l then (true, e, leaveFraction d1 d2, false)
          else (true, e, l, false)
        else (true, e, l, false)) ∧
    (enterBranch d1 d2 →
      d1 - d2 ≠ 0 ∧ d1 > 0 ∧
      enterFraction d1 d2 = max 0 ((d1 - SURFACE_CLIP_EPSILON) / (d1 - d2)) ∧
      0 ≤ enterFraction d1 d2 ∧ enterFraction d1 d2 < 1) ∧
    (leaveBranch d1 d2 →
      d1 - d2 ≠ 0 ∧ d1 ≤ 0 ∧ 0 < d2 ∧
      leaveFraction d1 d2 = min 1 ((d1 + SURFACE_CLIP_EPSILON) / (d1 - d2))) := by
  refine ⟨fun side st => CM_TraceThroughBrush_side_branches side d1 d2 st, ?_, ?_, ?_⟩
  · intro plane start end_ e l h1 h2
    rw [CM_CheckFacetPlane_branches, h1, h2]
  · intro h
    obtain ⟨a, b, _, c, d⟩ := enterBranch_facts d1 d2 h
    exact ⟨a, b, enterFraction_eq_max d1 d2, c, d⟩
  · intro h
    obtain ⟨a, b, c⟩ := leaveBranch_facts d1 d2 h
    refine ⟨a, b, c, ?_⟩
    unfold leaveFraction
    split_ifs with h1
    · exact (min_eq_left (le_of_lt h1)).symm
    · exact (min_eq_right (not_lt.mp h1)).symm

/-- C25, on example distances: the brush side `x = 0` of the unit cube and
the point trace from `(-1, 1/2, 1/2)` to `(2, 1/2, 1/2)` are in the enter
branch with `d1 = 1`, `d2 = -2` and the enter value `7/24`; the side `x = 1`
is in the leave branch with `d1 = -2`, `d2 = 1` and the leave value `5/8`. -/
theorem C25_quotients_defined_witness :
    (enterBranch 1 (-2) ∧ (1 : ℚ) - (-2) ≠ 0 ∧ enterFraction 1 (-2) = 7 / 24) ∧
    (leaveBranch (-2) 1 ∧ (-2 : ℚ) - 1 ≠ 0 ∧ leaveFraction (-2) 1 = 5 / 8) ∧
    CM_sideDistances exampleWork (axialSide ⟨-1, 0, 0⟩ 0 0 1 10).plane = (1, -2) ∧
    CM_sideDistances exampleWork (axialSide ⟨1, 0, 0⟩ 1 0 0 11).plane = (-2, 1) :=
  ⟨⟨by decide!, ((C25_quotients_defined 1 (-2)).2.2.1 (by decide!)).1, by decide!⟩,
   ⟨by decide!, ((C25_quotients_defined (-2) 1).2.2.2 (by decide!)).1, by decide!⟩,
   by decide!, by decide!⟩

theorem CM_TraceThroughBrush_sides_flags (tw : traceWork_t) (l : List cbrushside_t) :
    ∀ st : BrushLoop,
      match CM_TraceThroughBrush_sides tw l st with
      | none => ∃ s ∈ l, (CM_sideDistances tw s.plane).1 > 0
      | some st1 =>
        (st1.startout = true ↔
          st.startout = true ∨ ∃ s ∈ l, (CM_sideDistances tw s.plane).1 > 0) ∧
        (st1.getout = true ↔
          st.getout = true ∨ ∃ s ∈ l, (CM_sideDistances tw s.plane).2 > 0) := by
  induction l with
  | nil =>
    intro st
    simp [CM_TraceThroughBrush_sides]
  | cons side rest ih =>
    intro st
    unfold CM_TraceThroughBrush_sides
    simp only
    cases hstep : CM_TraceThroughBrush_side side (CM_sideDistances tw side.plane).1
        (CM_sideDistances tw side.plane).2 st with
    | none =>
      simp only
      have hr := (CM_TraceThroughBrush_side_none _ _ _ _).mp hstep
      exact ⟨side, List.mem_cons_self _ _, hr.1⟩
    | some st2 =>
      simp only
      obtain ⟨_, _, hso, hgo, _⟩ := CM_TraceThroughBrush_side_some _ _ _ _ _ hstep
      have h := ih st2
      cases hrest : CM_TraceThroughBrush_sides tw rest st2 with
      | none =>
        rw [hrest] at h
        simp only at h ⊢
        obtain ⟨s, hs, hd⟩ := h
        exact ⟨s, List.mem_cons_of_mem _ hs, hd⟩
      | some st1 =>
        rw [hrest] at h
        simp only at h ⊢
        obtain ⟨h1, h2⟩ := h
        rw [h1, h2, hso, hgo]
        simp only [List.mem_cons, exists_eq_or_imp]
        constructor
        · by_cases hd : (CM_sideDistances tw side.plane).1 > 0
          · simp [hd]
          · simp [hd]
        · by_cases hd : (CM_sideDistances tw side.plane).2 > 0
          · simp [hd]
          · simp [hd]

/-- C23: for a brush with at least one side, `CM_TraceThroughBrush` returns
`startsolid` set exactly when it was set before or the start distance `d1` is
at most 0 for every side, and `allsolid` set exactly when it was set before
or `d1` and `d2` are at most 0 for every side (this holds whether or not the
trace is rejected as completely in front of a side).  When every `d1` is at
most 0 and some `d2` is positive, the function sets `startsolid` and changes
nothing else: fraction, plane, contents and surface flags stay as they were. -/
theorem C23_brush_solid_flags (tw : traceWork_t) (brush : cbrush_t)
    (hn : brush.sides.length ≠ 0) :
    ((CM_TraceThroughBrush tw brush).trace.startsolid = true ↔
      tw.trace.startsolid = true ∨ ∀ s ∈ brush.sides, (CM_sideDistances tw s.plane).1 ≤ 0) ∧
    ((CM_TraceThroughBrush tw brush).trace.allsolid = true ↔
      tw.trace.allsolid = true ∨
        ∀ s ∈ brush.sides, (CM_sideDistances tw s.plane).1 ≤ 0
          ∧ (CM_sideDistances tw s.plane).2 ≤ 0) ∧
    ((∀ s ∈ brush.sides, (CM_sideDistances tw s.plane).1 ≤ 0) →
      (∃ s ∈ brush.sides, (CM_sideDistances tw s.plane).2 > 0) →
      CM_TraceThroughBrush tw brush = { tw with trace := { tw.trace with startsolid := true } }) := by
  have hfl := CM_TraceThroughBrush_sides_flags tw brush.sides BrushLoop.init
  have hall1 : (∀ s ∈ brush.sides, (CM_sideDistances tw s.plane).1 ≤ 0)
      ↔ ¬∃ s ∈ brush.sides, (CM_sideDistances tw s.plane).1 > 0 := by
    constructor
    · rintro h ⟨s, hs, hd⟩
      exact absurd (h s hs) (not_le.mpr hd)
    · intro h s hs
      by_contra hc
      exact h ⟨s, hs, not_le.mp hc⟩
  have hall2 : (∀ s ∈ brush.sides, (CM_sideDistances tw s.plane).1 ≤ 0
        ∧ (CM_sideDistances tw s.plane).2 ≤ 0)
      ↔ (¬∃ s ∈ brush.sides, (CM_sideDistances tw s.plane).1 > 0)
        ∧ ¬∃ s ∈ brush.sides, (CM_sideDistances tw s.plane).2 > 0 := by
    constructor
    · intro h
      refine ⟨?_, ?_⟩
      · rintro ⟨s, hs, hd⟩
        exact absurd (h s hs).1 (not_le.mpr hd)
      · rintro ⟨s, hs, hd⟩
        exact absurd (h s hs).2 (not_le.mpr hd)
    · rintro ⟨h1, h2⟩ s hs
      refine ⟨?_, ?_⟩
      · by_contra hc
        exact h1 ⟨s, hs, not_le.mp hc⟩
      · by_contra hc
        exact h2 ⟨s, hs, not_le.mp hc⟩
  rw [hall1, hall2]
  unfold CM_TraceThroughBrush
  rw [if_neg hn]
  cases hloop : CM_TraceThroughBrush_sides tw brush.sides BrushLoop.init with
  | none =>
    rw [hloop] at hfl
    simp only at hfl ⊢
    refine ⟨?_, ?_, ?_⟩
    · simp [hfl]
    · simp [hfl]
    · intro h
      exact absurd hfl h
  | some st =>
    rw [hloop] at hfl
    simp only at hfl ⊢
    obtain ⟨hso, hgo⟩ := hfl
    simp only [BrushLoop.init, Bool.false_eq_true, false_or] at hso hgo
    rw [← hso, ← hgo]
    unfold CM_TraceThroughBrush_finish
    cases hs : st.startout <;> cases hg : st.getout <;>
      simp only [Bool.not_false, Bool.not_true, if_true, Bool.false_eq_true, if_false,
        not_false_eq_true, not_true_eq_false, and_self, and_false, false_and, or_true, or_false,
        iff_true, true_implies, false_implies, implies_true, and_true, true_and]
    all_goals
      split_ifs <;> first
        | exact ⟨Iff.rfl, Iff.rfl⟩
        | (split <;> exact ⟨Iff.rfl, Iff.rfl⟩)

/-- C23, on the example data: the box `[-2,2]³` swept from `(-3/2, 1/2, 1/2)`
to `(10, 1/2, 1/2)` through the unit cube starts inside the expanded cube and
ends outside it; only `startsolid` is set. -/
theorem C23_brush_solid_flags_witness :
    unitCube.sides.length ≠ 0 ∧
    (∀ s ∈ unitCube.sides, (CM_sideDistances exampleLargeBoxWork s.plane).1 ≤ 0) ∧
    (∃ s ∈ unitCube.sides, (CM_sideDistances exampleLargeBoxWork s.plane).2 > 0) ∧
    CM_TraceThroughBrush exampleLargeBoxWork unitCube
      = { exampleLargeBoxWork with
          trace := { exampleLargeBoxWork.trace with startsolid := true } } ∧
    (CM_TraceThroughBrush exampleLargeBoxWork unitCube).trace
      = { defaultTrace with startsolid := true } :=
  ⟨by decide, by decide!, by decide!,
    (C23_brush_solid_flags exampleLargeBoxWork unitCube (by decide)).2.2 (by decide!)
      (by decide!),
    by decide!⟩

theorem CM_sideDistances_moverAt (tw : traceWork_t) (f : ℚ) (p : cplane_t) :
    (CM_sideDistances (moverAt tw f) p).1
      = (CM_sideDistances tw p).1
        + f * ((CM_sideDistances tw p).2 - (CM_sideDistances tw p).1) := by
  unfold CM_sideDistances moverAt
  cases tw.type with
  | TT_AABB =>
    simp only [DotProduct, VectorMA, VectorSubtract]
    ring
  | TT_CAPSULE =>
    simp only
    split_ifs <;> simp only [DotProduct, VectorMA, VectorSubtract, VectorAdd] <;> ring

theorem CM_TraceThroughBrush_sides_leave (tw : traceWork_t) (l : List cbrushside_t) :
    ∀ st st1 : BrushLoop, CM_TraceThroughBrush_sides tw l st = some st1 →
      st1.leaveFrac ≤ st.leaveFrac ∧
      ∀ s ∈ l, ¬sideRejects (CM_sideDistances tw s.plane).1 (CM_sideDistances tw s.plane).2 ∧
        (leaveBranch (CM_sideDistances tw s.plane).1 (CM_sideDistances tw s.plane).2 →
          st1.leaveFrac
            ≤ leaveFraction (CM_sideDistances tw s.plane).1 (CM_sideDistances tw s.plane).2) := by
  induction l with
  | nil =>
    intro st st1 h
    unfold CM_TraceThroughBrush_sides at h
    simp only [Option.some.injEq] at h
    rw [h]
    exact ⟨le_refl _, fun s hs => absurd hs (List.not_mem_nil _)⟩
  | cons side rest ih =>
    intro st st1 h
    unfold CM_TraceThroughBrush_sides at h
    simp only at h
    cases hstep : CM_TraceThroughBrush_side side (CM_sideDistances tw side.plane).1
        (CM_sideDistances tw side.plane).2 st with
    | none =>
      rw [hstep] at h
      exact absurd h (by simp)
    | some st2 =>
      rw [hstep] at h
      simp only at h
      obtain ⟨_, hl, _, _, _⟩ := CM_TraceThroughBrush_side_some _ _ _ _ _ hstep
      obtain ⟨h1, h2⟩ := ih st2 st1 h
      have hle : st2.leaveFrac ≤ st.leaveFrac := by
        rw [hl]
        exact sideLeave_le _ _ _
      refine ⟨le_trans h1 hle, ?_⟩
      intro s hs
      rcases List.mem_cons.mp hs with hs1 | hs1
      · rw [hs1]
        refine ⟨?_, ?_⟩
        · intro hr
          have := (CM_TraceThroughBrush_side_none side _ _ st).mpr hr
          rw [hstep] at this
          exact absurd this (by simp)
        · rintro ⟨_, hb, hgt⟩
          refine le_trans h1 ?_
          rw [hl]
          unfold sideLeave
          rw [if_neg hb, if_neg hgt]
          split_ifs with hc
          · exact le_refl _
          · exact not_lt.mp hc
      · exact h2 s hs1

/-- What a recorded hit of `CM_TraceThroughBrush` comes from: the loop state
after all sides, and the lead side, an entering side whose entering value is
`enterFrac`, the greatest entering value. -/
theorem CM_TraceThroughBrush_hit_state (tw : traceWork_t) (brush : cbrush_t)
    (hhit : CM_TraceThroughBrush_hit tw brush) :
    ∃ (st : BrushLoop) (side : cbrushside_t),
      CM_TraceThroughBrush_sides tw brush.sides BrushLoop.init = some st ∧
      side ∈ brush.sides ∧ sideEnters tw side ∧ enterValue tw side = st.enterFrac ∧
      (∀ s ∈ brush.sides, sideEnters tw s → enterValue tw s ≤ st.enterFrac) ∧
      st.enterFrac < st.leaveFrac ∧
      CM_TraceThroughBrush tw brush
        = { tw with trace := { tw.trace with
              fraction := st.enterFrac
              plane := { normal := side.plane.normal, dist := side.plane.dist }
              surfaceFlags := side.surfaceFlags
              contents := brush.contents } } := by
  obtain ⟨hn, hhit⟩ := hhit
  split at hhit
  · exact absurd hhit not_false
  · rename_i st hst
    obtain ⟨hso, hlt, hgt, hfr⟩ := hhit
    have hinv := EnterInv_loop tw brush.sides [] BrushLoop.init st (Or.inl ⟨rfl, rfl⟩) hst
    rw [List.nil_append] at hinv
    rcases hinv with ⟨hm1, _⟩ | ⟨side, hfind, hlead, hclip, hle⟩
    · rw [hm1] at hgt
      exact absurd hgt (lt_irrefl _)
    · have hmem : side ∈ enteringSides tw brush.sides := List.mem_of_find?_eq_some hfind
      have hmem2 := List.mem_filter.mp hmem
      have hval : enterValue tw side = st.enterFrac := by
        have := List.find?_some hfind
        simpa using this
      have hpos : ¬st.enterFrac < 0 := by
        rw [← hval]
        exact not_lt.mpr (le_max_left _ _)
      have hres : CM_TraceThroughBrush_finish tw brush st
          = { tw with trace := { tw.trace with
                fraction := st.enterFrac
                plane := { normal := side.plane.normal, dist := side.plane.dist }
                surfaceFlags := side.surfaceFlags
                contents := brush.contents } } := by
        unfold CM_TraceThroughBrush_finish
        simp only [hso, Bool.not_true, Bool.false_eq_true, if_false, hlt, if_true, hgt, hfr,
          and_self, hlead, hclip, hpos]
      refine ⟨st, side, hst, hmem2.1, of_decide_eq_true hmem2.2, hval, ?_, hlt, ?_⟩
      · intro s hs he
        exact hle s (List.mem_filter.mpr ⟨hs, decide_eq_true he⟩)
      · unfold CM_TraceThroughBrush
        rw [if_neg hn, hst]
        exact hres

theorem contact_enter_bound (d1 d2 f : ℚ) (hgt : d1 > d2)
    (hle : max 0 ((d1 - SURFACE_CLIP_EPSILON) / (d1 - d2)) ≤ f) :
    d1 + f * (d2 - d1) ≤ SURFACE_CLIP_EPSILON := by
  have hd : 0 < d1 - d2 := by linarith
  have hq : (d1 - SURFACE_CLIP_EPSILON) / (d1 - d2) ≤ f := le_trans (le_max_right _ _) hle
  rw [div_le_iff₀ hd] at hq
  linarith

theorem contact_leave_bound (d1 d2 f l : ℚ) (hlt : d1 < d2) (hfl : f < l)
    (hl : l ≤ leaveFraction d1 d2) :
    d1 + f * (d2 - d1) < -SURFACE_CLIP_EPSILON := by
  have hd : d1 - d2 < 0 := by linarith
  have hq : leaveFraction d1 d2 ≤ (d1 + SURFACE_CLIP_EPSILON) / (d1 - d2) := by
    unfold leaveFraction
    split_ifs with hc
    · exact le_of_lt hc
    · exact le_refl _
  have h1 : f < (d1 + SURFACE_CLIP_EPSILON) / (d1 - d2) := lt_of_lt_of_le hfl (le_trans hl hq)
  rw [lt_div_iff_of_neg hd] at h1
  linarith

theorem contact_lead (d1 d2 f : ℚ) (hgt : d1 > d2) (hnb : ¬(d1 ≤ 0 ∧ d2 ≤ 0))
    (hf : max 0 ((d1 - SURFACE_CLIP_EPSILON) / (d1 - d2)) = f) :
    (0 < f → d1 + f * (d2 - d1) = SURFACE_CLIP_EPSILON) ∧
    (f = 0 → 0 < d1 + f * (d2 - d1) ∧ d1 + f * (d2 - d1) ≤ SURFACE_CLIP_EPSILON) := by
  have hd : 0 < d1 - d2 := by linarith
  have h1 : 0 < d1 := by
    by_contra hc
    exact hnb ⟨not_lt.mp hc, by linarith [not_lt.mp hc]⟩
  constructor
  · intro hpos
    have hq : (d1 - SURFACE_CLIP_EPSILON) / (d1 - d2) = f := by
      rcases max_cases 0 ((d1 - SURFACE_CLIP_EPSILON) / (d1 - d2)) with ⟨hm, _⟩ | ⟨hm, _⟩
      · rw [hm] at hf
        rw [← hf] at hpos
        exact absurd hpos (lt_irrefl _)
      · rw [hm] at hf
        exact hf
    rw [div_eq_iff (ne_of_gt hd)] at hq
    linarith
  · intro h0
    rw [h0] at hf ⊢
    have hq : (d1 - SURFACE_CLIP_EPSILON) / (d1 - d2) ≤ 0 := by
      rw [← hf]
      exact le_max_right _ _
    rw [div_le_iff₀ hd] at hq
    constructor
    · linarith
    · linarith

theorem CM_TestBoxInBrush_outside (env : Env) (start mins maxs origin : Vec3)
    (brushmask skipmask : Nat) (type : traceType_t) (sphere : Option sphere_t) (t : trace_t)
    (brush : cbrush_t) (hb : AxialFirstSix brush) (s : cbrushside_t) (hs : s ∈ brush.sides)
    (hd : (CM_sideDistances (positionWork env start mins maxs origin brushmask skipmask type
      sphere t) s.plane).1 > 0) :
    CM_TestBoxInBrush (positionWork env start mins maxs origin brushmask skipmask type sphere t)
        brush
      = positionWork env start mins maxs origin brushmask skipmask type sphere t := by
  obtain ⟨hlen, hax, hall⟩ := hb
  have hn : brush.sides.length ≠ 0 := by omega
  unfold CM_TestBoxInBrush
  rw [if_neg hn]
  rw [← List.take_append_drop 6 brush.sides] at hs
  rcases List.mem_append.mp hs with hs1 | hs1
  · obtain ⟨hv, hmem⟩ := hax s hs1
    have hc := CM_sideDistances_axial env start mins maxs origin brushmask skipmask type
      sphere t s.plane hv
    simp only [axialPlanes, List.mem_cons, List.mem_singleton, Prod.mk.injEq,
      List.mem_nil_iff, or_false] at hmem
    rw [if_pos]
    rcases hmem with h | h | h | h | h | h
    · rw [hc.2.1 h.1, h.2] at hd
      right; right; right; left
      linarith
    · rw [hc.1 h.1, h.2] at hd
      left
      linarith
    · rw [hc.2.2.2.1 h.1, h.2] at hd
      right; right; right; right; left
      linarith
    · rw [hc.2.2.1 h.1, h.2] at hd
      right; left
      linarith
    · rw [hc.2.2.2.2.2 h.1, h.2] at hd
      right; right; right; right; right
      linarith
    · rw [hc.2.2.2.2.1 h.1, h.2] at hd
      right; right; left
      linarith
  · have hsides : CM_TestBoxInBrush_sides (positionWork env start mins maxs origin brushmask
        skipmask type sphere t) (brush.sides.drop 6) = true :=
      (CM_TestBoxInBrush_sides_iff _ _).mpr ⟨s, hs1, hd⟩
    rw [hsides]
    simp only [if_true]
    split_ifs <;> rfl

theorem CM_sideDistances_contact (env : Env) (start end_ mins maxs origin : Vec3)
    (brushmask skipmask : Nat) (sphere : Option sphere_t) (t t1 : trace_t) (f : ℚ)
    (p : cplane_t) :
    (CM_sideDistances (positionWork env (VectorLerp start end_ f) mins maxs origin brushmask
        skipmask traceType_t.TT_AABB sphere t1) p).1
      = (CM_sideDistances (moverAt (sweepWork env start end_ mins maxs origin brushmask skipmask
          traceType_t.TT_AABB sphere t) f) p).1 := by
  unfold CM_sideDistances moverAt sweepWork positionWork CM_Trace_point
  split_ifs <;>
    simp only [CM_Trace_setup, DotProduct, VectorMA, VectorSubtract, VectorAdd, VectorLerp] <;>
    ring

/-- C24: when `CM_TraceThroughBrush` records a hit with fraction `f`, the hit
is recorded against a side `P` of the brush, `0 ≤ f < 1`, and the mover held
at `start + f * (end - start)` has a distance to the expanded plane of `P`
that is `SURFACE_CLIP_EPSILON` when `f > 0` and in `(0, SURFACE_CLIP_EPSILON]`
when `f = 0`, and a distance of at most `SURFACE_CLIP_EPSILON` to the expanded
plane of every side.  So the mover is there in front of `P`: the side loop of
the position test finds a side with the mover in front of it, and for a box
sweep set up by `CM_Trace` and a brush whose first six sides are the axial
planes of its bounds, the position test `CM_TestBoxInBrush` set up by
`CM_Trace` at the contact position leaves the trace as it is. -/
theorem C24_contact_outside (tw : traceWork_t) (brush : cbrush_t)
    (hhit : CM_TraceThroughBrush_hit tw brush) :
    ∃ side ∈ brush.sides,
      (CM_TraceThroughBrush tw brush).trace.plane = ⟨side.plane.normal, side.plane.dist⟩ ∧
      0 ≤ (CM_TraceThroughBrush tw brush).trace.fraction ∧
      (CM_TraceThroughBrush tw brush).trace.fraction < 1 ∧
      (0 < (CM_TraceThroughBrush tw brush).trace.fraction →
        (CM_sideDistances (moverAt tw (CM_TraceThroughBrush tw brush).trace.fraction)
          side.plane).1 = SURFACE_CLIP_EPSILON) ∧
      ((CM_TraceThroughBrush tw brush).trace.fraction = 0 →
        0 < (CM_sideDistances (moverAt tw (CM_TraceThroughBrush tw brush).trace.fraction)
          side.plane).1 ∧
        (CM_sideDistances (moverAt tw (CM_TraceThroughBrush tw brush).trace.fraction)
          side.plane).1 ≤ SURFACE_CLIP_EPSILON) ∧
      (∀ s ∈ brush.sides,
        (CM_sideDistances (moverAt tw (CM_TraceThroughBrush tw brush).trace.fraction)
          s.plane).1 ≤ SURFACE_CLIP_EPSILON) ∧
      CM_TestBoxInBrush_sides (moverAt tw (CM_TraceThroughBrush tw brush).trace.fraction)
        brush.sides = true ∧
      (∀ (env : Env) (start end_ mins maxs origin : Vec3) (brushmask skipmask : Nat)
          (sphere : Option sphere_t) (t t1 : trace_t),
        AxialFirstSix brush →
        tw = sweepWork env start end_ mins maxs origin brushmask skipmask traceType_t.TT_AABB
          sphere t →
        CM_TestBoxInBrush
            (positionWork env
              (VectorLerp start end_ (CM_TraceThroughBrush tw brush).trace.fraction)
              mins maxs origin brushmask skipmask traceType_t.TT_AABB sphere t1) brush
          = positionWork env
              (VectorLerp start end_ (CM_TraceThroughBrush tw brush).trace.fraction)
              mins maxs origin brushmask skipmask traceType_t.TT_AABB sphere t1) := by
  obtain ⟨st, side, hst, hmem, hent, hval, hmax, hlt, hres⟩ :=
    CM_TraceThroughBrush_hit_state tw brush hhit
  obtain ⟨hl1, hleave⟩ := CM_TraceThroughBrush_sides_leave tw brush.sides BrushLoop.init st hst
  have hfrac : (CM_TraceThroughBrush tw brush).trace.fraction = st.enterFrac := by
    rw [hres]
  have hf0 : 0 ≤ st.enterFrac := by
    rw [← hval]
    exact le_max_left _ _
  have hf1 : st.enterFrac < 1 := lt_of_lt_of_le hlt hl1
  have hlead := contact_lead (CM_sideDistances tw side.plane).1 (CM_sideDistances tw side.plane).2
    st.enterFrac hent.1 hent.2 hval
  have hfront : 0 < (CM_sideDistances (moverAt tw st.enterFrac) side.plane).1 := by
    rw [CM_sideDistances_moverAt]
    rcases lt_or_eq_of_le hf0 with h | h
    · rw [hlead.1 h]
      unfold SURFACE_CLIP_EPSILON
      norm_num
    · exact (hlead.2 h.symm).1
  rw [hfrac]
  refine ⟨side, hmem, ?_, hf0, hf1, ?_, ?_, ?_, ?_, ?_⟩
  · rw [hres]
  · intro h
    rw [CM_sideDistances_moverAt]
    exact hlead.1 h
  · intro h
    rw [CM_sideDistances_moverAt]
    exact hlead.2 h
  · intro s hs
    rw [CM_sideDistances_moverAt]
    obtain ⟨hrej, hlv⟩ := hleave s hs
    by_cases hb : (CM_sideDistances tw s.plane).1 ≤ 0 ∧ (CM_sideDistances tw s.plane).2 ≤ 0
    · have he : (0 : ℚ) ≤ SURFACE_CLIP_EPSILON := by
        unfold SURFACE_CLIP_EPSILON
        norm_num
      nlinarith [hb.1, hb.2, hf0, hf1]
    · by_cases hgt : (CM_sideDistances tw s.plane).1 > (CM_sideDistances tw s.plane).2
      · exact contact_enter_bound _ _ _ hgt (hmax s hs ⟨hgt, hb⟩)
      · have hlb : leaveBranch (CM_sideDistances tw s.plane).1 (CM_sideDistances tw s.plane).2 :=
          ⟨hrej, hb, hgt⟩
        obtain ⟨hne, _, _⟩ := leaveBranch_facts _ _ hlb
        have hlt2 : (CM_sideDistances tw s.plane).1 < (CM_sideDistances tw s.plane).2 := by
          rcases lt_or_eq_of_le (not_lt.mp hgt) with h | h
          · exact h
          · exact absurd (by rw [h]; ring) hne
        have := contact_leave_bound _ _ _ _ hlt2 hlt (hlv hlb)
        have he : (0 : ℚ) ≤ SURFACE_CLIP_EPSILON := by
          unfold SURFACE_CLIP_EPSILON
          norm_num
        linarith
  · exact (CM_TestBoxInBrush_sides_iff _ _).mpr ⟨side, hmem, hfront⟩
  · intro env start end_ mins maxs origin brushmask skipmask sphere t t1 hax htw
    refine CM_TestBoxInBrush_outside env _ mins maxs origin brushmask skipmask _ sphere t1 brush
      hax side hmem ?_
    rw [CM_sideDistances_contact env start end_ mins maxs origin brushmask skipmask sphere t t1,
      ← htw]
    exact hfront

theorem unitCube_axial : AxialFirstSix unitCube :=
  ⟨by decide, by
    intro s hs
    simp only [unitCube, axialSide, List.take, List.mem_cons, List.mem_singleton,
      List.mem_nil_iff, or_false] at hs
    rcases hs with h | h | h | h | h | h <;> subst h <;>
      exact ⟨⟨by decide!, by decide!, by decide!⟩, by decide!⟩,
   by
    intro a ha
    simp only [axialPlanes, List.mem_cons, List.mem_singleton, List.mem_nil_iff,
      or_false] at ha
    rcases ha with h | h | h | h | h | h <;> subst h
    · exact ⟨axialSide ⟨-1, 0, 0⟩ 0 0 1 10, by decide!, by decide!⟩
    · exact ⟨axialSide ⟨1, 0, 0⟩ 1 0 0 11, by decide!, by decide!⟩
    · exact ⟨axialSide ⟨0, -1, 0⟩ 0 1 2 12, by decide!, by decide!⟩
    · exact ⟨axialSide ⟨0, 1, 0⟩ 1 1 0 13, by decide!, by decide!⟩
    · exact ⟨axialSide ⟨0, 0, -1⟩ 0 2 4 14, by decide!, by decide!⟩
    · exact ⟨axialSide ⟨0, 0, 1⟩ 1 2 0 15, by decide!, by decide!⟩⟩

/-- C24, on the example data: the box `[-1,1]³` swept from `(-3, 1/2, 1/2)` to
`(3, 1/2, 1/2)` hits the unit cube at the fraction `5/16`, where its centre is
at `(-9/8, 1/2, 1/2)` and its face at `x = -1/8`; the position test of the box
there leaves the default trace. -/
theorem C24_contact_outside_witness :
    CM_TraceThroughBrush_hit exampleBoxSweepWork unitCube ∧
    (CM_TraceThroughBrush exampleBoxSweepWork unitCube).trace.fraction = 5 / 16 ∧
    VectorLerp ⟨-3, 1 / 2, 1 / 2⟩ ⟨3, 1 / 2, 1 / 2⟩ (5 / 16) = ⟨-9 / 8, 1 / 2, 1 / 2⟩ ∧
    (CM_TestBoxInBrush
        (positionWork exampleEnv ⟨-9 / 8, 1 / 2, 1 / 2⟩ ⟨-1, -1, -1⟩ ⟨1, 1, 1⟩ vec3_origin 1 0
          traceType_t.TT_AABB none defaultTrace) unitCube).trace = defaultTrace ∧
    CM_TestBoxInBrush
        (positionWork exampleEnv
          (VectorLerp ⟨-3, 1 / 2, 1 / 2⟩ ⟨3, 1 / 2, 1 / 2⟩
            (CM_TraceThroughBrush exampleBoxSweepWork unitCube).trace.fraction)
          ⟨-1, -1, -1⟩ ⟨1, 1, 1⟩ vec3_origin 1 0 traceType_t.TT_AABB none defaultTrace) unitCube
      = positionWork exampleEnv
          (VectorLerp ⟨-3, 1 / 2, 1 / 2⟩ ⟨3, 1 / 2, 1 / 2⟩
            (CM_TraceThroughBrush exampleBoxSweepWork unitCube).trace.fraction)
          ⟨-1, -1, -1⟩ ⟨1, 1, 1⟩ vec3_origin 1 0 traceType_t.TT_AABB none defaultTrace ∧
    ∃ side ∈ unitCube.sides,
      (CM_TraceThroughBrush exampleBoxSweepWork unitCube).trace.plane
        = ⟨side.plane.normal, side.plane.dist⟩ ∧
      (CM_sideDistances (moverAt exampleBoxSweepWork
          (CM_TraceThroughBrush exampleBoxSweepWork unitCube).trace.fraction) side.plane).1
        = SURFACE_CLIP_EPSILON ∧
      ∀ s ∈ unitCube.sides,
        (CM_sideDistances (moverAt exampleBoxSweepWork
          (CM_TraceThroughBrush exampleBoxSweepWork unitCube).trace.fraction) s.plane).1
          ≤ SURFACE_CLIP_EPSILON :=
  have h := C24_contact_outside exampleBoxSweepWork unitCube (by decide!)
  have hf : 0 < (CM_TraceThroughBrush exampleBoxSweepWork unitCube).trace.fraction := by decide!
  ⟨by decide!, by decide!, by decide!, by decide!,
    h.elim (fun _ hs => hs.2.2.2.2.2.2.2.2 exampleEnv ⟨-3, 1 / 2, 1 / 2⟩ ⟨3, 1 / 2, 1 / 2⟩
      ⟨-1, -1, -1⟩ ⟨1, 1, 1⟩ vec3_origin 1 0 none defaultTrace defaultTrace unitCube_axial rfl),
    h.elim (fun side hs => ⟨side, hs.1, hs.2.1, hs.2.2.2.2.1 hf, hs.2.2.2.2.2.2.1⟩)⟩

theorem CM_TraceThroughLeaf_brushes_log_fst (env : Env) (l : List Nat) :
    ∀ (cm : clipMap_t) (tw : traceWork_t),
      (CM_TraceThroughLeaf_brushes_log env cm tw l).1 = CM_TraceThroughLeaf_brushes env cm tw l := by
  induction l with
  | nil => intro cm tw; rfl
  | cons i rest ih =>
    intro cm tw
    unfold CM_TraceThroughLeaf_brushes_log CM_TraceThroughLeaf_brushes
    cases cm.brushes[i]? with
    | none => rfl
    | some b =>
      simp only
      split_ifs <;> first | exact ih _ _ | rfl

theorem CM_TestInLeaf_brushes_log_fst (l : List Nat) :
    ∀ (cm : clipMap_t) (tw : traceWork_t),
      (CM_TestInLeaf_brushes_log cm tw l).1 = CM_TestInLeaf_brushes cm tw l := by
  induction l with
  | nil => intro cm tw; rfl
  | cons i rest ih =>
    intro cm tw
    unfold CM_TestInLeaf_brushes_log CM_TestInLeaf_brushes
    cases cm.brushes[i]? with
    | none => rfl
    | some b =>
      simp only
      split_ifs <;> first | exact ih _ _ | rfl

theorem CM_TraceThroughLeaf_surfaces_log_fst (env : Env) (l : List Nat) :
    ∀ (cm : clipMap_t) (tw : traceWork_t),
      (CM_TraceThroughLeaf_surfaces_log env cm tw l).1
        = CM_TraceThroughLeaf_surfaces env cm tw l := by
  induction l with
  | nil => intro cm tw; rfl
  | cons i rest ih =>
    intro cm tw
    unfold CM_TraceThroughLeaf_surfaces_log CM_TraceThroughLeaf_surfaces
    rcases cm.surfaces[i]? with _ | _ | s
    · rfl
    · exact ih _ _
    · simp only
      cases s.sc with
      | none => split_ifs <;> first | exact ih _ _ | rfl
      | some sc =>
        simp only
        split_ifs <;> first
          | exact ih _ _
          | rfl
          | (cases CM_TraceThroughSurface env (stampSurface cm i s) tw s with
             | none => rfl
             | some tw1 =>
               simp only
               split_ifs <;> first | exact ih _ _ | rfl)

theorem CM_TestInLeaf_surfaces_log_fst (env : Env) (l : List Nat) :
    ∀ (cm : clipMap_t) (tw : traceWork_t),
      (CM_TestInLeaf_surfaces_log env cm tw l).1 = CM_TestInLeaf_surfaces env cm tw l := by
  induction l with
  | nil => intro cm tw; rfl
  | cons i rest ih =>
    intro cm tw
    unfold CM_TestInLeaf_surfaces_log CM_TestInLeaf_surfaces
    rcases cm.surfaces[i]? with _ | _ | s
    · rfl
    · exact ih _ _
    · simp only
      generalize (if !env.cm_noCurves then
          CM_TestInLeaf_surfaceHit tw s mapSurfaceType_t.MST_PATCH else some false) = p
      generalize (if (stampSurface cm i s).perPolyCollision || env.cm_forceTriangles then
          CM_TestInLeaf_surfaceHit tw s mapSurfaceType_t.MST_TRIANGLE_SOUP else some false) = q
      split_ifs <;> first
        | exact ih _ _
        | (rcases p with _ | _ | _ <;> rcases q with _ | _ | _ <;> first | rfl | exact ih _ _)

theorem StampsKept_refl (cm : clipMap_t) : StampsKept cm cm :=
  ⟨rfl, fun _ h => h, fun _ h => h, fun _ h => h, fun _ h => h⟩

theorem StampsKept_trans {cm cm1 cm2 : clipMap_t} (h1 : StampsKept cm cm1)
    (h2 : StampsKept cm1 cm2) : StampsKept cm cm2 :=
  ⟨h2.1.trans h1.1, fun i h => h2.2.1 i (h1.2.1 i h), fun i h => h1.2.2.1 i (h2.2.2.1 i h),
    fun i h => h2.2.2.2.1 i (h1.2.2.2.1 i h), fun i h => h1.2.2.2.2 i (h2.2.2.2.2 i h)⟩

theorem brushStamped_not_unstamped (cm : clipMap_t) (i : Nat) (h : brushStamped cm i) :
    ¬brushUnstamped cm i := by
  rintro ⟨b, hb, hne⟩
  obtain ⟨b1, hb1, he⟩ := h
  rw [hb] at hb1
  simp only [Option.some.injEq] at hb1
  rw [hb1] at hne
  exact hne he

theorem surfaceStamped_not_unstamped (cm : clipMap_t) (i : Nat) (h : surfaceStamped cm i) :
    ¬surfaceUnstamped cm i := by
  rintro ⟨b, hb, hne⟩
  obtain ⟨b1, hb1, he⟩ := h
  rw [hb] at hb1
  simp only [Option.some.injEq] at hb1
  rw [hb1] at hne
  exact hne he

theorem stampBrush_kept (cm : clipMap_t) (i : Nat) (b : cbrush_t)
    (hb : cm.brushes[i]? = some b) (hne : b.checkcount ≠ cm.checkcount) :
    StampsKept cm (stampBrush cm i b) ∧ brushStamped (stampBrush cm i b) i ∧
    brushUnstamped cm i := by
  have hi : i < cm.brushes.length := by
    by_contra hc
    rw [List.getElem?_eq_none (not_lt.mp hc)] at hb
    exact absurd hb (by simp)
  have hget : ∀ j, (stampBrush cm i b).brushes[j]?
      = if i = j then some { b with checkcount := cm.checkcount } else cm.brushes[j]? := by
    intro j
    unfold stampBrush
    simp only [List.getElem?_set]
    by_cases hij : i = j
    · subst hij
      simp [hi]
    · simp [hij]
  refine ⟨⟨rfl, ?_, ?_, fun _ h => h, fun _ h => h⟩, ?_, ⟨b, hb, hne⟩⟩
  · rintro j ⟨b1, hb1, he⟩
    unfold brushStamped
    rw [hget]
    by_cases hij : i = j
    · rw [if_pos hij]
      exact ⟨_, rfl, rfl⟩
    · rw [if_neg hij]
      exact ⟨b1, hb1, he⟩
  · rintro j ⟨b1, hb1, hn1⟩
    rw [hget] at hb1
    by_cases hij : i = j
    · rw [if_pos hij] at hb1
      simp only [Option.some.injEq] at hb1
      rw [← hb1] at hn1
      exact absurd rfl hn1
    · rw [if_neg hij] at hb1
      exact ⟨b1, hb1, hn1⟩
  · unfold brushStamped
    rw [hget, if_pos rfl]
    exact ⟨_, rfl, rfl⟩

theorem stampSurface_kept (cm : clipMap_t) (i : Nat) (s : cSurface_t)
    (hs : cm.surfaces[i]? = some (some s)) (hne : s.checkcount ≠ cm.checkcount) :
    StampsKept cm (stampSurface cm i s) ∧ surfaceStamped (stampSurface cm i s) i ∧
    surfaceUnstamped cm i := by
  have hi : i < cm.surfaces.length := by
    by_contra hc
    rw [List.getElem?_eq_none (not_lt.mp hc)] at hs
    exact absurd hs (by simp)
  have hget : ∀ j, (stampSurface cm i s).surfaces[j]?
      = if i = j then some (some { s with checkcount := cm.checkcount })
        else cm.surfaces[j]? := by
    intro j
    unfold stampSurface
    simp only [List.getElem?_set]
    by_cases hij : i = j
    · subst hij
      simp [hi]
    · simp [hij]
  refine ⟨⟨rfl, fun _ h => h, fun _ h => h, ?_, ?_⟩, ?_, ⟨s, hs, hne⟩⟩
  · rintro j ⟨b1, hb1, he⟩
    unfold surfaceStamped
    rw [hget]
    by_cases hij : i = j
    · rw [if_pos hij]
      exact ⟨_, rfl, rfl⟩
    · rw [if_neg hij]
      exact ⟨b1, hb1, he⟩
  · rintro j ⟨b1, hb1, hn1⟩
    rw [hget] at hb1
    by_cases hij : i = j
    · rw [if_pos hij] at hb1
      simp only [Option.some.injEq] at hb1
      rw [← hb1] at hn1
      exact absurd rfl hn1
    · rw [if_neg hij] at hb1
      exact ⟨b1, hb1, hn1⟩
  · unfold surfaceStamped
    rw [hget, if_pos rfl]
    exact ⟨_, rfl, rfl⟩

theorem BrushLogOk_nil (cm : clipMap_t) : BrushLogOk cm [] :=
  ⟨fun _ he => absurd he (List.not_mem_nil _), List.nodup_nil⟩

theorem SurfaceLogOk_nil (cm : clipMap_t) : SurfaceLogOk cm [] :=
  ⟨fun _ he => absurd he (List.not_mem_nil _), List.nodup_nil⟩

theorem BrushLogOk_of_kept {cm cm1 : clipMap_t} {log : List (Nat × clipMap_t)}
    (hk : StampsKept cm cm1) (h : BrushLogOk cm1 log) : BrushLogOk cm log :=
  ⟨fun e he => ⟨hk.2.2.1 _ (h.1 e he).1, (h.1 e he).2.1, (h.1 e he).2.2.trans hk.1⟩, h.2⟩

theorem SurfaceLogOk_of_kept {cm cm1 : clipMap_t} {log : List (Nat × clipMap_t)}
    (hk : StampsKept cm cm1) (h : SurfaceLogOk cm1 log) : SurfaceLogOk cm log :=
  ⟨fun e he => ⟨hk.2.2.2.2 _ (h.1 e he).1, (h.1 e he).2.1, (h.1 e he).2.2.trans hk.1⟩, h.2⟩

theorem BrushLogOk_append {cm cm1 : clipMap_t} {l1 l2 : List (Nat × clipMap_t)}
    (h1 : BrushLogOk cm l1) (hk : StampsKept cm cm1)
    (hst : ∀ e ∈ l1, brushStamped cm1 e.1) (h2 : BrushLogOk cm1 l2) :
    BrushLogOk cm (l1 ++ l2) := by
  have h2a := BrushLogOk_of_kept hk h2
  refine ⟨?_, ?_⟩
  · intro e he
    rcases List.mem_append.mp he with h | h
    · exact h1.1 e h
    · exact h2a.1 e h
  · rw [List.map_append]
    refine List.Nodup.append h1.2 h2.2 ?_
    intro i hi1 hi2
    obtain ⟨e1, he1, rfl⟩ := List.mem_map.mp hi1
    obtain ⟨e2, he2, heq⟩ := List.mem_map.mp hi2
    have hs := hst e1 he1
    have hu := (h2.1 e2 he2).1
    rw [heq] at hu
    exact brushStamped_not_unstamped _ _ hs hu

theorem SurfaceLogOk_append {cm cm1 : clipMap_t} {l1 l2 : List (Nat × clipMap_t)}
    (h1 : SurfaceLogOk cm l1) (hk : StampsKept cm cm1)
    (hst : ∀ e ∈ l1, surfaceStamped cm1 e.1) (h2 : SurfaceLogOk cm1 l2) :
    SurfaceLogOk cm (l1 ++ l2) := by
  have h2a := SurfaceLogOk_of_kept hk h2
  refine ⟨?_, ?_⟩
  · intro e he
    rcases List.mem_append.mp he with h | h
    · exact h1.1 e h
    · exact h2a.1 e h
  · rw [List.map_append]
    refine List.Nodup.append h1.2 h2.2 ?_
    intro i hi1 hi2
    obtain ⟨e1, he1, rfl⟩ := List.mem_map.mp hi1
    obtain ⟨e2, he2, heq⟩ := List.mem_map.mp hi2
    have hs := hst e1 he1
    have hu := (h2.1 e2 he2).1
    rw [heq] at hu
    exact surfaceStamped_not_unstamped _ _ hs hu

theorem BrushLogOk_single {cm : clipMap_t} {i : Nat} {b : cbrush_t}
    (hb : cm.brushes[i]? = some b) (hne : b.checkcount ≠ cm.checkcount) :
    BrushLogOk cm [(i, stampBrush cm i b)] := by
  obtain ⟨_, hs, hu⟩ := stampBrush_kept cm i b hb hne
  refine ⟨?_, by simp⟩
  intro e he
  rw [List.mem_singleton.mp he]
  exact ⟨hu, hs, rfl⟩

theorem SurfaceLogOk_single {cm : clipMap_t} {i : Nat} {s : cSurface_t}
    (hb : cm.surfaces[i]? = some (some s)) (hne : s.checkcount ≠ cm.checkcount) :
    SurfaceLogOk cm [(i, stampSurface cm i s)] := by
  obtain ⟨_, hs, hu⟩ := stampSurface_kept cm i s hb hne
  refine ⟨?_, by simp⟩
  intro e he
  rw [List.mem_singleton.mp he]
  exact ⟨hu, hs, rfl⟩

theorem BrushLoopLogOk_skip {cm cm1 : clipMap_t} {r : Option clipMap_t}
    {log : List (Nat × clipMap_t)} (hk : StampsKept cm cm1) (h : BrushLoopLogOk cm1 r log) :
    BrushLoopLogOk cm r log :=
  ⟨BrushLogOk_of_kept hk h.1, fun cm2 hr => ⟨StampsKept_trans hk (h.2 cm2 hr).1, (h.2 cm2 hr).2⟩⟩

theorem BrushLoopLogOk_done (cm : clipMap_t) : BrushLoopLogOk cm (some cm) [] :=
  ⟨BrushLogOk_nil cm, fun cm1 hr => by
    simp only [Option.some.injEq] at hr
    rw [← hr]
    exact ⟨StampsKept_refl cm, fun _ he => absurd he (List.not_mem_nil _)⟩⟩

theorem BrushLoopLogOk_fail (cm : clipMap_t) : BrushLoopLogOk cm none [] :=
  ⟨BrushLogOk_nil cm, fun cm1 hr => absurd hr (by simp)⟩

theorem BrushLoopLogOk_cons {cm : clipMap_t} {i : Nat} {b : cbrush_t} {r : Option clipMap_t}
    {log : List (Nat × clipMap_t)} (hb : cm.brushes[i]? = some b)
    (hne : b.checkcount ≠ cm.checkcount) (h : BrushLoopLogOk (stampBrush cm i b) r log) :
    BrushLoopLogOk cm r ((i, stampBrush cm i b) :: log) := by
  obtain ⟨hk, hs, hu⟩ := stampBrush_kept cm i b hb hne
  refine ⟨?_, ?_⟩
  · have := BrushLogOk_append (BrushLogOk_single hb hne) hk
      (fun e he => by rw [List.mem_singleton.mp he]; exact hs) h.1
    exact this
  · intro cm2 hr
    obtain ⟨hk2, hall⟩ := h.2 cm2 hr
    refine ⟨StampsKept_trans hk hk2, ?_⟩
    intro e he
    rcases List.mem_cons.mp he with h1 | h1
    · rw [h1]
      exact hk2.2.1 i hs
    · exact hall e h1

theorem BrushLoopLogOk_stop {cm : clipMap_t} {i : Nat} {b : cbrush_t} (r : Option clipMap_t)
    (hb : cm.brushes[i]? = some b) (hne : b.checkcount ≠ cm.checkcount)
    (hr : r = none ∨ r = some (stampBrush cm i b)) :
    BrushLoopLogOk cm r [(i, stampBrush cm i b)] := by
  obtain ⟨hk, hs, hu⟩ := stampBrush_kept cm i b hb hne
  refine ⟨BrushLogOk_single hb hne, ?_⟩
  intro cm2 hr2
  rcases hr with h | h
  · rw [h] at hr2
    exact absurd hr2 (by simp)
  · rw [h] at hr2
    simp only [Option.some.injEq] at hr2
    rw [← hr2]
    refine ⟨hk, ?_⟩
    intro e he
    rw [List.mem_singleton.mp he]
    exact hs

theorem SurfaceLoopLogOk_skip {cm cm1 : clipMap_t} {r : Option clipMap_t}
    {log : List (Nat × clipMap_t)} (hk : StampsKept cm cm1) (h : SurfaceLoopLogOk cm1 r log) :
    SurfaceLoopLogOk cm r log :=
  ⟨SurfaceLogOk_of_kept hk h.1, fun cm2 hr => ⟨StampsKept_trans hk (h.2 cm2 hr).1, (h.2 cm2 hr).2⟩⟩

theorem SurfaceLoopLogOk_done (cm : clipMap_t) : SurfaceLoopLogOk cm (some cm) [] :=
  ⟨SurfaceLogOk_nil cm, fun cm1 hr => by
    simp only [Option.some.injEq] at hr
    rw [← hr]
    exact ⟨StampsKept_refl cm, fun _ he => absurd he (List.not_mem_nil _)⟩⟩

theorem SurfaceLoopLogOk_fail (cm : clipMap_t) : SurfaceLoopLogOk cm none [] :=
  ⟨SurfaceLogOk_nil cm, fun cm1 hr => absurd hr (by simp)⟩

theorem SurfaceLoopLogOk_cons {cm : clipMap_t} {i : Nat} {b : cSurface_t} {r : Option clipMap_t}
    {log : List (Nat × clipMap_t)} (hb : cm.surfaces[i]? = some (some b))
    (hne : b.checkcount ≠ cm.checkcount) (h : SurfaceLoopLogOk (stampSurface cm i b) r log) :
    SurfaceLoopLogOk cm r ((i, stampSurface cm i b) :: log) := by
  obtain ⟨hk, hs, hu⟩ := stampSurface_kept cm i b hb hne
  refine ⟨?_, ?_⟩
  · have := SurfaceLogOk_append (SurfaceLogOk_single hb hne) hk
      (fun e he => by rw [List.mem_singleton.mp he]; exact hs) h.1
    exact this
  · intro cm2 hr
    obtain ⟨hk2, hall⟩ := h.2 cm2 hr
    refine ⟨StampsKept_trans hk hk2, ?_⟩
    intro e he
    rcases List.mem_cons.mp he with h1 | h1
    · rw [h1]
      exact hk2.2.2.2.1 i hs
    · exact hall e h1

theorem SurfaceLoopLogOk_stop {cm : clipMap_t} {i : Nat} {b : cSurface_t} (r : Option clipMap_t)
    (hb : cm.surfaces[i]? = some (some b)) (hne : b.checkcount ≠ cm.checkcount)
    (hr : r = none ∨ r = some (stampSurface cm i b)) :
    SurfaceLoopLogOk cm r [(i, stampSurface cm i b)] := by
  obtain ⟨hk, hs, hu⟩ := stampSurface_kept cm i b hb hne
  refine ⟨SurfaceLogOk_single hb hne, ?_⟩
  intro cm2 hr2
  rcases hr with h | h
  · rw [h] at hr2
    exact absurd hr2 (by simp)
  · rw [h] at hr2
    simp only [Option.some.injEq] at hr2
    rw [← hr2]
    refine ⟨hk, ?_⟩
    intro e he
    rw [List.mem_singleton.mp he]
    exact hs

theorem CM_TraceThroughLeaf_brushes_log_ok (env : Env) (l : List Nat) :
    ∀ (cm : clipMap_t) (tw : traceWork_t),
      BrushLoopLogOk cm ((CM_TraceThroughLeaf_brushes_log env cm tw l).1.map (fun r => r.1))
        (CM_TraceThroughLeaf_brushes_log env cm tw l).2 := by
  induction l with
  | nil =>
    intro cm tw
    exact BrushLoopLogOk_done cm
  | cons i rest ih =>
    intro cm tw
    unfold CM_TraceThroughLeaf_brushes_log
    split
    · exact BrushLoopLogOk_fail cm
    · rename_i b hb
      simp only
      split_ifs with h1 h2 h3 h4 h5
      · exact ih cm tw
      · exact BrushLoopLogOk_skip (stampBrush_kept cm i b hb h1).1 (ih _ _)
      · exact BrushLoopLogOk_skip (stampBrush_kept cm i b hb h1).1 (ih _ _)
      · exact BrushLoopLogOk_skip (stampBrush_kept cm i b hb h1).1 (ih _ _)
      · exact BrushLoopLogOk_stop _ hb h1 (Or.inr rfl)
      · exact BrushLoopLogOk_cons hb h1 (ih _ _)

theorem CM_TestInLeaf_brushes_log_ok (l : List Nat) :
    ∀ (cm : clipMap_t) (tw : traceWork_t),
      BrushLoopLogOk cm ((CM_TestInLeaf_brushes_log cm tw l).1.map (fun r => r.1))
        (CM_TestInLeaf_brushes_log cm tw l).2 := by
  induction l with
  | nil =>
    intro cm tw
    exact BrushLoopLogOk_done cm
  | cons i rest ih =>
    intro cm tw
    unfold CM_TestInLeaf_brushes_log
    split
    · exact BrushLoopLogOk_fail cm
    · rename_i b hb
      simp only
      split_ifs with h1 h2 h3 h4
      · exact ih cm tw
      · exact BrushLoopLogOk_skip (stampBrush_kept cm i b hb h1).1 (ih _ _)
      · exact BrushLoopLogOk_skip (stampBrush_kept cm i b hb h1).1 (ih _ _)
      · exact BrushLoopLogOk_stop _ hb h1 (Or.inr rfl)
      · exact BrushLoopLogOk_cons hb h1 (ih _ _)

theorem CM_TraceThroughLeaf_surfaces_log_ok (env : Env) (l : List Nat) :
    ∀ (cm : clipMap_t) (tw : traceWork_t),
      SurfaceLoopLogOk cm ((CM_TraceThroughLeaf_surfaces_log env cm tw l).1.map (fun r => r.1))
        (CM_TraceThroughLeaf_surfaces_log env cm tw l).2 := by
  induction l with
  | nil =>
    intro cm tw
    exact SurfaceLoopLogOk_done cm
  | cons i rest ih =>
    intro cm tw
    unfold CM_TraceThroughLeaf_surfaces_log
    split
    · exact SurfaceLoopLogOk_fail cm
    · exact ih cm tw
    · rename_i s hs
      simp only
      split_ifs with h1 h2 h3
      · exact ih cm tw
      · exact SurfaceLoopLogOk_skip (stampSurface_kept cm i s hs h1).1 (ih _ _)
      · exact SurfaceLoopLogOk_skip (stampSurface_kept cm i s hs h1).1 (ih _ _)
      · split
        · exact SurfaceLoopLogOk_skip (stampSurface_kept cm i s hs h1).1
            (SurfaceLoopLogOk_fail _)
        · split_ifs with h4
          · exact SurfaceLoopLogOk_skip (stampSurface_kept cm i s hs h1).1 (ih _ _)
          · split
            · exact SurfaceLoopLogOk_stop _ hs h1 (Or.inl rfl)
            · split_ifs with h5
              · exact SurfaceLoopLogOk_stop _ hs h1 (Or.inr rfl)
              · exact SurfaceLoopLogOk_cons hs h1 (ih _ _)

theorem CM_TestInLeaf_surfaces_log_ok (env : Env) (l : List Nat) :
    ∀ (cm : clipMap_t) (tw : traceWork_t),
      SurfaceLoopLogOk cm ((CM_TestInLeaf_surfaces_log env cm tw l).1.map (fun r => r.1))
        (CM_TestInLeaf_surfaces_log env cm tw l).2 := by
  induction l with
  | nil =>
    intro cm tw
    exact SurfaceLoopLogOk_done cm
  | cons i rest ih =>
    intro cm tw
    unfold CM_TestInLeaf_surfaces_log
    split
    · exact SurfaceLoopLogOk_fail cm
    · exact ih cm tw
    · rename_i s hs
      simp only
      generalize (if !env.cm_noCurves then
          CM_TestInLeaf_surfaceHit tw s mapSurfaceType_t.MST_PATCH else some false) = p
      generalize (if (stampSurface cm i s).perPolyCollision || env.cm_forceTriangles then
          CM_TestInLeaf_surfaceHit tw s mapSurfaceType_t.MST_TRIANGLE_SOUP else some false) = q
      split_ifs with h1 h2 h3
      · exact ih cm tw
      · exact SurfaceLoopLogOk_skip (stampSurface_kept cm i s hs h1).1 (ih _ _)
      · exact SurfaceLoopLogOk_skip (stampSurface_kept cm i s hs h1).1 (ih _ _)
      · rcases p with _ | _ | _
        · exact SurfaceLoopLogOk_stop _ hs h1 (Or.inl rfl)
        · rcases q with _ | _ | _
          · exact SurfaceLoopLogOk_stop _ hs h1 (Or.inl rfl)
          · exact SurfaceLoopLogOk_cons hs h1 (ih _ _)
          · exact SurfaceLoopLogOk_stop _ hs h1 (Or.inr rfl)
        · exact SurfaceLoopLogOk_stop _ hs h1 (Or.inr rfl)

theorem LeafLogOk_of_loops {cm cm1 : clipMap_t} {r : Option clipMap_t}
    {bl sl : List (Nat × clipMap_t)} (hb : BrushLoopLogOk cm (some cm1) bl)
    (hs : SurfaceLoopLogOk cm1 r sl) : LeafLogOk cm r bl sl := by
  obtain ⟨hk, hst⟩ := hb.2 cm1 rfl
  refine ⟨hb.1, SurfaceLogOk_of_kept hk hs.1, ?_⟩
  intro cm2 hr
  obtain ⟨hk2, hst2⟩ := hs.2 cm2 hr
  exact ⟨StampsKept_trans hk hk2, fun e he => hk2.2.1 _ (hst e he), hst2⟩

theorem LeafLogOk_of_brushes {cm : clipMap_t} {r : Option clipMap_t}
    {bl : List (Nat × clipMap_t)} (hb : BrushLoopLogOk cm r bl) : LeafLogOk cm r bl [] :=
  ⟨hb.1, SurfaceLogOk_nil cm, fun cm1 hr =>
    ⟨(hb.2 cm1 hr).1, (hb.2 cm1 hr).2, fun _ he => absurd he (List.not_mem_nil _)⟩⟩

theorem CM_TraceThroughLeaf_log_ok (env : Env) (cm : clipMap_t) (tw : traceWork_t)
    (leaf : cLeaf_t) :
    LeafLogOk cm ((CM_TraceThroughLeaf_log env cm tw leaf).1.map (fun r => r.1))
      (CM_TraceThroughLeaf_log env cm tw leaf).2.1
      (CM_TraceThroughLeaf_log env cm tw leaf).2.2 := by
  have hb := CM_TraceThroughLeaf_brushes_log_ok env leaf.leafBrushes cm tw
  unfold CM_TraceThroughLeaf_log
  split
  · rename_i bl heq
    rw [heq] at hb
    exact LeafLogOk_of_brushes hb
  · rename_i cm1 tw1 bl heq
    rw [heq] at hb
    exact LeafLogOk_of_brushes hb
  · rename_i cm1 tw1 bl heq
    rw [heq] at hb
    split_ifs
    · exact LeafLogOk_of_brushes hb
    · exact LeafLogOk_of_loops hb (CM_TraceThroughLeaf_surfaces_log_ok env leaf.leafSurfaces cm1 tw1)

theorem CM_TestInLeaf_log_ok (env : Env) (cm : clipMap_t) (tw : traceWork_t) (leaf : cLeaf_t) :
    LeafLogOk cm ((CM_TestInLeaf_log env cm tw leaf).1.map (fun r => r.1))
      (CM_TestInLeaf_log env cm tw leaf).2.1 (CM_TestInLeaf_log env cm tw leaf).2.2 := by
  have hb := CM_TestInLeaf_brushes_log_ok leaf.leafBrushes cm tw
  unfold CM_TestInLeaf_log
  split
  · rename_i bl heq
    rw [heq] at hb
    exact LeafLogOk_of_brushes hb
  · rename_i cm1 tw1 bl heq
    rw [heq] at hb
    exact LeafLogOk_of_brushes hb
  · rename_i cm1 tw1 bl heq
    rw [heq] at hb
    exact LeafLogOk_of_loops hb (CM_TestInLeaf_surfaces_log_ok env leaf.leafSurfaces cm1 tw1)

theorem LeafLogOk_append {cm cm1 : clipMap_t} {r : Option clipMap_t}
    {bl sl bl2 sl2 : List (Nat × clipMap_t)} (h1 : LeafLogOk cm (some cm1) bl sl)
    (h2 : LeafLogOk cm1 r bl2 sl2) : LeafLogOk cm r (bl ++ bl2) (sl ++ sl2) := by
  obtain ⟨hk, hb, hs⟩ := h1.2.2 cm1 rfl
  refine ⟨BrushLogOk_append h1.1 hk hb h2.1, SurfaceLogOk_append h1.2.1 hk hs h2.2.1, ?_⟩
  intro cm2 hr
  obtain ⟨hk2, hb2, hs2⟩ := h2.2.2 cm2 hr
  refine ⟨StampsKept_trans hk hk2, ?_, ?_⟩
  · intro e he
    rcases List.mem_append.mp he with h | h
    · exact hk2.2.1 _ (hb e h)
    · exact hb2 e h
  · intro e he
    rcases List.mem_append.mp he with h | h
    · exact hk2.2.2.2.1 _ (hs e h)
    · exact hs2 e h

theorem leafCalls_log_ok (env : Env) (calls : List LeafCall) :
    ∀ cm : clipMap_t,
      LeafLogOk cm (leafCalls_log env cm calls).1 (leafCalls_log env cm calls).2.1
        (leafCalls_log env cm calls).2.2 := by
  induction calls with
  | nil =>
    intro cm
    exact ⟨BrushLogOk_nil cm, SurfaceLogOk_nil cm, fun cm1 hr => by
      simp only [leafCalls_log, Option.some.injEq] at hr
      rw [← hr]
      exact ⟨StampsKept_refl cm, fun _ he => absurd he (List.not_mem_nil _),
        fun _ he => absurd he (List.not_mem_nil _)⟩⟩
  | cons c rest ih =>
    intro cm
    have hc : LeafLogOk cm
        ((if c.sweep then CM_TraceThroughLeaf_log env cm c.tw c.leaf
          else CM_TestInLeaf_log env cm c.tw c.leaf).1.map (fun r => r.1))
        (if c.sweep then CM_TraceThroughLeaf_log env cm c.tw c.leaf
          else CM_TestInLeaf_log env cm c.tw c.leaf).2.1
        (if c.sweep then CM_TraceThroughLeaf_log env cm c.tw c.leaf
          else CM_TestInLeaf_log env cm c.tw c.leaf).2.2 := by
      split_ifs
      · exact CM_TraceThroughLeaf_log_ok env cm c.tw c.leaf
      · exact CM_TestInLeaf_log_ok env cm c.tw c.leaf
    unfold leafCalls_log
    split
    · rename_i bl sl heq
      rw [heq] at hc
      exact hc
    · rename_i cm1 tw1 bl sl heq
      rw [heq] at hc
      exact LeafLogOk_append hc (ih cm1)

/-- C22: within one trace, over any sequence of calls of `CM_TraceThroughLeaf`
and `CM_TestInLeaf` on any leaves and trace states, each on the world that the
call before it left, every brush is passed to its brush test at most once and
every surface to its surface test at most once: the numbers in the log of the
brush tests are distinct, and so are those in the log of the surface tests.
Every tested item carried a check count other than `cm.checkcount` in the
world before the calls, and carries `cm.checkcount` in the world in which it
is tested.  The functions with a log return what `CM_TraceThroughLeaf` and
`CM_TestInLeaf` return. -/
theorem C22_tested_at_most_once (env : Env) (cm : clipMap_t) :
    (∀ (tw : traceWork_t) (leaf : cLeaf_t),
      (CM_TraceThroughLeaf_log env cm tw leaf).1 = CM_TraceThroughLeaf env cm tw leaf ∧
      (CM_TestInLeaf_log env cm tw leaf).1 = CM_TestInLeaf env cm tw leaf) ∧
    ∀ calls : List LeafCall,
      ((leafCalls_log env cm calls).2.1.map Prod.fst).Nodup ∧
      ((leafCalls_log env cm calls).2.2.map Prod.fst).Nodup ∧
      (∀ e ∈ (leafCalls_log env cm calls).2.1,
        (∃ b, cm.brushes[e.1]? = some b ∧ b.checkcount ≠ cm.checkcount) ∧
        (∃ b, e.2.brushes[e.1]? = some b ∧ b.checkcount = cm.checkcount) ∧
        e.2.checkcount = cm.checkcount) ∧
      (∀ e ∈ (leafCalls_log env cm calls).2.2,
        (∃ s, cm.surfaces[e.1]? = some (some s) ∧ s.checkcount ≠ cm.checkcount) ∧
        (∃ s, e.2.surfaces[e.1]? = some (some s) ∧ s.checkcount = cm.checkcount) ∧
        e.2.checkcount = cm.checkcount) := by
  refine ⟨fun tw leaf => ⟨?_, ?_⟩, fun calls => ?_⟩
  · unfold CM_TraceThroughLeaf_log CM_TraceThroughLeaf
    rw [← CM_TraceThroughLeaf_brushes_log_fst]
    split
    · rename_i heq
      rw [heq]
    · rename_i heq
      rw [heq]
    · rename_i heq
      rw [heq]
      simp only
      split_ifs
      · rfl
      · exact CM_TraceThroughLeaf_surfaces_log_fst env _ _ _
  · unfold CM_TestInLeaf_log CM_TestInLeaf
    rw [← CM_TestInLeaf_brushes_log_fst]
    split
    · rename_i heq
      rw [heq]
    · rename_i heq
      rw [heq]
    · rename_i heq
      rw [heq]
      exact CM_TestInLeaf_surfaces_log_fst env _ _ _
  · obtain ⟨hb, hs, _⟩ := leafCalls_log_ok env calls cm
    refine ⟨hb.2, hs.2, ?_, ?_⟩
    · intro e he
      obtain ⟨h1, ⟨b, hb1, hb2⟩, h3⟩ := hb.1 e he
      exact ⟨h1, ⟨b, hb1, hb2.trans h3⟩, h3⟩
    · intro e he
      obtain ⟨h1, ⟨b, hb1, hb2⟩, h3⟩ := hs.1 e he
      exact ⟨h1, ⟨b, hb1, hb2.trans h3⟩, h3⟩

/-- C22, on the example data: two sweeps and a position test, each on a leaf
that lists the unit cube twice, in the example world with `cm.checkcount = 1`;
the cube is tested once, by the first sweep, in a world in which it carries
the stamp 1. -/
theorem C22_tested_at_most_once_witness :
    (leafCalls_log exampleEnv exampleWorldCounted
        [⟨true, exampleWork, ⟨[0, 0], []⟩⟩, ⟨true, exampleWork, ⟨[0, 0], []⟩⟩,
         ⟨false, exampleWork, ⟨[0, 0], []⟩⟩]).2.1 = [(0, exampleWorldVisited)] ∧
    (leafCalls_log exampleEnv exampleWorldCounted
        [⟨true, exampleWork, ⟨[0, 0], []⟩⟩, ⟨true, exampleWork, ⟨[0, 0], []⟩⟩,
         ⟨false, exampleWork, ⟨[0, 0], []⟩⟩]).1 = some exampleWorldVisited ∧
    ((leafCalls_log exampleEnv exampleWorldCounted
        [⟨true, exampleWork, ⟨[0, 0], []⟩⟩, ⟨true, exampleWork, ⟨[0, 0], []⟩⟩,
         ⟨false, exampleWork, ⟨[0, 0], []⟩⟩]).2.1.map Prod.fst).Nodup :=
  ⟨by decide!, by decide!,
    ((C22_tested_at_most_once exampleEnv exampleWorldCounted).2
      [⟨true, exampleWork, ⟨[0, 0], []⟩⟩, ⟨true, exampleWork, ⟨[0, 0], []⟩⟩,
       ⟨false, exampleWork, ⟨[0, 0], []⟩⟩]).1⟩

theorem LoweredPlane_refl (tw : traceWork_t) : LoweredPlane tw tw := Or.inl rfl

theorem LoweredPlane_trans {tw tw1 tw2 : traceWork_t} (h1 : LoweredPlane tw tw1)
    (h2 : LoweredPlane tw1 tw2) : LoweredPlane tw tw2 := by
  rcases h1 with h1 | ⟨a1, b1, c1⟩
  · rw [h1] at h2
    exact h2
  · rcases h2 with h2 | ⟨a2, b2, c2⟩
    · rw [h2]
      exact Or.inr ⟨a1, b1, c1⟩
    · refine Or.inr ⟨a2, lt_trans b2 b1, ?_⟩
      rw [c2]
      rw [c1]

theorem LoweredPlane_le {tw tw1 : traceWork_t} (h : LoweredPlane tw tw1) :
    tw1.trace.fraction ≤ tw.trace.fraction := by
  rcases h with h | ⟨_, b, _⟩
  · rw [h]
  · exact le_of_lt b

theorem LoweredPlane_CM_TracePoint_record (tw : traceWork_t) (p : cPlane_t)
    (hff : (CM_TracePoint_planeState tw p).1 = true)
    (hle : ¬(CM_TracePoint_planeState tw p).2 > tw.trace.fraction)
    (h1 : tw.trace.fraction ≤ 1) :
    LoweredPlane tw (CM_TracePoint_record tw p) := by
  have hd1 := planeState_front tw p hff
  have hpos := planeState_pos tw p
  have hfpos : 0 < tw.trace.fraction := lt_of_lt_of_le hpos (not_lt.mp hle)
  right
  refine ⟨?_, ?_, rfl⟩
  · show (0 : ℚ) ≤ (if _ < 0 then 0 else _)
    split_ifs with h5
    · exact le_refl _
    · exact not_lt.mp h5
  · show (if _ < 0 then (0 : ℚ) else _) < tw.trace.fraction
    split_ifs with h5
    · exact hfpos
    · unfold CM_TracePoint_planeState at hle
      simp only at hle
      set d1 := DotProduct tw.start p.plane.normal - p.plane.dist
          + DotProduct (tw.offsets p.signbits) p.plane.normal with hd1def
      set d2 := DotProduct tw.end_ p.plane.normal - p.plane.dist
          + DotProduct (tw.offsets p.signbits) p.plane.normal with hd2def
      have hle1 := not_lt.mp hle
      split_ifs at hle1 with h1a h2
      · exact absurd (le_trans hle1 h1) (by norm_num)
      · exact absurd (le_trans hle1 h1) (by norm_num)
      · have hq : 0 < d1 / (d1 - d2) := not_le.mp h2
        have hden : 0 < d1 - d2 := by
          rcases lt_trichotomy (d1 - d2) 0 with hn | hz | hp
          · exact absurd hq (not_lt.mpr (le_of_lt (div_neg_of_pos_of_neg hd1 hn)))
          · exact absurd (sub_eq_zero.mp hz) h1a
          · exact hp
        refine lt_of_lt_of_le ?_ hle1
        apply div_lt_div_of_pos_right _ hden
        unfold SURFACE_CLIP_EPSILON
        linarith

theorem LoweredPlane_CM_TracePoint_facets (sc : cSurfaceCollide_t) (state : List (Bool × ℚ)) :
    ∀ (l : List cFacet_t) (tw tw1 : traceWork_t),
      (∀ (k : Nat) (p : cPlane_t) (v : Bool × ℚ), sc.planes[k]? = some p →
        state[k]? = some v → v = CM_TracePoint_planeState tw p) →
      tw.trace.fraction ≤ 1 →
      CM_TracePoint_facets sc state tw l = some tw1 → LoweredPlane tw tw1 := by
  intro l
  induction l with
  | nil =>
    intro tw tw1 _ _ h
    simp only [CM_TracePoint_facets, Option.some.injEq] at h
    rw [← h]
    exact LoweredPlane_refl _
  | cons facet rest ih =>
    intro tw tw1 hst hf1 h
    rw [CM_TracePoint_facets] at h
    split at h
    · exact absurd h (by simp)
    · rename_i frontFacing intersect hlook
      split_ifs at h with h1 h2 h3
      · exact ih tw tw1 hst hf1 h
      · exact ih tw tw1 hst hf1 h
      · exact ih tw tw1 hst hf1 h
      · split at h
        · exact absurd h (by simp)
        · exact ih tw tw1 hst hf1 h
        · split at h
          · exact absurd h (by simp)
          · rename_i planes hpl
            have hv := hst _ _ _ hpl hlook
            have hff : (CM_TracePoint_planeState tw planes).1 = true := by
              rw [← hv]
              simpa using h1
            have hle : ¬ (CM_TracePoint_planeState tw planes).2 > tw.trace.fraction := by
              rw [← hv]
              exact h3
            have hrec := LoweredPlane_CM_TracePoint_record tw planes hff hle hf1
            refine LoweredPlane_trans hrec ?_
            exact ih _ tw1 (fun k p v hp hs => hst k p v hp hs)
              (le_trans (LoweredPlane_le hrec) hf1) h

theorem LoweredPlane_CM_TraceThroughSurfaceCollide_facets (sc : cSurfaceCollide_t) :
    ∀ (l : List cFacet_t) (tw tw1 : traceWork_t) (bestplane : plane_t),
      CM_TraceThroughSurfaceCollide_facets sc tw bestplane l = some tw1 →
      LoweredPlane tw tw1 := by
  intro l
  induction l with
  | nil =>
    intro tw tw1 _ h
    simp only [CM_TraceThroughSurfaceCollide_facets, Option.some.injEq] at h
    rw [← h]
    exact LoweredPlane_refl _
  | cons facet rest ih =>
    intro tw tw1 bestplane h
    rw [CM_TraceThroughSurfaceCollide_facets] at h
    split at h
    · exact absurd h (by simp)
    · simp only at h
      split at h
      · exact ih _ _ _ h
      · split at h
        · exact absurd h (by simp)
        · exact ih _ _ _ h
        · rename_i st hb
          split at h
          · exact ih _ _ _ h
          · split at h
            · rename_i h3
              split at h
              · rename_i h4
                refine LoweredPlane_trans ?_ (ih _ _ _ h)
                right
                refine ⟨?_, ?_, rfl⟩
                · show (0 : ℚ) ≤ (if st.enterFrac < 0 then 0 else st.enterFrac)
                  rw [if_neg (not_lt.mpr h3.2)]
                  exact h3.2
                · show (if st.enterFrac < 0 then 0 else st.enterFrac) < tw.trace.fraction
                  rw [if_neg (not_lt.mpr h3.2)]
                  exact h4
              · exact ih _ _ _ h
            · exact ih _ _ _ h

theorem LoweredPlane_CM_TraceThroughSurfaceCollide (env : Env) (tw tw1 : traceWork_t)
    (sc : cSurfaceCollide_t) (hf1 : tw.trace.fraction ≤ 1)
    (h : CM_TraceThroughSurfaceCollide env tw sc = some tw1) : LoweredPlane tw tw1 := by
  unfold CM_TraceThroughSurfaceCollide at h
  split_ifs at h with h1 h2
  · simp only [Option.some.injEq] at h
    rw [← h]
    exact LoweredPlane_refl _
  · unfold CM_TracePointThroughSurfaceCollide at h
    split_ifs at h with h3
    · simp only [Option.some.injEq] at h
      rw [← h]
      exact LoweredPlane_refl _
    · refine LoweredPlane_CM_TracePoint_facets sc _ sc.facets tw tw1 ?_ hf1 h
      intro k p v hp hs
      rw [List.getElem?_map, hp] at hs
      simpa using hs.symm
  · exact LoweredPlane_CM_TraceThroughSurfaceCollide_facets sc _ _ _ _ h

theorem LoweredPlane_CM_TraceThroughSurface_call (env : Env) (tw tw1 : traceWork_t)
    (surface : cSurface_t) (guard : Bool) (t : mapSurfaceType_t) (hf1 : tw.trace.fraction ≤ 1)
    (h : CM_TraceThroughSurface_call env tw surface guard t = some tw1) :
    LoweredPlane tw tw1 := by
  unfold CM_TraceThroughSurface_call at h
  split at h
  · split at h
    · simp only [Option.some.injEq] at h
      rw [← h]
      exact LoweredPlane_refl _
    · exact LoweredPlane_CM_TraceThroughSurfaceCollide env _ _ _ hf1 h
  · simp only [Option.some.injEq] at h
    rw [← h]
    exact LoweredPlane_refl _

/-- C27: for a trace state with a fraction of at most 1, `CM_TraceThroughSurface`
(on the point path and on the volume path) returns the trace state that it
was given, or that state with a fraction that is at least 0 and strictly
lower, with another plane and with the surface flags and the contents of the
surface: the plane is written only together with a strictly lower fraction,
and then surface flags and contents are those of the same surface.  On a
surface whose collide data is well formed the function returns. -/
theorem C27_surface_hit_fields (env : Env) (cm : clipMap_t) (tw : traceWork_t)
    (surface : cSurface_t) (hf1 : tw.trace.fraction ≤ 1) :
    (∀ r, CM_TraceThroughSurface env cm tw surface = some r →
      r = tw ∨
      (0 ≤ r.trace.fraction ∧ r.trace.fraction < tw.trace.fraction ∧
        r.trace.surfaceFlags = surface.surfaceFlags ∧ r.trace.contents = surface.contents ∧
        r = { tw with trace := { tw.trace with
                fraction := r.trace.fraction
                plane := r.trace.plane
                surfaceFlags := surface.surfaceFlags
                contents := surface.contents } })) ∧
    ((∀ sc, surface.sc = some sc → SurfaceCollideOk sc) →
      ∃ r, CM_TraceThroughSurface env cm tw surface = some r) := by
  refine ⟨?_, total_CM_TraceThroughSurface env cm tw surface⟩
  intro r h
  unfold CM_TraceThroughSurface at h
  simp only at h
  split at h
  · exact absurd h (by simp)
  · rename_i twa ha
    split at h
    · exact absurd h (by simp)
    · rename_i twb hb
      have hla := LoweredPlane_CM_TraceThroughSurface_call _ _ _ _ _ _ hf1 ha
      have hlb := LoweredPlane_CM_TraceThroughSurface_call _ _ _ _ _ _
        (le_trans (LoweredPlane_le hla) hf1) hb
      have hl := LoweredPlane_trans hla hlb
      split at h
      · rename_i hlt
        simp only [Option.some.injEq] at h
        rcases hl with hl | ⟨a, b, c⟩
        · rw [hl] at hlt
          exact absurd hlt (lt_irrefl _)
        · right
          rw [← h]
          refine ⟨a, b, rfl, rfl, ?_⟩
          rw [c]
      · rename_i hlt
        simp only [Option.some.injEq] at h
        rcases hl with hl | ⟨a, b, c⟩
        · left
          rw [← h, hl]
        · exact absurd b hlt

theorem examplePatch_ok : SurfaceCollideOk examplePatch := by
  unfold SurfaceCollideOk
  decide

/-- C27, on the example data: the point swept from `(1/2, 1/2, 1)` to
`(1/2, 1/2, -1)` hits the example patch at the fraction `7/16`, and the box
`[-1,1]³` swept from `(1/2, 1/2, 3)` to `(1/2, 1/2, -3)` hits it at `5/16`;
both results carry the surface flags 7 and the contents 1 of the surface. -/
theorem C27_surface_hit_fields_witness :
    examplePointDownWork.trace.fraction ≤ 1 ∧
    (CM_TraceThroughSurface exampleEnv examplePatchWorld examplePointDownWork
        examplePatchSurface).map (fun r => r.trace)
      = some { defaultTrace with fraction := 7 / 16, plane := ⟨⟨0, 0, 1⟩, 0⟩, surfaceFlags := 7,
                                 contents := 1 } ∧
    (CM_TraceThroughSurface exampleEnv examplePatchWorld exampleBoxDownWork
        examplePatchSurface).map (fun r => r.trace)
      = some { defaultTrace with fraction := 5 / 16, plane := ⟨⟨0, 0, 1⟩, 1⟩, surfaceFlags := 7,
                                 contents := 1 } ∧
    ∃ r, CM_TraceThroughSurface exampleEnv examplePatchWorld examplePointDownWork
        examplePatchSurface = some r :=
  ⟨by decide!, by decide!, by decide!,
    (C27_surface_hit_fields exampleEnv examplePatchWorld examplePointDownWork
      examplePatchSurface (by decide!)).2 (fun sc h => by
        have : sc = examplePatch := by
          simp only [examplePatchSurface, Option.some.injEq] at h
          exact h.symm
        rw [this]
        exact examplePatch_ok)⟩

theorem CM_TracePoint_facets_cons (sc : cSurfaceCollide_t) (state : List (Bool × ℚ))
    (tw : traceWork_t) (facet : cFacet_t) (rest : List cFacet_t) :
    CM_TracePoint_facets sc state tw (facet :: rest)
      = (CM_TracePoint_facet sc state tw facet).bind
          (fun r => CM_TracePoint_facets sc state r.1 rest) := by
  rw [CM_TracePoint_facets]
  unfold CM_TracePoint_facet
  cases state[facet.surfacePlane]? with
  | none => rfl
  | some v =>
    obtain ⟨frontFacing, intersect⟩ := v
    simp only
    split_ifs <;> first
      | rfl
      | (rcases CM_TracePoint_borders state intersect facet.borders with _ | _ | _ <;> first
          | rfl
          | (cases sc.planes[facet.surfacePlane]? <;> rfl))

theorem CM_TracePoint_planeState_record (tw : traceWork_t) (planes p : cPlane_t) :
    CM_TracePoint_planeState (CM_TracePoint_record tw planes) p
      = CM_TracePoint_planeState tw p := rfl

theorem CM_TracePoint_planeState_point (tw : traceWork_t) (p : cPlane_t)
    (hoff : ∀ b, tw.offsets b = ⟨0, 0, 0⟩) :
    CM_TracePoint_planeState tw p
      = (if planeDistance p.plane tw.start ≤ 0 then false else true,
         if planeDistance p.plane tw.start = planeDistance p.plane tw.end_ then 99999
         else if planeDistance p.plane tw.start
              / (planeDistance p.plane tw.start - planeDistance p.plane tw.end_) ≤ 0 then 99999
         else planeDistance p.plane tw.start
              / (planeDistance p.plane tw.start - planeDistance p.plane tw.end_)) := by
  unfold CM_TracePoint_planeState planeDistance
  simp only [hoff, DotProduct, zero_mul, add_zero]

theorem planeDistance_lerp (p : plane_t) (s e : Vec3) (f : ℚ) :
    planeDistance p (VectorMA s f (VectorSubtract e s))
      = planeDistance p s + f * (planeDistance p e - planeDistance p s) := by
  unfold planeDistance DotProduct VectorMA VectorSubtract
  ring

theorem point_border_inside (e1 e2 f : ℚ) (inward : Bool) (hf0 : 0 < f) (hf1 : f ≤ 1)
    (hpass : if (if e1 ≤ 0 then false else true) ≠ inward then
        ¬(if e1 = e2 then 99999 else if e1 / (e1 - e2) ≤ 0 then 99999 else e1 / (e1 - e2)) > f
      else
        ¬(if e1 = e2 then 99999 else if e1 / (e1 - e2) ≤ 0 then 99999 else e1 / (e1 - e2)) < f)
    (hne : e1 ≠ 0) :
    (if inward then -(e1 + f * (e2 - e1)) else e1 + f * (e2 - e1)) ≤ 0 := by
  have hbig : ¬((99999 : ℚ) ≤ f) := by
    intro h
    have : (99999 : ℚ) ≤ 1 := le_trans h hf1
    norm_num at this
  by_cases heq : e1 = e2
  · -- the trace is parallel to the border
    simp only [heq, if_true] at hpass
    cases inward with
    | false =>
      by_cases h1 : e2 ≤ 0
      · simp only [Bool.false_eq_true, if_false]
        rw [heq]
        linarith
      · simp only [h1, if_false, ne_eq, Bool.true_eq_false, not_false_eq_true, if_true,
          gt_iff_lt, not_lt] at hpass
        exact absurd hpass hbig
    | true =>
      by_cases h1 : e2 ≤ 0
      · simp only [h1, if_true, ne_eq, Bool.false_eq_true, not_false_eq_true, gt_iff_lt,
          not_lt] at hpass
        exact absurd hpass hbig
      · simp only [if_true]
        rw [heq]
        linarith [not_le.mp h1]
  · simp only [heq, if_false] at hpass
    have hd : e1 - e2 ≠ 0 := fun h => heq (sub_eq_zero.mp h)
    by_cases hq : e1 / (e1 - e2) ≤ 0
    · -- the border is crossed behind the start
      simp only [hq, if_true] at hpass
      have hsign : (0 < e1 ∧ e1 < e2) ∨ (e1 < 0 ∧ e2 < e1) := by
        rcases lt_or_gt_of_ne hne with h | h
        · right
          refine ⟨h, ?_⟩
          by_contra hc
          have hden : e1 - e2 < 0 := by
            rcases lt_or_gt_of_ne hd with h2 | h2
            · exact h2
            · exact absurd (by linarith : e2 < e1) hc
          have := div_pos_of_neg_of_neg h hden
          exact absurd hq (not_le.mpr this)
        · left
          refine ⟨h, ?_⟩
          by_contra hc
          have hden : 0 < e1 - e2 := by
            rcases lt_or_gt_of_ne hd with h2 | h2
            · exact absurd (by linarith : e1 < e2) hc
            · exact h2
          have := div_pos h hden
          exact absurd hq (not_le.mpr this)
      cases inward with
      | false =>
        rcases hsign with ⟨h1, h2⟩ | ⟨h1, h2⟩
        · simp only [not_le.mpr h1, if_false, ne_eq, Bool.true_eq_false, not_false_eq_true,
            if_true, gt_iff_lt, not_lt] at hpass
          exact absurd hpass hbig
        · simp only [Bool.false_eq_true, if_false]
          nlinarith
      | true =>
        rcases hsign with ⟨h1, h2⟩ | ⟨h1, h2⟩
        · simp only [if_true]
          nlinarith
        · simp only [le_of_lt h1, if_true, ne_eq, Bool.false_eq_true, not_false_eq_true,
            gt_iff_lt, not_lt] at hpass
          exact absurd hpass hbig
    · -- the border is crossed ahead of the start
      simp only [hq, if_false] at hpass
      have hqpos : 0 < e1 / (e1 - e2) := not_le.mp hq
      rcases lt_or_gt_of_ne hne with h | h
      · -- back-facing: the divisor is negative
        have hden : e1 - e2 < 0 := by
          rcases lt_or_gt_of_ne hd with h2 | h2
          · exact h2
          · exact absurd hqpos (not_lt.mpr (le_of_lt (div_neg_of_neg_of_pos h h2)))
        cases inward with
        | false =>
          simp only [le_of_lt h, if_true, ne_eq, not_true_eq_false, if_false, not_lt] at hpass
          simp only [Bool.false_eq_true, if_false]
          rw [le_div_iff_of_neg hden] at hpass
          linarith
        | true =>
          simp only [le_of_lt h, if_true, ne_eq, Bool.false_eq_true, not_false_eq_true,
            gt_iff_lt, not_lt] at hpass
          simp only [if_true]
          rw [div_le_iff_of_neg hden] at hpass
          linarith
      · -- front-facing: the divisor is positive
        have hden : 0 < e1 - e2 := by
          rcases lt_or_gt_of_ne hd with h2 | h2
          · exact absurd hqpos (not_lt.mpr (le_of_lt (div_neg_of_pos_of_neg h h2)))
          · exact h2
        cases inward with
        | false =>
          simp only [not_le.mpr h, if_false, ne_eq, Bool.true_eq_false, not_false_eq_true,
            if_true, gt_iff_lt, not_lt] at hpass
          simp only [Bool.false_eq_true, if_false]
          rw [div_le_iff₀ hden] at hpass
          linarith
        | true =>
          simp only [not_le.mpr h, if_false, ne_eq, not_true_eq_false, not_lt] at hpass
          simp only [if_true]
          rw [le_div_iff₀ hden] at hpass
          linarith

theorem CM_TracePoint_borders_inside (sc : cSurfaceCollide_t) (tw : traceWork_t)
    (hoff : ∀ b, tw.offsets b = ⟨0, 0, 0⟩) (f : ℚ) (hf0 : 0 < f) (hf1 : f ≤ 1) :
    ∀ l : List (Nat × Bool),
      CM_TracePoint_borders (sc.planes.map (CM_TracePoint_planeState tw)) f l = some true →
      ∀ b ∈ l, ∃ bp, sc.planes[b.1]? = some bp ∧
        (planeDistance bp.plane tw.start ≠ 0 →
          (if b.2 then
              -planeDistance bp.plane (VectorMA tw.start f (VectorSubtract tw.end_ tw.start))
            else planeDistance bp.plane (VectorMA tw.start f (VectorSubtract tw.end_ tw.start)))
            ≤ 0) := by
  intro l
  induction l with
  | nil =>
    intro _ b hb
    exact absurd hb (List.not_mem_nil _)
  | cons a rest ih =>
    intro h b hb
    obtain ⟨k, inward⟩ := a
    rw [CM_TracePoint_borders, List.getElem?_map] at h
    cases hk : sc.planes[k]? with
    | none =>
      rw [hk] at h
      exact absurd h (by simp)
    | some bp =>
      rw [hk] at h
      simp only [Option.map_some'] at h
      have hrest : CM_TracePoint_borders (sc.planes.map (CM_TracePoint_planeState tw)) f rest
            = some true
          ∧ (if (CM_TracePoint_planeState tw bp).1 ≠ inward then
              ¬(CM_TracePoint_planeState tw bp).2 > f
            else ¬(CM_TracePoint_planeState tw bp).2 < f) := by
        by_cases hc : (CM_TracePoint_planeState tw bp).1 ≠ inward
        · rw [if_pos hc] at h
          rw [if_pos hc]
          by_cases hi : (CM_TracePoint_planeState tw bp).2 > f
          · rw [if_pos hi] at h
            exact absurd h (by simp)
          · rw [if_neg hi] at h
            exact ⟨h, hi⟩
        · rw [if_neg hc] at h
          rw [if_neg hc]
          by_cases hi : (CM_TracePoint_planeState tw bp).2 < f
          · rw [if_pos hi] at h
            exact absurd h (by simp)
          · rw [if_neg hi] at h
            exact ⟨h, hi⟩
      rcases List.mem_cons.mp hb with hb1 | hb1
      · rw [hb1]
        refine ⟨bp, hk, ?_⟩
        intro hne
        have hpass := hrest.2
        rw [CM_TracePoint_planeState_point tw bp hoff] at hpass
        simp only at hpass
        have := point_border_inside (planeDistance bp.plane tw.start)
          (planeDistance bp.plane tw.end_) f inward hf0 hf1 hpass hne
        rw [planeDistance_lerp]
        exact this
      · exact ih hrest.1 b hb1

/-- On the sweep branch of `CM_Trace`, a trace state with `isPoint` set has
all eight corner offsets zero. -/
theorem sweepWork_point_offsets (env : Env) (start end_ mins maxs origin : Vec3)
    (brushmask skipmask : Nat) (type : traceType_t) (sphere : Option sphere_t) (t : trace_t)
    (hp : (sweepWork env start end_ mins maxs origin brushmask skipmask type sphere t).isPoint
      = true) :
    ∀ b, (sweepWork env start end_ mins maxs origin brushmask skipmask type sphere t).offsets b
      = ⟨0, 0, 0⟩ := by
  have hoffs : (sweepWork env start end_ mins maxs origin brushmask skipmask type sphere
        t).offsets
      = CM_Trace_offsets (VectorSubtract mins (boxCentre mins maxs))
          (VectorSubtract maxs (boxCentre mins maxs)) := by
    unfold sweepWork CM_Trace_point
    split_ifs <;> rfl
  have hz : (VectorSubtract mins (boxCentre mins maxs)).x = 0
      ∧ (VectorSubtract mins (boxCentre mins maxs)).y = 0
      ∧ (VectorSubtract mins (boxCentre mins maxs)).z = 0 := by
    by_contra hc
    have : (sweepWork env start end_ mins maxs origin brushmask skipmask type sphere t).isPoint
        = false := by
      have hc1 : ¬((CM_Trace_setup env start end_ mins maxs origin brushmask skipmask type
            sphere).size0.x = 0
          ∧ (CM_Trace_setup env start end_ mins maxs origin brushmask skipmask type
            sphere).size0.y = 0
          ∧ (CM_Trace_setup env start end_ mins maxs origin brushmask skipmask type
            sphere).size0.z = 0) := hc
      unfold sweepWork CM_Trace_point
      rw [if_neg hc1]
    rw [this] at hp
    exact absurd hp (by simp)
  rw [hoffs]
  obtain ⟨hx, hy, hz1⟩ := hz
  simp only [VectorSubtract, boxCentre] at hx hy hz1 ⊢
  have h1 : maxs.x - (mins.x + maxs.x) * (1 / 2) = 0 := by linarith
  have h2 : maxs.y - (mins.y + maxs.y) * (1 / 2) = 0 := by linarith
  have h3 : maxs.z - (mins.z + maxs.z) * (1 / 2) = 0 := by linarith
  intro b
  fin_cases b <;> simp [CM_Trace_offsets] <;> refine ⟨?_, ?_, ?_⟩ <;> linarith

/-- C28: on a point sweep (the corner offsets are zero) with a fraction of at
most 1, when a facet records a hit in `CM_TracePointThroughSurfaceCollide`,
the start is in front of the surface plane of the facet (`d1 > 0`), the trace
goes towards it (`d1 - d2 > 0`), the crossing parameter `f = d1 / (d1 - d2)`
is above 0 and at most the fraction of the trace, and for every border of the
facet, the last one included, whose plane does not pass through the start,
the point `start + f * (end - start)` is on the inner side: its signed
distance to the border plane, negated when the border is inward, is at most 0.
The recorded fraction is `max(0, (d1 - SURFACE_CLIP_EPSILON) / (d1 - d2))` and
the recorded plane is the surface plane as stored.  The facet loop is this
step facet by facet, a recorded hit does not change the plane states, and a
trace state that `CM_Trace` sets up with `isPoint` set has zero corner
offsets. -/
theorem C28_point_facet_hit (sc : cSurfaceCollide_t) (tw : traceWork_t) (facet : cFacet_t) :
    (∀ (state : List (Bool × ℚ)) (rest : List cFacet_t),
      CM_TracePoint_facets sc state tw (facet :: rest)
        = (CM_TracePoint_facet sc state tw facet).bind
            (fun r => CM_TracePoint_facets sc state r.1 rest)) ∧
    (∀ planes p : cPlane_t,
      CM_TracePoint_planeState (CM_TracePoint_record tw planes) p
        = CM_TracePoint_planeState tw p) ∧
    (∀ tw1 : traceWork_t, (∀ b, tw.offsets b = ⟨0, 0, 0⟩) → tw.trace.fraction ≤ 1 →
      CM_TracePoint_facet sc (sc.planes.map (CM_TracePoint_planeState tw)) tw facet
        = some (tw1, true) →
      ∃ (planes : cPlane_t) (d1 d2 : ℚ),
        sc.planes[facet.surfacePlane]? = some planes ∧
        d1 = planeDistance planes.plane tw.start ∧ d2 = planeDistance planes.plane tw.end_ ∧
        d1 > 0 ∧ d1 - d2 > 0 ∧ 0 < d1 / (d1 - d2) ∧ d1 / (d1 - d2) ≤ tw.trace.fraction ∧
        tw1.trace.fraction = max 0 ((d1 - SURFACE_CLIP_EPSILON) / (d1 - d2)) ∧
        tw1.trace.plane = planes.plane ∧
        ∀ b ∈ facet.borders, ∃ bp, sc.planes[b.1]? = some bp ∧
          (planeDistance bp.plane tw.start ≠ 0 →
            (if b.2 then
                -planeDistance bp.plane
                  (VectorMA tw.start (d1 / (d1 - d2)) (VectorSubtract tw.end_ tw.start))
              else planeDistance bp.plane
                  (VectorMA tw.start (d1 / (d1 - d2)) (VectorSubtract tw.end_ tw.start)))
              ≤ 0)) ∧
    (∀ (env : Env) (start end_ mins maxs origin : Vec3) (brushmask skipmask : Nat)
        (type : traceType_t) (sphere : Option sphere_t) (t : trace_t),
      tw = sweepWork env start end_ mins maxs origin brushmask skipmask type sphere t →
      tw.isPoint = true → ∀ b, tw.offsets b = ⟨0, 0, 0⟩) := by
  refine ⟨fun state rest => CM_TracePoint_facets_cons sc state tw facet rest,
    fun planes p => rfl, ?_,
    fun env start end_ mins maxs origin brushmask skipmask type sphere t htw hp => by
      rw [htw] at hp ⊢
      exact sweepWork_point_offsets env start end_ mins maxs origin brushmask skipmask type
        sphere t hp⟩
  intro tw1 hoff hf1 h
  unfold CM_TracePoint_facet at h
  rw [List.getElem?_map] at h
  cases hk : sc.planes[facet.surfacePlane]? with
  | none =>
    rw [hk] at h
    exact absurd h (by simp)
  | some planes =>
    rw [hk] at h
    simp only [Option.map_some'] at h
    split_ifs at h with h1 h2 h3
    · simp only [Option.some.injEq, Prod.mk.injEq, Bool.false_eq_true, and_false] at h
    · simp only [Option.some.injEq, Prod.mk.injEq, Bool.false_eq_true, and_false] at h
    · simp only [Option.some.injEq, Prod.mk.injEq, Bool.false_eq_true, and_false] at h
    have hff : (CM_TracePoint_planeState tw planes).1 = true := by simpa using h1
    have hfront := planeState_front tw planes hff
    have hpt := CM_TracePoint_planeState_point tw planes hoff
    have hd1 : planeDistance planes.plane tw.start > 0 := by
      unfold planeDistance
      simp only [hoff, DotProduct, zero_mul, add_zero] at hfront
      simpa [DotProduct] using hfront
    have hinter : (CM_TracePoint_planeState tw planes).2 ≤ 1 := le_trans (not_lt.mp h3) hf1
    have hval : planeDistance planes.plane tw.start ≠ planeDistance planes.plane tw.end_ ∧
        0 < planeDistance planes.plane tw.start
          / (planeDistance planes.plane tw.start - planeDistance planes.plane tw.end_) ∧
        (CM_TracePoint_planeState tw planes).2
          = planeDistance planes.plane tw.start
            / (planeDistance planes.plane tw.start - planeDistance planes.plane tw.end_) := by
      rw [hpt] at hinter ⊢
      simp only at hinter ⊢
      split_ifs at hinter ⊢ with ha hb
      · norm_num at hinter
      · norm_num at hinter
      · exact ⟨ha, not_le.mp hb, rfl⟩
    obtain ⟨hne, hqpos, hq⟩ := hval
    have hden : 0 < planeDistance planes.plane tw.start - planeDistance planes.plane tw.end_ := by
      rcases lt_trichotomy
        (planeDistance planes.plane tw.start - planeDistance planes.plane tw.end_) 0
        with hn | hz | hp
      · exact absurd hqpos (not_lt.mpr (le_of_lt (div_neg_of_pos_of_neg hd1 hn)))
      · exact absurd (sub_eq_zero.mp hz) hne
      · exact hp
    rw [hq] at h h3
    cases hbd : CM_TracePoint_borders (sc.planes.map (CM_TracePoint_planeState tw))
        (planeDistance planes.plane tw.start
          / (planeDistance planes.plane tw.start - planeDistance planes.plane tw.end_))
        facet.borders with
    | none =>
      rw [hbd] at h
      exact absurd h (by simp)
    | some r =>
      rw [hbd] at h
      cases r with
      | false =>
        simp only [Option.some.injEq, Prod.mk.injEq, Bool.false_eq_true, and_false] at h
      | true =>
        simp only [Option.some.injEq, Prod.mk.injEq, and_true] at h
        refine ⟨planes, _, _, rfl, rfl, rfl, hd1, hden, hqpos, not_lt.mp h3, ?_, ?_, ?_⟩
        · rw [← h]
          unfold CM_TracePoint_record planeDistance
          simp only [hoff, DotProduct, zero_mul, add_zero]
          split_ifs with hc
          · exact (max_eq_left (le_of_lt hc)).symm
          · exact (max_eq_right (not_lt.mp hc)).symm
        · rw [← h]
          rfl
        · exact CM_TracePoint_borders_inside sc tw hoff _ hqpos
            (le_trans (not_lt.mp h3) hf1) facet.borders hbd

/-- C28, on the example data: the point swept from `(1/2, 1/2, 1)` to
`(1/2, 1/2, -1)` crosses the surface plane of the example patch at `f = 1/2`,
inside all five borders; the facet records the fraction `7/16`. -/
theorem C28_point_facet_hit_witness :
    (∀ b, examplePointDownWork.offsets b = ⟨0, 0, 0⟩) ∧
    examplePointDownWork.trace.fraction ≤ 1 ∧
    (CM_TracePoint_facet examplePatch
        (examplePatch.planes.map (CM_TracePoint_planeState examplePointDownWork))
        examplePointDownWork ⟨0, [(1, false), (2, false), (3, false), (4, false), (0, true)]⟩).map
        (fun r => (r.1.trace.fraction, r.1.trace.plane, r.2))
      = some (7 / 16, ⟨⟨0, 0, 1⟩, 0⟩, true) ∧
    ∃ tw1 : traceWork_t,
      CM_TracePoint_facet examplePatch
          (examplePatch.planes.map (CM_TracePoint_planeState examplePointDownWork))
          examplePointDownWork ⟨0, [(1, false), (2, false), (3, false), (4, false), (0, true)]⟩
        = some (tw1, true) ∧
      ∃ (planes : cPlane_t) (d1 d2 : ℚ),
        examplePatch.planes[0]? = some planes ∧
        d1 = planeDistance planes.plane examplePointDownWork.start ∧
        d2 = planeDistance planes.plane examplePointDownWork.end_ ∧
        d1 > 0 ∧ d1 - d2 > 0 ∧ 0 < d1 / (d1 - d2) ∧
        d1 / (d1 - d2) ≤ examplePointDownWork.trace.fraction ∧
        tw1.trace.fraction = max 0 ((d1 - SURFACE_CLIP_EPSILON) / (d1 - d2)) ∧
        tw1.trace.plane = planes.plane ∧
        ∀ b ∈ [(1, false), (2, false), (3, false), (4, false), (0, true)],
          ∃ bp, examplePatch.planes[b.1]? = some bp ∧
            (planeDistance bp.plane examplePointDownWork.start ≠ 0 →
              (if b.2 then
                  -planeDistance bp.plane
                    (VectorMA examplePointDownWork.start (d1 / (d1 - d2))
                      (VectorSubtract examplePointDownWork.end_ examplePointDownWork.start))
                else planeDistance bp.plane
                    (VectorMA examplePointDownWork.start (d1 / (d1 - d2))
                      (VectorSubtract examplePointDownWork.end_ examplePointDownWork.start)))
                ≤ 0) := by
  have hoff : ∀ b, examplePointDownWork.offsets b = ⟨0, 0, 0⟩ := by decide!
  have hf1 : examplePointDownWork.trace.fraction ≤ 1 := by decide!
  have hres : (CM_TracePoint_facet examplePatch
        (examplePatch.planes.map (CM_TracePoint_planeState examplePointDownWork))
        examplePointDownWork
        ⟨0, [(1, false), (2, false), (3, false), (4, false), (0, true)]⟩).map (fun r => r.2)
      = some true := by decide!
  refine ⟨hoff, hf1, by decide!, ?_⟩
  cases hstep : CM_TracePoint_facet examplePatch
      (examplePatch.planes.map (CM_TracePoint_planeState examplePointDownWork))
      examplePointDownWork ⟨0, [(1, false), (2, false), (3, false), (4, false), (0, true)]⟩ with
  | none =>
    rw [hstep] at hres
    exact absurd hres (by simp)
  | some r =>
    obtain ⟨tw1, b⟩ := r
    rw [hstep] at hres
    simp only [Option.map_some', Option.some.injEq] at hres
    subst hres
    exact ⟨tw1, rfl, (C28_point_facet_hit examplePatch examplePointDownWork
      ⟨0, [(1, false), (2, false), (3, false), (4, false), (0, true)]⟩).2.2.1 tw1 hoff hf1 hstep⟩

theorem CM_TraceThroughSurfaceCollide_facets_cons (sc : cSurfaceCollide_t) (tw : traceWork_t)
    (bestplane : plane_t) (facet : cFacet_t) (rest : List cFacet_t) :
    CM_TraceThroughSurfaceCollide_facets sc tw bestplane (facet :: rest)
      = (CM_TraceThroughSurfaceCollide_facet sc tw bestplane facet).bind
          (fun r => CM_TraceThroughSurfaceCollide_facets sc r.1 r.2.1 rest) := by
  rw [CM_TraceThroughSurfaceCollide_facets]
  unfold CM_TraceThroughSurfaceCollide_facet
  cases sc.planes[facet.surfacePlane]? with
  | none => rfl
  | some planes =>
    simp only
    generalize CM_CheckFacetPlane _ _ _ (-1) 1 = r
    obtain ⟨a, b, c, d⟩ := r
    cases a with
    | false => rfl
    | true =>
      simp only [Bool.not_true, Bool.false_eq_true, if_false]
      generalize CM_TraceThroughSurfaceCollide_borders tw sc 0 _ facet.borders = q
      rcases q with _ | ⟨b, st⟩
      · rfl
      · cases b with
        | false => rfl
        | true =>
          simp only
          split_ifs <;> rfl

theorem FacetInv_step (cands : List (Option (plane_t × Vec3 × Vec3))) (n : Nat)
    (st st1 : FacetLoop) (e : plane_t × Vec3 × Vec3) (hinv : FacetInv cands n st)
    (hc : cands[n]? = some (some e))
    (hacc : (CM_CheckFacetPlane e.1 e.2.1 e.2.2 st.enterFrac st.leaveFrac).1 = true)
    (he : st1.enterFrac = (CM_CheckFacetPlane e.1 e.2.1 e.2.2 st.enterFrac st.leaveFrac).2.1)
    (hhit : (CM_CheckFacetPlane e.1 e.2.1 e.2.2 st.enterFrac st.leaveFrac).2.2.2 = true →
      st1.hitnum = (n : Int) - 1 ∧ st1.bestplane = e.1)
    (hno : (CM_CheckFacetPlane e.1 e.2.1 e.2.2 st.enterFrac st.leaveFrac).2.2.2 = false →
      st1.hitnum = st.hitnum ∧ st1.bestplane = st.bestplane) :
    FacetInv cands (n + 1) st1 := by
  have hd1 : DotProduct e.2.1 e.1.normal - e.1.dist = (planeDistances e).1 := rfl
  have hd2 : DotProduct e.2.2 e.1.normal - e.1.dist = (planeDistances e).2 := rfl
  rw [CM_CheckFacetPlane_branches] at hacc he hhit hno
  rw [hd1, hd2] at hacc he hhit hno
  have hsame : ∀ (k1 : Nat) (c1 : plane_t × Vec3 × Vec3), k1 < n + 1 →
      cands[k1]? = some (some c1) → k1 < n ∨ (k1 = n ∧ c1 = e) := by
    intro k1 c1 hk hc1
    rcases Nat.lt_succ_iff_lt_or_eq.mp hk with h | h
    · exact Or.inl h
    · right
      refine ⟨h, ?_⟩
      rw [h, hc] at hc1
      simp only [Option.some.injEq] at hc1
      exact hc1.symm
  by_cases hr : sideRejects (planeDistances e).1 (planeDistances e).2
  · rw [if_pos hr] at hacc
    exact absurd hacc (by simp)
  · rw [if_neg hr] at he hhit hno
    by_cases hb : enterBranch (planeDistances e).1 (planeDistances e).2
    · rw [if_pos hb] at he hhit hno
      by_cases hf : enterFraction (planeDistances e).1 (planeDistances e).2 > st.enterFrac
      · rw [if_pos hf] at he hhit hno
        simp only at he hhit
        obtain ⟨hh, hbp⟩ := hhit trivial
        right
        refine ⟨n, e, Nat.lt_succ_self n, hc, hb, he, hbp, hh, ?_, ?_⟩
        · intro k1 c1 hk hc1 hb1
          rw [he]
          rcases hsame k1 c1 hk hc1 with h | ⟨_, h⟩
          · rcases hinv with ⟨_, _, hnone⟩ | ⟨_, _, _, _, _, _, _, _, hle, _⟩
            · exact absurd hb1 (hnone k1 c1 h hc1)
            · exact le_trans (hle k1 c1 h hc1 hb1) (le_of_lt hf)
          · rw [h]
        · intro k1 c1 hk hc1 hb1
          rw [he]
          rcases hinv with ⟨_, _, hnone⟩ | ⟨_, _, _, _, _, _, _, _, hle, _⟩
          · exact absurd hb1 (hnone k1 c1 hk hc1)
          · exact lt_of_le_of_lt (hle k1 c1 hk hc1 hb1) hf
      · rw [if_neg hf] at he hhit hno
        simp only at he hno
        obtain ⟨hh, hbp⟩ := hno trivial
        rcases hinv with ⟨hm1, _, _⟩ | ⟨k, c, hk, hck, hbk, hek, hbpk, hhk, hle, hlt⟩
        · rw [hm1] at hf
          exact absurd (lt_of_lt_of_le (by norm_num : (-1 : ℚ) < 0)
            (enterFraction_nonneg _ _)) hf
        · right
          refine ⟨k, c, Nat.lt_succ_of_lt hk, hck, hbk, he.trans hek, hbp.trans hbpk,
            hh.trans hhk, ?_, ?_⟩
          · intro k1 c1 hk1 hc1 hb1
            rw [he]
            rcases hsame k1 c1 hk1 hc1 with h | ⟨_, h⟩
            · exact hle k1 c1 h hc1 hb1
            · rw [h]
              exact not_lt.mp hf
          · intro k1 c1 hk1 hc1 hb1
            rw [he]
            exact hlt k1 c1 hk1 hc1 hb1
    · rw [if_neg hb] at he hhit hno
      have he2 : st1.enterFrac = st.enterFrac := by
        rw [he]
        split_ifs <;> rfl
      have hno2 : st1.hitnum = st.hitnum ∧ st1.bestplane = st.bestplane := by
        apply hno
        split_ifs <;> rfl
      rcases hinv with ⟨hm1, hh1, hnone⟩ | ⟨k, c, hk, hck, hbk, hek, hbpk, hhk, hle, hlt⟩
      · left
        refine ⟨he2.trans hm1, hno2.1.trans hh1, ?_⟩
        intro k1 c1 hk1 hc1
        rcases hsame k1 c1 hk1 hc1 with h | ⟨_, h⟩
        · exact hnone k1 c1 h hc1
        · rw [h]
          exact hb
      · right
        refine ⟨k, c, Nat.lt_succ_of_lt hk, hck, hbk, he2.trans hek, hno2.2.trans hbpk,
          hno2.1.trans hhk, ?_, ?_⟩
        · intro k1 c1 hk1 hc1 hb1
          rw [he2]
          rcases hsame k1 c1 hk1 hc1 with h | ⟨_, h⟩
          · exact hle k1 c1 h hc1 hb1
          · rw [h] at hb1
            exact absurd hb1 hb
        · intro k1 c1 hk1 hc1 hb1
          rw [he2]
          exact hlt k1 c1 hk1 hc1 hb1

theorem FacetInv_border (cands : List (Option (plane_t × Vec3 × Vec3))) (j : Nat)
    (st : FacetLoop) (e : plane_t × Vec3 × Vec3) (hinv : FacetInv cands (j + 1) st)
    (hc : cands[j + 1]? = some (some e))
    (hacc : (CM_CheckFacetPlane e.1 e.2.1 e.2.2 st.enterFrac st.leaveFrac).1 = true) :
    FacetInv cands (j + 1 + 1)
      (if (CM_CheckFacetPlane e.1 e.2.1 e.2.2 st.enterFrac st.leaveFrac).2.2.2 = true then
        { enterFrac := (CM_CheckFacetPlane e.1 e.2.1 e.2.2 st.enterFrac st.leaveFrac).2.1,
          leaveFrac := (CM_CheckFacetPlane e.1 e.2.1 e.2.2 st.enterFrac st.leaveFrac).2.2.1,
          hitnum := (j : Int), bestplane := e.1 }
      else
        { enterFrac := (CM_CheckFacetPlane e.1 e.2.1 e.2.2 st.enterFrac st.leaveFrac).2.1,
          leaveFrac := (CM_CheckFacetPlane e.1 e.2.1 e.2.2 st.enterFrac st.leaveFrac).2.2.1,
          hitnum := st.hitnum, bestplane := st.bestplane }) := by
  refine FacetInv_step cands (j + 1) st _ e hinv hc hacc ?_ ?_ ?_
  · split_ifs <;> rfl
  · intro hh
    rw [if_pos hh]
    refine ⟨?_, rfl⟩
    push_cast
    ring
  · intro hh
    rw [if_neg (by simp [hh])]
    exact ⟨rfl, rfl⟩

theorem FacetInv_borders (tw : traceWork_t) (sc : cSurfaceCollide_t)
    (cands : List (Option (plane_t × Vec3 × Vec3))) :
    ∀ (rest : List (Nat × Bool)) (j : Nat) (st st1 : FacetLoop),
      (∀ (i : Nat) (b : Nat × Bool), rest[i]? = some b →
        cands[j + 1 + i]?
          = some ((sc.planes[b.1]?).map (fun p => CM_expandBorderPlane tw p b.2))) →
      FacetInv cands (j + 1) st →
      CM_TraceThroughSurfaceCollide_borders tw sc j st rest = some (true, st1) →
      FacetInv cands (j + 1 + rest.length) st1 := by
  intro rest
  induction rest with
  | nil =>
    intro j st st1 _ hinv h
    simp only [CM_TraceThroughSurfaceCollide_borders, Option.some.injEq, Prod.mk.injEq,
      true_and] at h
    rw [← h]
    exact hinv
  | cons a rest ih =>
    intro j st st1 hc hinv h
    obtain ⟨k, inward⟩ := a
    rw [CM_TraceThroughSurfaceCollide_borders] at h
    have hc0 := hc 0 (k, inward) (by simp)
    cases hk : sc.planes[k]? with
    | none =>
      rw [hk] at h
      exact absurd h (by simp)
    | some planes =>
      rw [hk] at h hc0
      simp only [Option.map_some', Nat.add_zero] at h hc0
      by_cases hacc : (CM_CheckFacetPlane (CM_expandBorderPlane tw planes inward).1
          (CM_expandBorderPlane tw planes inward).2.1 (CM_expandBorderPlane tw planes inward).2.2
          st.enterFrac st.leaveFrac).1 = true
      · rw [if_neg (by simp [hacc])] at h
        have hstep := FacetInv_border cands j st (CM_expandBorderPlane tw planes inward)
          hinv hc0 hacc
        have := ih (j + 1) _ st1 (fun i b hb => by
          have := hc (i + 1) b (by simpa using hb)
          rw [← this]
          congr 1
          omega) hstep h
        have hlen : j + 1 + ((k, inward) :: rest).length = j + 1 + 1 + rest.length := by
          simp only [List.length_cons]
          omega
        rw [hlen]
        exact this
      · rw [if_pos (by simpa using hacc)] at h
        simp only [Option.some.injEq, Prod.mk.injEq, Bool.false_eq_true, false_and] at h

theorem FacetInv_surface (cands : List (Option (plane_t × Vec3 × Vec3)))
    (e : plane_t × Vec3 × Vec3) (bestplane : plane_t) (hc : cands[0]? = some (some e))
    (hacc : (CM_CheckFacetPlane e.1 e.2.1 e.2.2 (-1) 1).1 = true) :
    FacetInv cands 1
      { enterFrac := (CM_CheckFacetPlane e.1 e.2.1 e.2.2 (-1) 1).2.1,
        leaveFrac := (CM_CheckFacetPlane e.1 e.2.1 e.2.2 (-1) 1).2.2.1,
        hitnum := -1,
        bestplane := if (CM_CheckFacetPlane e.1 e.2.1 e.2.2 (-1) 1).2.2.2 = true then e.1
                     else bestplane } := by
  refine FacetInv_step cands 0 (FacetLoop.mk (-1) 1 (-1) bestplane) _ e ?_ hc hacc rfl ?_ ?_
  · left
    exact ⟨rfl, rfl, fun k c hk _ => absurd hk (Nat.not_lt_zero k)⟩
  · intro hh
    refine ⟨by norm_num, ?_⟩
    show (if _ then e.1 else bestplane) = e.1
    rw [if_pos hh]
  · intro hh
    refine ⟨rfl, ?_⟩
    show (if _ then e.1 else bestplane) = bestplane
    rw [if_neg (by simp [hh])]

/-- C26: the facet loop of `CM_TraceThroughSurfaceCollide` is the step
`CM_TraceThroughSurfaceCollide_facet` facet by facet.  When a facet records a
hit, whatever `bestplane` held before the facet, the recorded plane is one of
the planes of this facet, the expanded surface plane (index 0) or an expanded
border other than the last (an index below the number of borders), that the
trace crosses going in; the recorded fraction is the entering value
`max(0, (d1 - SURFACE_CLIP_EPSILON) / (d1 - d2))` of that plane, it is below
the fraction of the trace, no entering plane of the facet (the last border
included) has a greater value and none before the recorded one has the same
value; nothing but fraction and plane changes.  When the facet records no
hit, the trace state is as it was. -/
theorem C26_facet_hit (sc : cSurfaceCollide_t) (tw : traceWork_t) (bestplane : plane_t)
    (facet : cFacet_t) :
    (∀ rest : List cFacet_t,
      CM_TraceThroughSurfaceCollide_facets sc tw bestplane (facet :: rest)
        = (CM_TraceThroughSurfaceCollide_facet sc tw bestplane facet).bind
            (fun r => CM_TraceThroughSurfaceCollide_facets sc r.1 r.2.1 rest)) ∧
    (∀ (tw1 : traceWork_t) (bp1 : plane_t),
      CM_TraceThroughSurfaceCollide_facet sc tw bestplane facet = some (tw1, bp1, true) →
      ∃ (k : Nat) (c : plane_t × Vec3 × Vec3),
        k < facet.borders.length ∧ (facetPlanes tw sc facet)[k]? = some (some c) ∧
        enterBranch (planeDistances c).1 (planeDistances c).2 ∧
        tw1.trace.fraction = enterFraction (planeDistances c).1 (planeDistances c).2 ∧
        tw1.trace.fraction
          = max 0 (((planeDistances c).1 - SURFACE_CLIP_EPSILON)
              / ((planeDistances c).1 - (planeDistances c).2)) ∧
        tw1.trace.plane = c.1 ∧ bp1 = c.1 ∧
        tw1.trace.fraction < tw.trace.fraction ∧
        tw1 = { tw with trace := { tw.trace with
                  fraction := tw1.trace.fraction, plane := c.1 } } ∧
        (∀ (k1 : Nat) (c1 : plane_t × Vec3 × Vec3),
          (facetPlanes tw sc facet)[k1]? = some (some c1) →
          enterBranch (planeDistances c1).1 (planeDistances c1).2 →
          enterFraction (planeDistances c1).1 (planeDistances c1).2 ≤ tw1.trace.fraction) ∧
        (∀ (k1 : Nat) (c1 : plane_t × Vec3 × Vec3), k1 < k →
          (facetPlanes tw sc facet)[k1]? = some (some c1) →
          enterBranch (planeDistances c1).1 (planeDistances c1).2 →
          enterFraction (planeDistances c1).1 (planeDistances c1).2 < tw1.trace.fraction)) ∧
    (∀ (tw1 : traceWork_t) (bp1 : plane_t),
      CM_TraceThroughSurfaceCollide_facet sc tw bestplane facet = some (tw1, bp1, false) →
      tw1 = tw) := by
  refine ⟨fun rest => CM_TraceThroughSurfaceCollide_facets_cons sc tw bestplane facet rest,
    ?_, ?_⟩
  · intro tw1 bp1 h
    unfold CM_TraceThroughSurfaceCollide_facet at h
    cases hk : sc.planes[facet.surfacePlane]? with
    | none =>
      rw [hk] at h
      exact absurd h (by simp)
    | some planes =>
      rw [hk] at h
      simp only at h
      have hc0 : (facetPlanes tw sc facet)[0]? = some (some (CM_expandSurfacePlane tw planes)) := by
        simp [facetPlanes, hk]
      by_cases hacc : (CM_CheckFacetPlane (CM_expandSurfacePlane tw planes).1
          (CM_expandSurfacePlane tw planes).2.1 (CM_expandSurfacePlane tw planes).2.2 (-1) 1).1
          = true
      · rw [if_neg (by simp [hacc])] at h
        have hinv0 := FacetInv_surface (facetPlanes tw sc facet) (CM_expandSurfacePlane tw planes)
          bestplane hc0 hacc
        cases hb : CM_TraceThroughSurfaceCollide_borders tw sc 0
            { enterFrac := (CM_CheckFacetPlane (CM_expandSurfacePlane tw planes).1
                (CM_expandSurfacePlane tw planes).2.1 (CM_expandSurfacePlane tw planes).2.2
                (-1) 1).2.1,
              leaveFrac := (CM_CheckFacetPlane (CM_expandSurfacePlane tw planes).1
                (CM_expandSurfacePlane tw planes).2.1 (CM_expandSurfacePlane tw planes).2.2
                (-1) 1).2.2.1,
              hitnum := -1,
              bestplane := if (CM_CheckFacetPlane (CM_expandSurfacePlane tw planes).1
                  (CM_expandSurfacePlane tw planes).2.1 (CM_expandSurfacePlane tw planes).2.2
                  (-1) 1).2.2.2 = true then (CM_expandSurfacePlane tw planes).1
                else bestplane } facet.borders with
        | none =>
          rw [hb] at h
          exact absurd h (by simp)
        | some q =>
          rw [hb] at h
          obtain ⟨fl, st⟩ := q
          cases fl with
          | false =>
            simp only [Option.some.injEq, Prod.mk.injEq, Bool.false_eq_true, and_false] at h
          | true =>
            simp only at h
            have hinv := FacetInv_borders tw sc (facetPlanes tw sc facet) facet.borders 0 _ st
              (fun i b hbi => by
                simp only [facetPlanes, Nat.zero_add]
                rw [Nat.add_comm 1 i, List.getElem?_cons_succ, List.getElem?_map, hbi]
                rfl) hinv0 hb
            by_cases h1 : st.hitnum = (facet.borders.length : Int) - 1
            · rw [if_pos h1] at h
              simp only [Option.some.injEq, Prod.mk.injEq, Bool.false_eq_true, and_false] at h
            rw [if_neg h1] at h
            by_cases h2 : st.enterFrac < st.leaveFrac ∧ st.enterFrac ≥ 0
            swap
            · rw [if_neg h2] at h
              simp only [Option.some.injEq, Prod.mk.injEq, Bool.false_eq_true, and_false] at h
            rw [if_pos h2] at h
            by_cases h3 : st.enterFrac < tw.trace.fraction
            swap
            · rw [if_neg h3] at h
              simp only [Option.some.injEq, Prod.mk.injEq, Bool.false_eq_true, and_false] at h
            rw [if_pos h3, if_neg (not_lt.mpr h2.2)] at h
            · simp only [Option.some.injEq, Prod.mk.injEq, and_true] at h
              obtain ⟨htw, hbp⟩ := h
              rcases hinv with ⟨hm1, _, _⟩ | ⟨k, c, hkn, hck, hbk, hek, hbpk, hhk, hle, hlt⟩
              · rw [hm1] at h2
                exact absurd h2.2 (by norm_num)
              · have hklt : k < facet.borders.length := by
                  have hne : (k : Int) ≠ (facet.borders.length : Int) := by
                    intro heq
                    apply h1
                    rw [hhk, heq]
                  have hne2 : k ≠ facet.borders.length := fun heq => hne (by rw [heq])
                  omega
                have hfr : tw1.trace.fraction = st.enterFrac := by
                  rw [← htw]
                have hpl : tw1.trace.plane = st.bestplane := by
                  rw [← htw]
                refine ⟨k, c, hklt, hck, hbk, hfr.trans hek, ?_, hpl.trans hbpk,
                  hbp.symm.trans hbpk, ?_, ?_, ?_, ?_⟩
                · rw [hfr, hek]
                  exact enterFraction_eq_max _ _
                · rw [hfr]
                  exact h3
                · rw [← hbpk, ← hpl, ← htw]
                · intro k1 c1 hc1 hb1
                  rw [hfr]
                  refine hle k1 c1 ?_ hc1 hb1
                  have hlen : (facetPlanes tw sc facet).length = facet.borders.length + 1 := by
                    simp [facetPlanes]
                  have hsome : k1 < (facetPlanes tw sc facet).length := by
                    by_contra hcon
                    rw [List.getElem?_eq_none (not_lt.mp hcon)] at hc1
                    exact absurd hc1 (by simp)
                  omega
                · intro k1 c1 hk1 hc1 hb1
                  rw [hfr]
                  exact hlt k1 c1 hk1 hc1 hb1
      · rw [if_pos (by simpa using hacc)] at h
        simp only [Option.some.injEq, Prod.mk.injEq, Bool.false_eq_true, and_false] at h
  · intro tw1 bp1 h
    unfold CM_TraceThroughSurfaceCollide_facet at h
    cases hk : sc.planes[facet.surfacePlane]? with
    | none =>
      rw [hk] at h
      exact absurd h (by simp)
    | some planes =>
      rw [hk] at h
      simp only at h
      split at h
      · simp only [Option.some.injEq, Prod.mk.injEq] at h
        exact h.1.symm
      · split at h
        · exact absurd h (by simp)
        · simp only [Option.some.injEq, Prod.mk.injEq] at h
          exact h.1.symm
        · split_ifs at h <;> simp only [Option.some.injEq, Prod.mk.injEq, Bool.true_eq_false,
            and_false] at h <;> exact h.1.symm

/-- C26, on the example data: the box `[-1,1]³` swept from `(1/2, 1/2, 3)` to
`(1/2, 1/2, -3)` through the facet of the example patch, with a plane
`((9, 9, 9), 9)` left in `bestplane`: the facet records the fraction `5/16`
against its expanded surface plane `((0, 0, 1), 1)`. -/
theorem C26_facet_hit_witness :
    (CM_TraceThroughSurfaceCollide_facet examplePatch exampleBoxDownWork ⟨⟨9, 9, 9⟩, 9⟩
        ⟨0, [(1, false), (2, false), (3, false), (4, false), (0, true)]⟩).map
        (fun r => (r.1.trace.fraction, r.1.trace.plane, r.2.1, r.2.2))
      = some (5 / 16, ⟨⟨0, 0, 1⟩, 1⟩, ⟨⟨0, 0, 1⟩, 1⟩, true) ∧
    ∃ (tw1 : traceWork_t) (bp1 : plane_t),
      CM_TraceThroughSurfaceCollide_facet examplePatch exampleBoxDownWork ⟨⟨9, 9, 9⟩, 9⟩
          ⟨0, [(1, false), (2, false), (3, false), (4, false), (0, true)]⟩
        = some (tw1, bp1, true) ∧
      ∃ (k : Nat) (c : plane_t × Vec3 × Vec3),
        k < 5 ∧
        (facetPlanes exampleBoxDownWork examplePatch
          ⟨0, [(1, false), (2, false), (3, false), (4, false), (0, true)]⟩)[k]? = some (some c) ∧
        enterBranch (planeDistances c).1 (planeDistances c).2 ∧
        tw1.trace.fraction = enterFraction (planeDistances c).1 (planeDistances c).2 ∧
        tw1.trace.plane = c.1 ∧ bp1 = c.1 ∧
        tw1.trace.fraction < exampleBoxDownWork.trace.fraction := by
  have hres : (CM_TraceThroughSurfaceCollide_facet examplePatch exampleBoxDownWork
        ⟨⟨9, 9, 9⟩, 9⟩ ⟨0, [(1, false), (2, false), (3, false), (4, false), (0, true)]⟩).map
        (fun r => r.2.2) = some true := by decide!
  refine ⟨by decide!, ?_⟩
  cases hstep : CM_TraceThroughSurfaceCollide_facet examplePatch exampleBoxDownWork
      ⟨⟨9, 9, 9⟩, 9⟩ ⟨0, [(1, false), (2, false), (3, false), (4, false), (0, true)]⟩ with
  | none =>
    rw [hstep] at hres
    exact absurd hres (by simp)
  | some r =>
    obtain ⟨tw1, bp1, b⟩ := r
    rw [hstep] at hres
    simp only [Option.map_some', Option.some.injEq] at hres
    subst hres
    obtain ⟨k, c, h1, h2, h3, h4, _, h5, h6, h7, _⟩ :=
      (C26_facet_hit examplePatch exampleBoxDownWork ⟨⟨9, 9, 9⟩, 9⟩
        ⟨0, [(1, false), (2, false), (3, false), (4, false), (0, true)]⟩).2.1 tw1 bp1 hstep
    exact ⟨tw1, bp1, rfl, k, c, h1, h2, h3, h4, h5, h6, h7⟩

theorem CM_TraceThroughSphere_of_hit (env : Env) (tw : traceWork_t) (origin : Vec3)
    (radius : ℚ) (start end_ : Vec3)
    (h : CM_TraceThroughSphere_hit env tw origin radius start end_) :
    CM_TraceThroughSphere env tw origin radius start end_
      = CM_TraceThroughSphere_record env tw origin radius start end_
          (sphereFraction env origin radius start end_) := by
  obtain ⟨h1, h2, h3, h4⟩ := h
  unfold CM_TraceThroughSphere
  rw [if_neg h1]
  simp only
  rw [if_neg h2]
  have hd : (2 * ((VectorNormalize env (VectorSubtract end_ start)).1.x
            * (VectorSubtract start origin).x
          + (VectorNormalize env (VectorSubtract end_ start)).1.y
            * (VectorSubtract start origin).y
          + (VectorNormalize env (VectorSubtract end_ start)).1.z
            * (VectorSubtract start origin).z))
        * (2 * ((VectorNormalize env (VectorSubtract end_ start)).1.x
            * (VectorSubtract start origin).x
          + (VectorNormalize env (VectorSubtract end_ start)).1.y
            * (VectorSubtract start origin).y
          + (VectorNormalize env (VectorSubtract end_ start)).1.z
            * (VectorSubtract start origin).z))
        - 4 * ((VectorSubtract start origin).x * (VectorSubtract start origin).x
          + (VectorSubtract start origin).y * (VectorSubtract start origin).y
          + (VectorSubtract start origin).z * (VectorSubtract start origin).z
          - (radius + RADIUS_EPSILON) * (radius + RADIUS_EPSILON))
      = sphereDisc env origin radius start end_ := rfl
  rw [hd, if_pos h3]
  have hf : (if (-(2 * ((VectorNormalize env (VectorSubtract end_ start)).1.x
              * (VectorSubtract start origin).x
            + (VectorNormalize env (VectorSubtract end_ start)).1.y
              * (VectorSubtract start origin).y
            + (VectorNormalize env (VectorSubtract end_ start)).1.z
              * (VectorSubtract start origin).z))
          - env.sqrtf (sphereDisc env origin radius start end_)) * (1 / 2) < 0 then 0
        else (-(2 * ((VectorNormalize env (VectorSubtract end_ start)).1.x
              * (VectorSubtract start origin).x
            + (VectorNormalize env (VectorSubtract end_ start)).1.y
              * (VectorSubtract start origin).y
            + (VectorNormalize env (VectorSubtract end_ start)).1.z
              * (VectorSubtract start origin).z))
          - env.sqrtf (sphereDisc env origin radius start end_)) * (1 / 2)
          / (VectorNormalize env (VectorSubtract end_ start)).2)
      = sphereFraction env origin radius start end_ := rfl
  rw [hf, if_pos h4]

theorem sphere_contact (vx vy vz ex ey ez L u sq R t b c : ℚ)
    (hL2 : ex * ex + ey * ey + ez * ez = L * L) (hu : L * u = 1)
    (hb : b = 2 * (ex * u * vx + ey * u * vy + ez * u * vz))
    (hc : c = vx * vx + vy * vy + vz * vz - R * R) (hsq : sq * sq = b * b - 4 * c)
    (ht : t = (-b - sq) * (1 / 2)) :
    (vx + ex * (t * u)) * (vx + ex * (t * u)) + (vy + ey * (t * u)) * (vy + ey * (t * u))
      + (vz + ez * (t * u)) * (vz + ez * (t * u)) = R * R := by
  have h1 : u * u * (ex * ex + ey * ey + ez * ez) = 1 := by
    rw [hL2]
    calc u * u * (L * L) = (L * u) * (L * u) := by ring
      _ = 1 := by rw [hu]; ring
  have hq : t * t + b * t + c = 0 := by
    rw [ht]
    linear_combination (1 / 4) * hsq
  linear_combination (t * t) * h1 + hq - hc - t * hb

/-- When `CM_TraceThroughSphere` records a hit with a near root `t ≥ 0` (not
clamped) on a move of nonzero length, with square roots that are exact on the
squared length of the move and on the discriminant, the recorded fraction is
`t / length`, the contact point `start + fraction * (end - start)` is at
distance `radius + RADIUS_EPSILON` of the centre, the recorded normal is the
vector from the centre to the contact divided by `radius + RADIUS_EPSILON`, of
length 1, the plane distance is `dot(normal, contact + modelOrigin)` and the
contents are `CONTENTS_BODY`. -/
theorem CM_TraceThroughSphere_contact (env : Env) (tw : traceWork_t) (origin : Vec3)
    (radius : ℚ) (start end_ : Vec3)
    (hmove : VectorLengthSquared (VectorSubtract end_ start) ≠ 0) (hrad : 0 ≤ radius)
    (hlen : env.sqrtf (VectorLengthSquared (VectorSubtract end_ start))
      * env.sqrtf (VectorLengthSquared (VectorSubtract end_ start))
      = VectorLengthSquared (VectorSubtract end_ start))
    (hsq : env.sqrtf (sphereDisc env origin radius start end_)
      * env.sqrtf (sphereDisc env origin radius start end_)
      = sphereDisc env origin radius start end_)
    (hhit : CM_TraceThroughSphere_hit env tw origin radius start end_)
    (hroot : 0 ≤ sphereRoot env origin radius start end_) :
    (CM_TraceThroughSphere env tw origin radius start end_).trace.fraction
      = sphereRoot env origin radius start end_
        / env.sqrtf (VectorLengthSquared (VectorSubtract end_ start)) ∧
    VectorLengthSquared (VectorSubtract
        (VectorMA start (CM_TraceThroughSphere env tw origin radius start end_).trace.fraction
          (VectorSubtract end_ start)) origin)
      = (radius + RADIUS_EPSILON) * (radius + RADIUS_EPSILON) ∧
    (CM_TraceThroughSphere env tw origin radius start end_).trace.plane.normal
      = VectorScale (VectorSubtract
          (VectorMA start (CM_TraceThroughSphere env tw origin radius start end_).trace.fraction
            (VectorSubtract end_ start)) origin) (1 / (radius + RADIUS_EPSILON)) ∧
    VectorLengthSquared (CM_TraceThroughSphere env tw origin radius start end_).trace.plane.normal
      = 1 ∧
    (CM_TraceThroughSphere env tw origin radius start end_).trace.plane.dist
      = DotProduct (CM_TraceThroughSphere env tw origin radius start end_).trace.plane.normal
          (VectorAdd tw.modelOrigin
            (VectorMA start (CM_TraceThroughSphere env tw origin radius start end_).trace.fraction
              (VectorSubtract end_ start))) ∧
    (CM_TraceThroughSphere env tw origin radius start end_).trace.contents
      = env.CONTENTS_BODY := by
  have hres := CM_TraceThroughSphere_of_hit env tw origin radius start end_ hhit
  have hnorm : VectorNormalize env (VectorSubtract end_ start)
      = (VectorScale (VectorSubtract end_ start)
          (1 / env.sqrtf (VectorLengthSquared (VectorSubtract end_ start))),
         env.sqrtf (VectorLengthSquared (VectorSubtract end_ start))) := by
    unfold VectorNormalize
    rw [if_neg hmove]
  have hfrac : sphereFraction env origin radius start end_
      = sphereRoot env origin radius start end_
        / env.sqrtf (VectorLengthSquared (VectorSubtract end_ start)) := by
    unfold sphereFraction
    rw [if_neg (not_lt.mpr hroot), hnorm]
  have hf : (CM_TraceThroughSphere env tw origin radius start end_).trace.fraction
      = sphereFraction env origin radius start end_ := by
    rw [hres]
    rfl
  have hR : radius + RADIUS_EPSILON ≠ 0 := by
    unfold RADIUS_EPSILON
    linarith
  have hLne : env.sqrtf (VectorLengthSquared (VectorSubtract end_ start)) ≠ 0 := by
    intro h0
    rw [h0, mul_zero] at hlen
    exact hmove hlen.symm
  have hcontact := sphere_contact (start.x - origin.x) (start.y - origin.y)
    (start.z - origin.z) (end_.x - start.x) (end_.y - start.y) (end_.z - start.z)
    (env.sqrtf (VectorLengthSquared (VectorSubtract end_ start)))
    (1 / env.sqrtf (VectorLengthSquared (VectorSubtract end_ start)))
    (env.sqrtf (sphereDisc env origin radius start end_))
    (radius + RADIUS_EPSILON)
    (sphereRoot env origin radius start end_)
    (sphereB env origin start end_)
    (sphereC origin radius start)
    (by rw [hlen]; rfl)
    (mul_one_div_cancel hLne)
    (by unfold sphereB; rw [hnorm]; rfl)
    rfl hsq rfl
  have hdist : VectorLengthSquared (VectorSubtract
        (VectorMA start (sphereFraction env origin radius start end_)
          (VectorSubtract end_ start)) origin)
      = (radius + RADIUS_EPSILON) * (radius + RADIUS_EPSILON) := by
    rw [hfrac, ← hcontact]
    unfold VectorLengthSquared VectorMA VectorSubtract
    simp only
    rw [div_eq_mul_one_div (sphereRoot env origin radius start end_)]
    ring
  have hnormal : (CM_TraceThroughSphere env tw origin radius start end_).trace.plane.normal
      = VectorScale (VectorSubtract
          (VectorMA start (sphereFraction env origin radius start end_)
            (VectorSubtract end_ start)) origin) (1 / (radius + RADIUS_EPSILON)) := by
    rw [hres]
    rfl
  rw [hf]
  refine ⟨hfrac, hdist, hnormal, ?_, ?_, ?_⟩
  · rw [hnormal]
    have : ∀ (v : Vec3) (R : ℚ), R ≠ 0 → VectorLengthSquared v = R * R →
        VectorLengthSquared (VectorScale v (1 / R)) = 1 := by
      intro v R hR h
      unfold VectorLengthSquared VectorScale at *
      simp only
      field_simp
      linarith
    exact this _ _ hR hdist
  · rw [hres]
    rfl
  · rw [hres]
    rfl

/-- The contact of `CM_TraceThroughSphere` on the example data: a sphere of
radius 20 at `(50, 0, 0)` and the segment from `(0, 0, 0)` to `(100, 0, 0)`;
the near root is 29, the fraction `29/100` and the normal `(-1, 0, 0)`. -/
theorem CM_TraceThroughSphere_contact_example :
    CM_TraceThroughSphere_hit exampleEnv exampleSphereSweepWork ⟨50, 0, 0⟩ 20 ⟨0, 0, 0⟩
      ⟨100, 0, 0⟩ ∧
    sphereRoot exampleEnv ⟨50, 0, 0⟩ 20 ⟨0, 0, 0⟩ ⟨100, 0, 0⟩ = 29 ∧
    (CM_TraceThroughSphere exampleEnv exampleSphereSweepWork ⟨50, 0, 0⟩ 20 ⟨0, 0, 0⟩
        ⟨100, 0, 0⟩).trace.fraction = 29 / 100 ∧
    (CM_TraceThroughSphere exampleEnv exampleSphereSweepWork ⟨50, 0, 0⟩ 20 ⟨0, 0, 0⟩
        ⟨100, 0, 0⟩).trace.plane.normal = ⟨-1, 0, 0⟩ ∧
    VectorLengthSquared (CM_TraceThroughSphere exampleEnv exampleSphereSweepWork ⟨50, 0, 0⟩ 20
        ⟨0, 0, 0⟩ ⟨100, 0, 0⟩).trace.plane.normal = 1 :=
  ⟨by decide!, by decide!, by decide!, by decide!,
    (CM_TraceThroughSphere_contact exampleEnv exampleSphereSweepWork ⟨50, 0, 0⟩ 20 ⟨0, 0, 0⟩
      ⟨100, 0, 0⟩ (by decide!) (by decide!) (by decide!) (by decide!) (by decide!)
      (by decide!)).2.2.2.1⟩

theorem boundsOverlap_iff (tw : traceWork_t) (brush : cbrush_t) :
    boundsOverlap tw brush ↔ ¬ boundsMiss tw brush := by
  unfold boundsOverlap boundsMiss
  simp only [not_or, not_lt, gt_iff_lt]
  tauto

/-- C38: for a brush of one to six sides `CM_TestBoxInBrush` evaluates no
side plane (the side loop runs over the empty list `sides.drop 6`), and its
result is decided by the bounds alone: when the bounds of the trace overlap
the bounds of the brush on all three axes the trace is set to
`startsolid = allsolid = true`, fraction 0 and the contents of the brush, and
otherwise the trace state is returned unchanged.  For a brush of more than six
sides the result is a function of the sides from index 6 onward: two such
brushes with the same bounds and contents that agree from index 6 onward give
the same result, which is computed by the side loop over `sides.drop 6`. -/
theorem C38_few_sides_bounds_only (tw : traceWork_t) (brush : cbrush_t) :
    (1 ≤ brush.sides.length → brush.sides.length ≤ 6 →
      brush.sides.drop 6 = [] ∧
      (boundsOverlap tw brush →
        CM_TestBoxInBrush tw brush = setAllsolidContents tw brush.contents ∧
        (CM_TestBoxInBrush tw brush).trace.startsolid = true ∧
        (CM_TestBoxInBrush tw brush).trace.allsolid = true ∧
        (CM_TestBoxInBrush tw brush).trace.fraction = 0 ∧
        (CM_TestBoxInBrush tw brush).trace.contents = brush.contents) ∧
      (¬ boundsOverlap tw brush → CM_TestBoxInBrush tw brush = tw)) ∧
    (6 < brush.sides.length →
      CM_TestBoxInBrush tw brush
        = (if boundsOverlap tw brush then
            if CM_TestBoxInBrush_sides tw (brush.sides.drop 6) then tw
            else setAllsolidContents tw brush.contents
          else tw) ∧
      ∀ other : cbrush_t, 6 < other.sides.length →
        other.bounds0 = brush.bounds0 → other.bounds1 = brush.bounds1 →
        other.contents = brush.contents → other.sides.drop 6 = brush.sides.drop 6 →
        CM_TestBoxInBrush tw other = CM_TestBoxInBrush tw brush) := by
  have hgen : ∀ b : cbrush_t, 1 ≤ b.sides.length →
      CM_TestBoxInBrush tw b
        = (if boundsOverlap tw b then
            if CM_TestBoxInBrush_sides tw (b.sides.drop 6) then tw
            else setAllsolidContents tw b.contents
          else tw) := by
    intro b hb
    have h0 : ¬ b.sides.length = 0 := by omega
    unfold CM_TestBoxInBrush
    rw [if_neg h0]
    by_cases hov : boundsOverlap tw b
    · have hm := (boundsOverlap_iff tw b).1 hov
      unfold boundsMiss at hm
      rw [if_pos hov, if_neg hm]
    · have hm : boundsMiss tw b := by
        by_contra hm
        exact hov ((boundsOverlap_iff tw b).2 hm)
      unfold boundsMiss at hm
      rw [if_neg hov, if_pos hm]
  refine ⟨?_, ?_⟩
  · intro h1 h6
    have hd : brush.sides.drop 6 = [] := List.drop_eq_nil_of_le h6
    refine ⟨hd, ?_, ?_⟩
    · intro hov
      have he : CM_TestBoxInBrush tw brush = setAllsolidContents tw brush.contents := by
        rw [hgen brush h1, if_pos hov, hd]
        rfl
      refine ⟨he, ?_, ?_, ?_, ?_⟩ <;> rw [he] <;> rfl
    · intro hov
      rw [hgen brush h1, if_neg hov]
  · intro h6
    refine ⟨hgen brush (by omega), ?_⟩
    intro other ho hb0 hb1 hc hs
    rw [hgen brush (by omega), hgen other (by omega)]
    have hov : boundsOverlap tw other ↔ boundsOverlap tw brush := by
      unfold boundsOverlap
      rw [hb0, hb1]
    simp only [hov, hs, hc]

/-- C38 at concrete inputs: the unit cube, a brush of six sides, with the
point trace through it (bounds overlap, solid with contents 1), and a brush of
seven sides against a brush with other first six sides. -/
theorem C38_few_sides_bounds_only_witness :
    (1 ≤ unitCube.sides.length → unitCube.sides.length ≤ 6 →
      unitCube.sides.drop 6 = [] ∧
      (boundsOverlap exampleWork unitCube →
        CM_TestBoxInBrush exampleWork unitCube = setAllsolidContents exampleWork unitCube.contents ∧
        (CM_TestBoxInBrush exampleWork unitCube).trace.startsolid = true ∧
        (CM_TestBoxInBrush exampleWork unitCube).trace.allsolid = true ∧
        (CM_TestBoxInBrush exampleWork unitCube).trace.fraction = 0 ∧
        (CM_TestBoxInBrush exampleWork unitCube).trace.contents = unitCube.contents) ∧
      (¬ boundsOverlap exampleWork unitCube → CM_TestBoxInBrush exampleWork unitCube = exampleWork)) ∧
    1 ≤ unitCube.sides.length ∧ unitCube.sides.length ≤ 6 ∧ boundsOverlap exampleWork unitCube ∧
    (CM_TestBoxInBrush exampleWork unitCube).trace
      = { allsolid := true, startsolid := true, fraction := 0, endpos := ⟨0, 0, 0⟩,
          plane := ⟨⟨0, 0, 0⟩, 0⟩, surfaceFlags := 0, contents := 1 } :=
  ⟨(C38_few_sides_bounds_only exampleWork unitCube).1, by decide, by decide, by decide!,
    by decide!⟩

theorem clamp01_range (f : ℚ) : 0 ≤ clamp01 f ∧ clamp01 f ≤ 1 := by
  unfold clamp01
  by_cases h0 : f < 0
  · simp only [if_pos h0]
    norm_num
  · simp only [if_neg h0]
    by_cases h1 : f > 1
    · rw [if_pos h1]
      norm_num
    · rw [if_neg h1]
      exact ⟨not_lt.1 h0, not_lt.1 h1⟩

theorem clamp01_mono (f g : ℚ) (h : f ≤ g) : clamp01 f ≤ clamp01 g := by
  unfold clamp01
  by_cases hf0 : f < 0 <;> by_cases hg0 : g < 0 <;>
    simp only [hf0, hg0, if_true, if_false] <;>
    split_ifs <;> linarith

theorem CM_TraceThroughTree_split_order (t1 t2 offset : ℚ) (hoff : 0 ≤ offset) :
    (CM_TraceThroughTree_split t1 t2 offset).2.2 ≤ (CM_TraceThroughTree_split t1 t2 offset).2.1 := by
  unfold CM_TraceThroughTree_split SURFACE_CLIP_EPSILON
  by_cases h1 : t1 < t2
  · rw [if_pos h1]
    have hd : 1 / (t1 - t2) ≤ 0 := by
      apply div_nonpos_of_nonneg_of_nonpos <;> linarith
    show (t1 + offset + 1 / 8) * (1 / (t1 - t2)) ≤ (t1 - offset + 1 / 8) * (1 / (t1 - t2))
    nlinarith
  · rw [if_neg h1]
    by_cases h2 : t1 > t2
    · rw [if_pos h2]
      have hd : 0 ≤ 1 / (t1 - t2) := by
        apply div_nonneg <;> linarith
      show (t1 - offset - 1 / 8) * (1 / (t1 - t2)) ≤ (t1 + offset + 1 / 8) * (1 / (t1 - t2))
      nlinarith
    · rw [if_neg h2]
      show (0 : ℚ) ≤ 1
      norm_num

theorem CM_TraceThroughTree_split_eq (t : ℚ) (offset : ℚ) :
    CM_TraceThroughTree_split t t offset = (0, 1, 0) := by
  unfold CM_TraceThroughTree_split
  rw [if_neg (lt_irrefl t), if_neg (lt_irrefl t)]

/-- C32: at a node where `CM_TraceThroughTree` takes the split branch, with
`offset ≥ 0` and `p1f ≤ p2f`, the clamped fractions satisfy
`0 ≤ frac2 ≤ frac ≤ 1`; the interval `[p1f, midf]` handed to the near child and
the interval `[midf2, p2f]` handed to the far child satisfy
`p1f ≤ midf2 ≤ midf ≤ p2f`, and every `x` of `[p1f, p2f]` lies in one of the
two; when `t1 = t2` both children receive `[p1f, p2f]`.  The last part states
that these are the intervals of the two recursive calls. -/
theorem C32_split_intervals_cover (t1 t2 offset p1f p2f : ℚ) (hoff : 0 ≤ offset)
    (hp : p1f ≤ p2f) :
    (0 ≤ clamp01 (CM_TraceThroughTree_split t1 t2 offset).2.2 ∧
      clamp01 (CM_TraceThroughTree_split t1 t2 offset).2.2
        ≤ clamp01 (CM_TraceThroughTree_split t1 t2 offset).2.1 ∧
      clamp01 (CM_TraceThroughTree_split t1 t2 offset).2.1 ≤ 1) ∧
    (p1f ≤ p1f + (p2f - p1f) * clamp01 (CM_TraceThroughTree_split t1 t2 offset).2.2 ∧
      p1f + (p2f - p1f) * clamp01 (CM_TraceThroughTree_split t1 t2 offset).2.2
        ≤ p1f + (p2f - p1f) * clamp01 (CM_TraceThroughTree_split t1 t2 offset).2.1 ∧
      p1f + (p2f - p1f) * clamp01 (CM_TraceThroughTree_split t1 t2 offset).2.1 ≤ p2f) ∧
    (∀ x : ℚ, p1f ≤ x → x ≤ p2f →
      (p1f ≤ x ∧ x ≤ p1f + (p2f - p1f) * clamp01 (CM_TraceThroughTree_split t1 t2 offset).2.1)
      ∨ (p1f + (p2f - p1f) * clamp01 (CM_TraceThroughTree_split t1 t2 offset).2.2 ≤ x
          ∧ x ≤ p2f)) ∧
    (t1 = t2 →
      p1f + (p2f - p1f) * clamp01 (CM_TraceThroughTree_split t1 t2 offset).2.1 = p2f ∧
      p1f + (p2f - p1f) * clamp01 (CM_TraceThroughTree_split t1 t2 offset).2.2 = p1f) ∧
    (∀ (env : Env) (fuel : Nat) (cm : clipMap_t) (tw : traceWork_t) (num : Int)
        (node : cNode_t) (p1 p2 : Vec3),
      ¬ tw.trace.fraction < p1f → ¬ num < 0 → cm.nodes[num.toNat]? = some node →
      CM_TraceThroughTree_dists tw node.plane p1 p2 = (t1, t2, offset) →
      ¬ (t1 ≥ offset + 1 ∧ t2 ≥ offset + 1) → ¬ (t1 < -offset - 1 ∧ t2 < -offset - 1) →
      CM_TraceThroughTree env (fuel + 1) cm tw num p1f p2f p1 p2
        = (CM_TraceThroughTree env fuel cm tw
              (node.child (CM_TraceThroughTree_split t1 t2 offset).1) p1f
              (p1f + (p2f - p1f) * clamp01 (CM_TraceThroughTree_split t1 t2 offset).2.1) p1
              (CM_TraceThroughTree_mid p1 p2
                (clamp01 (CM_TraceThroughTree_split t1 t2 offset).2.1))).bind
            (fun r => CM_TraceThroughTree env fuel r.1 r.2
              (node.child ((CM_TraceThroughTree_split t1 t2 offset).1 ^^^ 1))
              (p1f + (p2f - p1f) * clamp01 (CM_TraceThroughTree_split t1 t2 offset).2.2) p2f
              (CM_TraceThroughTree_mid p1 p2
                (clamp01 (CM_TraceThroughTree_split t1 t2 offset).2.2)) p2)) := by
  have hr1 := clamp01_range (CM_TraceThroughTree_split t1 t2 offset).2.1
  have hr2 := clamp01_range (CM_TraceThroughTree_split t1 t2 offset).2.2
  have hm := clamp01_mono _ _ (CM_TraceThroughTree_split_order t1 t2 offset hoff)
  have hd : 0 ≤ p2f - p1f := by linarith
  refine ⟨⟨hr2.1, hm, hr1.2⟩, ⟨?_, ?_, ?_⟩, ?_, ?_, ?_⟩
  · nlinarith [mul_nonneg hd hr2.1]
  · nlinarith [mul_le_mul_of_nonneg_left hm hd]
  · nlinarith [mul_le_mul_of_nonneg_left hr1.2 hd]
  · intro x hx1 hx2
    by_cases hx : x ≤ p1f + (p2f - p1f) * clamp01 (CM_TraceThroughTree_split t1 t2 offset).2.1
    · exact Or.inl ⟨hx1, hx⟩
    · refine Or.inr ⟨?_, hx2⟩
      have := mul_le_mul_of_nonneg_left hm hd
      linarith [not_le.1 hx]
  · intro ht
    subst ht
    rw [CM_TraceThroughTree_split_eq]
    have h1 : clamp01 1 = 1 := by unfold clamp01; norm_num
    have h0 : clamp01 0 = 0 := by unfold clamp01; norm_num
    simp only [h1, h0]
    constructor <;> ring
  · intro env fuel cm tw num node p1 p2 hf hn hnode hdist hfront hback
    rw [CM_TraceThroughTree]
    rw [if_neg hf, if_neg hn]
    simp only [hnode, hdist]
    rw [if_neg hfront, if_neg hback]
    cases CM_TraceThroughTree env fuel cm tw
      (node.child (CM_TraceThroughTree_split t1 t2 offset).1) p1f
      (p1f + (p2f - p1f) * clamp01 (CM_TraceThroughTree_split t1 t2 offset).2.1) p1
      (CM_TraceThroughTree_mid p1 p2 (clamp01 (CM_TraceThroughTree_split t1 t2 offset).2.1)) with
    | none => rfl
    | some r => rfl

/-- C32 at a concrete input: a segment crossing the plane from `t1 = 1` to
`t2 = -1` with `offset = 0` over the interval `[0, 1]`: the near child gets
`[0, 9/16]` and the far child `[7/16, 1]`. -/
theorem C32_split_intervals_cover_witness :
    (0 : ℚ) ≤ 0 ∧ (0 : ℚ) ≤ 1 ∧
    (0 ≤ 0 + (1 - 0) * clamp01 (CM_TraceThroughTree_split 1 (-1) 0).2.2 ∧
      0 + (1 - 0) * clamp01 (CM_TraceThroughTree_split 1 (-1) 0).2.2
        ≤ 0 + (1 - 0) * clamp01 (CM_TraceThroughTree_split 1 (-1) 0).2.1 ∧
      0 + (1 - 0) * clamp01 (CM_TraceThroughTree_split 1 (-1) 0).2.1 ≤ (1 : ℚ)) ∧
    0 + (1 - 0) * clamp01 (CM_TraceThroughTree_split 1 (-1) 0).2.1 = (9 / 16 : ℚ) ∧
    0 + (1 - 0) * clamp01 (CM_TraceThroughTree_split 1 (-1) 0).2.2 = (7 / 16 : ℚ) :=
  ⟨le_refl 0, by norm_num,
    (C32_split_intervals_cover 1 (-1) 0 0 1 (le_refl 0) (by norm_num)).2.1, by decide!,
    by decide!⟩

theorem VectorMA_get (v b : Vec3) (s : ℚ) (j : Nat) :
    (VectorMA v s b).get j = v.get j + b.get j * s := by
  rcases j with _ | _ | _ | j <;> rfl

theorem CM_DistanceFromLineSquared_axis_spec (proj lp1 lp2 : Vec3) :
    (CM_DistanceFromLineSquared_axis proj lp1 lp2 0 3 = 3 ∧
      ∀ j, j < 3 →
        ¬ ((proj.get j > lp1.get j ∧ proj.get j > lp2.get j)
          ∨ (proj.get j < lp1.get j ∧ proj.get j < lp2.get j))) ∨
    (CM_DistanceFromLineSquared_axis proj lp1 lp2 0 3 < 3 ∧
      ((proj.get (CM_DistanceFromLineSquared_axis proj lp1 lp2 0 3)
            > lp1.get (CM_DistanceFromLineSquared_axis proj lp1 lp2 0 3)
          ∧ proj.get (CM_DistanceFromLineSquared_axis proj lp1 lp2 0 3)
            > lp2.get (CM_DistanceFromLineSquared_axis proj lp1 lp2 0 3))
        ∨ (proj.get (CM_DistanceFromLineSquared_axis proj lp1 lp2 0 3)
            < lp1.get (CM_DistanceFromLineSquared_axis proj lp1 lp2 0 3)
          ∧ proj.get (CM_DistanceFromLineSquared_axis proj lp1 lp2 0 3)
            < lp2.get (CM_DistanceFromLineSquared_axis proj lp1 lp2 0 3)))) := by
  simp only [CM_DistanceFromLineSquared_axis]
  by_cases h0 : (proj.get 0 > lp1.get 0 ∧ proj.get 0 > lp2.get 0)
      ∨ (proj.get 0 < lp1.get 0 ∧ proj.get 0 < lp2.get 0)
  · right
    rw [if_pos h0]
    exact ⟨by norm_num, h0⟩
  · rw [if_neg h0]
    by_cases h1 : (proj.get (0 + 1) > lp1.get (0 + 1) ∧ proj.get (0 + 1) > lp2.get (0 + 1))
        ∨ (proj.get (0 + 1) < lp1.get (0 + 1) ∧ proj.get (0 + 1) < lp2.get (0 + 1))
    · right
      rw [if_pos h1]
      exact ⟨by norm_num, h1⟩
    · rw [if_neg h1]
      by_cases h2 : (proj.get (0 + 1 + 1) > lp1.get (0 + 1 + 1)
            ∧ proj.get (0 + 1 + 1) > lp2.get (0 + 1 + 1))
          ∨ (proj.get (0 + 1 + 1) < lp1.get (0 + 1 + 1)
            ∧ proj.get (0 + 1 + 1) < lp2.get (0 + 1 + 1))
      · right
        rw [if_pos h2]
        exact ⟨by norm_num, h2⟩
      · rw [if_neg h2]
        left
        refine ⟨rfl, ?_⟩
        intro j hj
        interval_cases j
        · exact h0
        · exact h1
        · exact h2

theorem axis_within_inside (a d s L : ℚ) (h0 : 0 ≤ s) (h1 : s ≤ L) :
    ¬ ((a + d * s > a ∧ a + d * s > a + d * L) ∨ (a + d * s < a ∧ a + d * s < a + d * L)) := by
  rintro (⟨h, k⟩ | ⟨h, k⟩)
  · rcases le_or_lt d 0 with hd | hd
    · nlinarith
    · nlinarith
  · rcases le_or_lt d 0 with hd | hd
    · nlinarith
    · nlinarith

theorem axis_outside_ne (a d s L : ℚ)
    (h : (a + d * s > a ∧ a + d * s > a + d * L) ∨ (a + d * s < a ∧ a + d * s < a + d * L)) :
    d ≠ 0 := by
  rintro rfl
  rcases h with ⟨h, _⟩ | ⟨h, _⟩ <;> simp at h

theorem axis_below_outside (a d s L : ℚ) (hs : s < 0) (hL : 0 ≤ L) (hd : d ≠ 0) :
    (a + d * s > a ∧ a + d * s > a + d * L) ∨ (a + d * s < a ∧ a + d * s < a + d * L) := by
  rcases lt_or_gt_of_ne hd with h | h
  · left
    constructor <;> nlinarith
  · right
    constructor <;> nlinarith

theorem axis_above_outside (a d s L : ℚ) (hs : L < s) (hL : 0 ≤ L) (hd : d ≠ 0) :
    (a + d * s > a ∧ a + d * s > a + d * L) ∨ (a + d * s < a ∧ a + d * s < a + d * L) := by
  rcases lt_or_gt_of_ne hd with h | h
  · right
    constructor <;> nlinarith
  · left
    constructor <;> nlinarith

theorem axis_below_nearer (a d s L : ℚ) (hs : s < 0) (hL : 0 ≤ L) (hd : d ≠ 0) :
    |a + d * s - a| < |a + d * s - (a + d * L)| ↔ 0 < L := by
  have e1 : a + d * s - a = d * s := by ring
  have e2 : a + d * s - (a + d * L) = d * (s - L) := by ring
  have hd0 : 0 < |d| := abs_pos.2 hd
  rw [e1, e2, abs_mul, abs_mul, abs_of_neg hs, abs_of_neg (by linarith : s - L < 0)]
  constructor
  · intro h
    by_contra hc
    have : L = 0 := le_antisymm (not_lt.1 hc) hL
    subst this
    simp at h
  · intro h
    nlinarith

theorem axis_above_nearer (a d s L : ℚ) (hs : L < s) (hL : 0 ≤ L) :
    ¬ |a + d * s - a| < |a + d * s - (a + d * L)| := by
  have e1 : a + d * s - a = d * s := by ring
  have e2 : a + d * s - (a + d * L) = d * (s - L) := by ring
  rw [e1, e2, abs_mul, abs_mul, abs_of_pos (by linarith : 0 < s),
    abs_of_pos (by linarith : 0 < s - L)]
  have := abs_nonneg d
  nlinarith

theorem unit_has_axis (dir : Vec3) (h : VectorLengthSquared dir = 1) :
    ∃ j, j < 3 ∧ dir.get j ≠ 0 := by
  by_contra hc
  push_neg at hc
  have h0 := hc 0 (by norm_num)
  have h1 := hc 1 (by norm_num)
  have h2 := hc 2 (by norm_num)
  simp only [Vec3.get] at h0 h1 h2
  unfold VectorLengthSquared at h
  rw [h0, h1, h2] at h
  norm_num at h

theorem segment_point_distance (p lp1 dir : Vec3) (u : ℚ) :
    VectorLengthSquared (VectorSubtract p (VectorMA lp1 u dir))
      = VectorLengthSquared (VectorSubtract p lp1)
        - 2 * u * DotProduct (VectorSubtract p lp1) dir + u * u * VectorLengthSquared dir := by
  unfold VectorLengthSquared VectorSubtract VectorMA DotProduct
  simp only
  ring

theorem VectorLerp_segment (lp1 dir : Vec3) (L t : ℚ) :
    VectorLerp lp1 (VectorMA lp1 L dir) t = VectorMA lp1 (L * t) dir := by
  unfold VectorLerp VectorMA
  simp only [Vec3.mk.injEq]
  refine ⟨?_, ?_, ?_⟩ <;> ring

/-- The three cases of `CM_DistanceFromLineSquared` on a segment
`lp2 = lp1 + L * dir`, by the place `s` of the projection on the line. -/
theorem CM_DistanceFromLineSquared_cases (p lp1 dir : Vec3) (L : ℚ) (hL : 0 ≤ L)
    (hdir : VectorLengthSquared dir = 1 ∨ dir = ⟨0, 0, 0⟩) :
    (0 ≤ DotProduct (VectorSubtract p lp1) dir ∧ DotProduct (VectorSubtract p lp1) dir ≤ L →
      CM_DistanceFromLineSquared p lp1 (VectorMA lp1 L dir) dir
        = VectorLengthSquared (VectorSubtract p (CM_ProjectPointOntoVector p lp1 dir))) ∧
    (DotProduct (VectorSubtract p lp1) dir < 0 →
      CM_DistanceFromLineSquared p lp1 (VectorMA lp1 L dir) dir
        = VectorLengthSquared (VectorSubtract p lp1)) ∧
    (L < DotProduct (VectorSubtract p lp1) dir →
      CM_DistanceFromLineSquared p lp1 (VectorMA lp1 L dir) dir
        = VectorLengthSquared (VectorSubtract p (VectorMA lp1 L dir))) := by
  have hunit : DotProduct (VectorSubtract p lp1) dir ≠ 0 → VectorLengthSquared dir = 1 := by
    intro hs
    rcases hdir with h | h
    · exact h
    · exfalso
      apply hs
      rw [h]
      unfold DotProduct
      simp
  have hspec := CM_DistanceFromLineSquared_axis_spec (CM_ProjectPointOntoVector p lp1 dir) lp1
    (VectorMA lp1 L dir)
  unfold CM_DistanceFromLineSquared
  simp only
  generalize hj : CM_DistanceFromLineSquared_axis (CM_ProjectPointOntoVector p lp1 dir) lp1
    (VectorMA lp1 L dir) 0 3 = j at hspec
  have hproj : ∀ i, (CM_ProjectPointOntoVector p lp1 dir).get i
      = lp1.get i + dir.get i * DotProduct (VectorSubtract p lp1) dir := by
    intro i
    unfold CM_ProjectPointOntoVector
    exact VectorMA_get _ _ _ _
  simp only [hproj, VectorMA_get] at hspec ⊢
  refine ⟨?_, ?_, ?_⟩
  · rintro ⟨h0, h1⟩
    rcases hspec with ⟨h3, _⟩ | ⟨_, hc⟩
    · rw [h3, if_neg (lt_irrefl 3)]
    · exact absurd hc (axis_within_inside _ _ _ _ h0 h1)
  · intro hs
    rcases hspec with ⟨_, hn⟩ | ⟨h3, hc⟩
    · obtain ⟨i, hi, hd⟩ := unit_has_axis dir (hunit (ne_of_lt hs))
      exact absurd (axis_below_outside _ _ _ _ hs hL hd) (hn i hi)
    · rw [if_pos h3]
      have hd := axis_outside_ne _ _ _ _ hc
      by_cases hL0 : 0 < L
      · rw [if_pos ((axis_below_nearer _ _ _ _ hs hL hd).2 hL0)]
      · rw [if_neg (fun h => hL0 ((axis_below_nearer _ _ _ _ hs hL hd).1 h))]
        have : L = 0 := le_antisymm (not_lt.1 hL0) hL
        subst this
        rw [segment_point_distance]
        ring
  · intro hs
    rcases hspec with ⟨_, hn⟩ | ⟨h3, hc⟩
    · obtain ⟨i, hi, hd⟩ := unit_has_axis dir (hunit (ne_of_gt (lt_of_le_of_lt hL hs)))
      exact absurd (axis_above_outside _ _ _ _ hs hL hd) (hn i hi)
    · rw [if_pos h3, if_neg (axis_above_nearer _ _ _ _ hs hL)]

/-- C33: for a segment from `lp1` to `lp2 = lp1 + L * dir` with `L ≥ 0` and
`dir` of unit length (or `dir = 0` when `lp1 = lp2`),
`CM_DistanceFromLineSquared p lp1 lp2 dir` is the squared distance from `p` to
the closed segment: it is the squared distance from `p` to some point of the
segment, and no point of the segment is nearer.  It is the squared
perpendicular distance to the line when the projection of `p` falls within the
segment, and the squared distance to the nearer end point otherwise: to `lp1`
when the projection lies before `lp1`, to `lp2` when it lies beyond `lp2`. -/
theorem C33_distance_to_segment (p lp1 lp2 dir : Vec3) (L : ℚ) (hL : 0 ≤ L)
    (hseg : lp2 = VectorMA lp1 L dir)
    (hdir : VectorLengthSquared dir = 1 ∨ (dir = ⟨0, 0, 0⟩ ∧ lp1 = lp2)) :
    (∃ t : ℚ, 0 ≤ t ∧ t ≤ 1 ∧
      CM_DistanceFromLineSquared p lp1 lp2 dir
        = VectorLengthSquared (VectorSubtract p (VectorLerp lp1 lp2 t))) ∧
    (∀ t : ℚ, 0 ≤ t → t ≤ 1 →
      CM_DistanceFromLineSquared p lp1 lp2 dir
        ≤ VectorLengthSquared (VectorSubtract p (VectorLerp lp1 lp2 t))) ∧
    (0 ≤ DotProduct (VectorSubtract p lp1) dir ∧ DotProduct (VectorSubtract p lp1) dir ≤ L →
      CM_DistanceFromLineSquared p lp1 lp2 dir
        = VectorLengthSquared (VectorSubtract p (CM_ProjectPointOntoVector p lp1 dir))) ∧
    (DotProduct (VectorSubtract p lp1) dir < 0 →
      CM_DistanceFromLineSquared p lp1 lp2 dir = VectorLengthSquared (VectorSubtract p lp1)) ∧
    (L < DotProduct (VectorSubtract p lp1) dir →
      CM_DistanceFromLineSquared p lp1 lp2 dir = VectorLengthSquared (VectorSubtract p lp2)) := by
  have hdir1 : VectorLengthSquared dir = 1 ∨ dir = ⟨0, 0, 0⟩ := by
    rcases hdir with h | h
    · exact Or.inl h
    · exact Or.inr h.1
  subst hseg
  obtain ⟨hin, hlo, hhi⟩ := CM_DistanceFromLineSquared_cases p lp1 dir L hL hdir1
  refine ⟨?_, ?_, hin, hlo, hhi⟩
  all_goals
    have hn : (VectorLengthSquared dir = 1)
        ∨ (VectorLengthSquared dir = 0 ∧ DotProduct (VectorSubtract p lp1) dir = 0) := by
      rcases hdir1 with h | h
      · exact Or.inl h
      · right
        rw [h]
        unfold VectorLengthSquared DotProduct
        simp
    have hprojd : VectorLengthSquared (VectorSubtract p (CM_ProjectPointOntoVector p lp1 dir))
        = VectorLengthSquared (VectorSubtract p lp1)
          - 2 * DotProduct (VectorSubtract p lp1) dir * DotProduct (VectorSubtract p lp1) dir
          + DotProduct (VectorSubtract p lp1) dir * DotProduct (VectorSubtract p lp1) dir
            * VectorLengthSquared dir := by
      unfold CM_ProjectPointOntoVector
      exact segment_point_distance _ _ _ _
    generalize hs : DotProduct (VectorSubtract p lp1) dir = s at hin hlo hhi hn hprojd
    generalize hnn : VectorLengthSquared dir = n at hn hprojd
    generalize hA : VectorLengthSquared (VectorSubtract p lp1) = A at hlo hprojd
  · rcases lt_trichotomy s 0 with h | h | h
    · refine ⟨0, le_refl 0, by norm_num, ?_⟩
      rw [hlo h, VectorLerp_segment, segment_point_distance, hA]
      ring
    · subst h
      refine ⟨0, le_refl 0, by norm_num, ?_⟩
      rw [hin ⟨le_refl 0, hL⟩, hprojd, VectorLerp_segment, segment_point_distance, hA]
      ring
    · rcases le_or_lt s L with hsL | hsL
      · have hLpos : 0 < L := lt_of_lt_of_le h hsL
        refine ⟨s / L, div_nonneg h.le hL, (div_le_one hLpos).2 hsL, ?_⟩
        rw [hin ⟨h.le, hsL⟩, hprojd, VectorLerp_segment, segment_point_distance, hA, hs, hnn]
        have : L * (s / L) = s := by field_simp
        rw [this]
      · refine ⟨1, by norm_num, le_refl 1, ?_⟩
        rw [hhi hsL, VectorLerp_segment, segment_point_distance, segment_point_distance]
        ring
  · intro t ht0 ht1
    rw [VectorLerp_segment, segment_point_distance, hA, hs, hnn]
    have hu0 : 0 ≤ L * t := mul_nonneg hL ht0
    have hu1 : L * t ≤ L := by nlinarith
    generalize L * t = u at hu0 hu1
    rcases lt_trichotomy s 0 with h | h | h
    · rw [hlo h]
      rcases hn with hn | ⟨hn, hs0⟩
      · subst hn
        nlinarith
      · linarith
    · subst h
      rw [hin ⟨le_refl 0, hL⟩, hprojd]
      rcases hn with hn | ⟨hn, _⟩
      · subst hn
        nlinarith [mul_self_nonneg u]
      · subst hn
        linarith
    · rcases hn with hn | ⟨_, hs0⟩
      · subst hn
        rcases le_or_lt s L with hsL | hsL
        · rw [hin ⟨h.le, hsL⟩, hprojd]
          nlinarith [mul_self_nonneg (u - s)]
        · rw [hhi hsL, segment_point_distance, hA, hs, hnn]
          nlinarith [mul_self_nonneg (u - s), mul_nonneg (sub_nonneg.2 hu1) (by linarith : 0 ≤ s - L)]
      · linarith

/-- C33 at a concrete input: the segment from the origin to `(3, 4, 0)` with
direction `(3/5, 4/5, 0)` and the point `(-1, 0, 0)`, whose projection lies
before the start: the result is 1, the squared distance to the origin, and no
point of the segment is nearer. -/
theorem C33_distance_to_segment_witness :
    (0 : ℚ) ≤ 5 ∧ (⟨3, 4, 0⟩ : Vec3) = VectorMA ⟨0, 0, 0⟩ 5 ⟨3 / 5, 4 / 5, 0⟩ ∧
    VectorLengthSquared ⟨3 / 5, 4 / 5, 0⟩ = 1 ∧
    CM_DistanceFromLineSquared ⟨-1, 0, 0⟩ ⟨0, 0, 0⟩ ⟨3, 4, 0⟩ ⟨3 / 5, 4 / 5, 0⟩ = 1 ∧
    (∀ t : ℚ, 0 ≤ t → t ≤ 1 →
      CM_DistanceFromLineSquared ⟨-1, 0, 0⟩ ⟨0, 0, 0⟩ ⟨3, 4, 0⟩ ⟨3 / 5, 4 / 5, 0⟩
        ≤ VectorLengthSquared (VectorSubtract ⟨-1, 0, 0⟩ (VectorLerp ⟨0, 0, 0⟩ ⟨3, 4, 0⟩ t))) :=
  ⟨by norm_num, by decide!, by decide!, by decide!,
    (C33_distance_to_segment ⟨-1, 0, 0⟩ ⟨0, 0, 0⟩ ⟨3, 4, 0⟩ ⟨3 / 5, 4 / 5, 0⟩ 5 (by norm_num)
      (by decide!) (Or.inl (by decide!))).2.1⟩

/-- A surface that is neither a patch nor a triangle soup leaves the trace of
`CM_TraceThroughSurface` unchanged. -/
theorem CM_TraceThroughSurface_other (env : Env) (cm : clipMap_t) (tw : traceWork_t)
    (surface : cSurface_t) (hp : surface.type ≠ mapSurfaceType_t.MST_PATCH)
    (ht : surface.type ≠ mapSurfaceType_t.MST_TRIANGLE_SOUP) :
    CM_TraceThroughSurface env cm tw surface = some tw := by
  unfold CM_TraceThroughSurface CM_TraceThroughSurface_call
  simp only [hp, ht, and_false, if_false, lt_irrefl]

/-- A surface without surface collide leaves the trace of
`CM_TraceThroughSurface` unchanged. -/
theorem CM_TraceThroughSurface_absent (env : Env) (cm : clipMap_t) (tw : traceWork_t)
    (surface : cSurface_t) (hsc : surface.sc = none) :
    CM_TraceThroughSurface env cm tw surface = some tw := by
  unfold CM_TraceThroughSurface CM_TraceThroughSurface_call
  simp only [hsc]
  split_ifs <;> simp only [lt_irrefl, if_false]

/-- In the surface loop of `CM_TraceThroughLeaf` a surface that is neither a
patch nor a triangle soup and carries a surface collide is passed over: the
loop goes on with the rest of the surfaces, the trace unchanged. -/
theorem CM_TraceThroughLeaf_surfaces_other (env : Env) (cm : clipMap_t) (tw : traceWork_t)
    (surfaceNum : Nat) (rest : List Nat) (surface : cSurface_t) (sc : cSurfaceCollide_t)
    (hs : cm.surfaces[surfaceNum]? = some (some surface))
    (hc : surface.checkcount ≠ cm.checkcount) (hsc : surface.sc = some sc)
    (hp : surface.type ≠ mapSurfaceType_t.MST_PATCH)
    (ht : surface.type ≠ mapSurfaceType_t.MST_TRIANGLE_SOUP) (hf : tw.trace.fraction ≠ 0) :
    CM_TraceThroughLeaf_surfaces env cm tw (surfaceNum :: rest)
      = CM_TraceThroughLeaf_surfaces env (stampSurface cm surfaceNum surface) tw rest := by
  rw [CM_TraceThroughLeaf_surfaces]
  simp only [hs, if_neg hc, hsc, CM_TraceThroughSurface_other env _ tw surface hp ht, if_neg hf]
  split_ifs <;> rfl

/-- In the surface loop of `CM_TestInLeaf` a surface that is neither a patch
nor a triangle soup is passed over, whether it carries a surface collide or
not. -/
theorem CM_TestInLeaf_surfaces_other (env : Env) (cm : clipMap_t) (tw : traceWork_t)
    (surfaceNum : Nat) (rest : List Nat) (surface : cSurface_t)
    (hs : cm.surfaces[surfaceNum]? = some (some surface))
    (hc : surface.checkcount ≠ cm.checkcount)
    (hp : surface.type ≠ mapSurfaceType_t.MST_PATCH)
    (ht : surface.type ≠ mapSurfaceType_t.MST_TRIANGLE_SOUP) :
    CM_TestInLeaf_surfaces env cm tw (surfaceNum :: rest)
      = CM_TestInLeaf_surfaces env (stampSurface cm surfaceNum surface) tw rest := by
  rw [CM_TestInLeaf_surfaces]
  simp only [hs, if_neg hc, CM_TestInLeaf_surfaceHit, if_neg hp, if_neg ht]
  split_ifs <;> rfl

/-- C36: the code at a surface without surface collide.  In the surface loop
of `CM_TraceThroughLeaf` a surface that passes the checkcount and contents
filters and has `sc` null is not skipped: the bounds test reads
`surface->sc->bounds`, a null dereference, and the function has no result.
The surface loop of `CM_TestInLeaf` does skip the same surface: it goes on
with the rest of the surfaces, the trace unchanged. -/
theorem C36_sweep_reads_absent_sc (env : Env) (cm : clipMap_t) (tw : traceWork_t)
    (surfaceNum : Nat) (rest : List Nat) (surface : cSurface_t)
    (hs : cm.surfaces[surfaceNum]? = some (some surface))
    (hc : surface.checkcount ≠ cm.checkcount)
    (hm : surface.contents &&& tw.contents ≠ 0)
    (hk : surface.contents &&& tw.skipContents = 0) (hsc : surface.sc = none) :
    CM_TraceThroughLeaf_surfaces env cm tw (surfaceNum :: rest) = none ∧
    CM_TestInLeaf_surfaces env cm tw (surfaceNum :: rest)
      = CM_TestInLeaf_surfaces env (stampSurface cm surfaceNum surface) tw rest := by
  constructor
  · rw [CM_TraceThroughLeaf_surfaces]
    simp only [hs, if_neg hc, if_neg hm, hk, ne_eq, not_true_eq_false, if_false, hsc]
  · rw [CM_TestInLeaf_surfaces]
    simp only [hs, if_neg hc, if_neg hm, hk, ne_eq, not_true_eq_false, if_false,
      CM_TestInLeaf_surfaceHit, hsc]
    split_ifs <;> rfl

/-- C36 at a concrete input: the point sweep of the examples in a leaf whose
only surface has contents 1 and no surface collide.  `CM_TraceThroughLeaf` has
no result, for a surface of any type, while `CM_TestInLeaf` returns the trace
unchanged. -/
theorem C36_sweep_reads_absent_sc_witness :
    (exampleBareSurfaceWorld mapSurfaceType_t.MST_OTHER).surfaces[0]?
      = some (some { type := mapSurfaceType_t.MST_OTHER, checkcount := 0, surfaceFlags := 7,
                     contents := 1, sc := none }) ∧
    (CM_TraceThroughLeaf_surfaces exampleEnv (exampleBareSurfaceWorld mapSurfaceType_t.MST_OTHER)
        exampleWork (0 :: []) = none ∧
      CM_TestInLeaf_surfaces exampleEnv (exampleBareSurfaceWorld mapSurfaceType_t.MST_OTHER)
          exampleWork (0 :: [])
        = CM_TestInLeaf_surfaces exampleEnv
            (stampSurface (exampleBareSurfaceWorld mapSurfaceType_t.MST_OTHER) 0
              { type := mapSurfaceType_t.MST_OTHER, checkcount := 0, surfaceFlags := 7,
                contents := 1, sc := none }) exampleWork []) ∧
    (∀ t : mapSurfaceType_t,
      (CM_TraceThroughLeaf exampleEnv (exampleBareSurfaceWorld t) exampleWork
        { leafBrushes := [], leafSurfaces := [0] }).isNone = true) ∧
    (∀ t : mapSurfaceType_t,
      (CM_TestInLeaf exampleEnv (exampleBareSurfaceWorld t) exampleWork
        { leafBrushes := [], leafSurfaces := [0] }).map (fun r => r.2.trace)
        = some defaultTrace) :=
  ⟨by decide!,
    C36_sweep_reads_absent_sc exampleEnv (exampleBareSurfaceWorld mapSurfaceType_t.MST_OTHER)
      exampleWork 0 [] _ (by decide!) (by decide!) (by decide!) (by decide!) rfl,
    fun t => by cases t <;> decide!, fun t => by cases t <;> decide!⟩

theorem solidOrKept_refl (t : trace_t) : SolidOrKept t t := Or.inl rfl

theorem solidOrKept_trans {t u v : trace_t} (h1 : SolidOrKept t u) (h2 : SolidOrKept u v) :
    SolidOrKept t v := by
  rcases h1 with rfl | ⟨c, rfl⟩
  · exact h2
  · rcases h2 with rfl | ⟨d, rfl⟩
    · exact Or.inr ⟨c, rfl⟩
    · exact Or.inr ⟨d, rfl⟩

theorem solidOrKept_setAllsolid (tw : traceWork_t) :
    SolidOrKept tw.trace (setAllsolid tw).trace :=
  Or.inr ⟨tw.trace.contents, rfl⟩

theorem solidOrKept_setAllsolidContents (tw : traceWork_t) (c : Nat) :
    SolidOrKept tw.trace (setAllsolidContents tw c).trace :=
  Or.inr ⟨c, rfl⟩

theorem solidOrKept_ite {t : trace_t} (c : Prop) [Decidable c] (a b : traceWork_t)
    (ha : SolidOrKept t a.trace) (hb : SolidOrKept t b.trace) : SolidOrKept t (if c then a else b).trace := by
  split_ifs
  · exact ha
  · exact hb

theorem solidOrKept_CM_TestBoxInBrush (tw : traceWork_t) (brush : cbrush_t) :
    SolidOrKept tw.trace (CM_TestBoxInBrush tw brush).trace := by
  unfold CM_TestBoxInBrush
  split_ifs
  · exact solidOrKept_refl _
  · exact solidOrKept_refl _
  · exact solidOrKept_refl _
  · exact solidOrKept_setAllsolidContents tw brush.contents

theorem solidOrKept_CM_TestCapsuleInCapsule (env : Env) (cm : clipMap_t) (tw tw1 : traceWork_t)
    (model : Nat) (h : CM_TestCapsuleInCapsule env cm tw model = some tw1) :
    SolidOrKept tw.trace tw1.trace := by
  unfold CM_TestCapsuleInCapsule at h
  split at h
  · exact absurd h (by simp)
  · simp only at h
    split at h
    · split at h
      · simp only [Option.some.injEq] at h
        rw [← h]
        repeat' first
          | exact solidOrKept_refl _
          | apply solidOrKept_ite
          | refine solidOrKept_trans ?_ (solidOrKept_setAllsolid _)
      · simp only [Option.some.injEq] at h
        rw [← h]
        repeat' first
          | exact solidOrKept_refl _
          | apply solidOrKept_ite
          | refine solidOrKept_trans ?_ (solidOrKept_setAllsolid _)
    · simp only [Option.some.injEq] at h
      rw [← h]
      repeat' first
        | exact solidOrKept_refl _
        | apply solidOrKept_ite
        | refine solidOrKept_trans ?_ (solidOrKept_setAllsolid _)

theorem solidOrKept_CM_TestInLeaf_brushes :
    ∀ (l : List Nat) (cm cm1 : clipMap_t) (tw tw1 : traceWork_t) (b : Bool),
      CM_TestInLeaf_brushes cm tw l = some (cm1, tw1, b) → SolidOrKept tw.trace tw1.trace := by
  intro l
  induction l with
  | nil =>
    intro cm cm1 tw tw1 b h
    simp only [CM_TestInLeaf_brushes, Option.some.injEq, Prod.mk.injEq] at h
    rw [← h.2.1]
    exact solidOrKept_refl _
  | cons brushNum rest ih =>
    intro cm cm1 tw tw1 b h
    rw [CM_TestInLeaf_brushes] at h
    split at h
    · exact absurd h (by simp)
    · rename_i br _
      split at h
      · exact ih _ _ _ _ _ h
      · simp only at h
        split at h
        · exact ih _ _ _ _ _ h
        · split at h
          · exact ih _ _ _ _ _ h
          · split at h
            · simp only [Option.some.injEq, Prod.mk.injEq] at h
              rw [← h.2.1]
              exact solidOrKept_CM_TestBoxInBrush tw br
            · exact solidOrKept_trans (solidOrKept_CM_TestBoxInBrush tw br) (ih _ _ _ _ _ h)

theorem solidOrKept_CM_TestInLeaf_surfaces (env : Env) :
    ∀ (l : List Nat) (cm cm1 : clipMap_t) (tw tw1 : traceWork_t),
      CM_TestInLeaf_surfaces env cm tw l = some (cm1, tw1) → SolidOrKept tw.trace tw1.trace := by
  intro l
  induction l with
  | nil =>
    intro cm cm1 tw tw1 h
    simp only [CM_TestInLeaf_surfaces, Option.some.injEq, Prod.mk.injEq] at h
    rw [← h.2]
    exact solidOrKept_refl _
  | cons surfaceNum rest ih =>
    intro cm cm1 tw tw1 h
    rw [CM_TestInLeaf_surfaces] at h
    split at h
    · exact absurd h (by simp)
    · exact ih _ _ _ _ h
    · rename_i surface _
      split at h
      · exact ih _ _ _ _ h
      · simp only at h
        split at h
        · exact ih _ _ _ _ h
        · split at h
          · exact ih _ _ _ _ h
          · split at h
            · exact absurd h (by simp)
            · simp only [Option.some.injEq, Prod.mk.injEq] at h
              rw [← h.2]
              exact solidOrKept_setAllsolidContents _ _
            · split at h
              · exact absurd h (by simp)
              · simp only [Option.some.injEq, Prod.mk.injEq] at h
                rw [← h.2]
                exact solidOrKept_setAllsolidContents _ _
              · exact ih _ _ _ _ h

theorem solidOrKept_CM_TestInLeaf (env : Env) (cm cm1 : clipMap_t) (tw tw1 : traceWork_t)
    (leaf : cLeaf_t) (h : CM_TestInLeaf env cm tw leaf = some (cm1, tw1)) :
    SolidOrKept tw.trace tw1.trace := by
  unfold CM_TestInLeaf at h
  split at h
  · exact absurd h (by simp)
  · rename_i hb
    simp only [Option.some.injEq, Prod.mk.injEq] at h
    rw [← h.2]
    exact solidOrKept_CM_TestInLeaf_brushes _ _ _ _ _ _ hb
  · rename_i hb
    exact solidOrKept_trans (solidOrKept_CM_TestInLeaf_brushes _ _ _ _ _ _ hb)
      (solidOrKept_CM_TestInLeaf_surfaces env _ _ _ _ _ h)

theorem solidOrKept_CM_TestBoundingBoxInCapsule (env : Env) (cm cm1 : clipMap_t)
    (tw tw1 : traceWork_t) (model : Nat)
    (h : CM_TestBoundingBoxInCapsule env cm tw model = some (cm1, tw1)) :
    SolidOrKept tw.trace tw1.trace := by
  unfold CM_TestBoundingBoxInCapsule at h
  split at h
  · exact absurd h (by simp)
  · simp only at h
    split at h
    · exact absurd h (by simp)
    · exact solidOrKept_CM_TestInLeaf env _ _ (swapBoxForCapsule tw _ _) _ _ h

theorem solidOrKept_CM_PositionTest_leafs (env : Env) :
    ∀ (l : List Nat) (cm cm1 : clipMap_t) (tw tw1 : traceWork_t),
      CM_PositionTest_leafs env cm tw l = some (cm1, tw1) → SolidOrKept tw.trace tw1.trace := by
  intro l
  induction l with
  | nil =>
    intro cm cm1 tw tw1 h
    simp only [CM_PositionTest_leafs, Option.some.injEq, Prod.mk.injEq] at h
    rw [← h.2]
    exact solidOrKept_refl _
  | cons leafNum rest ih =>
    intro cm cm1 tw tw1 h
    rw [CM_PositionTest_leafs] at h
    split at h
    · exact absurd h (by simp)
    · split at h
      · exact absurd h (by simp)
      · rename_i hleaf
        have hg : SolidOrKept _ _ := solidOrKept_CM_TestInLeaf env _ _ _ _ _ hleaf
        split at h
        · simp only [Option.some.injEq, Prod.mk.injEq] at h
          rw [← h.2]
          exact hg
        · exact solidOrKept_trans hg (ih _ _ _ _ h)

theorem solidOrKept_CM_PositionTest (env : Env) (cm cm1 : clipMap_t) (tw tw1 : traceWork_t)
    (h : CM_PositionTest env cm tw = some (cm1, tw1)) : SolidOrKept tw.trace tw1.trace :=
  solidOrKept_CM_PositionTest_leafs env _ _ _ _ _ h

/-- On the position-test branch (`start == end`) the dispatch of `CM_Trace`
leaves the trace as it was or reports it solid, whichever of the four targets
it calls. -/
theorem solidOrKept_CM_Trace_dispatch (env : Env) (fuel : Nat) (cm cm1 : clipMap_t)
    (tw tw1 : traceWork_t) (start : Vec3) (model : Nat) (cmod : cmodel_t)
    (h : CM_Trace_dispatch env fuel cm tw start start model cmod = some (cm1, tw1)) :
    SolidOrKept tw.trace tw1.trace := by
  unfold CM_Trace_dispatch at h
  rw [if_pos ⟨rfl, rfl, rfl⟩] at h
  split at h
  · split at h
    · split at h
      · split at h
        · exact absurd h (by simp)
        · rename_i twa ha
          simp only [Option.some.injEq, Prod.mk.injEq] at h
          rw [← h.2]
          exact solidOrKept_CM_TestCapsuleInCapsule _ _ _ _ _ ha
      · exact solidOrKept_CM_TestBoundingBoxInCapsule _ _ _ _ _ _ h
    · exact solidOrKept_CM_TestInLeaf _ _ _ _ _ _ h
  · exact solidOrKept_CM_PositionTest _ _ _ _ _ h

/-- C37: a position test (`start == end`) on a loaded world.  Each of the four
targets of the dispatch (`CM_PositionTest`, `CM_TestInLeaf`,
`CM_TestCapsuleInCapsule`, `CM_TestBoundingBoxInCapsule`) leaves the trace as
it was or sets `startsolid = allsolid = true`, fraction 0 and a contents value.
Hence every result of `CM_Trace` has fraction 0 or 1, `startsolid == allsolid`,
fraction 0 exactly when `allsolid`, the plane and `surfaceFlags` at their zero
initial values and `endpos == start`; and on a well-formed world there is a
result. -/
theorem C37_position_test_result (env : Env) (fuel : Nat) (cm : clipMap_t) (start : Vec3)
    (mins maxs : Option Vec3) (model : Nat) (origin : Vec3) (brushmask skipmask : Nat)
    (type : traceType_t) (sphere : Option sphere_t) (hl : cm.numNodes ≠ 0) :
    (WorldOk cm → EnvOk env cm model → TreeOk cm fuel 0 →
      ∃ r, CM_Trace env fuel cm start start mins maxs model origin brushmask skipmask type
        sphere = some r) ∧
    (∀ (cm1 : clipMap_t) (r : trace_t),
      CM_Trace env fuel cm start start mins maxs model origin brushmask skipmask type sphere
        = some (cm1, r) →
      (r.fraction = 0 ∨ r.fraction = 1) ∧ r.startsolid = r.allsolid ∧
      (r.fraction = 0 ↔ r.allsolid = true) ∧
      r.plane = { normal := ⟨0, 0, 0⟩, dist := 0 } ∧ r.surfaceFlags = 0 ∧ r.endpos = start ∧
      (r = { defaultTrace with endpos := start } ∨
        ∃ c : Nat, r = { allsolid := true, startsolid := true, fraction := 0, endpos := start,
                         plane := { normal := ⟨0, 0, 0⟩, dist := 0 }, surfaceFlags := 0,
                         contents := c })) ∧
    (∀ (cm0 cm1 : clipMap_t) (tw tw1 : traceWork_t) (leaf : cLeaf_t),
      (CM_PositionTest env cm0 tw = some (cm1, tw1) → SolidOrKept tw.trace tw1.trace) ∧
      (CM_TestInLeaf env cm0 tw leaf = some (cm1, tw1) → SolidOrKept tw.trace tw1.trace) ∧
      (CM_TestCapsuleInCapsule env cm0 tw model = some tw1 → SolidOrKept tw.trace tw1.trace) ∧
      (CM_TestBoundingBoxInCapsule env cm0 tw model = some (cm1, tw1) →
        SolidOrKept tw.trace tw1.trace)) := by
  refine ⟨fun hw he ht => total_CM_Trace env fuel cm start start mins maxs model origin brushmask
    skipmask type sphere hw he ht, ?_, ?_⟩
  · intro cm1 r h
    rcases CM_Trace_result env fuel cm cm1 start start mins maxs model origin brushmask skipmask
      type sphere r h with ⟨h0, _⟩ | ⟨_, cmod, tw1, hd, hr⟩
    · exact absurd h0 hl
    · have hk := solidOrKept_CM_Trace_dispatch env fuel _ cm1 _ tw1 start model cmod hd
      rw [CM_Trace_setup_trace] at hk
      rcases hk with hk | ⟨c, hk⟩
      · rw [hk] at hr
        have hr1 : r = { defaultTrace with endpos := start } := by
          rw [hr]
          simp [defaultTrace]
        subst hr1
        refine ⟨Or.inr rfl, rfl, ?_, rfl, rfl, rfl, Or.inl rfl⟩
        simp [defaultTrace]
      · rw [hk] at hr
        have hr1 : r = { allsolid := true, startsolid := true, fraction := 0, endpos := start,
                         plane := { normal := ⟨0, 0, 0⟩, dist := 0 }, surfaceFlags := 0,
                         contents := c } := by
          rw [hr]
          simp [defaultTrace, VectorLerp]
        subst hr1
        exact ⟨Or.inl rfl, rfl, by simp, rfl, rfl, rfl, Or.inr ⟨c, rfl⟩⟩
  · intro cm0 cm1 tw tw1 leaf
    exact ⟨solidOrKept_CM_PositionTest env cm0 cm1 tw tw1,
      solidOrKept_CM_TestInLeaf env cm0 cm1 tw tw1 leaf,
      solidOrKept_CM_TestCapsuleInCapsule env cm0 tw tw1 model,
      solidOrKept_CM_TestBoundingBoxInCapsule env cm0 cm1 tw tw1 model⟩

/-- C37 at a concrete input: the position test of the box `[-1,1]³` at
`(1/2, 1/2, 1/2)` in the example world, inside the cube. -/
theorem C37_position_test_result_witness :
    exampleWorld.numNodes ≠ 0 ∧
    CM_Trace exampleEnv 5 exampleWorld ⟨1 / 2, 1 / 2, 1 / 2⟩ ⟨1 / 2, 1 / 2, 1 / 2⟩
        (some ⟨-1, -1, -1⟩) (some ⟨1, 1, 1⟩) 0 vec3_origin 1 0 traceType_t.TT_AABB none
      = some (exampleWorldTested, exampleSolid) ∧
    ((exampleSolid.fraction = 0 ∨ exampleSolid.fraction = 1) ∧
      exampleSolid.startsolid = exampleSolid.allsolid ∧
      (exampleSolid.fraction = 0 ↔ exampleSolid.allsolid = true) ∧
      exampleSolid.plane = { normal := ⟨0, 0, 0⟩, dist := 0 } ∧ exampleSolid.surfaceFlags = 0 ∧
      exampleSolid.endpos = ⟨1 / 2, 1 / 2, 1 / 2⟩ ∧
      (exampleSolid = { defaultTrace with endpos := ⟨1 / 2, 1 / 2, 1 / 2⟩ } ∨
        ∃ c : Nat, exampleSolid
          = { allsolid := true, startsolid := true, fraction := 0,
              endpos := ⟨1 / 2, 1 / 2, 1 / 2⟩, plane := { normal := ⟨0, 0, 0⟩, dist := 0 },
              surfaceFlags := 0, contents := c })) :=
  ⟨by decide, by decide!,
    (C37_position_test_result exampleEnv 5 exampleWorld ⟨1 / 2, 1 / 2, 1 / 2⟩
      (some ⟨-1, -1, -1⟩) (some ⟨1, 1, 1⟩) 0 vec3_origin 1 0 traceType_t.TT_AABB none
      (by decide)).2.1 exampleWorldTested exampleSolid (by decide!)⟩

/-- A sphere sweep never clears `startsolid`, and sets it when the start is
inside the sphere. -/
theorem CM_TraceThroughSphere_startsolid (env : Env) (tw : traceWork_t) (origin : Vec3)
    (radius : ℚ) (start end_ : Vec3)
    (h : tw.trace.startsolid = true
      ∨ VectorLengthSquared (VectorSubtract start origin) < Square radius) :
    (CM_TraceThroughSphere env tw origin radius start end_).trace.startsolid = true := by
  unfold CM_TraceThroughSphere
  by_cases hin : VectorLengthSquared (VectorSubtract start origin) < Square radius
  · rw [if_pos hin]
    split_ifs <;> rfl
  · rw [if_neg hin]
    have hs : tw.trace.startsolid = true := h.resolve_right hin
    simp only
    split_ifs <;> exact hs

theorem sweepSpheres_startsolid (env : Env) (radius : ℚ) :
    ∀ (l : List (Vec3 × Vec3 × Vec3)) (tw : traceWork_t),
      (tw.trace.startsolid = true
        ∨ ∃ p ∈ l, VectorLengthSquared (VectorSubtract p.2.1 p.1) < Square radius) →
      (sweepSpheres env radius tw l).trace.startsolid = true := by
  intro l
  induction l with
  | nil =>
    intro tw h
    rcases h with h | ⟨p, hp, _⟩
    · exact h
    · exact absurd hp (List.not_mem_nil p)
  | cons q rest ih =>
    intro tw h
    unfold sweepSpheres
    rw [List.foldl_cons]
    apply ih
    rcases h with h | ⟨p, hp, hin⟩
    · exact Or.inl (CM_TraceThroughSphere_startsolid env tw _ _ _ _ (Or.inl h))
    · rcases List.mem_cons.1 hp with rfl | hp
      · exact Or.inl (CM_TraceThroughSphere_startsolid env tw _ _ _ _ (Or.inr hin))
      · exact Or.inr ⟨p, hp, hin⟩

/-- C31: a counterexample.  The capsule `[-10,10]² × [-40,40]` moves straight
up from `(15, 0, 0)` to `(15, 0, 1)` beside the capsule model of the same size
at the origin; the bounds overlap and there is no horizontal motion, so no
cylinder sweep.  `CM_TraceCapsuleThroughCapsule` sweeps the bottom centre of
the mover through the top sphere of the target and the top centre through the
bottom sphere, and leaves the trace untouched.  The top centre of the mover
starts inside the top sphere of the target (15 from its centre, radius 20), so
the four pairings, in whatever order, set `startsolid`. -/
theorem C31_four_pairings_differ :
    ¬ capsuleBoundsMiss exampleSideCapsuleWork ⟨-10, -10, -40⟩ ⟨10, 10, 40⟩ ∧
    capsuleCylinderSweep (exampleEnvWithBounds ⟨-10, -10, -40⟩ ⟨10, 10, 40⟩)
        exampleSideCapsuleWork ⟨-10, -10, -40⟩ ⟨10, 10, 40⟩ = exampleSideCapsuleWork ∧
    (CM_TraceCapsuleThroughCapsule (exampleEnvWithBounds ⟨-10, -10, -40⟩ ⟨10, 10, 40⟩)
        exampleWorld exampleSideCapsuleWork 254).map (fun t => t.trace) = some defaultTrace ∧
    (∀ l : List (Vec3 × Vec3 × Vec3),
      l.Perm (capsulePairings exampleSideCapsuleWork ⟨-10, -10, -40⟩ ⟨10, 10, 40⟩) →
      (sweepSpheres (exampleEnvWithBounds ⟨-10, -10, -40⟩ ⟨10, 10, 40⟩)
        (capsuleTargetRadius ⟨-10, -10, -40⟩ ⟨10, 10, 40⟩
          + exampleSideCapsuleWork.sphere.radius)
        (capsuleCylinderSweep (exampleEnvWithBounds ⟨-10, -10, -40⟩ ⟨10, 10, 40⟩)
          exampleSideCapsuleWork ⟨-10, -10, -40⟩ ⟨10, 10, 40⟩) l).trace.startsolid = true ∧
      (sweepSpheres (exampleEnvWithBounds ⟨-10, -10, -40⟩ ⟨10, 10, 40⟩)
        (capsuleTargetRadius ⟨-10, -10, -40⟩ ⟨10, 10, 40⟩
          + exampleSideCapsuleWork.sphere.radius)
        (capsuleCylinderSweep (exampleEnvWithBounds ⟨-10, -10, -40⟩ ⟨10, 10, 40⟩)
          exampleSideCapsuleWork ⟨-10, -10, -40⟩ ⟨10, 10, 40⟩) l).trace ≠ defaultTrace) := by
  have hc : capsuleCylinderSweep (exampleEnvWithBounds ⟨-10, -10, -40⟩ ⟨10, 10, 40⟩)
      exampleSideCapsuleWork ⟨-10, -10, -40⟩ ⟨10, 10, 40⟩ = exampleSideCapsuleWork := by
    unfold capsuleCylinderSweep
    rw [if_neg (by decide!)]
  refine ⟨by decide!, hc, by decide!, ?_⟩
  intro l hl
  have hs := sweepSpheres_startsolid (exampleEnvWithBounds ⟨-10, -10, -40⟩ ⟨10, 10, 40⟩)
    (capsuleTargetRadius ⟨-10, -10, -40⟩ ⟨10, 10, 40⟩ + exampleSideCapsuleWork.sphere.radius) l
    (capsuleCylinderSweep (exampleEnvWithBounds ⟨-10, -10, -40⟩ ⟨10, 10, 40⟩)
      exampleSideCapsuleWork ⟨-10, -10, -40⟩ ⟨10, 10, 40⟩)
    (Or.inr ⟨(capsuleTop ⟨-10, -10, -40⟩ ⟨10, 10, 40⟩,
        VectorAdd exampleSideCapsuleWork.start exampleSideCapsuleWork.sphere.offset,
        VectorAdd exampleSideCapsuleWork.end_ exampleSideCapsuleWork.sphere.offset),
      hl.symm.subset (by simp [capsulePairings]), by decide!⟩)
  refine ⟨hs, ?_⟩
  intro he
  rw [he] at hs
  exact absurd hs (by decide)

/-- C31, amended: when the bounds of the trace miss the bounds of the capsule
model grown by `RADIUS_EPSILON` the trace is returned unchanged.  Otherwise the
result of `CM_TraceCapsuleThroughCapsule` is the cylinder sweep (done when
there is horizontal motion and the height
`halfheight + mover.halfheight - radius` is positive) followed by two sphere
sweeps with the radius `target.radius + mover.radius`: first the bottom centre
of the mover through the top sphere of the target, then the top centre of the
mover through the bottom sphere of the target. -/
theorem C31_two_sphere_pairings (env : Env) (cm : clipMap_t) (tw : traceWork_t) (model : Nat)
    (mins maxs : Vec3) (hb : env.CM_ModelBounds cm model = some (mins, maxs)) :
    (capsuleBoundsMiss tw mins maxs → CM_TraceCapsuleThroughCapsule env cm tw model = some tw) ∧
    (¬ capsuleBoundsMiss tw mins maxs →
      CM_TraceCapsuleThroughCapsule env cm tw model
        = some (sweepSpheres env (capsuleTargetRadius mins maxs + tw.sphere.radius)
            (capsuleCylinderSweep env tw mins maxs)
            [(capsuleTop mins maxs, VectorSubtract tw.start tw.sphere.offset,
                VectorSubtract tw.end_ tw.sphere.offset),
             (capsuleBottom mins maxs, VectorAdd tw.start tw.sphere.offset,
                VectorAdd tw.end_ tw.sphere.offset)])) := by
  constructor
  · intro hm
    unfold capsuleBoundsMiss at hm
    unfold CM_TraceCapsuleThroughCapsule
    simp only [hb]
    rw [if_pos hm]
  · intro hm
    unfold capsuleBoundsMiss at hm
    unfold CM_TraceCapsuleThroughCapsule
    simp only [hb]
    rw [if_neg hm]
    rfl

/-- C31 (amended) at a concrete input: the capsule moving straight up beside
the capsule model; the two sphere sweeps leave the default trace. -/
theorem C31_two_sphere_pairings_witness :
    (exampleEnvWithBounds ⟨-10, -10, -40⟩ ⟨10, 10, 40⟩).CM_ModelBounds exampleWorld 254
      = some (⟨-10, -10, -40⟩, ⟨10, 10, 40⟩) ∧
    ¬ capsuleBoundsMiss exampleSideCapsuleWork ⟨-10, -10, -40⟩ ⟨10, 10, 40⟩ ∧
    CM_TraceCapsuleThroughCapsule (exampleEnvWithBounds ⟨-10, -10, -40⟩ ⟨10, 10, 40⟩)
        exampleWorld exampleSideCapsuleWork 254
      = some (sweepSpheres (exampleEnvWithBounds ⟨-10, -10, -40⟩ ⟨10, 10, 40⟩)
          (capsuleTargetRadius ⟨-10, -10, -40⟩ ⟨10, 10, 40⟩
            + exampleSideCapsuleWork.sphere.radius)
          (capsuleCylinderSweep (exampleEnvWithBounds ⟨-10, -10, -40⟩ ⟨10, 10, 40⟩)
            exampleSideCapsuleWork ⟨-10, -10, -40⟩ ⟨10, 10, 40⟩)
          [(capsuleTop ⟨-10, -10, -40⟩ ⟨10, 10, 40⟩,
              VectorSubtract exampleSideCapsuleWork.start exampleSideCapsuleWork.sphere.offset,
              VectorSubtract exampleSideCapsuleWork.end_ exampleSideCapsuleWork.sphere.offset),
           (capsuleBottom ⟨-10, -10, -40⟩ ⟨10, 10, 40⟩,
              VectorAdd exampleSideCapsuleWork.start exampleSideCapsuleWork.sphere.offset,
              VectorAdd exampleSideCapsuleWork.end_ exampleSideCapsuleWork.sphere.offset)]) :=
  ⟨rfl, by decide!,
    (C31_two_sphere_pairings (exampleEnvWithBounds ⟨-10, -10, -40⟩ ⟨10, 10, 40⟩) exampleWorld
      exampleSideCapsuleWork 254 ⟨-10, -10, -40⟩ ⟨10, 10, 40⟩ rfl).2 (by decide!)⟩

/-- The thresholds of `CM_CheckTraceConsistency` are the float values, not the
decimal numerals: a hit at fraction 1/2 whose normal has the length
`0.999999f = 16777199 / 16777216`, below 0.999999, passes the check and
violates invariant 7 of the specification. -/
theorem CM_CheckTraceConsistency_float_thresholds :
    FLOAT_0_999999 < 999999 / 1000000 ∧ FLOAT_1_000001 < 1000001 / 1000000 ∧
    (1 / 1000 : ℚ) < FLOAT_0_001 ∧
    CM_CheckTraceConsistency exampleEnv ⟨0, 0, 0⟩ ⟨100, 0, 0⟩ 1 0
        { allsolid := false, startsolid := false, fraction := 1 / 2, endpos := ⟨50, 0, 0⟩,
          plane := { normal := ⟨16777199 / 16777216, 0, 0⟩, dist := 0 }, surfaceFlags := 0,
          contents := 1 } = "" ∧
    ¬ SpecInvariants exampleEnv ⟨0, 0, 0⟩ ⟨100, 0, 0⟩ 1 0
        { allsolid := false, startsolid := false, fraction := 1 / 2, endpos := ⟨50, 0, 0⟩,
          plane := { normal := ⟨16777199 / 16777216, 0, 0⟩, dist := 0 }, surfaceFlags := 0,
          contents := 1 } := by
  refine ⟨by decide!, by decide!, by decide!, by decide!, fun h => ?_⟩
  have h7 := (h.2.2.2.2.2.2 ⟨by norm_num, rfl⟩).1
  exact absurd h7 (by decide!)

end Cm
